import Mathlib

/-!
# Meshing course: geometric predicates, topological triangles and the incremental mesh

A shallow embedding of the core of the repository (`predicats.cpp`, `Triangle.cpp`,
`TopoTriangle.cpp`, `neighbors.cpp`, `Mesh.cpp`).  Coordinates (`double` in the source) are
rationals, so that every statement is about exact arithmetic.  Indices (`int32_t`) are
integers, with `-1` as the "none" value.  Code that may throw returns `Except`.
-/

namespace Meshing

/-! ## struct_predicats.hpp -/

/-- Bare 3D point used by the predicates (`Pvertex3D`). -/
structure Pvertex3D where
  x : ℚ
  y : ℚ
  z : ℚ
  deriving DecidableEq, Repr

/-- Three bare points (`Ptriangle3D`). -/
structure Ptriangle3D where
  a : Pvertex3D
  b : Pvertex3D
  c : Pvertex3D
  deriving DecidableEq, Repr

/-! ## predicats.cpp, anonymous namespace -/

/-- Squared euclidean norm, `length2`. -/
def length2 (p : Pvertex3D) : ℚ :=
  p.x * p.x + p.y * p.y + p.z * p.z

/-- Cross product, `cross`. -/
def cross (p1 p2 : Pvertex3D) : Pvertex3D :=
  { x := p1.y * p2.z - p1.z * p2.y
    y := p1.z * p2.x - p1.x * p2.z
    z := p1.x * p2.y - p1.y * p2.x }

/-- Component-wise difference, `operator-`. -/
def psub (p1 p2 : Pvertex3D) : Pvertex3D :=
  { x := p1.x - p2.x, y := p1.y - p2.y, z := p1.z - p2.z }

/-- Component-wise sum, `operator+`. -/
def padd (p1 p2 : Pvertex3D) : Pvertex3D :=
  { x := p1.x + p2.x, y := p1.y + p2.y, z := p1.z + p2.z }

/-- Product by a scalar, `operator*`. -/
def pscale (p : Pvertex3D) (scalar : ℚ) : Pvertex3D :=
  { x := p.x * scalar, y := p.y * scalar, z := p.z * scalar }

/-- Dot product, `dot`. -/
def dot (p1 p2 : Pvertex3D) : ℚ :=
  p1.x * p2.x + p1.y * p2.y + p1.z * p2.z

/-- Quotient by a scalar, `operator/`. -/
def pdiv (p : Pvertex3D) (d : ℚ) : Pvertex3D :=
  { x := p.x / d, y := p.y / d, z := p.z / d }

/-- Euclidean norm, `length`; the square root routine of the math library is a parameter. -/
def length (sqrt : ℚ → ℚ) (p : Pvertex3D) : ℚ :=
  sqrt (length2 p)

/-- Conversion `radian2deg`; the constant `M_PI` of the math library is a parameter. -/
def radian2deg (pi : ℚ) (radian : ℚ) : ℚ :=
  radian * (180 / pi)

/-- The function `computeAngle`. -/
def computeAngle (sqrt : ℚ → ℚ) (pi : ℚ) (a b c : Pvertex3D) : ℚ :=
  let ab := psub b a
  let ac := psub c a
  let d_ab := length sqrt ab
  let d_ac := length sqrt ac
  let scalar := dot ab ac
  radian2deg pi (scalar / (d_ab * d_ac))

/-! ## predicats.cpp, public predicates -/

/-- The predicate `isWellOriented`. -/
def isWellOriented (v1 v2 v3 : Pvertex3D) : Bool :=
  decide ((cross (psub v1 v2) (psub v1 v3)).z > 0)

/-- The predicate `isInThisTriangle` (barycentric weights).  When `denominator` is zero the
quotients of the source are infinite or not a number, and no such value passes both
comparisons `0.0 <= a && a <= 1.0`: the source returns false, which the first branch
records (the quotient by zero of `ℚ` would be zero instead). -/
def isInThisTriangle (v : Pvertex3D) (t : Ptriangle3D) : Bool :=
  let denominator := (t.b.y - t.c.y) * (t.a.x - t.c.x) + (t.c.x - t.b.x) * (t.a.y - t.c.y)
  if denominator = 0 then false
  else
    let a := ((t.b.y - t.c.y) * (v.x - t.c.x) + (t.c.x - t.b.x) * (v.y - t.c.y)) / denominator
    let b := ((t.c.y - t.a.y) * (v.x - t.c.x) + (t.a.x - t.c.x) * (v.y - t.c.y)) / denominator
    let c := 1 - a - b
    decide (0 ≤ a) && decide (a ≤ 1) && decide (0 ≤ b) && decide (b ≤ 1) &&
      decide (0 ≤ c) && decide (c ≤ 1)

/-- Row-major 3x3 matrix, `Matrix3x3`. -/
structure Matrix3x3 where
  m0 : ℚ
  m1 : ℚ
  m2 : ℚ
  m3 : ℚ
  m4 : ℚ
  m5 : ℚ
  m6 : ℚ
  m7 : ℚ
  m8 : ℚ

/-- Determinant by expansion along the first row, `det`. -/
def det (mat : Matrix3x3) : ℚ :=
  let term_1 := mat.m0 * (mat.m4 * mat.m8 - mat.m7 * mat.m5)
  let term_2 := mat.m1 * (mat.m3 * mat.m8 - mat.m6 * mat.m5)
  let term_3 := mat.m2 * (mat.m3 * mat.m7 - mat.m6 * mat.m4)
  term_1 - term_2 + term_3

/-- The test `signMatrix`. -/
def signMatrix (mat : Matrix3x3) : Bool :=
  decide (det mat ≤ 0)

/-- The predicate `isInSurroundingCircle`.  (The determinant is computed here in exact
arithmetic; the source computes it in doubles, with their rounding.) -/
def isInSurroundingCircle (p q r s : Pvertex3D) : Bool :=
  let qxpx := q.x - p.x
  let rxpx := r.x - p.x
  let sxpx := s.x - p.x
  let qypy := q.y - p.y
  let rypy := r.y - p.y
  let sypy := s.y - p.y
  signMatrix
    { m0 := qxpx, m1 := rxpx, m2 := sxpx
      m3 := qypy, m4 := rypy, m5 := sypy
      m6 := qxpx * qxpx + qypy * qypy
      m7 := rxpx * rxpx + rypy * rypy
      m8 := sxpx * sxpx + sypy * sypy }

/-- The function `centerSurroundingCircle2D`.  (On a flat triangle, three collinear corners,
the divisor `len_abXac` is zero: the source divides by zero and returns coordinates that are
not numbers, whereas the quotient by zero of `ℚ` is zero and the value here is the corner
`t.a`.  The value here is the one of the source, in exact arithmetic, when the divisor is
not zero.) -/
def centerSurroundingCircle2D (t : Ptriangle3D) : Pvertex3D :=
  let ab := psub t.b t.a
  let ac := psub t.c t.a
  let abXac := cross ab ac
  let len_ab := length2 ab
  let len_ac := length2 ac
  let len_abXac := length2 abXac
  let i := pscale ac len_ab
  let j := pscale ab len_ac
  let k := pscale (cross (psub i j) abXac) ((1 / 2) / len_abXac)
  padd t.a k

/-- The predicate `isPoorQuality`. -/
def isPoorQuality (sqrt : ℚ → ℚ) (pi : ℚ) (tr : Ptriangle3D) (angleThreshold : ℚ) : Bool :=
  decide (computeAngle sqrt pi tr.a tr.b tr.c < angleThreshold) ||
  decide (computeAngle sqrt pi tr.b tr.a tr.c < angleThreshold) ||
  decide (computeAngle sqrt pi tr.c tr.a tr.b < angleThreshold)

/-- The predicate `isInCircleOfDiametral`. -/
def isInCircleOfDiametral (a b t : Pvertex3D) : Bool :=
  let center := pdiv (psub b a) 2
  let radius := length2 center
  decide ((t.x - center.x) * (t.x - center.x) + (t.y - center.y) * (t.y - center.y)
    + (t.z - center.z) * (t.z - center.z) ≤ radius * radius)

/-- The function `barycentre`. -/
def barycentre (triangle : Ptriangle3D) : Pvertex3D :=
  let a_bary := pscale triangle.a (333 / 1000)
  let b_bary := pscale triangle.b (333 / 1000)
  let c_bary := pscale triangle.c (333 / 1000)
  padd (padd a_bary b_bary) c_bary

/-! ## Triangle.cpp -/

/-- Failures of the embedded code: a range-checked access (`at`) out of range, the
`std::string` thrown by `computeFaceIndex`, the step budget of a loop being exhausted, the
`std::range_error` thrown by an invalid iterator, or a null pointer being followed (undefined
behaviour in the source). -/
inductive Err where
  | outOfRange
  | vertexNotFound
  | fuel
  | rangeError
  | nullPointer
  deriving DecidableEq, Repr

/-- Three vertex indices in slot order (`Triangle`, field `vertices[3]`). -/
structure Triangle where
  v0 : Int
  v1 : Int
  v2 : Int
  deriving DecidableEq, Repr

/-- Slot access `vertices[i]` for `i` in `0..2`. -/
def Triangle.vertexAt (t : Triangle) (i : Int) : Int :=
  if i = 0 then t.v0 else if i = 1 then t.v1 else t.v2

/-- First slot holding `v`, or `-1` (`Triangle::findVertexIndex`). -/
def Triangle.findVertexIndex (t : Triangle) (v : Int) : Int :=
  if t.v0 = v then 0 else if t.v1 = v then 1 else if t.v2 = v then 2 else -1

/-- Next vertex in slot order (`Triangle::getAdjVertexTrigo`). -/
def Triangle.getAdjVertexTrigo (t : Triangle) (index : Int) : Int :=
  let i := t.findVertexIndex index
  if i = -1 then 0 else t.vertexAt (if i = 2 then 0 else i + 1)

/-- Previous vertex in slot order (`Triangle::getAdjVertexClock`). -/
def Triangle.getAdjVertexClock (t : Triangle) (index : Int) : Int :=
  let i := t.findVertexIndex index
  if i = -1 then 0 else t.vertexAt (if i = 0 then 2 else i - 1)

/-! ## TopoTriangle.cpp -/

/-- A triangle with its three neighbor slots (`TopoTriangle`, field `neighbors[3]`). -/
structure TopoTriangle extends Triangle where
  n0 : Int
  n1 : Int
  n2 : Int
  deriving DecidableEq, Repr

/-- Constructor `TopoTriangle(a, b, c)`: no neighbor. -/
def TopoTriangle.new (a b c : Int) : TopoTriangle :=
  { v0 := a, v1 := b, v2 := c, n0 := -1, n1 := -1, n2 := -1 }

/-- Pair of vertex indices (`TopoTriangle::Edge`). -/
structure Edge where
  a : Int
  b : Int
  deriving DecidableEq, Repr

/-- Order-independent comparison `Edge::operator==`. -/
def Edge.same (e other : Edge) : Bool :=
  (decide (e.a = other.a) && decide (e.b = other.b)) ||
  (decide (e.b = other.a) && decide (e.a = other.b))

/-- Conversion of an edge to a sorted pair (`Edge::operator std::pair`). -/
def Edge.toPair (e : Edge) : Int × Int :=
  if e.a < e.b then (e.a, e.b) else (e.b, e.a)

/-- Slot access `neighbors[i]` for `i` in `0..2`. -/
def TopoTriangle.neighborAt (t : TopoTriangle) (i : Int) : Int :=
  if i = 0 then t.n0 else if i = 1 then t.n1 else t.n2

/-- Slot write `neighbors[i] = n` for `i` in `0..2`. -/
def TopoTriangle.setNeighbor (t : TopoTriangle) (i : Int) (n : Int) : TopoTriangle :=
  if i = 0 then { t with n0 := n } else if i = 1 then { t with n1 := n } else { t with n2 := n }

/-- The table `indexes[3] = {0, 2, 1}`. -/
def indexes (k : Int) : Int :=
  if k = 0 then 0 else if k = 1 then 2 else 1

/-- Neighbor slot facing an edge (`computeFaceIndex`); throws when an end is not found. -/
def computeFaceIndex (that : TopoTriangle) (edge : Edge) : Except Err Int :=
  let ea := that.findVertexIndex edge.a
  let eb := that.findVertexIndex edge.b
  if ea = -1 ∨ eb = -1 then throw Err.vertexNotFound
  else pure (indexes ((ea + eb) % 3))

/-- Method `TopoTriangle::addNeighbor`. -/
def TopoTriangle.addNeighbor (t : TopoTriangle) (neighbor : Int) (edge : Edge) :
    Except Err TopoTriangle :=
  (computeFaceIndex t edge).map (fun i => t.setNeighbor i neighbor)

/-- Method `TopoTriangle::getAdjTriangleTrigo`. -/
def TopoTriangle.getAdjTriangleTrigo (t : TopoTriangle) (current : Int) : Except Err Int :=
  (computeFaceIndex t { a := current, b := t.getAdjVertexClock current }).map
    (fun i => t.neighborAt i)

/-- Method `TopoTriangle::removeNeighbor`. -/
def TopoTriangle.removeNeighbor (t : TopoTriangle) (i : Int) : TopoTriangle :=
  let index := t.findVertexIndex i
  if index ≠ -1 then t.setNeighbor index (-1) else t

/-- Method `TopoTriangle::getOppositeVertexOf`. -/
def TopoTriangle.getOppositeVertexOf (t : TopoTriangle) (neighbor : Int) : Int :=
  if t.n0 = neighbor then t.v0 else if t.n1 = neighbor then t.v1
  else if t.n2 = neighbor then t.v2 else -1

/-- Method `TopoTriangle::getOppositeNeighborOf`. -/
def TopoTriangle.getOppositeNeighborOf (t : TopoTriangle) (index : Int) : Int :=
  let i := t.findVertexIndex index
  if i = -1 then -1 else t.neighborAt i

/-- Method `TopoTriangle::getVertexOutsideOf`. -/
def TopoTriangle.getVertexOutsideOf (t : TopoTriangle) (edge : Edge) : Int :=
  if t.v0 ≠ edge.a ∧ t.v0 ≠ edge.b then t.v0
  else if t.v1 ≠ edge.a ∧ t.v1 ≠ edge.b then t.v1
  else if t.v2 ≠ edge.a ∧ t.v2 ≠ edge.b then t.v2
  else 0

/-- Method `TopoTriangle::getCommonEdge`. -/
def TopoTriangle.getCommonEdge (t : TopoTriangle) (other : Int) : Edge :=
  if t.getOppositeNeighborOf t.v0 = other then { a := t.v1, b := t.v2 }
  else if t.getOppositeNeighborOf t.v1 = other then { a := t.v2, b := t.v0 }
  else if t.getOppositeNeighborOf t.v2 = other then { a := t.v0, b := t.v1 }
  else { a := -1, b := -1 }

/-! ## Range-checked containers -/

/-- Range-checked read, `std::vector::at`. -/
def atE {α : Type} (l : List α) (i : Int) : Except Err α :=
  if i < 0 then throw Err.outOfRange
  else match l[i.toNat]? with
    | some x => pure x
    | none => throw Err.outOfRange

/-- Write through a reference obtained from `at`. -/
def setAt {α : Type} (l : List α) (i : Int) (x : α) : List α :=
  l.set i.toNat x

/-! ## neighbors.cpp -/

/-- Association from sorted vertex pairs to a triangle index (`neighbor::MapEdges`). -/
abbrev MapEdges := List ((Int × Int) × Int)

/-- Lookup `map.find(k)`. -/
def MapEdges.find (map : MapEdges) (k : Int × Int) : Option Int :=
  match map with
  | [] => none
  | (k2, i) :: rest => if k2 = k then some i else MapEdges.find rest k

/-- The linker `neighbor::insert`. -/
def neighborInsert (map : MapEdges) (key : Edge) (index : Int) (faces : List TopoTriangle) :
    Except Err (MapEdges × List TopoTriangle) :=
  match MapEdges.find map key.toPair with
  | none => pure ((key.toPair, index) :: map, faces)
  | some second => do
    let t ← atE faces index
    let t2 ← t.addNeighbor second key
    let faces1 := setAt faces index t2
    let u ← atE faces1 second
    let u2 ← u.addNeighbor index key
    pure (map, setAt faces1 second u2)

/-! ## Mesh.cpp -/

/-- A mesh vertex: coordinates and the `face` back-reference (`Vertex3D<double>`). -/
structure Vertex where
  x : ℚ
  y : ℚ
  z : ℚ
  face : Int
  deriving DecidableEq, Repr

/-- Constructor `Vertex(x, y, z)`: the back-reference is none. -/
def Vertex.new (x y z : ℚ) : Vertex :=
  { x := x, y := y, z := z, face := -1 }

/-- Conversion of a vertex to a bare point (`Vertex3D::operator S`). -/
def Vertex.toP (v : Vertex) : Pvertex3D :=
  { x := v.x, y := v.y, z := v.z }

/-- The data members of `Mesh`. -/
structure Mesh where
  vertices : List Vertex
  triangles : List TopoTriangle
  borders : List Int
  curve : List Edge
  constraints : List Edge
  indexBeforeVoronoi : Int
  deriving DecidableEq, Repr

/-- A freshly constructed mesh: every container is empty. -/
def Mesh.init : Mesh :=
  { vertices := [], triangles := [], borders := [], curve := [], constraints := [],
    indexBeforeVoronoi := 0 }

/-- Helper `getNextAvailableIndex`: pops until an entry differs from `-1`; `none` stands for
the `char` thrown on an empty queue. -/
def getNextAvailableIndex : List Int → Option (Int × List Int)
  | [] => none
  | x :: queue => if x = -1 then getNextAvailableIndex queue else some (x, queue)

/-- Helper `enoughPointsForFirstTriangle`. -/
def enoughPointsForFirstTriangle (nb : Nat) : Bool :=
  decide (nb = 3)

/-- Neighbor slots of one triangle that are not `-1`, in slot order. -/
def presentNeighbors (t : TopoTriangle) : List Int :=
  [t.n0, t.n1, t.n2].filter (fun current => decide (current ≠ -1))

/-- Helper `collectNeighbors`. -/
def collectNeighbors (t1 t2 : TopoTriangle) : List Int :=
  presentNeighbors t1 ++ presentNeighbors t2

/-- Method `Mesh::createInitialTriangle`. -/
def Mesh.createInitialTriangle (m : Mesh) : Mesh :=
  { m with
    triangles := m.triangles ++ [TopoTriangle.new 0 1 2]
    borders := [0, 1, 2].foldl (fun b i => i :: b) m.borders }

/-- Method `Mesh::buildPtriangle3D`. -/
def Mesh.buildPtriangle3D (m : Mesh) (t : TopoTriangle) : Except Err Ptriangle3D := do
  let a ← atE m.vertices t.v0
  let b ← atE m.vertices t.v1
  let c ← atE m.vertices t.v2
  pure { a := a.toP, b := b.toP, c := c.toP }

/-- Scan of `Mesh::isInOneTriangle` over the remaining triangles, `i` being the index of
the first of them. -/
def isInOneTriangleFrom (m : Mesh) (v : Vertex) : List TopoTriangle → Int → Except Err Int
  | [], _ => pure (-1)
  | triangle :: rest, i => do
    let tmp ← m.buildPtriangle3D triangle
    if isInThisTriangle v.toP tmp then pure i else isInOneTriangleFrom m v rest (i + 1)

/-- Method `Mesh::isInOneTriangle` (the linear scan that is compiled). -/
def Mesh.isInOneTriangle (m : Mesh) (v : Vertex) : Except Err Int :=
  isInOneTriangleFrom m v m.triangles 0

/-- Loop of `Mesh::localDelaunay` over the remaining slots. -/
def localDelaunayFrom (m : Mesh) (triangle : TopoTriangle) : List Int → Except Err Int
  | [] => pure (-1)
  | i :: rest =>
    let id := triangle.neighborAt i
    if id = -1 then localDelaunayFrom m triangle rest
    else do
      let edge := triangle.getCommonEdge id
      let p ← atE m.vertices triangle.v0
      let q ← atE m.vertices triangle.v1
      let r ← atE m.vertices triangle.v2
      let other ← atE m.triangles id
      let indexOpposite := other.getVertexOutsideOf edge
      if indexOpposite = -1 then localDelaunayFrom m triangle rest
      else do
        let s ← atE m.vertices indexOpposite
        if isInSurroundingCircle p.toP q.toP r.toP s.toP then pure id
        else localDelaunayFrom m triangle rest

/-- Method `Mesh::localDelaunay`. -/
def Mesh.localDelaunay (m : Mesh) (tr_id : Int) : Except Err Int := do
  let triangle ← atE m.triangles tr_id
  localDelaunayFrom m triangle [0, 1, 2]

/-- The three edges of triangle `index`, in slot order, passed to `neighbor::insert`
(the inner loop shared by `manageNeighborInside` and `flip`).  The source reads the vertex
slots through a reference at every turn; `neighbor::insert` writes neighbor slots only, so
the three reads see the vertices read here. -/
def linkEdgesOf (index : Int) (st : MapEdges × List TopoTriangle) :
    Except Err (MapEdges × List TopoTriangle) := do
  let current ← atE st.2 index
  let st1 ← neighborInsert st.1 { a := current.v0, b := current.v1 } index st.2
  let st2 ← neighborInsert st1.1 { a := current.v1, b := current.v2 } index st1.2
  neighborInsert st2.1 { a := current.v2, b := current.v0 } index st2.2

/-- Loop over `concerned` of `manageNeighborInside`: entries `-1` are skipped. -/
def manageNeighborInsideFrom : List Int → MapEdges × List TopoTriangle →
    Except Err (MapEdges × List TopoTriangle)
  | [], st => pure st
  | index :: rest, st =>
    if index = -1 then manageNeighborInsideFrom rest st
    else do
      let st1 ← linkEdgesOf index st
      manageNeighborInsideFrom rest st1

/-- Method `Mesh::manageNeighborInside`; returns the mesh and the extended `concerned`. -/
def Mesh.manageNeighborInside (m : Mesh) (news concerned : List Int) :
    Except Err (Mesh × List Int) := do
  let concerned2 := concerned ++ news
  let st ← manageNeighborInsideFrom concerned2 ([], m.triangles)
  pure ({ m with triangles := st.2 }, concerned2)

/-- Loop over `concerned` of `Mesh::flip`. -/
def flipLinkFrom : List Int → MapEdges × List TopoTriangle →
    Except Err (MapEdges × List TopoTriangle)
  | [], st => pure st
  | index :: rest, st => do
    let st1 ← linkEdgesOf index st
    flipLinkFrom rest st1

/-- Method `Mesh::flip`. -/
def Mesh.flip (m : Mesh) (f1 f2 : Int) : Except Err Mesh := do
  let old_f1 ← atE m.triangles f1
  let old_f2 ← atE m.triangles f2
  let unique_f1 := old_f1.getOppositeVertexOf f2
  let unique_f2 := old_f2.getOppositeVertexOf f1
  let concerned := collectNeighbors old_f1 old_f2
  let i2 := old_f2.getAdjVertexTrigo unique_f2
  let changed_f2 ← atE m.vertices i2
  let vertices1 :=
    if changed_f2.face = f1 then setAt m.vertices i2 { changed_f2 with face := f2 }
    else m.vertices
  let i1 := old_f1.getAdjVertexTrigo unique_f1
  let changed_f1 ← atE vertices1 i1
  let vertices2 :=
    if changed_f1.face = f2 then setAt vertices1 i1 { changed_f1 with face := f1 }
    else vertices1
  let triangles1 :=
    setAt m.triangles f1 (TopoTriangle.new unique_f1 (old_f1.getAdjVertexTrigo unique_f1) unique_f2)
  let ref_f2 ← atE triangles1 f2
  let triangles2 :=
    setAt triangles1 f2 (TopoTriangle.new unique_f2 (ref_f2.getAdjVertexTrigo unique_f2) unique_f1)
  let st ← flipLinkFrom concerned ([], triangles2)
  pure { m with vertices := vertices2, triangles := st.2 }

/-- Loop of `Mesh::incrementalDelaunay`; `fuel` bounds the number of candidates popped. -/
def incrementalDelaunayLoop : Nat → Mesh → List Int → Except Err Mesh
  | fuel, m, queue =>
    match getNextAvailableIndex queue with
    | none => pure m
    | some (current, queue1) =>
      match fuel with
      | 0 => throw Err.fuel
      | fuel1 + 1 => do
        let toFlipWith ← m.localDelaunay current
        if toFlipWith = -1 then incrementalDelaunayLoop fuel1 m queue1
        else do
          let tCurrent ← atE m.triangles current
          let tFlip ← atE m.triangles toFlipWith
          let icurrent := tCurrent.getOppositeVertexOf toFlipWith
          let iflip := tFlip.getOppositeVertexOf current
          let queue2 := queue1 ++
            [ tCurrent.getOppositeNeighborOf (tCurrent.getAdjVertexClock icurrent),
              tCurrent.getOppositeNeighborOf (tCurrent.getAdjVertexTrigo icurrent),
              tFlip.getOppositeNeighborOf (tFlip.getAdjVertexClock iflip),
              tFlip.getOppositeNeighborOf (tFlip.getAdjVertexTrigo iflip) ]
          let m1 ← m.flip current toFlipWith
          incrementalDelaunayLoop fuel1 m1 queue2

/-- Method `Mesh::incrementalDelaunay`. -/
def Mesh.incrementalDelaunay (fuel : Nat) (m : Mesh) (newTriangles : List Int) :
    Except Err Mesh :=
  incrementalDelaunayLoop fuel m newTriangles

/-- Loop of `insertPointIntoTriangle` over the corners of the dying triangle that repairs
one `face` back-reference; `last` is `triangles.size() - 1` and `tmp` the triangle being
written over the dying one. -/
def fixFaceFrom (indexCurrentFace last : Int) (tmp : TopoTriangle) :
    List Int → List Vertex → Except Err (List Vertex)
  | [], vertices => pure vertices
  | pt :: rest, vertices => do
    let vertex ← atE vertices pt
    if vertex.face = indexCurrentFace ∧
        (tmp.v0 = vertex.face ∨ tmp.v1 = vertex.face ∨ tmp.v2 = vertex.face) then
      pure (setAt vertices pt { vertex with face := last })
    else fixFaceFrom indexCurrentFace last tmp rest vertices

/-- The splitting loop of `Mesh::insertPointIntoTriangle`, unrolled over the three corners
of the dying triangle; returns the mesh, the caller's vertex, `news` and `concerned`. -/
def Mesh.splitTriangle (m : Mesh) (v : Vertex) (indexCurrentFace v_index : Int) :
    Except Err (Mesh × Vertex × List Int × List Int) := do
  let dying ← atE m.triangles indexCurrentFace
  let concerned := [dying.n0, dying.n1, dying.n2]
  -- i = 0 : a new triangle is appended
  let face0 : Int := m.triangles.length
  let tmp0 := TopoTriangle.new v_index (dying.getAdjVertexClock dying.v0) dying.v0
  let triangles1 := m.triangles ++ [tmp0]
  -- i = 1 : a new triangle is appended
  let face1 : Int := triangles1.length
  let tmp1 := TopoTriangle.new v_index (dying.getAdjVertexClock dying.v1) dying.v1
  let triangles2 := triangles1 ++ [tmp1]
  -- i = 2 : the dying triangle is written over
  let tmp2 := TopoTriangle.new v_index (dying.getAdjVertexClock dying.v2) dying.v2
  let v1 := { v with face := indexCurrentFace }
  let vertices1 ← fixFaceFrom indexCurrentFace ((triangles2.length : Int) - 1) tmp2
    [dying.v0, dying.v1, dying.v2] m.vertices
  let triangles3 := setAt triangles2 indexCurrentFace tmp2
  pure ({ m with vertices := vertices1, triangles := triangles3 }, v1,
    [face0, face1, indexCurrentFace], concerned)

/-- Method `Mesh::insertPointIntoTriangle`; returns the mesh and the caller's vertex. -/
def Mesh.insertPointIntoTriangle (fuel : Nat) (m : Mesh) (v : Vertex)
    (indexCurrentFace v_index : Int) : Except Err (Mesh × Vertex) := do
  let (m1, v1, news, concerned) ← m.splitTriangle v indexCurrentFace v_index
  let (m2, concerned2) ← m1.manageNeighborInside news concerned
  let m3 ← m2.incrementalDelaunay fuel concerned2
  pure (m3, v1)

/-- Scan of `Mesh::findThisFace` over the remaining triangles. -/
def findThisFaceFrom (a b : Int) : List TopoTriangle → Int → Int
  | [], _ => -1
  | f :: rest, i =>
    if (f.v0 = a ∨ f.v1 = a ∨ f.v2 = a) ∧ (f.v0 = b ∨ f.v1 = b ∨ f.v2 = b) then i
    else findThisFaceFrom a b rest (i + 1)

/-- Method `Mesh::findThisFace`. -/
def Mesh.findThisFace (m : Mesh) (a b : Int) : Int :=
  findThisFaceFrom a b m.triangles 0

/-- Loop of `Mesh::updateBorder`: `border` is what the iterator `it` has left to visit,
`usages` what is left of the usage vector, `i` the position. -/
def updateBorderFrom (id first : Int) : List Int → List Nat → Int → List Int
  | it :: border, u :: usages, i =>
    (if u < 2 then [it] else []) ++ (if i = first then [id] else []) ++
      updateBorderFrom id first border usages (i + 1)
  | _, _, _ => []

/-- Method `Mesh::updateBorder`. -/
def Mesh.updateBorder (m : Mesh) (id : Int) (usages : List Nat) (first : Int) : Mesh :=
  { m with borders := updateBorderFrom id first m.borders usages 0 }

/-- Loop of `Mesh::updateNeighborsOutside`. -/
def updateNeighborsOutsideFrom (c : Int) : List Int → MapEdges × List TopoTriangle →
    Except Err (MapEdges × List TopoTriangle)
  | [], st => pure st
  | index :: rest, st => do
    let current ← atE st.2 index
    let st1 ← neighborInsert st.1 { a := c, b := current.v0 } index st.2
    let st2 ← neighborInsert st1.1 { a := c, b := current.v1 } index st1.2
    updateNeighborsOutsideFrom c rest st2

/-- Method `Mesh::updateNeighborsOutside`. -/
def Mesh.updateNeighborsOutside (m : Mesh) (newTriangles : List Int) (c : Int) :
    Except Err Mesh := do
  let st ← updateNeighborsOutsideFrom c newTriangles ([], m.triangles)
  pure { m with triangles := st.2 }

/-- Local variables of the border scan of `Mesh::insertPointOutside`. -/
structure OutsideScan where
  iFirst : Int
  usages : List Nat
  newTriangles : List Int
  triangles : List TopoTriangle
  ins : Vertex

/-- Range-checked increment `usages.at(i) += 1`. -/
def bumpUsage (usages : List Nat) (i : Nat) : Except Err (List Nat) :=
  match usages[i]? with
  | some u => pure (usages.set i (u + 1))
  | none => throw Err.outOfRange

/-- Border scan of `Mesh::insertPointOutside`: `head` is the first border vertex, the list
is what is left to visit and `i` the position of its first element. -/
def insertPointOutsideFrom (vertices : List Vertex) (head index : Int) :
    List Int → Nat → OutsideScan → Except Err OutsideScan
  | [], _, st => pure st
  | it :: rest, i, st => do
    let current ← atE vertices it
    let next_id := match rest with
      | [] => head
      | n :: _ => n
    let next ← atE vertices next_id
    if isWellOriented current.toP next.toP st.ins.toP then do
      let iFirst := if st.iFirst = -1 then (i : Int) else st.iFirst
      let usages1 ← bumpUsage st.usages i
      let usages2 ← bumpUsage usages1 ((i + 1) % usages1.length)
      let newFace := TopoTriangle.new it next_id index
      let voisin := findThisFaceFrom it next_id st.triangles 0
      let here : Int := st.triangles.length
      let linked ←
        if voisin ≠ -1 then do
          let edge : Edge := { a := next_id, b := it }
          let newFace1 ← newFace.addNeighbor voisin edge
          let old ← atE st.triangles voisin
          let old1 ← old.addNeighbor here edge
          pure (newFace1, setAt st.triangles voisin old1)
        else pure (newFace, st.triangles)
      insertPointOutsideFrom vertices head index rest (i + 1)
        { iFirst := iFirst, usages := usages2, newTriangles := st.newTriangles ++ [here],
          triangles := linked.2 ++ [linked.1], ins := { st.ins with face := here } }
    else insertPointOutsideFrom vertices head index rest (i + 1) st

/-- The list `concerned` built at the end of `Mesh::insertPointOutside`. -/
def concernedOutside (triangles : List TopoTriangle) (index : Int) :
    List Int → Except Err (List Int)
  | [] => pure []
  | ind :: rest => do
    let t ← atE triangles ind
    let tail ← concernedOutside triangles index rest
    pure (t.getOppositeNeighborOf index :: tail)

/-- Method `Mesh::insertPointOutside`; returns the mesh and the caller's vertex. -/
def Mesh.insertPointOutside (fuel : Nat) (m : Mesh) (ins : Vertex) (index : Int) :
    Except Err (Mesh × Vertex) := do
  let scan ← insertPointOutsideFrom m.vertices (m.borders.headD 0) index m.borders 0
    { iFirst := -1, usages := List.replicate m.borders.length 0, newTriangles := [],
      triangles := m.triangles, ins := ins }
  let m1 := { m with triangles := scan.triangles }
  let m2 := m1.updateBorder index scan.usages scan.iFirst
  let m3 ← m2.updateNeighborsOutside scan.newTriangles index
  let concerned ← concernedOutside m3.triangles index scan.newTriangles
  let m4 ← m3.incrementalDelaunay fuel concerned
  pure (m4, scan.ins)

/-- Method `Mesh::insertVertexIntoTriangulation`; returns the mesh and the caller's
vertex (the parameter is a reference that the insertion writes to). -/
def Mesh.insertVertexIntoTriangulation (fuel : Nat) (m : Mesh) (v : Vertex) (index : Int) :
    Except Err (Mesh × Vertex) :=
  let m1 := { m with vertices := m.vertices ++ [v] }
  if enoughPointsForFirstTriangle m1.vertices.length then
    pure (m1.createInitialTriangle, v)
  else if m1.vertices.length > 3 then do
    let indexTriangle ← m1.isInOneTriangle v
    if indexTriangle ≠ -1 then m1.insertPointIntoTriangle fuel v indexTriangle index
    else m1.insertPointOutside fuel v index
  else pure (m1, v)

/-- The loop of `Mesh::readVerticesFromPts` on the points already read from the file:
each point `(x, y)` becomes the vertex `(x, y, 0)`, inserted with its rank `i` as index. -/
def readVerticesFrom (fuel : Nat) : List (ℚ × ℚ) → Nat → Mesh → Except Err Mesh
  | [], _, m => pure m
  | pt :: rest, i, m => do
    let r ← m.insertVertexIntoTriangulation fuel (Vertex.new pt.1 pt.2 0) i
    readVerticesFrom fuel rest (i + 1) r.1

/-- Method `Mesh::empty`. -/
def Mesh.empty (m : Mesh) : Mesh :=
  { m with vertices := [], triangles := [], borders := [], constraints := [],
           indexBeforeVoronoi := 0 }

/-- Helper `addEdgesOf`: the edges of `t` whose two ends are below `indexBeforeVoronoi` are
appended to the curve. -/
def addEdgesOf (indexBeforeVoronoi : Int) (curve : List Edge) (t : TopoTriangle) : List Edge :=
  let p0 := decide (t.v0 < indexBeforeVoronoi)
  let p1 := decide (t.v1 < indexBeforeVoronoi)
  let p2 := decide (t.v2 < indexBeforeVoronoi)
  let curve1 := if p0 && p1 then curve ++ [{ a := t.v0, b := t.v1 }] else curve
  let curve2 := if p0 && p2 then curve1 ++ [{ a := t.v0, b := t.v2 }] else curve1
  if p2 && p1 then curve2 ++ [{ a := t.v2, b := t.v1 }] else curve2

/-- First loop of `Mesh::Crust`: the center of the surrounding circle of every triangle,
as a vertex without back-reference.  (For a flat triangle the source divides by zero; the
value computed here is then not the one of the source.) -/
def crustCenters (m : Mesh) : List TopoTriangle → Except Err (List Vertex)
  | [] => pure []
  | t :: rest => do
    let p ← m.buildPtriangle3D t
    let c := centerSurroundingCircle2D p
    let tail ← crustCenters m rest
    pure (Vertex.new c.x c.y c.z :: tail)

/-- Second loop of `Mesh::Crust`: every center, its `z` set to zero, is inserted with the
current number of vertices as index. -/
def crustInsert (fuel : Nat) : List Vertex → Mesh → Except Err Mesh
  | [], m => pure m
  | pt :: rest, m => do
    let r ← m.insertVertexIntoTriangulation fuel { pt with z := 0 } m.vertices.length
    crustInsert fuel rest r.1

/-- Method `Mesh::Crust`. -/
def Mesh.Crust (fuel : Nat) (m : Mesh) : Except Err Mesh := do
  let m1 := { m with indexBeforeVoronoi := (m.vertices.length : Int) }
  let vertexes ← crustCenters m1 m1.triangles
  let m2 ← crustInsert fuel vertexes m1
  pure { m2 with curve := m2.triangles.foldl (addEdgesOf m2.indexBeforeVoronoi) [] }

/-- Repeated calls `insertVertexIntoTriangulation(v, vertices.size())`, the way `Crust`,
`refineDelaunay` and (from the empty mesh) `readVerticesFromPts` insert their points. -/
def insertSequence (fuel : Nat) : List Vertex → Mesh → Except Err Mesh
  | [], m => pure m
  | v :: rest, m => do
    let r ← m.insertVertexIntoTriangulation fuel v m.vertices.length
    insertSequence fuel rest r.1

/-! ## Mesh.cpp, refinement -/

/-- Method `Mesh::centerOfEdge`. -/
def Mesh.centerOfEdge (m : Mesh) (edge : Edge) : Except Err Vertex := do
  let v1 ← atE m.vertices edge.a
  let v2 ← atE m.vertices edge.b
  pure (Vertex.new ((v2.x - v1.x) / 2) ((v2.y - v1.y) / 2) ((v2.z - v1.z) / 2))

/-- Loop of `Mesh::collectPoorQualityTriangles` over the remaining triangles, `i` being the
index of the first of them. -/
def collectPoorFrom (sqrt : ℚ → ℚ) (pi : ℚ) (m : Mesh) (threshold : ℚ) :
    List TopoTriangle → Int → Except Err (List Int)
  | [], _ => pure []
  | t :: rest, i => do
    let p ← m.buildPtriangle3D t
    let tail ← collectPoorFrom sqrt pi m threshold rest (i + 1)
    pure (if isPoorQuality sqrt pi p threshold then i :: tail else tail)

/-- Method `Mesh::collectPoorQualityTriangles`. -/
def Mesh.collectPoorQualityTriangles (sqrt : ℚ → ℚ) (pi : ℚ) (m : Mesh) (threshold : ℚ) :
    Except Err (List Int) :=
  collectPoorFrom sqrt pi m threshold m.triangles 0

/-- Method `Mesh::collectEncroacheds`; returns the result and the extended `notEncroached`. -/
def Mesh.collectEncroacheds (m : Mesh) (notEncroached : List Edge) : List Edge × List Edge :=
  m.constraints.foldl
    (fun acc segment =>
      if m.findThisFace segment.a segment.b = -1 then (acc.1 ++ [segment], acc.2)
      else (acc.1, acc.2 ++ [segment]))
    ([], notEncroached)

/-- Loop of `Mesh::encroachSegment`: `seen` holds the segments already passed.  When a
segment is found the result is the edge written to the out-parameter with `segments` after
the erasure; `none` stands for the answer false. -/
def encroachSegmentFrom (m : Mesh) (v : Vertex) :
    List Edge → List Edge → Except Err (Option (Edge × List Edge))
  | [], _ => pure none
  | it :: rest, seen => do
    let a ← atE m.vertices it.a
    let b ← atE m.vertices it.b
    if isInCircleOfDiametral a.toP b.toP v.toP then
      pure (some ({ a := it.a, b := it.b }, seen ++ rest))
    else encroachSegmentFrom m v rest (seen ++ [it])

/-- Method `Mesh::encroachSegment`. -/
def Mesh.encroachSegment (m : Mesh) (v : Vertex) (segments : List Edge) :
    Except Err (Option (Edge × List Edge)) :=
  encroachSegmentFrom m v segments []

/-- Main loop of `Mesh::refineDelaunay`; `steps` bounds the number of turns and `fuel` is
the budget of every insertion. -/
def refineLoop (fuel : Nat) :
    Nat → Mesh → List Int → List Edge → List Edge → Except Err Mesh
  | steps, m, Qtriangles, Qencroach, notEncroached =>
    match Qencroach with
    | edge :: Qrest =>
      match steps with
      | 0 => throw Err.fuel
      | steps1 + 1 => do
        let v ← m.centerOfEdge edge
        let r ← m.insertVertexIntoTriangulation fuel v m.vertices.length
        refineLoop fuel steps1 r.1 Qtriangles Qrest notEncroached
    | [] =>
      match Qtriangles with
      | [] => pure m
      | front :: Trest =>
        match steps with
        | 0 => throw Err.fuel
        | steps1 + 1 => do
          let triangle ← atE m.triangles front
          let p ← m.buildPtriangle3D triangle
          let c := centerSurroundingCircle2D p
          let voronoi := Vertex.new c.x c.y c.z
          let found ← m.encroachSegment voronoi notEncroached
          match found with
          | some (edge, segments) => refineLoop fuel steps1 m Qtriangles [edge] segments
          | none => do
            let r ← m.insertVertexIntoTriangulation fuel voronoi m.vertices.length
            refineLoop fuel steps1 r.1 Trest [] notEncroached

/-- Method `Mesh::refineDelaunay`. -/
def Mesh.refineDelaunay (sqrt : ℚ → ℚ) (pi : ℚ) (fuel steps : Nat) (m : Mesh)
    (threshold : ℚ) : Except Err Mesh := do
  let Qtriangles ← m.collectPoorQualityTriangles sqrt pi threshold
  let q := m.collectEncroacheds []
  refineLoop fuel steps m Qtriangles q.1 q.2

/-! ## Mesh.cpp, refinement, turn by turn -/

/-- The local variables of the main loop of `refineDelaunay`, with the mesh. -/
structure RefineState where
  mesh : Mesh
  Qtriangles : List Int
  Qencroach : List Edge
  notEncroached : List Edge
  deriving DecidableEq, Repr

/-- What a turn of the main loop of `refineDelaunay` does: it inserts the center of the front
segment, or it moves a segment that the circumcenter encroaches to `Qencroach`, or it inserts
the circumcenter. -/
inductive RefineKind where
  | segmentCenter
  | requeue
  | circumcenter
  deriving DecidableEq, Repr

/-- One turn of the main loop of `refineDelaunay`; `none` when the loop condition is false. -/
def refineStep (fuel : Nat) (s : RefineState) :
    Except Err (Option (RefineKind × RefineState)) :=
  match s.Qencroach with
  | edge :: Qrest => do
    let v ← s.mesh.centerOfEdge edge
    let r ← s.mesh.insertVertexIntoTriangulation fuel v s.mesh.vertices.length
    pure (some (RefineKind.segmentCenter,
      { mesh := r.1, Qtriangles := s.Qtriangles, Qencroach := Qrest,
        notEncroached := s.notEncroached }))
  | [] =>
    match s.Qtriangles with
    | [] => pure none
    | front :: Trest => do
      let triangle ← atE s.mesh.triangles front
      let p ← s.mesh.buildPtriangle3D triangle
      let c := centerSurroundingCircle2D p
      let voronoi := Vertex.new c.x c.y c.z
      let found ← s.mesh.encroachSegment voronoi s.notEncroached
      match found with
      | some (edge, segments) =>
        pure (some (RefineKind.requeue,
          { mesh := s.mesh, Qtriangles := front :: Trest, Qencroach := [edge],
            notEncroached := segments }))
      | none => do
        let r ← s.mesh.insertVertexIntoTriangulation fuel voronoi s.mesh.vertices.length
        pure (some (RefineKind.circumcenter,
          { mesh := r.1, Qtriangles := Trest, Qencroach := [], notEncroached := s.notEncroached }))

/-- The first `n` turns of the main loop of `refineDelaunay`, or all of them when the loop
ends before: the kinds of the turns made, in order, and the state reached. -/
def refineRun (fuel : Nat) : Nat → RefineState → Except Err (List RefineKind × RefineState)
  | 0, s => pure ([], s)
  | n + 1, s => do
    let x ← refineStep fuel s
    match x with
    | none => pure ([], s)
    | some (k, s1) => do
      let r ← refineRun fuel n s1
      pure (k :: r.1, r.2)

/-! ## MeshIterator.hpp -/

/-- The linear iterator `MeshIterator<Content>`.  The pointer `data` is represented by the
vector it points to, `none` being `nullptr`; two pointers are compared through the vectors.
Sizes and positions are below `2^31`, so that `int32_t` is read as an integer. -/
structure MeshIterator (Content : Type) where
  data : Option (List Content)
  counter : Int
  deriving DecidableEq, Repr

/-- Private constructor `MeshIterator(container, where)`. -/
def MeshIterator.new {Content : Type} (container : Option (List Content)) (position : Int) :
    MeshIterator Content :=
  { data := container, counter := position }

/-- Default constructor: an invalid iterator. -/
def MeshIterator.invalid {Content : Type} : MeshIterator Content :=
  MeshIterator.new none 0

/-- Copy constructor. -/
def MeshIterator.copy {Content : Type} (other : MeshIterator Content) : MeshIterator Content :=
  MeshIterator.new other.data other.counter

/-- Move constructor; returns the new iterator and what is left of `other`. -/
def MeshIterator.move {Content : Type} (other : MeshIterator Content) :
    MeshIterator Content × MeshIterator Content :=
  (MeshIterator.new other.data other.counter, { data := none, counter := -1 })

/-- Copy assignment `operator=(const MeshIterator&)`; returns the receiver. -/
def MeshIterator.assign {Content : Type} (_self other : MeshIterator Content) :
    MeshIterator Content :=
  { data := other.data, counter := other.counter }

/-- Move assignment `operator=(MeshIterator&&)`: the statement `*this = other` inside it is
the copy assignment, `other` being a named reference; returns the receiver and what is left
of `other`. -/
def MeshIterator.moveAssign {Content : Type} (self other : MeshIterator Content) :
    MeshIterator Content × MeshIterator Content :=
  (self.assign other, { data := none, counter := -1 })

/-- Comparison `operator==`. -/
def MeshIterator.same {Content : Type} [DecidableEq Content] (a b : MeshIterator Content) :
    Bool :=
  decide (a.data = b.data) && decide (a.counter = b.counter)

/-- Comparison `operator!=`. -/
def MeshIterator.differs {Content : Type} [DecidableEq Content] (a b : MeshIterator Content) :
    Bool :=
  !(a.same b)

/-- Pre-increment `operator++()`. -/
def MeshIterator.preIncrement {Content : Type} (it : MeshIterator Content) :
    MeshIterator Content :=
  { it with counter := it.counter + 1 }

/-- Post-increment `operator++(int)`; returns the copy and the receiver. -/
def MeshIterator.postIncrement {Content : Type} (it : MeshIterator Content) :
    MeshIterator Content × MeshIterator Content :=
  (it.copy, { it with counter := it.counter + 1 })

/-- Dereference `operator*`. -/
def MeshIterator.deref {Content : Type} (it : MeshIterator Content) : Except Err Content :=
  match it.data with
  | none => throw Err.rangeError
  | some d =>
    if it.counter < 0 ∨ it.counter ≥ (d.length : Int) then throw Err.rangeError
    else atE d it.counter

/-- Method `Mesh::beginT`. -/
def Mesh.beginT (m : Mesh) : MeshIterator TopoTriangle :=
  MeshIterator.new (some m.triangles) 0

/-- Method `Mesh::endT`. -/
def Mesh.endT (m : Mesh) : MeshIterator TopoTriangle :=
  MeshIterator.new (some m.triangles) m.triangles.length

/-- Method `Mesh::beginV`. -/
def Mesh.beginV (m : Mesh) : MeshIterator Vertex :=
  MeshIterator.new (some m.vertices) 0

/-- Method `Mesh::endV`. -/
def Mesh.endV (m : Mesh) : MeshIterator Vertex :=
  MeshIterator.new (some m.vertices) m.vertices.length

/-! ## MeshCirculator.hpp -/

/-- The circulator `MeshCirculator<What>`.  The pointers `vertices` and `triangles` are
represented by the vectors they point to, `none` being `nullptr`; the pointer `current`,
which is always obtained as `&(triangles->at(i))`, is represented by the index `i`. -/
structure MeshCirculator where
  current : Option Int
  center : Int
  vertices : Option (List Vertex)
  triangles : Option (List TopoTriangle)
  deriving DecidableEq, Repr

/-- Private constructor `MeshCirculator(v, t, c)`: the current triangle is the one named by
the `face` back-reference of the anchor. -/
def MeshCirculator.new (v : Option (List Vertex)) (t : Option (List TopoTriangle)) (c : Int) :
    Except Err MeshCirculator :=
  match v with
  | none => pure { current := none, center := c, vertices := v, triangles := t }
  | some vs => do
    let anchor ← atE vs c
    match t with
    | none => throw Err.nullPointer
    | some ts => do
      let _ ← atE ts anchor.face
      pure { current := some anchor.face, center := c, vertices := v, triangles := t }

/-- Default constructor: an invalid circulator. -/
def MeshCirculator.invalid : Except Err MeshCirculator :=
  MeshCirculator.new none none (-1)

/-- Copy constructor: it delegates to the private constructor with the three other fields
of `other`. -/
def MeshCirculator.copy (other : MeshCirculator) : Except Err MeshCirculator :=
  MeshCirculator.new other.vertices other.triangles other.center

/-- Copy assignment `operator=(const MeshCirculator&)`; returns the receiver. -/
def MeshCirculator.assign (_self other : MeshCirculator) : MeshCirculator :=
  { current := other.current, center := other.center, vertices := other.vertices,
    triangles := other.triangles }

/-- Comparison `operator==`. -/
def MeshCirculator.same (a b : MeshCirculator) : Bool :=
  decide (a.triangles = b.triangles) && decide (a.center = b.center) &&
  decide (a.vertices = b.vertices) && decide (a.current = b.current)

/-- Pre-increment `operator++()`. -/
def MeshCirculator.preIncrement (c : MeshCirculator) : Except Err MeshCirculator :=
  match c.current, c.triangles with
  | some cur, some ts => do
    let t ← atE ts cur
    let next ← t.getAdjTriangleTrigo c.center
    let _ ← atE ts next
    pure { c with current := some next }
  | _, _ => throw Err.nullPointer

/-- Post-increment `operator++(int)`; returns the copy and the receiver. -/
def MeshCirculator.postIncrement (c : MeshCirculator) :
    Except Err (MeshCirculator × MeshCirculator) := do
  let copy ← c.copy
  let c1 ← c.preIncrement
  pure (copy, c1)

/-- Method `Mesh::beginRT` (and `Mesh::beginRV`, which builds the same fields). -/
def Mesh.beginRT (m : Mesh) (center : Int) : Except Err MeshCirculator :=
  MeshCirculator.new (some m.vertices) (some m.triangles) center

/-! ## OffLoader.cpp -/

/-- Inner loop of `readOffTriangles` over the positions `i` of `indexes` left to visit: the
vertex `v.at(i)` receives the face when it has none, and the edge from `indexes.at(i)` to the
next index goes to `neighbor::insert`. -/
def readOffFaceFrom (indexes : Triangle) (faceIndex : Int) :
    List Int → List Vertex × MapEdges × List TopoTriangle →
      Except Err (List Vertex × MapEdges × List TopoTriangle)
  | [], st => pure st
  | i :: rest, st => do
    let vi ← atE st.1 i
    let v1 := if vi.face = -1 then setAt st.1 i { vi with face := faceIndex } else st.1
    let key : Edge :=
      { a := indexes.vertexAt i, b := indexes.vertexAt (if i + 1 = 3 then 0 else i + 1) }
    let st1 ← neighborInsert st.2.1 key faceIndex st.2.2
    readOffFaceFrom indexes faceIndex rest (v1, st1.1, st1.2)

/-- Loop of `readOffTriangles` over the face lines read from the file, each given by its
three vertex indices. -/
def readOffTrianglesFrom : List Triangle → Int → List Vertex × MapEdges × List TopoTriangle →
    Except Err (List Vertex × MapEdges × List TopoTriangle)
  | [], _, st => pure st
  | indexes :: rest, faceIndex, st => do
    let t1 := st.2.2 ++ [TopoTriangle.new indexes.v0 indexes.v1 indexes.v2]
    let st1 ← readOffFaceFrom indexes faceIndex [0, 1, 2] (st.1, st.2.1, t1)
    readOffTrianglesFrom rest (faceIndex + 1) st1

/-- The function `readOffTriangles` on the face lines of the file; returns the vertices and
the triangles. -/
def readOffTriangles (v : List Vertex) (t : List TopoTriangle) (faces : List Triangle) :
    Except Err (List Vertex × List TopoTriangle) := do
  let st ← readOffTrianglesFrom faces 0 (v, [], t)
  pure (st.1, st.2.2)

/-! ## Notions used to state the properties -/

/-- Twice the signed area of the planar triangle `v1 v2 v3`; positive when the three points
turn counter-clockwise. -/
def signedArea (v1 v2 v3 : Pvertex3D) : ℚ :=
  (v2.x - v1.x) * (v3.y - v1.y) - (v2.y - v1.y) * (v3.x - v1.x)

/-- Squared distance in the plane between `c` and `p`. -/
def dist2xy (c p : Pvertex3D) : ℚ :=
  (p.x - c.x) * (p.x - c.x) + (p.y - c.y) * (p.y - c.y)

/-- The determinant that `isInSurroundingCircle` hands to `signMatrix`. -/
def inCircleDet (p q r s : Pvertex3D) : ℚ :=
  det
    { m0 := q.x - p.x, m1 := r.x - p.x, m2 := s.x - p.x
      m3 := q.y - p.y, m4 := r.y - p.y, m5 := s.y - p.y
      m6 := (q.x - p.x) * (q.x - p.x) + (q.y - p.y) * (q.y - p.y)
      m7 := (r.x - p.x) * (r.x - p.x) + (r.y - p.y) * (r.y - p.y)
      m8 := (s.x - p.x) * (s.x - p.x) + (s.y - p.y) * (s.y - p.y) }

/-- The four points of the unit circle on the axes. -/
def unitCirclePoints : List Pvertex3D :=
  [⟨1, 0, 0⟩, ⟨0, 1, 0⟩, ⟨-1, 0, 0⟩, ⟨0, -1, 0⟩]

/-- The point `v` is a convex combination of the corners of `t` in the plane, that is, it
lies in the closed triangle. -/
def InClosedTriangle (v : Pvertex3D) (t : Ptriangle3D) : Prop :=
  ∃ wa wb wc : ℚ, 0 ≤ wa ∧ 0 ≤ wb ∧ 0 ≤ wc ∧ wa + wb + wc = 1 ∧
    v.x = wa * t.a.x + wb * t.b.x + wc * t.c.x ∧
    v.y = wa * t.a.y + wb * t.b.y + wc * t.c.y

/-- First barycentric weight computed by `isInThisTriangle`. -/
def weightA (v : Pvertex3D) (t : Ptriangle3D) : ℚ :=
  ((t.b.y - t.c.y) * (v.x - t.c.x) + (t.c.x - t.b.x) * (v.y - t.c.y)) /
    ((t.b.y - t.c.y) * (t.a.x - t.c.x) + (t.c.x - t.b.x) * (t.a.y - t.c.y))

/-- Second barycentric weight computed by `isInThisTriangle`. -/
def weightB (v : Pvertex3D) (t : Ptriangle3D) : ℚ :=
  ((t.c.y - t.a.y) * (v.x - t.c.x) + (t.a.x - t.c.x) * (v.y - t.c.y)) /
    ((t.b.y - t.c.y) * (t.a.x - t.c.x) + (t.c.x - t.b.x) * (t.a.y - t.c.y))

/-- Every result of `x` is a result of `y`. -/
def OkLe {α : Type} (x y : Except Err α) : Prop :=
  ∀ r, x = Except.ok r → y = Except.ok r

/-! ## Notions used to state the properties of triangles and of the arena -/

/-- The index `v` is stored in one of the three vertex slots. -/
def Triangle.hasVertex (t : Triangle) (v : Int) : Prop :=
  t.v0 = v ∨ t.v1 = v ∨ t.v2 = v

/-- The three vertex indices are pairwise different. -/
def Triangle.distinct (t : Triangle) : Prop :=
  t.v0 ≠ t.v1 ∧ t.v1 ≠ t.v2 ∧ t.v0 ≠ t.v2

/-- The triangle `t` lists `a`, `b`, `c` in this cyclic order. -/
def Triangle.isRotationOf (t : Triangle) (a b c : Int) : Prop :=
  (t.v0 = a ∧ t.v1 = b ∧ t.v2 = c) ∨ (t.v0 = b ∧ t.v1 = c ∧ t.v2 = a) ∨
  (t.v0 = c ∧ t.v1 = a ∧ t.v2 = b)

/-- The face index `n` is stored in one of the three neighbor slots. -/
def TopoTriangle.holds (t : TopoTriangle) (n : Int) : Prop :=
  t.n0 = n ∨ t.n1 = n ∨ t.n2 = n

/-- The triangle `t` holds `n` in the slot opposite its vertex `w` and in no other slot. -/
def TopoTriangle.recordsOnlyOpposite (t : TopoTriangle) (w n : Int) : Prop :=
  t.getOppositeNeighborOf w = n ∧
  ∀ v, t.hasVertex v → v ≠ w → t.getOppositeNeighborOf v ≠ n

/-- The vertices `x` and `y` are stored in two different slots of `t`. -/
def TopoTriangle.hasEdge (t : TopoTriangle) (x y : Int) : Prop :=
  (t.v0 = x ∧ t.v1 = y) ∨ (t.v1 = x ∧ t.v0 = y) ∨
  (t.v0 = x ∧ t.v2 = y) ∨ (t.v2 = x ∧ t.v0 = y) ∨
  (t.v1 = x ∧ t.v2 = y) ∨ (t.v2 = x ∧ t.v1 = y)

/-- The edge `e` joins the vertices `x` and `y`, in either order. -/
def Edge.joins (e : Edge) (x y : Int) : Prop :=
  (e.a = x ∧ e.b = y) ∨ (e.a = y ∧ e.b = x)

instance (t : Triangle) (v : Int) : Decidable (t.hasVertex v) := by
  unfold Triangle.hasVertex
  infer_instance

instance (t : Triangle) : Decidable t.distinct := by
  unfold Triangle.distinct
  infer_instance

instance (t : Triangle) (a b c : Int) : Decidable (t.isRotationOf a b c) := by
  unfold Triangle.isRotationOf
  infer_instance

instance (t : TopoTriangle) (n : Int) : Decidable (t.holds n) := by
  unfold TopoTriangle.holds
  infer_instance

instance (t : TopoTriangle) (x y : Int) : Decidable (t.hasEdge x y) := by
  unfold TopoTriangle.hasEdge
  infer_instance

instance (e : Edge) (x y : Int) : Decidable (e.joins x y) := by
  unfold Edge.joins
  infer_instance

/-- The receiver after a call of `addNeighbor`, with the outcome of the call: the store
`neighbors[...] = neighbor` comes after `computeFaceIndex`, so that a call that throws has
written nothing. -/
def TopoTriangle.addNeighborInPlace (t : TopoTriangle) (neighbor : Int) (edge : Edge) :
    TopoTriangle × Option Err :=
  match t.addNeighbor neighbor edge with
  | Except.ok t2 => (t2, none)
  | Except.error e => (t, some e)

/-- The vertex triples of an arena, neighbor slots left out. -/
def shapes (l : List TopoTriangle) : List Triangle :=
  l.map (fun t => t.toTriangle)

/-- Every entry of the edge map names a triangle of the arena that has both ends of the
recorded pair among its vertices. -/
def MapOk (map : MapEdges) (faces : List TopoTriangle) : Prop :=
  ∀ k i, (k, i) ∈ map → ∃ t, atE faces i = Except.ok t ∧ t.hasVertex k.1 ∧ t.hasVertex k.2

/-- A neighbor slot value is none or the index of a triangle of the arena. -/
def validSlot (faces : List TopoTriangle) (n : Int) : Prop :=
  n = -1 ∨ (0 ≤ n ∧ n < (faces.length : Int))

/-- Unless `x` ran out of budget, `y` has the outcome of `x`. -/
def FuelLe {α : Type} (x y : Except Err α) : Prop :=
  x ≠ Except.error Err.fuel → y = x

/-- The error of a failed computation. -/
def errorOf {α : Type} (x : Except Err α) : Option Err :=
  match x with
  | Except.ok _ => none
  | Except.error e => some e

/-- The whole run of the Crust test: the points are triangulated from the empty mesh, then
`Crust` runs on the result. -/
def crustOnPoints (fuel : Nat) (pts : List Vertex) : Except Err Mesh :=
  insertSequence fuel pts Mesh.init >>= Mesh.Crust fuel

/-- The four corners of the unit square, listed in order. -/
def unitSquarePoints : List Vertex :=
  [Vertex.new 0 0 0, Vertex.new 1 0 0, Vertex.new 1 1 0, Vertex.new 0 1 0]

/-- The mesh that the incremental insertion builds on `unitSquarePoints`. -/
def unitSquareMesh : Mesh :=
  { vertices := unitSquarePoints
    triangles :=
      [ { v0 := 1, v1 := 2, v2 := 3, n0 := -1, n1 := 1, n2 := -1 },
        { v0 := 3, v1 := 0, v2 := 1, n0 := -1, n1 := 0, n2 := -1 } ]
    borders := [2, 1, 0, 3]
    curve := []
    constraints := []
    indexBeforeVoronoi := 0 }

/-- A mesh made of the single triangle (0,0), (4,0), (2,3), with an old curve. -/
def acuteTriangleMesh : Mesh :=
  { vertices := [Vertex.new 0 0 0, Vertex.new 4 0 0, Vertex.new 2 3 0]
    triangles := [{ v0 := 0, v1 := 1, v2 := 2, n0 := -1, n1 := -1, n2 := -1 }]
    borders := [2, 1, 0]
    curve := [{ a := 7, b := 8 }]
    constraints := []
    indexBeforeVoronoi := 0 }

/-! ## Notions used to state the properties of the scans, the iterators and the refinement -/

/-- The coordinates of the vertices of an arena, back-references left out. -/
def coords (l : List Vertex) : List Pvertex3D :=
  l.map Vertex.toP

/-- The answer of `isInThisTriangle` for the point `v` and the triangle `t` of the mesh; a
triangle that names a vertex outside the arena contains nothing. -/
def Mesh.contains (m : Mesh) (v : Vertex) (t : TopoTriangle) : Bool :=
  match m.buildPtriangle3D t with
  | Except.ok p => isInThisTriangle v.toP p
  | Except.error _ => false

/-- The corners of the triangles of a mesh, as points. -/
def Mesh.cornerTriples (m : Mesh) : List (List Pvertex3D) :=
  m.triangles.filterMap
    (fun t => (m.buildPtriangle3D t).toOption.map (fun p => [p.a, p.b, p.c]))

/-- The border rebuilt the way the specification words it: the positions `0 .. n-1` are
scanned, `B[i]` is kept when `usages[i] < 2`, and `id` is emitted right after the position
`first`. -/
def borderScan (id first : Int) (B : List Int) (usages : List Nat) : List Int :=
  (List.range B.length).flatMap
    (fun i => (if usages.getD i 0 < 2 then [B.getD i 0] else []) ++
      (if (i : Int) = first then [id] else []))

/-- The border entries used less than twice, in their order. -/
def keptBorder (B : List Int) (usages : List Nat) : List Int :=
  ((B.zip usages).filter (fun bu => decide (bu.2 < 2))).map Prod.fst

/-- The triangles (0,1,2), (0,2,3), (0,3,4), (0,4,1) around the vertex 0, with the neighbor
slots and the back-references that the OFF loader gives to this face list. -/
def fanMesh : Mesh :=
  { vertices :=
      [ { x := 1 / 2, y := 1 / 2, z := 0, face := 0 }, { x := 0, y := 0, z := 0, face := 0 },
        { x := 1, y := 0, z := 0, face := 0 }, Vertex.new 1 1 0, Vertex.new 0 1 0 ]
    triangles :=
      [ { v0 := 0, v1 := 1, v2 := 2, n0 := -1, n1 := 1, n2 := 3 },
        { v0 := 0, v1 := 2, v2 := 3, n0 := -1, n1 := 2, n2 := 0 },
        { v0 := 0, v1 := 3, v2 := 4, n0 := -1, n1 := 3, n2 := 1 },
        { v0 := 0, v1 := 4, v2 := 1, n0 := -1, n1 := 0, n2 := 2 } ]
    borders := []
    curve := []
    constraints := []
    indexBeforeVoronoi := 0 }

/-- The mesh that `loadConstraints` hands to `refineDelaunay` for the vertices (0,0), (1,0),
(2,8) and the constraint 0 1 listed three times (a file lists as many constraints as
vertices): one triangle, obtuse at (1,0), with angles of about 76, 97 and 7 degrees. -/
def obtuseTriangleMesh : Mesh :=
  { vertices := [Vertex.new 0 0 0, Vertex.new 1 0 0, Vertex.new 2 8 0]
    triangles := [{ v0 := 0, v1 := 1, v2 := 2, n0 := -1, n1 := -1, n2 := -1 }]
    borders := [2, 1, 0]
    curve := []
    constraints := [{ a := 0, b := 1 }, { a := 0, b := 1 }, { a := 0, b := 1 }]
    indexBeforeVoronoi := 0 }

/-- Symmetric adjacency around the triangle `T` of index `i`: a triangle recorded in the
slot opposite a vertex `w` of `T` has the two other vertices of `T` and holds `i`. -/
def symmetricAround (ts : List TopoTriangle) (i : Int) (T : TopoTriangle) : Prop :=
  ∀ w, T.hasVertex w → ∀ N, atE ts (T.getOppositeNeighborOf w) = Except.ok N →
    (∀ u, T.hasVertex u → u ≠ w → N.hasVertex u) ∧ N.holds i

/-- The circulator that `beginRT(0)` gives on `fanMesh`. -/
def fanStart : MeshCirculator :=
  { current := some 0, center := 0, vertices := some fanMesh.vertices,
    triangles := some fanMesh.triangles }

/-! ## Notions used to state the properties of the linking loops -/

/-- The sorted pair of the edge that faces the neighbor slot `s` of `t`. -/
def keyOfSlot (t : Triangle) (s : Int) : Int × Int :=
  if s = 0 then Edge.toPair { a := t.v1, b := t.v2 }
  else if s = 1 then Edge.toPair { a := t.v2, b := t.v0 }
  else Edge.toPair { a := t.v0, b := t.v1 }

/-- A sequence of calls of `neighbor::insert` on the same map and arena. -/
def linkOps : List (Edge × Int) → MapEdges × List TopoTriangle →
    Except Err (MapEdges × List TopoTriangle)
  | [], st => pure st
  | op :: rest, st => do
    let st1 ← neighborInsert st.1 op.1 op.2 st.2
    linkOps rest st1

/-- The triangles given with the edge of sorted pair `k`, in the order of the calls. -/
def occOps (ops : List (Edge × Int)) (k : Int × Int) : List Int :=
  (ops.filter (fun o => decide (o.1.toPair = k))).map Prod.snd

/-- The content of a neighbor slot of triangle `i` after the calls, `occ` being the
triangles given with the edge that faces the slot and `n0` the former content: the first
triangle given holds the last one, every later one holds the first. -/
def expectedSlot (occ : List Int) (i : Int) (n0 : Int) : Int :=
  match occ with
  | [] => n0
  | f :: later => if i = f then later.getLast?.getD n0 else if i ∈ later then f else n0

/-- A call of `neighbor::insert` is well formed in the arena `F`. -/
def OpOk (F : List TopoTriangle) (o : Edge × Int) : Prop :=
  ∃ t, atE F o.2 = Except.ok t ∧ t.distinct ∧ t.hasVertex o.1.a ∧ t.hasVertex o.1.b ∧
    o.1.a ≠ o.1.b

/-- What holds after the calls `ops` made from the empty map on the arena `F`. -/
def LinkInv (F : List TopoTriangle) (ops : List (Edge × Int))
    (st : MapEdges × List TopoTriangle) : Prop :=
  shapes st.2 = shapes F ∧
  (∀ k, MapEdges.find st.1 k = (occOps ops k).head?) ∧
  (∀ i t0 t, atE F i = Except.ok t0 → atE st.2 i = Except.ok t →
    ∀ s, (s = 0 ∨ s = 1 ∨ s = 2) →
      t.neighborAt s = expectedSlot (occOps ops (keyOfSlot t0.toTriangle s)) i (t0.neighborAt s))

/-- The three edges of a triangle in the order in which the linking loops give them. -/
def edgesOf (t : Triangle) : List Edge :=
  [{ a := t.v0, b := t.v1 }, { a := t.v1, b := t.v2 }, { a := t.v2, b := t.v0 }]

/-- The calls of `neighbor::insert` made by a linking loop over the list `L`. -/
def opsOf (F : List TopoTriangle) (L : List Int) : List (Edge × Int) :=
  L.flatMap (fun i =>
    if i = -1 then []
    else match atE F i with
      | Except.ok t => (edgesOf t.toTriangle).map (fun e => (e, i))
      | Except.error _ => [])

/-- One of the three edges of `t` has the sorted pair `k`. -/
def hasKey (t : Triangle) (k : Int × Int) : Prop :=
  keyOfSlot t 0 = k ∨ keyOfSlot t 1 = k ∨ keyOfSlot t 2 = k

instance (t : Triangle) (k : Int × Int) : Decidable (hasKey t k) := by
  unfold hasKey
  infer_instance

/-- The entry `i` of a linking list names a triangle of `F` that has an edge of sorted pair
`k`. -/
def givenPred (F : List TopoTriangle) (k : Int × Int) (i : Int) : Bool :=
  decide (i ≠ -1) &&
    match atE F i with
    | Except.ok t => decide (hasKey t.toTriangle k)
    | Except.error _ => false

/-- The entries of `L` that name a triangle of `F` with an edge of sorted pair `k`. -/
def givenWith (F : List TopoTriangle) (L : List Int) (k : Int × Int) : List Int :=
  L.filter (givenPred F k)

/-- Every result of `x` has the property `P`. -/
def Always {α : Type} (P : α → Prop) (x : Except Err α) : Prop :=
  ∀ r, x = Except.ok r → P r

/-- The mesh `r` has the coordinates, the marker, the curve and the constraints of `m`. -/
def sameFrame (m r : Mesh) : Prop :=
  coords r.vertices = coords m.vertices ∧ r.indexBeforeVoronoi = m.indexBeforeVoronoi ∧
  r.curve = m.curve ∧ r.constraints = m.constraints

/-- A former neighbor of the dying triangle across the edge from `x` to `y`: the slot is
empty, or it names a triangle of the arena with distinct vertices that has `x` and `y` and
not the third vertex `z` of the dying triangle. -/
def formerNeighbor (ts : List TopoTriangle) (slot x y z : Int) : Prop :=
  slot = -1 ∨ ∃ N, atE ts slot = Except.ok N ∧ N.distinct ∧ N.hasVertex x ∧ N.hasVertex y ∧
    ¬ N.hasVertex z

/-- The mesh that `refineDelaunay` leaves on `obtuseTriangleMesh`: the circumcenter
(1/2,33/8) was inserted outside the triangle and one edge was flipped. -/
def refinedObtuse : Mesh :=
  { vertices := [Vertex.new 0 0 0, Vertex.new 1 0 0, Vertex.new 2 8 0,
      Vertex.new (1 / 2) (33 / 8) 0]
    triangles :=
      [ { v0 := 1, v1 := 2, v2 := 3, n0 := -1, n1 := 1, n2 := -1 },
        { v0 := 3, v1 := 0, v2 := 1, n0 := -1, n1 := 0, n2 := -1 } ]
    borders := [2, 1, 0, 3]
    curve := []
    constraints := [{ a := 0, b := 1 }, { a := 0, b := 1 }, { a := 0, b := 1 }]
    indexBeforeVoronoi := 0 }

/-! ## Notions used to state the properties of the linker, the flips and the refinement loop -/

/-- Three triangles that all have the edge {0,2}. -/
def bookArena : List TopoTriangle :=
  [TopoTriangle.new 0 1 2, TopoTriangle.new 0 2 3, TopoTriangle.new 2 0 4]

/-- The middle of the segment between two vertices. -/
def midpoint (a b : Vertex) : Pvertex3D :=
  { x := (a.x + b.x) / 2, y := (a.y + b.y) / 2, z := (a.z + b.z) / 2 }

/-- The mesh that `loadConstraints` hands to `refineDelaunay` for the corners of the unit
square and the constraints 2 0, 0 1, 1 2, 2 3. -/
def constrainedSquareMesh : Mesh :=
  { unitSquareMesh with
    constraints := [{ a := 2, b := 0 }, { a := 0, b := 1 }, { a := 1, b := 2 }, { a := 2, b := 3 }] }

/-- The four vertices of an OFF file whose only face is 1 2 3. -/
def offVertices : List Vertex :=
  [Vertex.new 0 0 0, Vertex.new 1 0 0, Vertex.new 1 1 0, Vertex.new 0 1 0]

/-- No vertex of the arena has a face back-reference. -/
def noBackReference (vs : List Vertex) : Prop :=
  ∀ w ∈ vs, w.face = -1

instance (vs : List Vertex) : Decidable (noBackReference vs) := by
  unfold noBackReference
  infer_instance

/-- Repeated calls of `insertVertexIntoTriangulation`, each with its vertex and its index. -/
def insertCalls (fuel : Nat) : List (Vertex × Int) → Mesh → Except Err Mesh
  | [], m => pure m
  | c :: rest, m => do
    let r ← m.insertVertexIntoTriangulation fuel c.1 c.2
    insertCalls fuel rest r.1

/-- The calls that insert (0,0), (1,0), (0,1), then (1/4,1/4) inside the first triangle and
(1,1) outside of it. -/
def fiveCalls : List (Vertex × Int) :=
  [(Vertex.new 0 0 0, 0), (Vertex.new 1 0 0, 1), (Vertex.new 0 1 0, 2),
   (Vertex.new (1 / 4) (1 / 4) 0, 3), (Vertex.new 1 1 0, 4)]

/-- The mesh that the calls `fiveCalls` build from the empty mesh: the triangle (0,0), (1,0),
(0,1) split at (1/4,1/4), and one triangle more towards (1,1). -/
def fiveCallsBuilt : Mesh :=
  { vertices := [Vertex.new 0 0 0, Vertex.new 1 0 0, Vertex.new 0 1 0,
      Vertex.new (1 / 4) (1 / 4) 0, Vertex.new 1 1 0]
    triangles :=
      [ { v0 := 3, v1 := 1, v2 := 4, n0 := -1, n1 := 3, n2 := 2 },
        { v0 := 3, v1 := 2, v2 := 0, n0 := -1, n1 := 2, n2 := 3 },
        { v0 := 3, v1 := 0, v2 := 1, n0 := -1, n1 := 0, n2 := 1 },
        { v0 := 4, v1 := 2, v2 := 3, n0 := 1, n1 := 0, n2 := -1 } ]
    borders := [2, 4, 1, 0]
    curve := []
    constraints := []
    indexBeforeVoronoi := 0 }

/-- The quantity `|Qencroach| + 2 |notEncroached| + |Qtriangles|`. -/
def RefineState.measure (s : RefineState) : Nat :=
  s.Qencroach.length + 2 * s.notEncroached.length + s.Qtriangles.length

/-- The loop condition of `refineDelaunay` is false. -/
def RefineState.finished (s : RefineState) : Bool :=
  s.Qencroach.isEmpty && s.Qtriangles.isEmpty

/-- The state in which `refineDelaunay` enters its main loop, `Qt` being the poor quality
triangles collected. -/
def refineStart (m : Mesh) (Qt : List Int) : RefineState :=
  { mesh := m, Qtriangles := Qt, Qencroach := (m.collectEncroacheds []).1,
    notEncroached := (m.collectEncroacheds []).2 }

/-- The function handed to `refineDelaunay` as square root in the witness below. -/
def sqrtStub (x : ℚ) : ℚ := x

/-- An outer neighbor slot of two triangles about to be flipped: the slot is empty, or it
names a triangle of the arena with distinct vertices that has `x` and `y` and neither `z1`
nor `z2`. -/
def outerNeighbor (ts : List TopoTriangle) (slot x y z1 z2 : Int) : Prop :=
  slot = -1 ∨ ∃ N, atE ts slot = Except.ok N ∧ N.distinct ∧ N.hasVertex x ∧ N.hasVertex y ∧
    ¬ N.hasVertex z1 ∧ ¬ N.hasVertex z2

/-- The triangle named by `slot`, when there is one, holds `f` in the neighbor slot opposite
its vertex that is neither `x` nor `y`. -/
def holdsAcross (ts : List TopoTriangle) (slot x y f : Int) : Prop :=
  ∀ N, atE ts slot = Except.ok N → ∀ w, N.hasVertex w → w ≠ x → w ≠ y →
    N.getOppositeNeighborOf w = f

/-- The configuration around the edge of `a` and `b` shared by the triangles `f1`, a rotation
of `(u1, a, b)`, and `f2`, a rotation of `(u2, b, a)`, of a mesh: the four vertices are
vertices of the mesh, the two triangles hold each other across the edge, and their outer
neighbors are `nA` across the edge of `u1` and `a`, `nB` across the one of `a` and `u2`,
`nC` across the one of `u2` and `b`, `nD` across the one of `b` and `u1`, each of them none
or a triangle that has the two ends of its edge and no other of the four vertices. -/
def flipReady (m : Mesh) (f1 f2 u1 u2 a b nA nB nC nD : Int) : Prop :=
  u1 ≠ u2 ∧
  (∀ w, w = u1 ∨ w = u2 ∨ w = a ∨ w = b → ∃ x, atE m.vertices w = Except.ok x) ∧
  ∃ t1 t2, atE m.triangles f1 = Except.ok t1 ∧ atE m.triangles f2 = Except.ok t2 ∧
    t1.distinct ∧ t2.distinct ∧ t1.isRotationOf u1 a b ∧ t2.isRotationOf u2 b a ∧
    t1.getOppositeNeighborOf u1 = f2 ∧ t1.getOppositeNeighborOf a = nD ∧
    t1.getOppositeNeighborOf b = nA ∧
    t2.getOppositeNeighborOf u2 = f1 ∧ t2.getOppositeNeighborOf b = nB ∧
    t2.getOppositeNeighborOf a = nC ∧
    outerNeighbor m.triangles nA u1 a b u2 ∧ outerNeighbor m.triangles nB a u2 b u1 ∧
    outerNeighbor m.triangles nC u2 b a u1 ∧ outerNeighbor m.triangles nD b u1 a u2

/-- Symmetric wiring of the outer neighbors of `flipReady`: each one holds, across its edge,
the triangle of the pair that has this edge. -/
def flipWired (m : Mesh) (f1 f2 u1 u2 a b nA nB nC nD : Int) : Prop :=
  holdsAcross m.triangles nA u1 a f1 ∧ holdsAcross m.triangles nB a u2 f2 ∧
  holdsAcross m.triangles nC u2 b f2 ∧ holdsAcross m.triangles nD b u1 f1

/-- The divisor `len_abXac` of `centerSurroundingCircle2D`, the squared length of the cross
product of two sides; it is zero when the three corners are collinear. -/
def len_abXac (t : Ptriangle3D) : ℚ :=
  length2 (cross (psub t.b t.a) (psub t.c t.a))

/-- An outer neighbor slot, symmetrically wired: the slot is none, or it names a triangle of
the arena with distinct vertices that has `x` and `y` and holds `f` in the slot opposite its
third vertex. -/
def wiredTo (ts : List TopoTriangle) (slot x y f : Int) : Prop :=
  slot = -1 ∨ ∃ N, atE ts slot = Except.ok N ∧ N.distinct ∧ N.hasVertex x ∧ N.hasVertex y ∧
    ∀ w, N.hasVertex w → w ≠ x → w ≠ y → N.getOppositeNeighborOf w = f

/-- Two mutual neighbors with symmetrically wired, pairwise distinct outer neighbors: `f1`,
a rotation of `(u1, a, b)`, and `f2`, a rotation of `(u2, b, a)`, are triangles with distinct
vertices, vertices of the mesh, that hold each other across the edge of `a` and `b`; their
outer neighbors `nA` (across `u1 a`), `nB` (across `a u2`), `nC` (across `u2 b`) and `nD`
(across `b u1`) are pairwise distinct where there is one, distinct from `f1` and `f2`, and
each holds across its edge the triangle of the pair that has this edge. -/
def flipClaimed (m : Mesh) (f1 f2 u1 u2 a b nA nB nC nD : Int) : Prop :=
  u1 ≠ u2 ∧
  (∀ w, w = u1 ∨ w = u2 ∨ w = a ∨ w = b → ∃ x, atE m.vertices w = Except.ok x) ∧
  (∃ t1 t2, atE m.triangles f1 = Except.ok t1 ∧ atE m.triangles f2 = Except.ok t2 ∧
    t1.distinct ∧ t2.distinct ∧ t1.isRotationOf u1 a b ∧ t2.isRotationOf u2 b a ∧
    t1.getOppositeNeighborOf u1 = f2 ∧ t1.getOppositeNeighborOf a = nD ∧
    t1.getOppositeNeighborOf b = nA ∧
    t2.getOppositeNeighborOf u2 = f1 ∧ t2.getOppositeNeighborOf b = nB ∧
    t2.getOppositeNeighborOf a = nC) ∧
  ([nA, nB, nC, nD].filter (fun n => decide (n ≠ -1))).Nodup ∧
  (∀ n, n = nA ∨ n = nB ∨ n = nC ∨ n = nD → n ≠ f1 ∧ n ≠ f2) ∧
  wiredTo m.triangles nA u1 a f1 ∧ wiredTo m.triangles nB a u2 f2 ∧
  wiredTo m.triangles nC u2 b f2 ∧ wiredTo m.triangles nD b u1 f1

/-- The triangle named by `slot`, when there is one, has neither `z1` nor `z2`. -/
def lacks (ts : List TopoTriangle) (slot z1 z2 : Int) : Prop :=
  ∀ N, atE ts slot = Except.ok N → ¬ N.hasVertex z1 ∧ ¬ N.hasVertex z2

/-- No outer neighbor of the pair has a third of the four vertices `u1`, `u2`, `a`, `b`:
each has the two ends of its edge only. -/
def outerApart (m : Mesh) (u1 u2 a b nA nB nC nD : Int) : Prop :=
  lacks m.triangles nA b u2 ∧ lacks m.triangles nB b u1 ∧
  lacks m.triangles nC a u1 ∧ lacks m.triangles nD a u2

/-- Two outer neighbors `n`, across the edge of `x` and `p`, and `n2`, across the edge of
`p` and `y`, around the vertex `p` of the pair: when they have another vertex in common,
hence a common edge from `p`, each holds the other across this edge. -/
def wiredAround (ts : List TopoTriangle) (n n2 x p y : Int) : Prop :=
  ∀ N N2 v, atE ts n = Except.ok N → atE ts n2 = Except.ok N2 →
    N.hasVertex v → N2.hasVertex v → v ≠ p →
    N.getOppositeNeighborOf x = n2 ∧ N2.getOppositeNeighborOf y = n

/-- Outer neighbors of the pair that share an edge hold each other across it. -/
def outerWired (m : Mesh) (u1 u2 a b nA nB nC nD : Int) : Prop :=
  wiredAround m.triangles nA nB u1 a u2 ∧ wiredAround m.triangles nB nC a u2 b ∧
  wiredAround m.triangles nC nD u2 b u1 ∧ wiredAround m.triangles nD nA b u1 a

/-- The neighbor slots opposite `x` and `y` of the triangle `n` are the same in the two
arenas. -/
def keepsSides (ts ts2 : List TopoTriangle) (n x y : Int) : Prop :=
  ∀ N s, atE ts n = Except.ok N → atE ts2 n = Except.ok s →
    s.getOppositeNeighborOf x = N.getOppositeNeighborOf x ∧
    s.getOppositeNeighborOf y = N.getOppositeNeighborOf y

/-- From the mesh `m` to the mesh `m2`, off the pair `f1`, `f2`: every other triangle keeps
its vertices; it is as it was when it is no outer neighbor of the pair, and an outer
neighbor keeps the two slots that do not face the pair. -/
def sameOffPair (m m2 : Mesh) (f1 f2 u1 u2 a b nA nB nC nD : Int) : Prop :=
  ∀ i t, i ≠ f1 → i ≠ f2 → atE m.triangles i = Except.ok t →
    ∃ s, atE m2.triangles i = Except.ok s ∧ s.toTriangle = t.toTriangle ∧
      (i ≠ nA → i ≠ nB → i ≠ nC → i ≠ nD → s = t) ∧
      (i = nA → s.getOppositeNeighborOf u1 = t.getOppositeNeighborOf u1 ∧
        s.getOppositeNeighborOf a = t.getOppositeNeighborOf a) ∧
      (i = nB → s.getOppositeNeighborOf a = t.getOppositeNeighborOf a ∧
        s.getOppositeNeighborOf u2 = t.getOppositeNeighborOf u2) ∧
      (i = nC → s.getOppositeNeighborOf u2 = t.getOppositeNeighborOf u2 ∧
        s.getOppositeNeighborOf b = t.getOppositeNeighborOf b) ∧
      (i = nD → s.getOppositeNeighborOf b = t.getOppositeNeighborOf b ∧
        s.getOppositeNeighborOf u1 = t.getOppositeNeighborOf u1)

/-- Five points in general position, the first three in clockwise order. -/
def overlapPoints : List Vertex :=
  [Vertex.new 4 3 0, Vertex.new 6 6 0, Vertex.new 5 2 0, Vertex.new 3 3 0, Vertex.new 4 5 0]

/-- The mesh that the insertion of `overlapPoints` builds from the empty mesh. -/
def overlapMesh : Mesh :=
  { vertices := overlapPoints
    triangles :=
      [ { v0 := 0, v1 := 1, v2 := 4, n0 := -1, n1 := 2, n2 := -1 },
        { v0 := 3, v1 := 2, v2 := 0, n0 := 3, n1 := 2, n2 := -1 },
        { v0 := 4, v1 := 3, v2 := 0, n0 := 1, n1 := 0, n2 := -1 },
        { v0 := 0, v1 := 2, v2 := 4, n0 := -1, n1 := -1, n2 := 1 } ]
    borders := [2, 3, 4, 1, 0]
    curve := []
    constraints := []
    indexBeforeVoronoi := 0 }

/-- The mesh that the insertion of `overlapPoints` followed by (1,2) builds from the empty
mesh. -/
def overlapMesh6 : Mesh :=
  { vertices := overlapPoints ++ [Vertex.new 1 2 0]
    triangles :=
      [ { v0 := 0, v1 := 1, v2 := 4, n0 := -1, n1 := 2, n2 := -1 },
        { v0 := 3, v1 := 2, v2 := 0, n0 := 3, n1 := 2, n2 := 4 },
        { v0 := 4, v1 := 3, v2 := 0, n0 := 1, n1 := 0, n2 := 5 },
        { v0 := 0, v1 := 2, v2 := 4, n0 := -1, n1 := -1, n2 := 1 },
        { v0 := 2, v1 := 3, v2 := 5, n0 := 5, n1 := -1, n2 := 1 },
        { v0 := 3, v1 := 4, v2 := 5, n0 := -1, n1 := 4, n2 := 2 } ]
    borders := [2, 5, 4, 1, 0]
    curve := []
    constraints := []
    indexBeforeVoronoi := 0 }

/-- The position before `j` on a cycle of length `n`. -/
def predIdx (n j : Nat) : Nat :=
  if j = 0 then n - 1 else j - 1

/-- The number of positions `i, i+1, ..., i+len-1` at which `vis` holds. -/
def visCount (vis : Nat → Bool) : Nat → Nat → Nat
  | _, 0 => 0
  | i, len + 1 => (if vis i = true then 1 else 0) + visCount vis (i + 1) len

/-- The border edge that starts at position `i` of the border `B` is seen from `ins`: the
answer of the test `isWellOriented` that the scan of `insertPointOutside` makes at this
position (false where the scan would throw). -/
def visibleEdge (vs : List Vertex) (B : List Int) (ins : Vertex) (i : Nat) : Bool :=
  match atE vs (B.getD i 0), atE vs (B.getD ((i + 1) % B.length) 0) with
  | Except.ok c, Except.ok n => isWellOriented c.toP n.toP ins.toP
  | _, _ => false

/-- The vertex after the current one in the border scan of `insertPointOutside`: the first
of the entries left, or the first entry of the border when none is left. -/
def nextOnBorder (head : Int) (rest : List Int) : Int :=
  match rest with
  | [] => head
  | n :: _ => n

/-- From the point `ins`, the border edges seen are the `k` edges that start at the positions
`s`, `s + 1`, ... taken cyclically, `k` being at least one and less than the number of
edges. -/
def seesRun (vs : List Vertex) (B : List Int) (ins : Vertex) (s k : Nat) : Prop :=
  1 ≤ k ∧ k < B.length ∧ s < B.length ∧
  ∀ j, j < B.length →
    (visibleEdge vs B ins j = true ↔ ((s ≤ j ∧ j < s + k) ∨ j + B.length < s + k))

instance (vs : List Vertex) (B : List Int) (ins : Vertex) (s k : Nat) :
    Decidable (seesRun vs B ins s k) := by
  unfold seesRun
  infer_instance

/-- The counting relation between triangles, vertices and border entries. -/
def eulerCount (m : Mesh) : Prop :=
  (m.triangles.length : Int) = 2 * (m.vertices.length : Int) - 2 - (m.borders.length : Int)

/-- The counting relation as soon as the mesh has three vertices; before, the mesh has no
triangle and no border. -/
def countsHold (m : Mesh) : Prop :=
  (m.vertices.length < 3 ∧ m.triangles.length = 0 ∧ m.borders.length = 0) ∨
  (3 ≤ m.vertices.length ∧ eulerCount m)

/-- The mesh in which `insertVertexIntoTriangulation` looks for the vertex `v`. -/
def Mesh.withVertex (m : Mesh) (v : Vertex) : Mesh :=
  { m with vertices := m.vertices ++ [v] }

/-- When the vertex `v`, inserted into a mesh of three vertices or more, is in no triangle,
it sees a run of border edges. -/
def sawRun (m : Mesh) (v : Vertex) : Prop :=
  3 ≤ m.vertices.length → ((m.withVertex v).isInOneTriangle v).toOption = some (-1) →
    ∃ s, s < m.borders.length ∧ ∃ k, k < m.borders.length ∧
      seesRun (m.withVertex v).vertices m.borders v s k

instance (m : Mesh) (v : Vertex) : Decidable (sawRun m v) := by
  unfold sawRun
  infer_instance

/-- Along the calls, every vertex inserted outside all triangles saw a run of border
edges. -/
def runsSeen (fuel : Nat) : List (Vertex × Int) → Mesh → Bool
  | [], _ => true
  | c :: rest, m =>
    decide (sawRun m c.1) &&
      match m.insertVertexIntoTriangulation fuel c.1 c.2 with
      | Except.ok r => runsSeen fuel rest r.1
      | Except.error _ => true

/-! ## Lemmas on the step budget -/

theorem okLe_refl {α : Type} (x : Except Err α) : OkLe x x := fun _ h => h

theorem okLe_bind {α β : Type} {x y : Except Err α} {f g : α → Except Err β}
    (hx : OkLe x y) (hf : ∀ a, OkLe (f a) (g a)) : OkLe (x >>= f) (y >>= g) := by
  intro r h
  cases hxa : x with
  | error e =>
    rw [hxa] at h
    change Except.error e = Except.ok r at h
    cases h
  | ok a =>
    rw [hxa] at h
    rw [hx a hxa]
    exact hf a r h

/-- One more unit of budget does not change the result of a restoration that ends. -/
theorem incrementalDelaunayLoop_succ (fuel : Nat) :
    ∀ (m : Mesh) (queue : List Int),
      OkLe (incrementalDelaunayLoop fuel m queue) (incrementalDelaunayLoop (fuel + 1) m queue) := by
  induction fuel with
  | zero =>
    intro m queue r h
    unfold incrementalDelaunayLoop at h ⊢
    cases hq : getNextAvailableIndex queue with
    | none => simpa [hq] using h
    | some cq =>
      obtain ⟨current, queue1⟩ := cq
      simp [hq] at h
  | succ n ih =>
    intro m queue r h
    unfold incrementalDelaunayLoop at h ⊢
    cases hq : getNextAvailableIndex queue with
    | none => simpa [hq] using h
    | some cq =>
      obtain ⟨current, queue1⟩ := cq
      simp only [hq] at h ⊢
      cases hl : m.localDelaunay current with
      | error e => simp [hl, bind, Except.bind] at h
      | ok toFlipWith =>
        simp only [hl, bind, Except.bind] at h ⊢
        by_cases ht : toFlipWith = -1
        · simp only [ht, if_true] at h ⊢
          exact ih _ _ _ h
        · simp only [ht, if_false] at h ⊢
          cases h1 : atE m.triangles current with
          | error e => simp [h1] at h
          | ok tCurrent =>
            simp only [h1] at h ⊢
            cases h2 : atE m.triangles toFlipWith with
            | error e => simp [h2] at h
            | ok tFlip =>
              simp only [h2] at h ⊢
              cases h3 : m.flip current toFlipWith with
              | error e => simp [h3] at h
              | ok m1 =>
                simp only [h3] at h ⊢
                exact ih _ _ _ h

theorem insertPointIntoTriangle_fuel (fuel : Nat) (m : Mesh) (v : Vertex) (f i : Int) :
    OkLe (m.insertPointIntoTriangle fuel v f i)
      (m.insertPointIntoTriangle (fuel + 1) v f i) := by
  unfold Mesh.insertPointIntoTriangle
  refine okLe_bind (okLe_refl _) ?_
  rintro ⟨m1, v1, news, concerned⟩
  refine okLe_bind (okLe_refl _) ?_
  rintro ⟨m2, concerned2⟩
  exact okLe_bind (incrementalDelaunayLoop_succ fuel m2 concerned2) (fun _ => okLe_refl _)

theorem insertPointOutside_fuel (fuel : Nat) (m : Mesh) (v : Vertex) (i : Int) :
    OkLe (m.insertPointOutside fuel v i) (m.insertPointOutside (fuel + 1) v i) := by
  unfold Mesh.insertPointOutside
  refine okLe_bind (okLe_refl _) (fun scan => ?_)
  refine okLe_bind (okLe_refl _) (fun m3 => ?_)
  refine okLe_bind (okLe_refl _) (fun concerned => ?_)
  exact okLe_bind (incrementalDelaunayLoop_succ fuel m3 concerned) (fun _ => okLe_refl _)

theorem insertVertexIntoTriangulation_fuel (fuel : Nat) (m : Mesh) (v : Vertex) (i : Int) :
    OkLe (m.insertVertexIntoTriangulation fuel v i)
      (m.insertVertexIntoTriangulation (fuel + 1) v i) := by
  unfold Mesh.insertVertexIntoTriangulation
  dsimp only
  split
  · exact okLe_refl _
  · split
    · refine okLe_bind (okLe_refl _) (fun idx => ?_)
      split
      · exact insertPointIntoTriangle_fuel fuel _ v idx i
      · exact insertPointOutside_fuel fuel _ v i
    · exact okLe_refl _

theorem insertSequence_fuel (fuel : Nat) (pts : List Vertex) :
    ∀ m : Mesh, OkLe (insertSequence fuel pts m) (insertSequence (fuel + 1) pts m) := by
  induction pts with
  | nil =>
    intro m
    exact okLe_refl _
  | cons v rest ih =>
    intro m
    unfold insertSequence
    exact okLe_bind (insertVertexIntoTriangulation_fuel fuel m v _) (fun r => ih r.1)

/-- A run that ends within some budget ends with the same mesh within any larger one. -/
theorem insertSequence_mono (fuel fuel2 : Nat) (hle : fuel ≤ fuel2) (pts : List Vertex)
    (m r : Mesh) (h : insertSequence fuel pts m = Except.ok r) :
    insertSequence fuel2 pts m = Except.ok r := by
  induction hle with
  | refl => exact h
  | step _ ih => exact insertSequence_fuel _ pts m r ih

/-- From the triangles computed within the budget `n` to the run within any larger one. -/
theorem triangles_of_eval (n fuel : Nat) (pts : List Vertex) (l : List TopoTriangle)
    (h : (insertSequence n pts Mesh.init).toOption.map Mesh.triangles = some l) :
    ∃ m, insertSequence (n + fuel) pts Mesh.init = Except.ok m ∧ m.triangles = l := by
  cases hrun : insertSequence n pts Mesh.init with
  | error e => simp [hrun, Except.toOption] at h
  | ok m =>
    refine ⟨m, insertSequence_mono n (n + fuel) (Nat.le_add_right n fuel) pts _ m hrun, ?_⟩
    simpa [hrun, Except.toOption] using h

/-! ## Lemmas on the predicates -/

theorem isInSurroundingCircle_eq (p q r s : Pvertex3D) :
    isInSurroundingCircle p q r s = decide (inCircleDet p q r s ≤ 0) := rfl

/-- When `c` is at the same distance from `p`, `q` and `r`, the in-circle determinant is the
signed area of `p q r` times the power of `s` with respect to the circle of center `c`. -/
theorem inCircleDet_of_center (p q r s c : Pvertex3D)
    (hq : dist2xy c q = dist2xy c p) (hr : dist2xy c r = dist2xy c p) :
    inCircleDet p q r s = signedArea p q r * (dist2xy c s - dist2xy c p) := by
  simp only [inCircleDet, det, signedArea, dist2xy] at *
  linear_combination
    ((r.x - p.x) * (s.y - p.y) - (s.x - p.x) * (r.y - p.y)) * hq
    - ((q.x - p.x) * (s.y - p.y) - (s.x - p.x) * (q.y - p.y)) * hr

/-- A point at the same planar distance from `p`, `q` and `r` exists as soon as they are
not collinear. -/
theorem circumcenter_exists (p q r : Pvertex3D) (h : signedArea p q r ≠ 0) :
    ∃ c : Pvertex3D, dist2xy c q = dist2xy c p ∧ dist2xy c r = dist2xy c p := by
  have hA : (q.x - p.x) * (r.y - p.y) - (q.y - p.y) * (r.x - p.x) ≠ 0 := h
  refine ⟨⟨p.x + ((r.y - p.y) * ((q.x - p.x) * (q.x - p.x) + (q.y - p.y) * (q.y - p.y))
        - (q.y - p.y) * ((r.x - p.x) * (r.x - p.x) + (r.y - p.y) * (r.y - p.y)))
        / (2 * ((q.x - p.x) * (r.y - p.y) - (q.y - p.y) * (r.x - p.x))),
      p.y + ((q.x - p.x) * ((r.x - p.x) * (r.x - p.x) + (r.y - p.y) * (r.y - p.y))
        - (r.x - p.x) * ((q.x - p.x) * (q.x - p.x) + (q.y - p.y) * (q.y - p.y)))
        / (2 * ((q.x - p.x) * (r.y - p.y) - (q.y - p.y) * (r.x - p.x))), 0⟩, ?_, ?_⟩
  · simp only [dist2xy]
    field_simp
    ring
  · simp only [dist2xy]
    field_simp
    ring

theorem cross_z_eq_signedArea (a b c : Pvertex3D) :
    (cross (psub a b) (psub a c)).z = signedArea a b c := by
  simp only [cross, psub, signedArea]
  ring

theorem isWellOriented_iff_pos (a b c : Pvertex3D) :
    isWellOriented a b c = true ↔ 0 < signedArea a b c := by
  simp [isWellOriented, cross_z_eq_signedArea]

theorem signedArea_rotate (a b c : Pvertex3D) : signedArea b c a = signedArea a b c := by
  simp only [signedArea]
  ring

theorem signedArea_swap (a b c : Pvertex3D) : signedArea b a c = - signedArea a b c := by
  simp only [signedArea]
  ring

theorem denominator_eq (t : Ptriangle3D) :
    (t.b.y - t.c.y) * (t.a.x - t.c.x) + (t.c.x - t.b.x) * (t.a.y - t.c.y)
      = signedArea t.a t.b t.c := by
  simp only [signedArea]
  ring

theorem denominator_ne (t : Ptriangle3D) (h : signedArea t.a t.b t.c ≠ 0) :
    (t.b.y - t.c.y) * (t.a.x - t.c.x) + (t.c.x - t.b.x) * (t.a.y - t.c.y) ≠ 0 := by
  rw [denominator_eq]
  exact h

theorem isInThisTriangle_eq (v : Pvertex3D) (t : Ptriangle3D)
    (h : signedArea t.a t.b t.c ≠ 0) :
    isInThisTriangle v t = true ↔
      0 ≤ weightA v t ∧ weightA v t ≤ 1 ∧ 0 ≤ weightB v t ∧ weightB v t ≤ 1 ∧
      0 ≤ 1 - weightA v t - weightB v t ∧ 1 - weightA v t - weightB v t ≤ 1 := by
  have hne := denominator_ne t h
  simp only [isInThisTriangle, weightA, weightB, if_neg hne, Bool.and_eq_true,
    decide_eq_true_eq]
  tauto

/-- The weights of a convex combination are the ones the code computes. -/
theorem weights_of_combination (v : Pvertex3D) (t : Ptriangle3D)
    (h : signedArea t.a t.b t.c ≠ 0) (wa wb wc : ℚ) (hsum : wa + wb + wc = 1)
    (hx : v.x = wa * t.a.x + wb * t.b.x + wc * t.c.x)
    (hy : v.y = wa * t.a.y + wb * t.b.y + wc * t.c.y) :
    weightA v t = wa ∧ weightB v t = wb := by
  have hne := denominator_ne t h
  have hc : wc = 1 - wa - wb := by linarith
  constructor
  · rw [weightA, div_eq_iff hne, hx, hy, hc]
    ring
  · rw [weightB, div_eq_iff hne, hx, hy, hc]
    ring

/-- The weights the code computes rebuild the point. -/
theorem combination_of_weights (v : Pvertex3D) (t : Ptriangle3D)
    (h : signedArea t.a t.b t.c ≠ 0) :
    v.x = weightA v t * t.a.x + weightB v t * t.b.x
        + (1 - weightA v t - weightB v t) * t.c.x ∧
    v.y = weightA v t * t.a.y + weightB v t * t.b.y
        + (1 - weightA v t - weightB v t) * t.c.y := by
  have hne := denominator_ne t h
  constructor
  · simp only [weightA, weightB]
    field_simp
    ring
  · simp only [weightA, weightB]
    field_simp
    ring

theorem isInThisTriangle_iff_closed (v : Pvertex3D) (t : Ptriangle3D)
    (h : signedArea t.a t.b t.c ≠ 0) :
    isInThisTriangle v t = true ↔ InClosedTriangle v t := by
  rw [isInThisTriangle_eq v t h]
  constructor
  · rintro ⟨ha0, _, hb0, _, hc0, _⟩
    obtain ⟨hx, hy⟩ := combination_of_weights v t h
    exact ⟨weightA v t, weightB v t, 1 - weightA v t - weightB v t, ha0, hb0, hc0,
      by ring, hx, hy⟩
  · rintro ⟨wa, wb, wc, ha, hb, hc, hsum, hx, hy⟩
    obtain ⟨hA, hB⟩ := weights_of_combination v t h wa wb wc hsum hx hy
    rw [hA, hB]
    refine ⟨ha, ?_, hb, ?_, ?_, ?_⟩ <;> linarith

/-- Coordinates of the point returned by `centerSurroundingCircle2D` for a triangle of the
plane `z = 0` that is not flat. -/
theorem center_coords (t : Ptriangle3D) (ha : t.a.z = 0) (hb : t.b.z = 0) (hc : t.c.z = 0)
    (h : signedArea t.a t.b t.c ≠ 0) :
    (centerSurroundingCircle2D t).x = t.a.x +
      ((t.c.y - t.a.y) * ((t.b.x - t.a.x) * (t.b.x - t.a.x) + (t.b.y - t.a.y) * (t.b.y - t.a.y))
        - (t.b.y - t.a.y) * ((t.c.x - t.a.x) * (t.c.x - t.a.x) + (t.c.y - t.a.y) * (t.c.y - t.a.y)))
        / (2 * signedArea t.a t.b t.c) ∧
    (centerSurroundingCircle2D t).y = t.a.y +
      ((t.b.x - t.a.x) * ((t.c.x - t.a.x) * (t.c.x - t.a.x) + (t.c.y - t.a.y) * (t.c.y - t.a.y))
        - (t.c.x - t.a.x) * ((t.b.x - t.a.x) * (t.b.x - t.a.x) + (t.b.y - t.a.y) * (t.b.y - t.a.y)))
        / (2 * signedArea t.a t.b t.c) ∧
    (centerSurroundingCircle2D t).z = 0 := by
  have hw : ∀ bx by' cx cy : ℚ, bx * cy - by' * cx ≠ 0 → ∀ n : ℚ,
      n * (bx * cy - by' * cx) * (1 / 2 / ((bx * cy - by' * cx) * (bx * cy - by' * cx)))
        = n / (2 * (bx * cy - by' * cx)) := by
    intro bx by' cx cy hne n
    field_simp
    ring
  have hA : (t.b.x - t.a.x) * (t.c.y - t.a.y) - (t.b.y - t.a.y) * (t.c.x - t.a.x) ≠ 0 := h
  simp only [centerSurroundingCircle2D, padd, pscale, cross, psub, length2, ha, hb, hc,
    signedArea, sub_zero, mul_zero, zero_mul, add_zero, zero_add, zero_sub, sub_self]
  refine ⟨?_, ?_, ?_⟩
  · rw [← hw _ _ _ _ hA]
  · rw [← hw _ _ _ _ hA]
    ring
  · ring_nf

/-! ## Incremental insertion (C1 to C4) -/

/-- C1 (evaluation at a failing input): the points (0,0), (0,2), (2,0), (1,2) are
inserted in this order from the empty mesh, the first three being clockwise.  Every
restoration ends (a budget of 10 popped candidates or more is enough), and the arena is as
stated: triangle 0 = (0,1,2) records triangle 1 = (1,0,3) across its edge {0,1}, and vertex
3 = (1,2), the vertex of triangle 1 off that edge, is strictly inside the circle of center
(1,1) through the corners (0,0), (0,2), (2,0) of triangle 0.  The Delaunay property fails
there. -/
theorem delaunay_fails_clockwise_start (fuel : Nat) :
    ∃ m, insertSequence (10 + fuel)
        [Vertex.new 0 0 0, Vertex.new 0 2 0, Vertex.new 2 0 0, Vertex.new 1 2 0]
        Mesh.init = Except.ok m ∧
      m.triangles =
        [ { v0 := 0, v1 := 1, v2 := 2, n0 := -1, n1 := 2, n2 := 1 },
          { v0 := 1, v1 := 0, v2 := 3, n0 := 2, n1 := -1, n2 := 0 },
          { v0 := 0, v1 := 2, v2 := 3, n0 := -1, n1 := 1, n2 := 0 } ] ∧
      TopoTriangle.getCommonEdge { v0 := 0, v1 := 1, v2 := 2, n0 := -1, n1 := 2, n2 := 1 } 1
        = { a := 0, b := 1 } ∧
      TopoTriangle.getVertexOutsideOf { v0 := 1, v1 := 0, v2 := 3, n0 := 2, n1 := -1, n2 := 0 }
        { a := 0, b := 1 } = 3 ∧
      dist2xy ⟨1, 1, 0⟩ ⟨0, 2, 0⟩ = dist2xy ⟨1, 1, 0⟩ ⟨0, 0, 0⟩ ∧
      dist2xy ⟨1, 1, 0⟩ ⟨2, 0, 0⟩ = dist2xy ⟨1, 1, 0⟩ ⟨0, 0, 0⟩ ∧
      dist2xy ⟨1, 1, 0⟩ ⟨1, 2, 0⟩ < dist2xy ⟨1, 1, 0⟩ ⟨0, 0, 0⟩ := by
  obtain ⟨m, hrun, htri⟩ := triangles_of_eval 10 fuel
    [Vertex.new 0 0 0, Vertex.new 0 2 0, Vertex.new 2 0 0, Vertex.new 1 2 0] _
    (by decide! :
      (insertSequence 10
        [Vertex.new 0 0 0, Vertex.new 0 2 0, Vertex.new 2 0 0, Vertex.new 1 2 0]
        Mesh.init).toOption.map Mesh.triangles
      = some
        [ { v0 := 0, v1 := 1, v2 := 2, n0 := -1, n1 := 2, n2 := 1 },
          { v0 := 1, v1 := 0, v2 := 3, n0 := 2, n1 := -1, n2 := 0 },
          { v0 := 0, v1 := 2, v2 := 3, n0 := -1, n1 := 1, n2 := 0 } ])
  refine ⟨m, hrun, htri, ?_⟩
  decide!

/-- C2 (evaluation at a failing input): six points in general position, the first three
clockwise, are inserted from the empty mesh; every restoration ends (a budget of 20 or more
is enough).  In the resulting arena triangle 3 = (4,3,2) holds triangle 0 in the slot
opposite its vertex 3, that is across the edge {2,4}, while triangle 0 = (2,0,4), which
contains both ends of that edge, holds triangle 4, not triangle 3, in the slot opposite its
vertex 0, the one off that edge.  Adjacency is not symmetric there. -/
theorem adjacency_asymmetric_clockwise_start (fuel : Nat) :
    ∃ m, insertSequence (20 + fuel)
        [Vertex.new 1 3 0, Vertex.new 3 (-2) 0, Vertex.new 0 0 0, Vertex.new (-2) (-3) 0,
          Vertex.new 0 3 0, Vertex.new (-2) (-2) 0]
        Mesh.init = Except.ok m ∧
      m.triangles =
        [ { v0 := 2, v1 := 0, v2 := 4, n0 := -1, n1 := 4, n2 := -1 },
          { v0 := 3, v1 := 1, v2 := 2, n0 := 2, n1 := 3, n2 := -1 },
          { v0 := 2, v1 := 1, v2 := 4, n0 := -1, n1 := -1, n2 := 1 },
          { v0 := 4, v1 := 3, v2 := 2, n0 := 1, n1 := 0, n2 := -1 },
          { v0 := 2, v1 := 4, v2 := 5, n0 := -1, n1 := -1, n2 := 0 },
          { v0 := 3, v1 := 0, v2 := 5, n0 := -1, n1 := -1, n2 := -1 } ] ∧
      TopoTriangle.getOppositeNeighborOf
        { v0 := 4, v1 := 3, v2 := 2, n0 := 1, n1 := 0, n2 := -1 } 3 = 0 ∧
      TopoTriangle.getCommonEdge { v0 := 4, v1 := 3, v2 := 2, n0 := 1, n1 := 0, n2 := -1 } 0
        = { a := 2, b := 4 } ∧
      TopoTriangle.getVertexOutsideOf { v0 := 2, v1 := 0, v2 := 4, n0 := -1, n1 := 4, n2 := -1 }
        { a := 2, b := 4 } = 0 ∧
      TopoTriangle.getOppositeNeighborOf
        { v0 := 2, v1 := 0, v2 := 4, n0 := -1, n1 := 4, n2 := -1 } 0 = 4 := by
  obtain ⟨m, hrun, htri⟩ := triangles_of_eval 20 fuel
    [Vertex.new 1 3 0, Vertex.new 3 (-2) 0, Vertex.new 0 0 0, Vertex.new (-2) (-3) 0,
      Vertex.new 0 3 0, Vertex.new (-2) (-2) 0] _
    (by decide! :
      (insertSequence 20
        [Vertex.new 1 3 0, Vertex.new 3 (-2) 0, Vertex.new 0 0 0, Vertex.new (-2) (-3) 0,
          Vertex.new 0 3 0, Vertex.new (-2) (-2) 0]
        Mesh.init).toOption.map Mesh.triangles
      = some
        [ { v0 := 2, v1 := 0, v2 := 4, n0 := -1, n1 := 4, n2 := -1 },
          { v0 := 3, v1 := 1, v2 := 2, n0 := 2, n1 := 3, n2 := -1 },
          { v0 := 2, v1 := 1, v2 := 4, n0 := -1, n1 := -1, n2 := 1 },
          { v0 := 4, v1 := 3, v2 := 2, n0 := 1, n1 := 0, n2 := -1 },
          { v0 := 2, v1 := 4, v2 := 5, n0 := -1, n1 := -1, n2 := 0 },
          { v0 := 3, v1 := 0, v2 := 5, n0 := -1, n1 := -1, n2 := -1 } ])
  refine ⟨m, hrun, htri, ?_⟩
  decide

/-- C3 (evaluation at a failing input): the points (0,0), (0,1), (1,0), which are not
collinear, are inserted from the empty mesh.  The arena holds the single triangle (0,1,2),
whose three indices are distinct, and `isWellOriented` is false on its corners taken in slot
order: the triangle is stored clockwise. -/
theorem orientation_fails_clockwise_start (fuel : Nat) :
    ∃ m p, insertSequence fuel [Vertex.new 0 0 0, Vertex.new 0 1 0, Vertex.new 1 0 0]
        Mesh.init = Except.ok m ∧
      m.triangles = [{ v0 := 0, v1 := 1, v2 := 2, n0 := -1, n1 := -1, n2 := -1 }] ∧
      m.buildPtriangle3D { v0 := 0, v1 := 1, v2 := 2, n0 := -1, n1 := -1, n2 := -1 }
        = Except.ok p ∧
      signedArea p.a p.b p.c ≠ 0 ∧ isWellOriented p.a p.b p.c = false := by
  refine ⟨_, _, rfl, rfl, rfl, ?_, ?_⟩
  · decide!
  · decide!

/-- C4: inserting any three points into the empty mesh, whatever the index arguments,
succeeds and leaves exactly these three vertices, exactly one triangle with vertex indices
0, 1, 2 and no neighbor, and a border that holds 0, 1 and 2 once each and nothing else (it
is the list 2, 1, 0). -/
theorem insert_three_points (fuel : Nat) (a b c : Vertex) (ia ib ic : Int) :
    ∃ m, (do
          let r0 ← Mesh.init.insertVertexIntoTriangulation fuel a ia
          let r1 ← r0.1.insertVertexIntoTriangulation fuel b ib
          r1.1.insertVertexIntoTriangulation fuel c ic) = Except.ok (m, c) ∧
      insertSequence fuel [a, b, c] Mesh.init = Except.ok m ∧
      m.vertices = [a, b, c] ∧
      m.triangles = [{ v0 := 0, v1 := 1, v2 := 2, n0 := -1, n1 := -1, n2 := -1 }] ∧
      m.borders = [2, 1, 0] ∧ List.Perm m.borders [0, 1, 2] := by
  refine ⟨_, rfl, rfl, rfl, rfl, rfl, ?_⟩
  show List.Perm [(2 : Int), 1, 0] [0, 1, 2]
  decide

/-! ## Predicates (C5 to C10) -/

/-- C5: for `p`, `q`, `r` in counter-clockwise order, the circle through them exists, and
with `c` its center `isInSurroundingCircle p q r s` is true when `s` is strictly inside that
circle and false when `s` is strictly outside. -/
theorem isInSurroundingCircle_inside_outside (p q r : Pvertex3D)
    (hccw : 0 < signedArea p q r) :
    (∃ c : Pvertex3D, dist2xy c q = dist2xy c p ∧ dist2xy c r = dist2xy c p) ∧
    ∀ c s : Pvertex3D, dist2xy c q = dist2xy c p → dist2xy c r = dist2xy c p →
      (dist2xy c s < dist2xy c p → isInSurroundingCircle p q r s = true) ∧
      (dist2xy c p < dist2xy c s → isInSurroundingCircle p q r s = false) := by
  refine ⟨circumcenter_exists p q r (ne_of_gt hccw), ?_⟩
  intro c s hq hr
  rw [isInSurroundingCircle_eq, inCircleDet_of_center p q r s c hq hr]
  constructor
  · intro h
    have hneg : signedArea p q r * (dist2xy c s - dist2xy c p) < 0 :=
      mul_neg_of_pos_of_neg hccw (by linarith)
    exact decide_eq_true (le_of_lt hneg)
  · intro h
    have hpos : 0 < signedArea p q r * (dist2xy c s - dist2xy c p) :=
      mul_pos hccw (by linarith)
    exact decide_eq_false (not_le.mpr hpos)

/-- Witness of C5 on the unit circle: the origin is inside, the point (2,0) outside. -/
theorem isInSurroundingCircle_inside_outside_witness :
    0 < signedArea ⟨1, 0, 0⟩ ⟨0, 1, 0⟩ ⟨-1, 0, 0⟩ ∧
    isInSurroundingCircle ⟨1, 0, 0⟩ ⟨0, 1, 0⟩ ⟨-1, 0, 0⟩ ⟨0, 0, 0⟩ = true ∧
    isInSurroundingCircle ⟨1, 0, 0⟩ ⟨0, 1, 0⟩ ⟨-1, 0, 0⟩ ⟨2, 0, 0⟩ = false :=
  ⟨by norm_num [signedArea],
    (((isInSurroundingCircle_inside_outside ⟨1, 0, 0⟩ ⟨0, 1, 0⟩ ⟨-1, 0, 0⟩
      (by norm_num [signedArea])).2 ⟨0, 0, 0⟩ ⟨0, 0, 0⟩
      (by norm_num [dist2xy]) (by norm_num [dist2xy])).1 (by norm_num [dist2xy])),
    (((isInSurroundingCircle_inside_outside ⟨1, 0, 0⟩ ⟨0, 1, 0⟩ ⟨-1, 0, 0⟩
      (by norm_num [signedArea])).2 ⟨0, 0, 0⟩ ⟨2, 0, 0⟩
      (by norm_num [dist2xy]) (by norm_num [dist2xy])).2 (by norm_num [dist2xy]))⟩

/-- C6 (counterexample): on the four points (1,0,0), (0,1,0), (-1,0,0), (0,-1,0) of the unit
circle `isInSurroundingCircle` returns true, not false. -/
theorem isInSurroundingCircle_unit_circle_true :
    isInSurroundingCircle ⟨1, 0, 0⟩ ⟨0, 1, 0⟩ ⟨-1, 0, 0⟩ ⟨0, -1, 0⟩ = true := by
  decide!

/-- C6 (amended): in exact arithmetic, for four points on a common circle
`isInSurroundingCircle` returns true, the test being `det <= 0`; in particular it is true
for the points (1,0,0), (0,1,0), (-1,0,0), (0,-1,0) with any three of them as `p`, `q`, `r`
and the fourth as `s`. -/
theorem isInSurroundingCircle_cocircular :
    (∀ p q r s c : Pvertex3D, dist2xy c q = dist2xy c p → dist2xy c r = dist2xy c p →
      dist2xy c s = dist2xy c p → isInSurroundingCircle p q r s = true) ∧
    (∀ p ∈ unitCirclePoints, ∀ q ∈ unitCirclePoints, ∀ r ∈ unitCirclePoints,
      ∀ s ∈ unitCirclePoints, isInSurroundingCircle p q r s = true) := by
  have general : ∀ p q r s c : Pvertex3D, dist2xy c q = dist2xy c p →
      dist2xy c r = dist2xy c p → dist2xy c s = dist2xy c p →
      isInSurroundingCircle p q r s = true := by
    intro p q r s c hq hr hs
    rw [isInSurroundingCircle_eq, inCircleDet_of_center p q r s c hq hr, hs]
    simp
  have unit : ∀ x ∈ unitCirclePoints, dist2xy ⟨0, 0, 0⟩ x = 1 := by
    decide!
  refine ⟨general, ?_⟩
  intro p hp q hq r hr s hs
  exact general p q r s ⟨0, 0, 0⟩ ((unit q hq).trans (unit p hp).symm)
    ((unit r hr).trans (unit p hp).symm) ((unit s hs).trans (unit p hp).symm)

/-- Witness of C6 (amended) on the circle of center (1,1) through the corners of a square. -/
theorem isInSurroundingCircle_cocircular_witness :
    dist2xy ⟨1, 1, 0⟩ ⟨2, 0, 0⟩ = dist2xy ⟨1, 1, 0⟩ ⟨0, 0, 0⟩ ∧
    dist2xy ⟨1, 1, 0⟩ ⟨2, 2, 0⟩ = dist2xy ⟨1, 1, 0⟩ ⟨0, 0, 0⟩ ∧
    dist2xy ⟨1, 1, 0⟩ ⟨0, 2, 0⟩ = dist2xy ⟨1, 1, 0⟩ ⟨0, 0, 0⟩ ∧
    isInSurroundingCircle ⟨0, 0, 0⟩ ⟨2, 0, 0⟩ ⟨2, 2, 0⟩ ⟨0, 2, 0⟩ = true :=
  ⟨by norm_num [dist2xy], by norm_num [dist2xy], by norm_num [dist2xy],
    isInSurroundingCircle_cocircular.1 ⟨0, 0, 0⟩ ⟨2, 0, 0⟩ ⟨2, 2, 0⟩ ⟨0, 2, 0⟩ ⟨1, 1, 0⟩
      (by norm_num [dist2xy]) (by norm_num [dist2xy]) (by norm_num [dist2xy])⟩

/-- C7: for a triangle `t` whose corners are not collinear, `isInThisTriangle v t` is true
exactly when `v` is a convex combination of the corners; it is true at each corner and at
every point of each edge. -/
theorem isInThisTriangle_iff (v : Pvertex3D) (t : Ptriangle3D)
    (h : signedArea t.a t.b t.c ≠ 0) :
    (isInThisTriangle v t = true ↔ InClosedTriangle v t) ∧
    isInThisTriangle t.a t = true ∧ isInThisTriangle t.b t = true ∧
    isInThisTriangle t.c t = true ∧
    (∀ s : ℚ, 0 ≤ s → s ≤ 1 →
      (v.x = (1 - s) * t.a.x + s * t.b.x → v.y = (1 - s) * t.a.y + s * t.b.y →
        isInThisTriangle v t = true) ∧
      (v.x = (1 - s) * t.b.x + s * t.c.x → v.y = (1 - s) * t.b.y + s * t.c.y →
        isInThisTriangle v t = true) ∧
      (v.x = (1 - s) * t.c.x + s * t.a.x → v.y = (1 - s) * t.c.y + s * t.a.y →
        isInThisTriangle v t = true)) := by
  refine ⟨isInThisTriangle_iff_closed v t h, ?_, ?_, ?_, ?_⟩
  · exact (isInThisTriangle_iff_closed _ t h).mpr ⟨1, 0, 0, by norm_num, by norm_num,
      by norm_num, by norm_num, by ring, by ring⟩
  · exact (isInThisTriangle_iff_closed _ t h).mpr ⟨0, 1, 0, by norm_num, by norm_num,
      by norm_num, by norm_num, by ring, by ring⟩
  · exact (isInThisTriangle_iff_closed _ t h).mpr ⟨0, 0, 1, by norm_num, by norm_num,
      by norm_num, by norm_num, by ring, by ring⟩
  · intro s hs0 hs1
    refine ⟨?_, ?_, ?_⟩
    · intro hx hy
      exact (isInThisTriangle_iff_closed v t h).mpr ⟨1 - s, s, 0, by linarith, hs0,
        le_refl 0, by ring, by rw [hx]; ring, by rw [hy]; ring⟩
    · intro hx hy
      exact (isInThisTriangle_iff_closed v t h).mpr ⟨0, 1 - s, s, le_refl 0, by linarith,
        hs0, by ring, by rw [hx]; ring, by rw [hy]; ring⟩
    · intro hx hy
      exact (isInThisTriangle_iff_closed v t h).mpr ⟨s, 0, 1 - s, hs0, le_refl 0,
        by linarith, by ring, by rw [hx]; ring, by rw [hy]; ring⟩

/-- Witness of C7: the middle of the edge from (1,0) to (0,1) is in the triangle
(0,0), (1,0), (0,1). -/
theorem isInThisTriangle_iff_witness :
    signedArea ⟨0, 0, 0⟩ ⟨1, 0, 0⟩ ⟨0, 1, 0⟩ ≠ 0 ∧
    isInThisTriangle ⟨1 / 2, 1 / 2, 0⟩ ⟨⟨0, 0, 0⟩, ⟨1, 0, 0⟩, ⟨0, 1, 0⟩⟩ = true :=
  ⟨by norm_num [signedArea],
    ((isInThisTriangle_iff ⟨1 / 2, 1 / 2, 0⟩ ⟨⟨0, 0, 0⟩, ⟨1, 0, 0⟩, ⟨0, 1, 0⟩⟩
      (by norm_num [signedArea])).2.2.2.2 (1 / 2) (by norm_num) (by norm_num)).2.1
      (by norm_num) (by norm_num)⟩

/-- C8: `isWellOriented v1 v2 v3` is true exactly when the signed area
`(v2.x-v1.x)*(v3.y-v1.y) - (v2.y-v1.y)*(v3.x-v1.x)` is strictly positive; it is false for
collinear points, unchanged by a cyclic rotation of its arguments, and never true for both
`(v1,v2,v3)` and `(v2,v1,v3)`. -/
theorem isWellOriented_iff (v1 v2 v3 : Pvertex3D) :
    (isWellOriented v1 v2 v3 = true ↔
      0 < (v2.x - v1.x) * (v3.y - v1.y) - (v2.y - v1.y) * (v3.x - v1.x)) ∧
    (signedArea v1 v2 v3 = 0 → isWellOriented v1 v2 v3 = false) ∧
    isWellOriented v2 v3 v1 = isWellOriented v1 v2 v3 ∧
    isWellOriented v3 v1 v2 = isWellOriented v1 v2 v3 ∧
    ¬ (isWellOriented v1 v2 v3 = true ∧ isWellOriented v2 v1 v3 = true) := by
  refine ⟨isWellOriented_iff_pos v1 v2 v3, ?_, ?_, ?_, ?_⟩
  · intro h
    rw [Bool.eq_false_iff, Ne, isWellOriented_iff_pos, h]
    exact lt_irrefl 0
  · rw [Bool.eq_iff_iff, isWellOriented_iff_pos, isWellOriented_iff_pos, signedArea_rotate]
  · rw [Bool.eq_iff_iff, isWellOriented_iff_pos, isWellOriented_iff_pos, signedArea_rotate,
      signedArea_rotate]
  · rintro ⟨h1, h2⟩
    rw [isWellOriented_iff_pos] at h1 h2
    rw [signedArea_swap] at h2
    linarith

/-- Witness of C8: three points of the x axis are not well oriented. -/
theorem isWellOriented_iff_witness :
    signedArea ⟨0, 0, 0⟩ ⟨1, 0, 0⟩ ⟨2, 0, 0⟩ = 0 ∧
    isWellOriented ⟨0, 0, 0⟩ ⟨1, 0, 0⟩ ⟨2, 0, 0⟩ = false :=
  ⟨by norm_num [signedArea],
    (isWellOriented_iff ⟨0, 0, 0⟩ ⟨1, 0, 0⟩ ⟨2, 0, 0⟩).2.1 (by norm_num [signedArea])⟩

/-- C9: for a triangle of the plane `z = 0` whose corners are not collinear,
`centerSurroundingCircle2D` returns a point with `z = 0` whose squared distances to the
three corners are equal. -/
theorem centerSurroundingCircle2D_equidistant (t : Ptriangle3D)
    (ha : t.a.z = 0) (hb : t.b.z = 0) (hc : t.c.z = 0)
    (h : signedArea t.a t.b t.c ≠ 0) :
    (centerSurroundingCircle2D t).z = 0 ∧
    length2 (psub (centerSurroundingCircle2D t) t.b)
      = length2 (psub (centerSurroundingCircle2D t) t.a) ∧
    length2 (psub (centerSurroundingCircle2D t) t.c)
      = length2 (psub (centerSurroundingCircle2D t) t.a) := by
  obtain ⟨hx, hy, hz⟩ := center_coords t ha hb hc h
  have hA : (t.b.x - t.a.x) * (t.c.y - t.a.y) - (t.b.y - t.a.y) * (t.c.x - t.a.x) ≠ 0 := h
  simp only [length2, psub, hx, hy, hz, ha, hb, hc, signedArea]
  refine ⟨trivial, ?_, ?_⟩
  · field_simp
    ring
  · field_simp
    ring

/-- Witness of C9 on the triangle (0,0,0), (1,0,0), (0,1,0). -/
theorem centerSurroundingCircle2D_equidistant_witness :
    signedArea ⟨0, 0, 0⟩ ⟨1, 0, 0⟩ ⟨0, 1, 0⟩ ≠ 0 ∧
    (centerSurroundingCircle2D ⟨⟨0, 0, 0⟩, ⟨1, 0, 0⟩, ⟨0, 1, 0⟩⟩).z = 0 ∧
    length2 (psub (centerSurroundingCircle2D ⟨⟨0, 0, 0⟩, ⟨1, 0, 0⟩, ⟨0, 1, 0⟩⟩) ⟨1, 0, 0⟩)
      = length2 (psub (centerSurroundingCircle2D ⟨⟨0, 0, 0⟩, ⟨1, 0, 0⟩, ⟨0, 1, 0⟩⟩) ⟨0, 0, 0⟩) ∧
    length2 (psub (centerSurroundingCircle2D ⟨⟨0, 0, 0⟩, ⟨1, 0, 0⟩, ⟨0, 1, 0⟩⟩) ⟨0, 1, 0⟩)
      = length2 (psub (centerSurroundingCircle2D ⟨⟨0, 0, 0⟩, ⟨1, 0, 0⟩, ⟨0, 1, 0⟩⟩) ⟨0, 0, 0⟩) :=
  ⟨by norm_num [signedArea],
    centerSurroundingCircle2D_equidistant ⟨⟨0, 0, 0⟩, ⟨1, 0, 0⟩, ⟨0, 1, 0⟩⟩ rfl rfl rfl
      (by norm_num [signedArea])⟩

/-- C10 (evaluation at a failing input): whatever the square root routine and the value of
`M_PI`, `isPoorQuality` is true for the right isosceles triangle (0,0,0), (1,0,0), (0,1,0)
and the threshold 22: at the right angle `computeAngle` returns the cosine of the angle
scaled by `180 / M_PI`, that is 0. -/
theorem isPoorQuality_right_isosceles (sqrt : ℚ → ℚ) (pi : ℚ) :
    computeAngle sqrt pi ⟨0, 0, 0⟩ ⟨1, 0, 0⟩ ⟨0, 1, 0⟩ = 0 ∧
    isPoorQuality sqrt pi ⟨⟨0, 0, 0⟩, ⟨1, 0, 0⟩, ⟨0, 1, 0⟩⟩ 22 = true := by
  have h0 : computeAngle sqrt pi ⟨0, 0, 0⟩ ⟨1, 0, 0⟩ ⟨0, 1, 0⟩ = 0 := by
    simp [computeAngle, radian2deg, dot, psub]
  refine ⟨h0, ?_⟩
  simp [isPoorQuality, h0]

/-! ## Lemmas on triangles, the arena and the linker -/

theorem findVertexIndex_eq_neg_one (t : Triangle) (v : Int) :
    t.findVertexIndex v = -1 ↔ ¬ t.hasVertex v := by
  unfold Triangle.findVertexIndex Triangle.hasVertex
  by_cases h0 : t.v0 = v
  · simp [h0]
  · by_cases h1 : t.v1 = v
    · simp [h0, h1]
    · by_cases h2 : t.v2 = v
      · simp [h0, h1, h2]
      · simp [h0, h1, h2]

theorem atE_eq_ok {α : Type} {l : List α} {i : Int} {x : α} :
    atE l i = Except.ok x ↔ 0 ≤ i ∧ l[i.toNat]? = some x := by
  unfold atE
  by_cases hi : i < 0
  · simp only [hi, if_true]
    constructor
    · intro h
      cases h
    · rintro ⟨h0, _⟩
      omega
  · simp only [hi, if_false]
    have h0 : 0 ≤ i := by omega
    cases hx : l[i.toNat]? with
    | none =>
      constructor
      · intro h
        cases h
      · rintro ⟨_, h⟩
        cases h
    | some y =>
      constructor
      · intro h
        have : y = x := by
          cases h
          rfl
        exact ⟨h0, by rw [this]⟩
      · rintro ⟨_, h⟩
        cases h
        rfl

theorem atE_of_lt {α : Type} (l : List α) (i : Int) (h0 : 0 ≤ i) (h1 : i < (l.length : Int)) :
    ∃ x, atE l i = Except.ok x := by
  have hlt : i.toNat < l.length := by omega
  exact ⟨l[i.toNat], atE_eq_ok.mpr ⟨h0, List.getElem?_eq_getElem hlt⟩⟩

theorem lt_of_atE {α : Type} {l : List α} {i : Int} {x : α} (h : atE l i = Except.ok x) :
    0 ≤ i ∧ i < (l.length : Int) := by
  obtain ⟨h0, hx⟩ := atE_eq_ok.mp h
  have := (List.getElem?_eq_some_iff.mp hx).1
  exact ⟨h0, by omega⟩

theorem atE_setAt_self {α : Type} {l : List α} {i : Int} {x y : α}
    (h : atE l i = Except.ok y) : atE (setAt l i x) i = Except.ok x := by
  obtain ⟨h0, hy⟩ := atE_eq_ok.mp h
  have hlt := (List.getElem?_eq_some_iff.mp hy).1
  exact atE_eq_ok.mpr ⟨h0, by simp [setAt, hlt]⟩

theorem atE_setAt_ne {α : Type} (l : List α) {i j : Int} (x : α) (hj : 0 ≤ j) (hij : i ≠ j) :
    atE (setAt l j x) i = atE l i := by
  unfold atE
  by_cases hi : i < 0
  · simp [hi]
  · have hne : j.toNat ≠ i.toNat := by omega
    simp [hi, setAt, List.getElem?_set_ne hne]

theorem length_setAt {α : Type} (l : List α) (i : Int) (x : α) :
    (setAt l i x).length = l.length := by
  simp [setAt]

theorem set_eq_self {α : Type} (l : List α) (n : Nat) (a : α) (h : l[n]? = some a) :
    l.set n a = l := by
  apply List.ext_getElem?
  intro k
  by_cases hk : n = k
  · subst hk
    rw [List.getElem?_set_self (List.getElem?_eq_some_iff.mp h).1, h]
  · rw [List.getElem?_set_ne hk]

theorem shapes_setAt (l : List TopoTriangle) (i : Int) (t t2 : TopoTriangle)
    (h : atE l i = Except.ok t) (hs : t2.toTriangle = t.toTriangle) :
    shapes (setAt l i t2) = shapes l := by
  obtain ⟨_, ht⟩ := atE_eq_ok.mp h
  unfold shapes setAt
  rw [List.map_set]
  apply set_eq_self
  rw [List.getElem?_map, ht, hs]
  rfl

theorem atE_shapes {l l2 : List TopoTriangle} (h : shapes l2 = shapes l) {i : Int}
    {t : TopoTriangle} (ht : atE l i = Except.ok t) :
    ∃ t2, atE l2 i = Except.ok t2 ∧ t2.toTriangle = t.toTriangle := by
  obtain ⟨h0, hx⟩ := atE_eq_ok.mp ht
  have h1 : (shapes l)[i.toNat]? = some t.toTriangle := by
    unfold shapes
    rw [List.getElem?_map, hx]
    rfl
  rw [← h] at h1
  unfold shapes at h1
  rw [List.getElem?_map] at h1
  cases hy : l2[i.toNat]? with
  | none => rw [hy] at h1; cases h1
  | some y =>
    rw [hy] at h1
    refine ⟨y, atE_eq_ok.mpr ⟨h0, hy⟩, ?_⟩
    simpa using h1

theorem mapOk_shapes {map : MapEdges} {l l2 : List TopoTriangle} (h : shapes l2 = shapes l)
    (hm : MapOk map l) : MapOk map l2 := by
  intro k i hki
  obtain ⟨t, ht, ha, hb⟩ := hm k i hki
  obtain ⟨t2, ht2, hs⟩ := atE_shapes h ht
  refine ⟨t2, ht2, ?_, ?_⟩
  · unfold Triangle.hasVertex at ha ⊢
    rw [hs]
    exact ha
  · unfold Triangle.hasVertex at hb ⊢
    rw [hs]
    exact hb

theorem find_mem (map : MapEdges) (k : Int × Int) (i : Int) (h : MapEdges.find map k = some i) :
    (k, i) ∈ map := by
  induction map with
  | nil => cases h
  | cons e rest ih =>
    obtain ⟨k2, j⟩ := e
    unfold MapEdges.find at h
    by_cases hk : k2 = k
    · simp only [hk, if_true] at h
      cases h
      subst hk
      exact List.mem_cons_self _ _
    · simp only [hk, if_false] at h
      exact List.mem_cons_of_mem _ (ih h)

theorem setNeighbor_toTriangle (t : TopoTriangle) (i n : Int) :
    (t.setNeighbor i n).toTriangle = t.toTriangle := by
  unfold TopoTriangle.setNeighbor
  split
  · rfl
  · split <;> rfl

theorem addNeighbor_ok (t : TopoTriangle) (f : Int) (e : Edge) (ha : t.hasVertex e.a)
    (hb : t.hasVertex e.b) :
    ∃ t2, t.addNeighbor f e = Except.ok t2 ∧ t2.toTriangle = t.toTriangle := by
  have h1 : t.findVertexIndex e.a ≠ -1 := fun h => (findVertexIndex_eq_neg_one _ _).mp h ha
  have h2 : t.findVertexIndex e.b ≠ -1 := fun h => (findVertexIndex_eq_neg_one _ _).mp h hb
  unfold TopoTriangle.addNeighbor computeFaceIndex
  simp only [h1, h2, or_self, if_false]
  exact ⟨_, rfl, setNeighbor_toTriangle _ _ _⟩

theorem toPair_cases (e : Edge) :
    (e.toPair = (e.a, e.b)) ∨ (e.toPair = (e.b, e.a)) := by
  unfold Edge.toPair
  split
  · exact Or.inl rfl
  · exact Or.inr rfl

theorem neighborInsert_spec (map : MapEdges) (key : Edge) (index : Int)
    (faces : List TopoTriangle) (t : TopoTriangle) (hm : MapOk map faces)
    (ht : atE faces index = Except.ok t) (ha : t.hasVertex key.a) (hb : t.hasVertex key.b) :
    ∃ st, neighborInsert map key index faces = Except.ok st ∧
      shapes st.2 = shapes faces ∧ MapOk st.1 st.2 := by
  unfold neighborInsert
  cases hf : MapEdges.find map key.toPair with
  | none =>
    refine ⟨_, rfl, rfl, ?_⟩
    intro k i hki
    rcases List.mem_cons.mp hki with heq | hmem
    · cases heq
      refine ⟨t, ht, ?_, ?_⟩
      · rcases toPair_cases key with h | h <;> rw [h] <;> assumption
      · rcases toPair_cases key with h | h <;> rw [h] <;> assumption
    · exact hm k i hmem
  | some second =>
    obtain ⟨u, hu, hua, hub⟩ := hm _ _ (find_mem map _ _ hf)
    have hkeyu : u.hasVertex key.a ∧ u.hasVertex key.b := by
      rcases toPair_cases key with h | h
      · rw [h] at hua hub
        exact ⟨hua, hub⟩
      · rw [h] at hua hub
        exact ⟨hub, hua⟩
    obtain ⟨t2, ht2, hs2⟩ := addNeighbor_ok t second key ha hb
    have hsh1 : shapes (setAt faces index t2) = shapes faces := shapes_setAt faces index t t2 ht hs2
    obtain ⟨u1, hu1, hus⟩ := atE_shapes hsh1 hu
    have hu1a : u1.hasVertex key.a := by
      unfold Triangle.hasVertex
      rw [hus]
      exact hkeyu.1
    have hu1b : u1.hasVertex key.b := by
      unfold Triangle.hasVertex
      rw [hus]
      exact hkeyu.2
    obtain ⟨u2, hu2, hs3⟩ := addNeighbor_ok u1 index key hu1a hu1b
    have hsh2 : shapes (setAt (setAt faces index t2) second u2) = shapes faces :=
      (shapes_setAt _ second u1 u2 hu1 hs3).trans hsh1
    refine ⟨(map, setAt (setAt faces index t2) second u2), ?_, hsh2, mapOk_shapes hsh2 hm⟩
    simp only [ht, ht2, hu1, hu2, bind, Except.bind, pure, Except.pure]


theorem hasVertex_of_shape {t t2 : TopoTriangle} (h : t2.toTriangle = t.toTriangle) (v : Int) :
    t2.hasVertex v ↔ t.hasVertex v := by
  unfold Triangle.hasVertex
  rw [h]

theorem length_of_shapes {l l2 : List TopoTriangle} (h : shapes l2 = shapes l) :
    l2.length = l.length := by
  have := congrArg List.length h
  simpa [shapes] using this

theorem linkEdgesOf_spec (index : Int) (st : MapEdges × List TopoTriangle)
    (hm : MapOk st.1 st.2) (h0 : 0 ≤ index) (h1 : index < (st.2.length : Int)) :
    ∃ st2, linkEdgesOf index st = Except.ok st2 ∧
      shapes st2.2 = shapes st.2 ∧ MapOk st2.1 st2.2 := by
  obtain ⟨t, ht⟩ := atE_of_lt st.2 index h0 h1
  unfold linkEdgesOf
  obtain ⟨s1, hs1, hsh1, hm1⟩ := neighborInsert_spec st.1 { a := t.v0, b := t.v1 } index st.2 t
    hm ht (Or.inl rfl) (Or.inr (Or.inl rfl))
  obtain ⟨t1, ht1, hts1⟩ := atE_shapes hsh1 ht
  obtain ⟨s2, hs2, hsh2, hm2⟩ := neighborInsert_spec s1.1 { a := t.v1, b := t.v2 } index s1.2 t1
    hm1 ht1 ((hasVertex_of_shape hts1 _).mpr (Or.inr (Or.inl rfl)))
    ((hasVertex_of_shape hts1 _).mpr (Or.inr (Or.inr rfl)))
  obtain ⟨t2, ht2, hts2⟩ := atE_shapes (hsh2.trans hsh1) ht
  obtain ⟨s3, hs3, hsh3, hm3⟩ := neighborInsert_spec s2.1 { a := t.v2, b := t.v0 } index s2.2 t2
    hm2 ht2 ((hasVertex_of_shape hts2 _).mpr (Or.inr (Or.inr rfl)))
    ((hasVertex_of_shape hts2 _).mpr (Or.inl rfl))
  refine ⟨s3, ?_, hsh3.trans (hsh2.trans hsh1), hm3⟩
  simp only [ht, hs1, hs2, hs3, bind, Except.bind]

theorem flipLinkFrom_spec (concerned : List Int) :
    ∀ st : MapEdges × List TopoTriangle, MapOk st.1 st.2 →
      (∀ i ∈ concerned, 0 ≤ i ∧ i < (st.2.length : Int)) →
      ∃ st2, flipLinkFrom concerned st = Except.ok st2 ∧ shapes st2.2 = shapes st.2 := by
  induction concerned with
  | nil =>
    intro st _ _
    exact ⟨st, rfl, rfl⟩
  | cons index rest ih =>
    intro st hm hv
    obtain ⟨h0, h1⟩ := hv index (List.mem_cons_self _ _)
    obtain ⟨s1, hs1, hsh1, hm1⟩ := linkEdgesOf_spec index st hm h0 h1
    have hv1 : ∀ i ∈ rest, 0 ≤ i ∧ i < (s1.2.length : Int) := by
      intro i hi
      rw [length_of_shapes hsh1]
      exact hv i (List.mem_cons_of_mem _ hi)
    obtain ⟨s2, hs2, hsh2⟩ := ih s1 hm1 hv1
    refine ⟨s2, ?_, hsh2.trans hsh1⟩
    unfold flipLinkFrom
    simp only [hs1, hs2, bind, Except.bind]

theorem mem_presentNeighbors (t : TopoTriangle) (i : Int) (h : i ∈ presentNeighbors t) :
    t.holds i ∧ i ≠ -1 := by
  unfold presentNeighbors at h
  simp only [List.mem_filter, List.mem_cons, List.mem_singleton, List.not_mem_nil, or_false,
    decide_eq_true_eq] at h
  obtain ⟨hmem, hne⟩ := h
  refine ⟨?_, hne⟩
  unfold TopoTriangle.holds
  rcases hmem with h | h | h
  · exact Or.inl h.symm
  · exact Or.inr (Or.inl h.symm)
  · exact Or.inr (Or.inr h.symm)


theorem map_setAt_eq {α β : Type} (g : α → β) (l : List α) (i : Int) (x y : α)
    (h : atE l i = Except.ok x) (hg : g y = g x) : (setAt l i y).map g = l.map g := by
  obtain ⟨_, hx⟩ := atE_eq_ok.mp h
  unfold setAt
  rw [List.map_set]
  apply set_eq_self
  rw [List.getElem?_map, hx, hg]
  rfl

theorem rotation_facts (t : TopoTriangle) (u a b n : Int) (hd : t.distinct)
    (hr : t.isRotationOf u a b) (hn : t.recordsOnlyOpposite u n) :
    t.getOppositeVertexOf n = u ∧ t.getAdjVertexTrigo u = a ∧
      t.hasVertex u ∧ t.hasVertex a ∧ t.hasVertex b := by
  obtain ⟨⟨v0, v1, v2⟩, n0, n1, n2⟩ := t
  obtain ⟨h01, h12, h02⟩ := hd
  obtain ⟨hn1, hn2⟩ := hn
  simp only at h01 h12 h02
  have h10 := Ne.symm h01
  have h21 := Ne.symm h12
  have h20 := Ne.symm h02
  have g0 : TopoTriangle.getOppositeNeighborOf ⟨⟨v0, v1, v2⟩, n0, n1, n2⟩ v0 = n0 := by
    simp [TopoTriangle.getOppositeNeighborOf, Triangle.findVertexIndex,
      TopoTriangle.neighborAt]
  have g1 : TopoTriangle.getOppositeNeighborOf ⟨⟨v0, v1, v2⟩, n0, n1, n2⟩ v1 = n1 := by
    simp [TopoTriangle.getOppositeNeighborOf, Triangle.findVertexIndex,
      TopoTriangle.neighborAt, h01]
  have g2 : TopoTriangle.getOppositeNeighborOf ⟨⟨v0, v1, v2⟩, n0, n1, n2⟩ v2 = n2 := by
    simp [TopoTriangle.getOppositeNeighborOf, Triangle.findVertexIndex,
      TopoTriangle.neighborAt, h02, h12]
  rcases hr with ⟨r0, r1, r2⟩ | ⟨r0, r1, r2⟩ | ⟨r0, r1, r2⟩
  · simp only at r0 r1 r2
    subst r0 r1 r2
    rw [g0] at hn1
    simp [TopoTriangle.getOppositeVertexOf, Triangle.getAdjVertexTrigo,
      Triangle.findVertexIndex, Triangle.vertexAt, Triangle.hasVertex, hn1]
  · simp only at r0 r1 r2
    subst r0 r1 r2
    rw [g2] at hn1
    have k0 : n0 ≠ n := by
      have := hn2 _ (Or.inl rfl) h02
      rwa [g0] at this
    have k1 : n1 ≠ n := by
      have := hn2 _ (Or.inr (Or.inl rfl)) h12
      rwa [g1] at this
    simp [TopoTriangle.getOppositeVertexOf, Triangle.getAdjVertexTrigo,
      Triangle.findVertexIndex, Triangle.vertexAt, Triangle.hasVertex, k0, k1, hn1,
      h01, h12, h02, h10, h21, h20]
  · simp only at r0 r1 r2
    subst r0 r1 r2
    rw [g1] at hn1
    have k0 : n0 ≠ n := by
      have := hn2 _ (Or.inl rfl) h01
      rwa [g0] at this
    simp [TopoTriangle.getOppositeVertexOf, Triangle.getAdjVertexTrigo,
      Triangle.findVertexIndex, Triangle.vertexAt, Triangle.hasVertex, k0, hn1,
      h01, h12, h02, h10, h21, h20]

/-! ## Lemmas on the outcome when the budget grows -/

theorem fuelLe_refl {α : Type} (x : Except Err α) : FuelLe x x := fun _ => rfl

theorem fuelLe_trans {α : Type} {x y z : Except Err α} (h1 : FuelLe x y) (h2 : FuelLe y z) :
    FuelLe x z := by
  intro hx
  have hy := h1 hx
  rw [← hy]
  exact h2 (by rw [hy]; exact hx)

theorem fuelLe_bind {α β : Type} {x y : Except Err α} {f g : α → Except Err β}
    (hx : FuelLe x y) (hf : ∀ a, FuelLe (f a) (g a)) : FuelLe (x >>= f) (y >>= g) := by
  intro hne
  cases hxa : x with
  | error e =>
    rw [hxa] at hne
    have he : x ≠ Except.error Err.fuel := by
      rw [hxa]
      intro h
      apply hne
      cases h
      rfl
    rw [hx he, hxa]
    rfl
  | ok a =>
    rw [hxa] at hne
    have he : x ≠ Except.error Err.fuel := by
      rw [hxa]
      intro h
      cases h
    rw [hx he, hxa]
    exact hf a hne

theorem incrementalDelaunayLoop_fuelLe (fuel : Nat) :
    ∀ (m : Mesh) (queue : List Int),
      FuelLe (incrementalDelaunayLoop fuel m queue)
        (incrementalDelaunayLoop (fuel + 1) m queue) := by
  induction fuel with
  | zero =>
    intro m queue
    unfold incrementalDelaunayLoop
    cases hq : getNextAvailableIndex queue with
    | none => exact fuelLe_refl _
    | some cq =>
      obtain ⟨current, queue1⟩ := cq
      intro h
      exact absurd rfl h
  | succ n ih =>
    intro m queue
    unfold incrementalDelaunayLoop
    cases hq : getNextAvailableIndex queue with
    | none => exact fuelLe_refl _
    | some cq =>
      obtain ⟨current, queue1⟩ := cq
      simp only
      refine fuelLe_bind (fuelLe_refl _) (fun toFlipWith => ?_)
      split
      · exact ih _ _
      · refine fuelLe_bind (fuelLe_refl _) (fun tCurrent => ?_)
        refine fuelLe_bind (fuelLe_refl _) (fun tFlip => ?_)
        exact fuelLe_bind (fuelLe_refl _) (fun m1 => ih _ _)

theorem insertPointIntoTriangle_fuelLe (fuel : Nat) (m : Mesh) (v : Vertex) (f i : Int) :
    FuelLe (m.insertPointIntoTriangle fuel v f i)
      (m.insertPointIntoTriangle (fuel + 1) v f i) := by
  unfold Mesh.insertPointIntoTriangle
  refine fuelLe_bind (fuelLe_refl _) ?_
  rintro ⟨m1, v1, news, concerned⟩
  refine fuelLe_bind (fuelLe_refl _) ?_
  rintro ⟨m2, concerned2⟩
  exact fuelLe_bind (incrementalDelaunayLoop_fuelLe fuel m2 concerned2) (fun _ => fuelLe_refl _)

theorem insertPointOutside_fuelLe (fuel : Nat) (m : Mesh) (v : Vertex) (i : Int) :
    FuelLe (m.insertPointOutside fuel v i) (m.insertPointOutside (fuel + 1) v i) := by
  unfold Mesh.insertPointOutside
  refine fuelLe_bind (fuelLe_refl _) (fun scan => ?_)
  refine fuelLe_bind (fuelLe_refl _) (fun m3 => ?_)
  refine fuelLe_bind (fuelLe_refl _) (fun concerned => ?_)
  exact fuelLe_bind (incrementalDelaunayLoop_fuelLe fuel m3 concerned) (fun _ => fuelLe_refl _)

theorem insertVertexIntoTriangulation_fuelLe (fuel : Nat) (m : Mesh) (v : Vertex) (i : Int) :
    FuelLe (m.insertVertexIntoTriangulation fuel v i)
      (m.insertVertexIntoTriangulation (fuel + 1) v i) := by
  unfold Mesh.insertVertexIntoTriangulation
  dsimp only
  split
  · exact fuelLe_refl _
  · split
    · refine fuelLe_bind (fuelLe_refl _) (fun idx => ?_)
      split
      · exact insertPointIntoTriangle_fuelLe fuel _ v idx i
      · exact insertPointOutside_fuelLe fuel _ v i
    · exact fuelLe_refl _

theorem insertSequence_fuelLe (fuel : Nat) (pts : List Vertex) :
    ∀ m : Mesh, FuelLe (insertSequence fuel pts m) (insertSequence (fuel + 1) pts m) := by
  induction pts with
  | nil =>
    intro m
    exact fuelLe_refl _
  | cons v rest ih =>
    intro m
    unfold insertSequence
    exact fuelLe_bind (insertVertexIntoTriangulation_fuelLe fuel m v _) (fun r => ih r.1)

theorem crustInsert_fuelLe (fuel : Nat) (pts : List Vertex) :
    ∀ m : Mesh, FuelLe (crustInsert fuel pts m) (crustInsert (fuel + 1) pts m) := by
  induction pts with
  | nil =>
    intro m
    exact fuelLe_refl _
  | cons v rest ih =>
    intro m
    unfold crustInsert
    exact fuelLe_bind (insertVertexIntoTriangulation_fuelLe fuel m _ _) (fun r => ih r.1)

theorem crust_fuelLe (fuel : Nat) (m : Mesh) :
    FuelLe (m.Crust fuel) (m.Crust (fuel + 1)) := by
  unfold Mesh.Crust
  refine fuelLe_bind (fuelLe_refl _) (fun vertexes => ?_)
  exact fuelLe_bind (crustInsert_fuelLe fuel vertexes _) (fun _ => fuelLe_refl _)

theorem crustOnPoints_fuelLe (pts : List Vertex) (fuel k : Nat) :
    FuelLe (crustOnPoints fuel pts) (crustOnPoints (fuel + k) pts) := by
  induction k with
  | zero => exact fuelLe_refl _
  | succ k ih =>
    refine fuelLe_trans ih ?_
    unfold crustOnPoints
    exact fuelLe_bind (insertSequence_fuelLe (fuel + k) pts Mesh.init)
      (fun m => crust_fuelLe (fuel + k) m)

/-! ## Lemmas on the curve built by Crust -/

theorem mem_addEdgesOf (ibv : Int) (curve : List Edge) (t : TopoTriangle) (e : Edge) :
    e ∈ addEdgesOf ibv curve t ↔
      e ∈ curve ∨ (e = { a := t.v0, b := t.v1 } ∧ t.v0 < ibv ∧ t.v1 < ibv) ∨
      (e = { a := t.v0, b := t.v2 } ∧ t.v0 < ibv ∧ t.v2 < ibv) ∨
      (e = { a := t.v2, b := t.v1 } ∧ t.v2 < ibv ∧ t.v1 < ibv) := by
  unfold addEdgesOf
  by_cases p0 : t.v0 < ibv <;> by_cases p1 : t.v1 < ibv <;> by_cases p2 : t.v2 < ibv <;>
    simp [p0, p1, p2, or_assoc]

theorem mem_foldl_addEdgesOf (ibv : Int) (ts : List TopoTriangle) :
    ∀ (curve : List Edge) (e : Edge),
      e ∈ ts.foldl (addEdgesOf ibv) curve ↔
        e ∈ curve ∨ ∃ t ∈ ts, e ∈ addEdgesOf ibv [] t := by
  induction ts with
  | nil =>
    intro curve e
    simp
  | cons t rest ih =>
    intro curve e
    rw [List.foldl_cons, ih, mem_addEdgesOf]
    constructor
    · rintro (h | ⟨t2, ht2, h2⟩)
      · rcases h with h | h
        · exact Or.inl h
        · exact Or.inr ⟨t, List.mem_cons_self _ _, (mem_addEdgesOf ibv [] t e).mpr (Or.inr h)⟩
      · exact Or.inr ⟨t2, List.mem_cons_of_mem _ ht2, h2⟩
    · rintro (h | ⟨t2, ht2, h2⟩)
      · exact Or.inl (Or.inl h)
      · rcases List.mem_cons.mp ht2 with heq | hmem
        · subst heq
          rcases (mem_addEdgesOf ibv [] t2 e).mp h2 with h | h
          · cases h
          · exact Or.inl (Or.inr h)
        · exact Or.inr ⟨t2, hmem, h2⟩

theorem joins_addEdgesOf (ibv : Int) (t : TopoTriangle) (x y : Int) :
    (∃ e ∈ addEdgesOf ibv [] t, e.joins x y) ↔ (x < ibv ∧ y < ibv ∧ t.hasEdge x y) := by
  constructor
  · rintro ⟨e, he, hj⟩
    rcases (mem_addEdgesOf ibv [] t e).mp he with h | ⟨rfl, h0, h1⟩ | ⟨rfl, h0, h1⟩ | ⟨rfl, h0, h1⟩
    · cases h
    · rcases hj with ⟨ha, hb⟩ | ⟨ha, hb⟩
      · simp only at ha hb
        subst ha hb
        exact ⟨h0, h1, Or.inl ⟨rfl, rfl⟩⟩
      · simp only at ha hb
        subst ha hb
        exact ⟨h1, h0, Or.inr (Or.inl ⟨rfl, rfl⟩)⟩
    · rcases hj with ⟨ha, hb⟩ | ⟨ha, hb⟩
      · simp only at ha hb
        subst ha hb
        exact ⟨h0, h1, Or.inr (Or.inr (Or.inl ⟨rfl, rfl⟩))⟩
      · simp only at ha hb
        subst ha hb
        exact ⟨h1, h0, Or.inr (Or.inr (Or.inr (Or.inl ⟨rfl, rfl⟩)))⟩
    · rcases hj with ⟨ha, hb⟩ | ⟨ha, hb⟩
      · simp only at ha hb
        subst ha hb
        exact ⟨h0, h1, Or.inr (Or.inr (Or.inr (Or.inr (Or.inr ⟨rfl, rfl⟩))))⟩
      · simp only at ha hb
        subst ha hb
        exact ⟨h1, h0, Or.inr (Or.inr (Or.inr (Or.inr (Or.inl ⟨rfl, rfl⟩))))⟩
  · rintro ⟨hx, hy, he⟩
    rcases he with ⟨rfl, rfl⟩ | ⟨rfl, rfl⟩ | ⟨rfl, rfl⟩ | ⟨rfl, rfl⟩ | ⟨rfl, rfl⟩ | ⟨rfl, rfl⟩
    · exact ⟨_, (mem_addEdgesOf ibv [] t _).mpr (Or.inr (Or.inl ⟨rfl, hx, hy⟩)),
        Or.inl ⟨rfl, rfl⟩⟩
    · exact ⟨_, (mem_addEdgesOf ibv [] t _).mpr (Or.inr (Or.inl ⟨rfl, hy, hx⟩)),
        Or.inr ⟨rfl, rfl⟩⟩
    · exact ⟨_, (mem_addEdgesOf ibv [] t _).mpr (Or.inr (Or.inr (Or.inl ⟨rfl, hx, hy⟩))),
        Or.inl ⟨rfl, rfl⟩⟩
    · exact ⟨_, (mem_addEdgesOf ibv [] t _).mpr (Or.inr (Or.inr (Or.inl ⟨rfl, hy, hx⟩))),
        Or.inr ⟨rfl, rfl⟩⟩
    · exact ⟨_, (mem_addEdgesOf ibv [] t _).mpr (Or.inr (Or.inr (Or.inr ⟨rfl, hy, hx⟩))),
        Or.inr ⟨rfl, rfl⟩⟩
    · exact ⟨_, (mem_addEdgesOf ibv [] t _).mpr (Or.inr (Or.inr (Or.inr ⟨rfl, hx, hy⟩))),
        Or.inl ⟨rfl, rfl⟩⟩

theorem crust_curve (fuel : Nat) (m m2 : Mesh) (h : m.Crust fuel = Except.ok m2) :
    m2.curve = m2.triangles.foldl (addEdgesOf m2.indexBeforeVoronoi) [] := by
  unfold Mesh.Crust at h
  simp only [bind, Except.bind, pure, Except.pure] at h
  split at h
  · cases h
  · split at h
    · cases h
    · cases h
      rfl

/-! ## Diametral circle (C11) -/

/-- C11 (evaluation at failing inputs): the middle (3,0,0) of the segment from (2,0,0) to
(4,0,0) is reported outside its diametral circle, and the answer for the segment from
(0,0,0) to (2,0,0) and the point (1,0,0) changes when the two ends are exchanged: the
source takes `(b - a) / 2` for the center and compares with the square of `length2`. -/
theorem isInCircleOfDiametral_midpoint_false :
    isInCircleOfDiametral ⟨2, 0, 0⟩ ⟨4, 0, 0⟩ ⟨3, 0, 0⟩ = false ∧
    isInCircleOfDiametral ⟨0, 0, 0⟩ ⟨2, 0, 0⟩ ⟨1, 0, 0⟩ = true ∧
    isInCircleOfDiametral ⟨2, 0, 0⟩ ⟨0, 0, 0⟩ ⟨1, 0, 0⟩ = false := by
  decide!

/-! ## Triangles and their neighbor slots (C12 to C17) -/

/-- C12: in a triangle with three distinct vertex indices, `addNeighbor f {a, b}` for two
different vertices `a`, `b` of the triangle succeeds and stores `f` in the slot of the third
vertex `c`: afterwards `getOppositeNeighborOf c = f`, the slots of `a` and `b` and the three
vertex indices are as before. -/
theorem addNeighbor_stores_opposite (t : TopoTriangle) (f a b c : Int) (hd : t.distinct)
    (ha : t.hasVertex a) (hb : t.hasVertex b) (hc : t.hasVertex c)
    (hab : a ≠ b) (hca : c ≠ a) (hcb : c ≠ b) :
    ∃ t2, t.addNeighbor f { a := a, b := b } = Except.ok t2 ∧
      t2.getOppositeNeighborOf c = f ∧
      t2.getOppositeNeighborOf a = t.getOppositeNeighborOf a ∧
      t2.getOppositeNeighborOf b = t.getOppositeNeighborOf b ∧
      t2.toTriangle = t.toTriangle := by
  obtain ⟨⟨v0, v1, v2⟩, n0, n1, n2⟩ := t
  obtain ⟨h01, h12, h02⟩ := hd
  simp only [Triangle.hasVertex] at ha hb hc
  simp only at h01 h12 h02
  rcases ha with rfl | rfl | rfl <;> rcases hb with rfl | rfl | rfl <;>
    rcases hc with rfl | rfl | rfl <;>
    first
    | exact absurd rfl hab
    | exact absurd rfl hca
    | exact absurd rfl hcb
    | simp [TopoTriangle.addNeighbor, computeFaceIndex, Triangle.findVertexIndex, indexes,
        TopoTriangle.setNeighbor, TopoTriangle.getOppositeNeighborOf, TopoTriangle.neighborAt,
        Except.map, h01, h12, h02, Ne.symm h01, Ne.symm h12, Ne.symm h02, pure, Except.pure]

/-- Witness of C12: in the triangle (1,2,4) with neighbors 5, 6, 7 the face 9 given with the
edge {4,2} lands in the slot of vertex 1. -/
theorem addNeighbor_stores_opposite_witness :
    ∃ t2, TopoTriangle.addNeighbor { v0 := 1, v1 := 2, v2 := 4, n0 := 5, n1 := 6, n2 := 7 } 9
        { a := 4, b := 2 } = Except.ok t2 ∧
      t2.getOppositeNeighborOf 1 = 9 ∧
      t2.getOppositeNeighborOf 4 = 7 ∧ t2.getOppositeNeighborOf 2 = 6 ∧
      t2.toTriangle = { v0 := 1, v1 := 2, v2 := 4 } :=
  addNeighbor_stores_opposite { v0 := 1, v1 := 2, v2 := 4, n0 := 5, n1 := 6, n2 := 7 } 9 4 2 1
    (by decide) (by decide) (by decide) (by decide) (by decide) (by decide) (by decide)

/-- C13: `addNeighbor f {a, b}` throws exactly when `a` or `b` is not one of the three
vertex indices of the triangle, and a call that throws leaves the receiver as it was. -/
theorem addNeighbor_fails_iff (t : TopoTriangle) (f : Int) (e : Edge) :
    ((∃ err, t.addNeighbor f e = Except.error err) ↔
      (¬ t.hasVertex e.a ∨ ¬ t.hasVertex e.b)) ∧
    (∀ err, t.addNeighbor f e = Except.error err →
      t.addNeighborInPlace f e = (t, some err)) := by
  constructor
  · rw [← findVertexIndex_eq_neg_one, ← findVertexIndex_eq_neg_one]
    unfold TopoTriangle.addNeighbor computeFaceIndex
    by_cases h : t.findVertexIndex e.a = -1 ∨ t.findVertexIndex e.b = -1
    · simp only [h, if_true, iff_true]
      exact ⟨Err.vertexNotFound, rfl⟩
    · simp only [h, if_false, iff_false]
      rintro ⟨err, herr⟩
      cases herr
  · intro err h
    simp [TopoTriangle.addNeighborInPlace, h]

/-- Witness of C13: vertex 7 is not in the triangle (1,2,4); the call throws and the
triangle keeps its neighbors 5, 6, 7. -/
theorem addNeighbor_fails_iff_witness :
    TopoTriangle.addNeighbor { v0 := 1, v1 := 2, v2 := 4, n0 := 5, n1 := 6, n2 := 7 } 9
        { a := 1, b := 7 } = Except.error Err.vertexNotFound ∧
    TopoTriangle.addNeighborInPlace { v0 := 1, v1 := 2, v2 := 4, n0 := 5, n1 := 6, n2 := 7 } 9
        { a := 1, b := 7 }
      = ({ v0 := 1, v1 := 2, v2 := 4, n0 := 5, n1 := 6, n2 := 7 }, some Err.vertexNotFound) :=
  ⟨rfl, (addNeighbor_fails_iff { v0 := 1, v1 := 2, v2 := 4, n0 := 5, n1 := 6, n2 := 7 } 9
    { a := 1, b := 7 }).2 Err.vertexNotFound rfl⟩

/-- C14: in a triangle with three distinct vertex indices, `getAdjVertexTrigo` gives the next
vertex in slot order and `getAdjVertexClock` the previous one, cyclically; on a vertex of the
triangle they undo each other and three steps of `getAdjVertexTrigo` come back to the start;
`Triangle(1,2,4).getAdjVertexTrigo(2)` is 4. -/
theorem adjVertex_next_previous (t : Triangle) (hd : t.distinct) :
    (t.getAdjVertexTrigo t.v0 = t.v1 ∧ t.getAdjVertexTrigo t.v1 = t.v2 ∧
      t.getAdjVertexTrigo t.v2 = t.v0) ∧
    (t.getAdjVertexClock t.v0 = t.v2 ∧ t.getAdjVertexClock t.v1 = t.v0 ∧
      t.getAdjVertexClock t.v2 = t.v1) ∧
    (∀ v, t.hasVertex v →
      t.getAdjVertexClock (t.getAdjVertexTrigo v) = v ∧
      t.getAdjVertexTrigo (t.getAdjVertexClock v) = v ∧
      t.getAdjVertexTrigo (t.getAdjVertexTrigo (t.getAdjVertexTrigo v)) = v) ∧
    (Triangle.mk 1 2 4).getAdjVertexTrigo 2 = 4 := by
  obtain ⟨v0, v1, v2⟩ := t
  obtain ⟨h01, h12, h02⟩ := hd
  simp only at h01 h12 h02
  have e0 : Triangle.getAdjVertexTrigo ⟨v0, v1, v2⟩ v0 = v1 := by
    simp [Triangle.getAdjVertexTrigo, Triangle.findVertexIndex, Triangle.vertexAt]
  have e1 : Triangle.getAdjVertexTrigo ⟨v0, v1, v2⟩ v1 = v2 := by
    simp [Triangle.getAdjVertexTrigo, Triangle.findVertexIndex, Triangle.vertexAt, h01]
  have e2 : Triangle.getAdjVertexTrigo ⟨v0, v1, v2⟩ v2 = v0 := by
    simp [Triangle.getAdjVertexTrigo, Triangle.findVertexIndex, Triangle.vertexAt, h02, h12]
  have c0 : Triangle.getAdjVertexClock ⟨v0, v1, v2⟩ v0 = v2 := by
    simp [Triangle.getAdjVertexClock, Triangle.findVertexIndex, Triangle.vertexAt]
  have c1 : Triangle.getAdjVertexClock ⟨v0, v1, v2⟩ v1 = v0 := by
    simp [Triangle.getAdjVertexClock, Triangle.findVertexIndex, Triangle.vertexAt, h01]
  have c2 : Triangle.getAdjVertexClock ⟨v0, v1, v2⟩ v2 = v1 := by
    simp [Triangle.getAdjVertexClock, Triangle.findVertexIndex, Triangle.vertexAt, h02, h12]
  refine ⟨⟨e0, e1, e2⟩, ⟨c0, c1, c2⟩, ?_, by decide⟩
  intro v hv
  rcases hv with rfl | rfl | rfl
  · simp only [e0, e1, e2, c0, c1, c2, and_self]
  · simp only [e0, e1, e2, c0, c1, c2, and_self]
  · simp only [e0, e1, e2, c0, c1, c2, and_self]

/-- Witness of C14 on the triangle (1,2,4) and its vertex 4. -/
theorem adjVertex_next_previous_witness :
    (Triangle.mk 1 2 4).getAdjVertexTrigo 4 = 1 ∧ (Triangle.mk 1 2 4).getAdjVertexClock 4 = 2 ∧
    (Triangle.mk 1 2 4).getAdjVertexClock ((Triangle.mk 1 2 4).getAdjVertexTrigo 4) = 4 :=
  ⟨(adjVertex_next_previous (Triangle.mk 1 2 4) (by decide)).1.2.2,
    (adjVertex_next_previous (Triangle.mk 1 2 4) (by decide)).2.1.2.2,
    ((adjVertex_next_previous (Triangle.mk 1 2 4) (by decide)).2.2.1 4
      (Or.inr (Or.inr rfl))).1⟩

/-- C15 (counterexample): 7 is not a vertex of the triangle (1,2,4), whose slot 0 holds 1,
and both adjacency queries return 0, not 1. -/
theorem adjVertex_absent_not_slot0 :
    (Triangle.mk 1 2 4).getAdjVertexTrigo 7 ≠ (Triangle.mk 1 2 4).v0 ∧
    (Triangle.mk 1 2 4).getAdjVertexClock 7 ≠ (Triangle.mk 1 2 4).v0 := by
  decide

/-- C15 (amended): for a vertex index that is not one of the three vertices of the triangle,
`getAdjVertexTrigo` and `getAdjVertexClock` do not fail and both return the index 0,
whatever slot 0 holds. -/
theorem adjVertex_absent_zero (t : Triangle) (v : Int) (h : ¬ t.hasVertex v) :
    t.getAdjVertexTrigo v = 0 ∧ t.getAdjVertexClock v = 0 := by
  have hf := (findVertexIndex_eq_neg_one t v).mpr h
  simp [Triangle.getAdjVertexTrigo, Triangle.getAdjVertexClock, hf]

/-- Witness of C15 (amended) on the triangle (1,2,4) and the index 7. -/
theorem adjVertex_absent_zero_witness :
    ¬ (Triangle.mk 1 2 4).hasVertex 7 ∧
    (Triangle.mk 1 2 4).getAdjVertexTrigo 7 = 0 ∧ (Triangle.mk 1 2 4).getAdjVertexClock 7 = 0 :=
  ⟨by decide, adjVertex_absent_zero (Triangle.mk 1 2 4) 7 (by decide)⟩

/-- C16: in a triangle with three distinct vertex indices, when `n` is held in a neighbor
slot the two ends of `getCommonEdge n` are different vertices of the triangle and
`getOppositeVertexOf n` is the third vertex (every vertex of the triangle is one of the
three), the slot of which holds `n`; when `n` is held in no slot, `getOppositeVertexOf n` is
-1 and `getCommonEdge n` is the edge (-1,-1). -/
theorem commonEdge_oppositeVertex (t : TopoTriangle) (n : Int) (hd : t.distinct) :
    (t.holds n →
      (t.getCommonEdge n).a ≠ (t.getCommonEdge n).b ∧
      t.hasVertex (t.getCommonEdge n).a ∧ t.hasVertex (t.getCommonEdge n).b ∧
      t.hasVertex (t.getOppositeVertexOf n) ∧
      t.getOppositeVertexOf n ≠ (t.getCommonEdge n).a ∧
      t.getOppositeVertexOf n ≠ (t.getCommonEdge n).b ∧
      (∀ v, t.hasVertex v → v = (t.getCommonEdge n).a ∨ v = (t.getCommonEdge n).b ∨
        v = t.getOppositeVertexOf n) ∧
      t.getOppositeNeighborOf (t.getOppositeVertexOf n) = n) ∧
    (¬ t.holds n →
      t.getOppositeVertexOf n = -1 ∧ t.getCommonEdge n = { a := -1, b := -1 }) := by
  obtain ⟨⟨v0, v1, v2⟩, n0, n1, n2⟩ := t
  obtain ⟨h01, h12, h02⟩ := hd
  simp only at h01 h12 h02
  simp only [TopoTriangle.holds, Triangle.hasVertex, TopoTriangle.getCommonEdge,
    TopoTriangle.getOppositeVertexOf, TopoTriangle.getOppositeNeighborOf,
    Triangle.findVertexIndex, TopoTriangle.neighborAt]
  by_cases k0 : n0 = n
  · simp [k0, h01, h12, h02, Ne.symm h01, Ne.symm h12, Ne.symm h02]
    tauto
  · by_cases k1 : n1 = n
    · simp [k0, k1, h01, h12, h02, Ne.symm h01, Ne.symm h12, Ne.symm h02]
      tauto
    · by_cases k2 : n2 = n
      · simp [k0, k1, k2, h01, h12, h02, Ne.symm h01, Ne.symm h12, Ne.symm h02]
        tauto
      · simp [k0, k1, k2, h01, h12, h02, Ne.symm h01, Ne.symm h12, Ne.symm h02]

/-- Witness of C16: in the triangle (1,2,4) with neighbors 5, 6, 7 the neighbor 6 is across
the edge (4,1), opposite vertex 2, and 9 is no neighbor. -/
theorem commonEdge_oppositeVertex_witness :
    TopoTriangle.getCommonEdge { v0 := 1, v1 := 2, v2 := 4, n0 := 5, n1 := 6, n2 := 7 } 6
      = { a := 4, b := 1 } ∧
    TopoTriangle.getOppositeNeighborOf { v0 := 1, v1 := 2, v2 := 4, n0 := 5, n1 := 6, n2 := 7 }
      (TopoTriangle.getOppositeVertexOf
        { v0 := 1, v1 := 2, v2 := 4, n0 := 5, n1 := 6, n2 := 7 } 6) = 6 ∧
    TopoTriangle.getOppositeVertexOf { v0 := 1, v1 := 2, v2 := 4, n0 := 5, n1 := 6, n2 := 7 } 9
      = -1 :=
  ⟨by decide,
    ((commonEdge_oppositeVertex { v0 := 1, v1 := 2, v2 := 4, n0 := 5, n1 := 6, n2 := 7 } 6
      (by decide)).1 (by decide)).2.2.2.2.2.2.2,
    ((commonEdge_oppositeVertex { v0 := 1, v1 := 2, v2 := 4, n0 := 5, n1 := 6, n2 := 7 } 9
      (by decide)).2 (by decide)).1⟩

/-- C17 (evaluation at failing inputs): in the triangle (1,2,4) with neighbors 5, 6, 7,
`removeNeighbor 5` changes nothing, so that slot 0 still holds 5, and `removeNeighbor 2`
clears slot 1, which held 6: the argument is looked up among the vertex indices. -/
theorem removeNeighbor_looks_up_vertices :
    (TopoTriangle.removeNeighbor { v0 := 1, v1 := 2, v2 := 4, n0 := 5, n1 := 6, n2 := 7 } 5
      = { v0 := 1, v1 := 2, v2 := 4, n0 := 5, n1 := 6, n2 := 7 }) ∧
    (TopoTriangle.removeNeighbor { v0 := 1, v1 := 2, v2 := 4, n0 := 5, n1 := 6, n2 := 7 } 2
      = { v0 := 1, v1 := 2, v2 := 4, n0 := 5, n1 := -1, n2 := 7 }) := by
  decide

/-! ## Flip (C18) -/

/-- C18: let `f1` and `f2` be two different triangles of the arena with distinct vertices,
`f1` a rotation of `(u1, a, b)` holding `f2` in the slot opposite `u1` only, `f2` a rotation
of `(u2, b, a)` holding `f1` in the slot opposite `u2` only, `a` and `b` being vertices of
the arena and the neighbor slots of both triangles holding none or a triangle of the arena.
Then `flip f1 f2` returns; triangle `f1` has the vertices `(u1, a, u2)` and triangle `f2` the
vertices `(u2, b, u1)`; the number of triangles, the vertex triple of every other triangle
and the coordinates of all vertices are as before. -/
theorem flip_replaces_diagonal (m : Mesh) (f1 f2 u1 u2 a b : Int) (t1 t2 : TopoTriangle)
    (hf : f1 ≠ f2)
    (h1 : atE m.triangles f1 = Except.ok t1) (h2 : atE m.triangles f2 = Except.ok t2)
    (hd1 : t1.distinct) (hd2 : t2.distinct)
    (hr1 : t1.isRotationOf u1 a b) (hr2 : t2.isRotationOf u2 b a)
    (hn1 : t1.recordsOnlyOpposite u1 f2) (hn2 : t2.recordsOnlyOpposite u2 f1)
    (hva : 0 ≤ a ∧ a < (m.vertices.length : Int))
    (hvb : 0 ≤ b ∧ b < (m.vertices.length : Int))
    (hs1 : ∀ n, t1.holds n → validSlot m.triangles n)
    (hs2 : ∀ n, t2.holds n → validSlot m.triangles n) :
    ∃ m2, m.flip f1 f2 = Except.ok m2 ∧
      m2.triangles.length = m.triangles.length ∧
      (∃ s1, atE m2.triangles f1 = Except.ok s1 ∧
        s1.toTriangle = { v0 := u1, v1 := a, v2 := u2 }) ∧
      (∃ s2, atE m2.triangles f2 = Except.ok s2 ∧
        s2.toTriangle = { v0 := u2, v1 := b, v2 := u1 }) ∧
      (∀ i t, i ≠ f1 → i ≠ f2 → atE m.triangles i = Except.ok t →
        ∃ s, atE m2.triangles i = Except.ok s ∧ s.toTriangle = t.toTriangle) ∧
      m2.vertices.map Vertex.toP = m.vertices.map Vertex.toP := by
  obtain ⟨hu1, ha, -, -, -⟩ := rotation_facts t1 u1 a b f2 hd1 hr1 hn1
  obtain ⟨hu2, hb, -, -, -⟩ := rotation_facts t2 u2 b a f1 hd2 hr2 hn2
  obtain ⟨hf1pos, hf1lt⟩ := lt_of_atE h1
  obtain ⟨hf2pos, hf2lt⟩ := lt_of_atE h2
  obtain ⟨vb, hvb2⟩ := atE_of_lt m.vertices b hvb.1 hvb.2
  -- the two back-reference updates
  let vertices1 : List Vertex :=
    if vb.face = f1 then setAt m.vertices b { vb with face := f2 } else m.vertices
  have hP1 : vertices1.map Vertex.toP = m.vertices.map Vertex.toP := by
    show (if vb.face = f1 then setAt m.vertices b { vb with face := f2 }
      else m.vertices).map Vertex.toP = _
    split
    · exact map_setAt_eq Vertex.toP m.vertices b vb { vb with face := f2 } hvb2 rfl
    · rfl
  have hlen1 : vertices1.length = m.vertices.length := by
    have := congrArg List.length hP1
    simpa using this
  obtain ⟨va, hva2⟩ := atE_of_lt vertices1 a hva.1 (by rw [hlen1]; exact hva.2)
  let vertices2 : List Vertex :=
    if va.face = f2 then setAt vertices1 a { va with face := f1 } else vertices1
  have hP2 : vertices2.map Vertex.toP = m.vertices.map Vertex.toP := by
    show (if va.face = f2 then setAt vertices1 a { va with face := f1 }
      else vertices1).map Vertex.toP = _
    split
    · exact (map_setAt_eq Vertex.toP vertices1 a va { va with face := f1 } hva2 rfl).trans hP1
    · exact hP1
  -- the two triangles are rebuilt
  let triangles1 := setAt m.triangles f1 (TopoTriangle.new u1 a u2)
  have h2' : atE triangles1 f2 = Except.ok t2 := by
    rw [atE_setAt_ne m.triangles _ hf1pos (Ne.symm hf)]
    exact h2
  let triangles2 := setAt triangles1 f2 (TopoTriangle.new u2 b u1)
  have hlen2 : triangles2.length = m.triangles.length := by
    simp [triangles2, triangles1, length_setAt]
  have hconc : ∀ i ∈ collectNeighbors t1 t2, 0 ≤ i ∧ i < (triangles2.length : Int) := by
    intro i hi
    rw [hlen2]
    unfold collectNeighbors at hi
    rcases List.mem_append.mp hi with h | h
    · obtain ⟨hh, hne⟩ := mem_presentNeighbors t1 i h
      rcases hs1 i hh with hneg | hok
      · exact absurd hneg hne
      · exact hok
    · obtain ⟨hh, hne⟩ := mem_presentNeighbors t2 i h
      rcases hs2 i hh with hneg | hok
      · exact absurd hneg hne
      · exact hok
  have hm0 : MapOk ([] : MapEdges) triangles2 := by
    intro k i hki
    cases hki
  obtain ⟨st, hst, hsh⟩ := flipLinkFrom_spec (collectNeighbors t1 t2) ([], triangles2) hm0 hconc
  refine ⟨{ m with vertices := vertices2, triangles := st.2 }, ?_, ?_, ?_, ?_, ?_, hP2⟩
  · unfold Mesh.flip
    simp only [h1, h2, hu1, hu2, ha, hb, hvb2, bind, Except.bind, pure, Except.pure]
    simp only [vertices1] at hva2
    simp only [hva2]
    simp only [triangles1] at h2'
    simp only [h2', hb]
    simp only [triangles2, triangles1] at hst
    simp only [hst]
  · show st.2.length = m.triangles.length
    rw [length_of_shapes hsh]
    exact hlen2
  · have hx : atE triangles2 f1 = Except.ok (TopoTriangle.new u1 a u2) := by
      show atE (setAt triangles1 f2 _) f1 = _
      rw [atE_setAt_ne triangles1 _ hf2pos hf]
      exact atE_setAt_self h1
    obtain ⟨s, hs, hss⟩ := atE_shapes hsh hx
    exact ⟨s, hs, hss⟩
  · have hx : atE triangles2 f2 = Except.ok (TopoTriangle.new u2 b u1) :=
      atE_setAt_self h2'
    obtain ⟨s, hs, hss⟩ := atE_shapes hsh hx
    exact ⟨s, hs, hss⟩
  · intro i t hi1 hi2 hit
    have hx : atE triangles2 i = Except.ok t := by
      show atE (setAt (setAt m.triangles f1 _) f2 _) i = _
      rw [atE_setAt_ne _ _ hf2pos hi2, atE_setAt_ne _ _ hf1pos hi1]
      exact hit
    exact atE_shapes hsh hx

/-- Witness of C18 on the two triangles (1,2,3) and (3,0,1) of the unit square, which share
the edge {1,3}: the flip returns. -/
theorem flip_replaces_diagonal_witness :
    ∃ m2, unitSquareMesh.flip 0 1 = Except.ok m2 ∧
      m2.triangles.length = unitSquareMesh.triangles.length ∧
      (∃ s1, atE m2.triangles 0 = Except.ok s1 ∧
        s1.toTriangle = { v0 := 2, v1 := 3, v2 := 0 }) ∧
      (∃ s2, atE m2.triangles 1 = Except.ok s2 ∧
        s2.toTriangle = { v0 := 0, v1 := 1, v2 := 2 }) ∧
      (∀ i t, i ≠ 0 → i ≠ 1 → atE unitSquareMesh.triangles i = Except.ok t →
        ∃ s, atE m2.triangles i = Except.ok s ∧ s.toTriangle = t.toTriangle) ∧
      m2.vertices.map Vertex.toP = unitSquareMesh.vertices.map Vertex.toP :=
  flip_replaces_diagonal unitSquareMesh 0 1 2 0 3 1
    { v0 := 1, v1 := 2, v2 := 3, n0 := -1, n1 := 1, n2 := -1 }
    { v0 := 3, v1 := 0, v2 := 1, n0 := -1, n1 := 0, n2 := -1 }
    (by decide) rfl rfl (by decide) (by decide) (by decide) (by decide)
    ⟨by decide, fun v hv hne => by
      rcases hv with h | h | h <;> subst h <;> first | exact absurd rfl hne | decide⟩
    ⟨by decide, fun v hv hne => by
      rcases hv with h | h | h <;> subst h <;> first | exact absurd rfl hne | decide⟩
    ⟨by decide, by decide⟩ ⟨by decide, by decide⟩
    (fun n hn => by
      rcases hn with h | h | h <;> subst h <;> simp [validSlot, unitSquareMesh])
    (fun n hn => by
      rcases hn with h | h | h <;> subst h <;> simp [validSlot, unitSquareMesh])

/-! ## Crust (C19, C20) -/

/-- C19: when `Crust` returns, the curve is rebuilt from nothing out of the final arena, and
an unordered pair of vertices occurs in it exactly when both are below `indexBeforeVoronoi`
and are two corners of one triangle of the final arena. -/
theorem crust_curve_characterisation (fuel : Nat) (m m2 : Mesh)
    (h : m.Crust fuel = Except.ok m2) :
    m2.curve = m2.triangles.foldl (addEdgesOf m2.indexBeforeVoronoi) [] ∧
    ∀ x y : Int, (∃ e ∈ m2.curve, e.joins x y) ↔
      (x < m2.indexBeforeVoronoi ∧ y < m2.indexBeforeVoronoi ∧
        ∃ t ∈ m2.triangles, t.hasEdge x y) := by
  refine ⟨crust_curve fuel m m2 h, ?_⟩
  intro x y
  rw [crust_curve fuel m m2 h]
  constructor
  · rintro ⟨e, he, hj⟩
    rcases (mem_foldl_addEdgesOf _ _ [] e).mp he with h0 | ⟨t, ht, het⟩
    · cases h0
    · obtain ⟨hx, hy, hxy⟩ := (joins_addEdgesOf _ t x y).mp ⟨e, het, hj⟩
      exact ⟨hx, hy, t, ht, hxy⟩
  · rintro ⟨hx, hy, t, ht, hxy⟩
    obtain ⟨e, het, hj⟩ := (joins_addEdgesOf _ t x y).mpr ⟨hx, hy, hxy⟩
    exact ⟨e, (mem_foldl_addEdgesOf _ _ [] e).mpr (Or.inr ⟨t, ht, het⟩), hj⟩

/-- Witness of C19: `Crust` returns on the triangle (0,0), (4,0), (2,3); the old curve is
gone and the new one holds the three sides of the triangle. -/
theorem crust_curve_characterisation_witness :
    ∃ m2, acuteTriangleMesh.Crust 5 = Except.ok m2 ∧
      m2.curve = [{ a := 2, b := 1 }, { a := 0, b := 2 }, { a := 1, b := 0 }] ∧
      ((∃ e ∈ m2.curve, e.joins 0 1) ↔
        (0 < m2.indexBeforeVoronoi ∧ 1 < m2.indexBeforeVoronoi ∧
          ∃ t ∈ m2.triangles, t.hasEdge 0 1)) := by
  have hev : (acuteTriangleMesh.Crust 5).toOption.map Mesh.curve
      = some [{ a := 2, b := 1 }, { a := 0, b := 2 }, { a := 1, b := 0 }] := by
    decide!
  cases h : acuteTriangleMesh.Crust 5 with
  | error e =>
    rw [h] at hev
    cases hev
  | ok m2 =>
    rw [h] at hev
    exact ⟨m2, rfl, by simpa [Except.toOption] using hev,
      (crust_curve_characterisation 5 acuteTriangleMesh m2 h).2 0 1⟩

/-- C20 (evaluation at the input of the claim): the four corners of the unit square,
inserted in order from the empty mesh, give the triangles (1,2,3) and (3,0,1), which have
the same center (1/2,1/2); `Crust` inserts that point twice and, as soon as the budget is 11
or more, ends with the range error of `vector::at`; with a smaller budget the run is not
finished.  No curve is produced. -/
theorem crust_unit_square_throws (fuel : Nat) :
    (∃ m, insertSequence (11 + fuel) unitSquarePoints Mesh.init = Except.ok m ∧
      m.triangles = unitSquareMesh.triangles) ∧
    crustCenters unitSquareMesh unitSquareMesh.triangles
      = Except.ok [Vertex.new (1 / 2) (1 / 2) 0, Vertex.new (1 / 2) (1 / 2) 0] ∧
    crustOnPoints (11 + fuel) unitSquarePoints = Except.error Err.outOfRange ∧
    (crustOnPoints fuel unitSquarePoints = Except.error Err.fuel ∨
      crustOnPoints fuel unitSquarePoints = Except.error Err.outOfRange) := by
  have h11 : errorOf (crustOnPoints 11 unitSquarePoints) = some Err.outOfRange := by
    decide!
  have e11 : crustOnPoints 11 unitSquarePoints = Except.error Err.outOfRange := by
    cases h : crustOnPoints 11 unitSquarePoints with
    | ok m =>
      rw [h] at h11
      cases h11
    | error e =>
      rw [h] at h11
      simp only [errorOf, Option.some.injEq] at h11
      rw [h11]
  have hup : ∀ k, crustOnPoints (11 + k) unitSquarePoints = Except.error Err.outOfRange := by
    intro k
    have hk := crustOnPoints_fuelLe unitSquarePoints 11 k (by
      rw [e11]
      intro h
      cases h)
    rw [hk, e11]
  have hc : (crustCenters unitSquareMesh unitSquareMesh.triangles).toOption
      = some [Vertex.new (1 / 2) (1 / 2) 0, Vertex.new (1 / 2) (1 / 2) 0] := by
    decide!
  refine ⟨triangles_of_eval 11 fuel unitSquarePoints _ (by decide!), ?_, hup fuel, ?_⟩
  · cases h : crustCenters unitSquareMesh unitSquareMesh.triangles with
    | error e =>
      rw [h] at hc
      cases hc
    | ok l =>
      rw [h] at hc
      simp only [Except.toOption, Option.some.injEq] at hc
      rw [hc]
  · by_cases hf : crustOnPoints fuel unitSquarePoints = Except.error Err.fuel
    · exact Or.inl hf
    · right
      have h1 := crustOnPoints_fuelLe unitSquarePoints fuel 11 hf
      rw [← h1, Nat.add_comm]
      exact hup fuel

/-! ## Lemmas on the iterators, the point location and the border scan -/

theorem preIncrement_iterate {Content : Type} (k : Nat) (it : MeshIterator Content) :
    MeshIterator.preIncrement^[k] it = { it with counter := it.counter + k } := by
  induction k generalizing it with
  | zero => simp
  | succ n ih =>
    rw [Function.iterate_succ_apply, ih]
    simp only [MeshIterator.preIncrement, Nat.cast_succ]
    congr 1
    ring

theorem deref_in_range {Content : Type} (arena : List Content) (p : Int)
    (h0 : 0 ≤ p) (h1 : p < (arena.length : Int)) :
    ∃ x, arena[p.toNat]? = some x ∧ (MeshIterator.new (some arena) p).deref = Except.ok x := by
  have hlt : p.toNat < arena.length := by omega
  refine ⟨arena[p.toNat], List.getElem?_eq_getElem hlt, ?_⟩
  have h2 : ¬ (p < 0 ∨ p ≥ (arena.length : Int)) := by omega
  simp only [MeshIterator.deref, MeshIterator.new, h2, if_false, atE]
  have h3 : ¬ p < 0 := by omega
  simp [h3, List.getElem?_eq_getElem hlt, pure, Except.pure]

theorem deref_out_of_range {Content : Type} (arena : List Content) (p : Int)
    (h : p < 0 ∨ (arena.length : Int) ≤ p) :
    (MeshIterator.new (some arena) p).deref = Except.error Err.rangeError := by
  have h2 : (p < 0 ∨ p ≥ (arena.length : Int)) := by omega
  simp only [MeshIterator.deref, MeshIterator.new, h2, if_true]
  rfl

theorem adjTriangleTrigo_eq (T : TopoTriangle) (c : Int) (hd : T.distinct)
    (hc : T.hasVertex c) :
    T.getAdjTriangleTrigo c = Except.ok (T.getOppositeNeighborOf (T.getAdjVertexTrigo c)) ∧
    T.hasVertex (T.getAdjVertexTrigo c) ∧ T.hasVertex (T.getAdjVertexClock c) ∧
    T.getAdjVertexTrigo c ≠ c ∧ T.getAdjVertexClock c ≠ c ∧
    T.getAdjVertexTrigo c ≠ T.getAdjVertexClock c := by
  obtain ⟨⟨v0, v1, v2⟩, n0, n1, n2⟩ := T
  obtain ⟨h01, h12, h02⟩ := hd
  simp only [Triangle.hasVertex] at hc
  simp only at h01 h12 h02
  rcases hc with rfl | rfl | rfl <;>
    simp [TopoTriangle.getAdjTriangleTrigo, computeFaceIndex, Triangle.findVertexIndex, indexes,
      TopoTriangle.getOppositeNeighborOf, TopoTriangle.neighborAt, Triangle.getAdjVertexTrigo,
      Triangle.getAdjVertexClock, Triangle.vertexAt, Triangle.hasVertex,
      Except.map, h01, h12, h02, Ne.symm h01, Ne.symm h12, Ne.symm h02, pure, Except.pure]

theorem contains_of_build (m : Mesh) (v : Vertex) (t : TopoTriangle) (p : Ptriangle3D)
    (h : m.buildPtriangle3D t = Except.ok p) : m.contains v t = isInThisTriangle v.toP p := by
  simp [Mesh.contains, h]

/-- The scan from position `i` on. -/
theorem isInOneTriangleFrom_spec (m : Mesh) (v : Vertex) :
    ∀ (l : List TopoTriangle) (i : Int),
      (∀ t ∈ l, ∃ p, m.buildPtriangle3D t = Except.ok p) →
      (isInOneTriangleFrom m v l i = Except.ok (-1) ∧ ∀ t ∈ l, m.contains v t = false) ∨
      (∃ k : Nat, isInOneTriangleFrom m v l i = Except.ok (i + k) ∧
        (∃ t, l[k]? = some t ∧ m.contains v t = true) ∧
        ∀ j : Nat, j < k → ∀ u, l[j]? = some u → m.contains v u = false) := by
  intro l
  induction l with
  | nil =>
    intro i _
    left
    exact ⟨rfl, fun t ht => by cases ht⟩
  | cons t rest ih =>
    intro i hv
    obtain ⟨p, hp⟩ := hv t (List.mem_cons_self _ _)
    have hc := contains_of_build m v t p hp
    by_cases hin : isInThisTriangle v.toP p = true
    · right
      refine ⟨0, ?_, ⟨t, by simp, by rw [hc]; exact hin⟩, fun j hj => absurd hj (Nat.not_lt_zero j)⟩
      simp [isInOneTriangleFrom, hp, hin, bind, Except.bind, pure, Except.pure]
    · have hin2 : isInThisTriangle v.toP p = false := by simpa using hin
      have hstep : isInOneTriangleFrom m v (t :: rest) i
          = isInOneTriangleFrom m v rest (i + 1) := by
        simp [isInOneTriangleFrom, hp, hin2, bind, Except.bind]
      rcases ih (i + 1) (fun u hu => hv u (List.mem_cons_of_mem _ hu)) with ⟨h1, h2⟩ | ⟨k, h1, h2, h3⟩
      · left
        refine ⟨by rw [hstep, h1], ?_⟩
        intro u hu
        rcases List.mem_cons.mp hu with rfl | hu
        · rw [hc]; exact hin2
        · exact h2 u hu
      · right
        refine ⟨k + 1, ?_, ?_, ?_⟩
        · rw [hstep, h1]
          congr 1
          push_cast
          ring
        · simpa using h2
        · intro j hj u hu
          cases j with
          | zero =>
            simp only [List.getElem?_cons_zero, Option.some.injEq] at hu
            subst hu
            rw [hc]; exact hin2
          | succ j =>
            simp only [List.getElem?_cons_succ] at hu
            exact h3 j (by omega) u hu

theorem updateBorderFrom_eq (id first : Int) :
    ∀ (B : List Int) (U : List Nat) (i : Int), U.length = B.length →
      updateBorderFrom id first B U i
        = (List.range B.length).flatMap
            (fun k => (if U.getD k 0 < 2 then [B.getD k 0] else []) ++
              (if (k : Int) + i = first then [id] else [])) := by
  intro B
  induction B with
  | nil =>
    intro U i h
    cases U with
    | nil => rfl
    | cons u U => cases h
  | cons b B ih =>
    intro U i h
    cases U with
    | nil => cases h
    | cons u U =>
      have hl : U.length = B.length := by simpa using h
      rw [updateBorderFrom, ih U (i + 1) hl]
      simp only [List.length_cons, List.range_succ_eq_map, List.flatMap_cons, List.flatMap_map,
        List.getD_cons_zero, Nat.cast_zero, zero_add]
      congr 1
      apply List.flatMap_congr
      intro k _
      simp only [Function.comp, List.getD_cons_succ, Nat.cast_succ]
      have : ((k : Int) + 1 + i = first) ↔ ((k : Int) + (i + 1) = first) := by
        constructor <;> intro h <;> omega
      simp only [this]

theorem updateBorderFrom_filter (id first : Int) :
    ∀ (B : List Int) (U : List Nat) (i : Int), U.length = B.length → id ∉ B →
      (updateBorderFrom id first B U i).filter (fun x => decide (x ≠ id)) = keptBorder B U := by
  intro B
  induction B with
  | nil =>
    intro U i h _
    cases U with
    | nil => rfl
    | cons u U => cases h
  | cons b B ih =>
    intro U i h hid
    cases U with
    | nil => cases h
    | cons u U =>
      have hl : U.length = B.length := by simpa using h
      have hb : b ≠ id := fun e => hid (e ▸ List.mem_cons_self _ _)
      have hB : id ∉ B := fun e => hid (List.mem_cons_of_mem _ e)
      rw [updateBorderFrom, List.filter_append, List.filter_append, ih U (i + 1) hl hB]
      by_cases hu : u < 2 <;> by_cases hi : i = first <;>
        simp [keptBorder, hu, hi, hb]

theorem updateBorderFrom_count (id first : Int) :
    ∀ (B : List Int) (U : List Nat) (i : Int), U.length = B.length → id ∉ B →
      (updateBorderFrom id first B U i).count id
        = if i ≤ first ∧ first < i + (B.length : Int) then 1 else 0 := by
  intro B
  induction B with
  | nil =>
    intro U i h _
    cases U with
    | nil =>
      have c0 : ¬ (i ≤ first ∧ first < i) := by omega
      simp [updateBorderFrom, c0]
    | cons u U => cases h
  | cons b B ih =>
    intro U i h hid
    cases U with
    | nil => cases h
    | cons u U =>
      have hl : U.length = B.length := by simpa using h
      have hb : b ≠ id := fun e => hid (e ▸ List.mem_cons_self _ _)
      have hB : id ∉ B := fun e => hid (List.mem_cons_of_mem _ e)
      rw [updateBorderFrom, List.count_append, List.count_append, ih U (i + 1) hl hB]
      have h1 : List.count id (if u < 2 then [b] else []) = 0 := by
        by_cases hu : u < 2
        · simp only [hu, if_true]
          exact List.count_eq_zero.mpr (by simpa using Ne.symm hb)
        · simp [hu]
      rw [h1]
      simp only [List.length_cons, Nat.cast_succ]
      by_cases hi : i = first
      · subst hi
        have c1 : ¬ (i + 1 ≤ i ∧ i < i + 1 + (B.length : Int)) := by omega
        have c2 : (i ≤ i ∧ i < i + ((B.length : Int) + 1)) := by omega
        simp [c1, c2]
      · by_cases c1 : (i + 1 ≤ first ∧ first < i + 1 + (B.length : Int))
        · have c2 : (i ≤ first ∧ first < i + ((B.length : Int) + 1)) := by omega
          simp [c1, c2, hi]
        · have c2 : ¬ (i ≤ first ∧ first < i + ((B.length : Int) + 1)) := by omega
          simp [c1, c2, hi]

/-! ## Lemmas on what every result of a computation satisfies -/

theorem always_pure {α : Type} {P : α → Prop} {a : α} (h : P a) :
    Always P (pure a : Except Err α) := by
  intro r hr
  cases hr
  exact h

theorem always_error {α : Type} {P : α → Prop} (e : Err) :
    Always P (Except.error e : Except Err α) := by
  intro r hr
  cases hr

theorem always_bind {α β : Type} {P : β → Prop} {x : Except Err α} {f : α → Except Err β}
    (h : ∀ a, x = Except.ok a → Always P (f a)) : Always P (x >>= f) := by
  intro r hr
  cases hx : x with
  | error e =>
    rw [hx] at hr
    cases hr
  | ok a =>
    rw [hx] at hr
    exact h a hx r hr

theorem always_mono {α : Type} {P Q : α → Prop} {x : Except Err α} (h : Always P x)
    (hpq : ∀ r, P r → Q r) : Always Q x :=
  fun r hr => hpq r (h r hr)

theorem sameFrame_refl (m : Mesh) : sameFrame m m := ⟨rfl, rfl, rfl, rfl⟩

theorem sameFrame_trans {a b c : Mesh} (h1 : sameFrame a b) (h2 : sameFrame b c) :
    sameFrame a c :=
  ⟨h2.1.trans h1.1, h2.2.1.trans h1.2.1, h2.2.2.1.trans h1.2.2.1, h2.2.2.2.trans h1.2.2.2⟩

theorem coords_setAt (l : List Vertex) (i : Int) (x y : Vertex) (h : atE l i = Except.ok x)
    (hp : y.toP = x.toP) : coords (setAt l i y) = coords l :=
  map_setAt_eq Vertex.toP l i x y h hp

theorem flip_sameFrame (m : Mesh) (f1 f2 : Int) : Always (sameFrame m) (m.flip f1 f2) := by
  unfold Mesh.flip
  refine always_bind (fun old_f1 _ => ?_)
  refine always_bind (fun old_f2 _ => ?_)
  dsimp only
  refine always_bind (fun changed_f2 h2 => ?_)
  have hv1 : coords (if changed_f2.face = f1 then
      setAt m.vertices (old_f2.getAdjVertexTrigo (old_f2.getOppositeVertexOf f1))
        { changed_f2 with face := f2 } else m.vertices) = coords m.vertices := by
    split
    · exact coords_setAt _ _ _ _ h2 rfl
    · rfl
  refine always_bind (fun changed_f1 h1 => ?_)
  refine always_bind (fun ref_f2 _ => ?_)
  refine always_bind (fun st _ => ?_)
  apply always_pure
  refine ⟨?_, rfl, rfl, rfl⟩
  dsimp only
  split
  · exact (coords_setAt _ _ changed_f1 { changed_f1 with face := f1 } h1 rfl).trans hv1
  · exact hv1

theorem incrementalDelaunayLoop_sameFrame (fuel : Nat) :
    ∀ (m : Mesh) (queue : List Int),
      Always (sameFrame m) (incrementalDelaunayLoop fuel m queue) := by
  induction fuel with
  | zero =>
    intro m queue
    unfold incrementalDelaunayLoop
    cases hq : getNextAvailableIndex queue with
    | none => exact always_pure (sameFrame_refl m)
    | some cq =>
      obtain ⟨current, queue1⟩ := cq
      exact always_error _
  | succ n ih =>
    intro m queue
    unfold incrementalDelaunayLoop
    cases hq : getNextAvailableIndex queue with
    | none => exact always_pure (sameFrame_refl m)
    | some cq =>
      obtain ⟨current, queue1⟩ := cq
      simp only
      refine always_bind (fun toFlipWith _ => ?_)
      split
      · exact ih _ _
      · refine always_bind (fun tCurrent _ => ?_)
        refine always_bind (fun tFlip _ => ?_)
        refine always_bind (fun m1 hm1 => ?_)
        exact always_mono (ih m1 _) (fun r hr => sameFrame_trans (flip_sameFrame m _ _ m1 hm1) hr)

theorem fixFaceFrom_coords (f last : Int) (tmp : TopoTriangle) :
    ∀ (l : List Int) (vs : List Vertex),
      Always (fun r => coords r = coords vs) (fixFaceFrom f last tmp l vs) := by
  intro l
  induction l with
  | nil =>
    intro vs
    exact always_pure rfl
  | cons pt rest ih =>
    intro vs
    unfold fixFaceFrom
    refine always_bind (fun vertex hv => ?_)
    split
    · exact always_pure (coords_setAt _ _ _ _ hv rfl)
    · exact ih vs

theorem splitTriangle_sameFrame (m : Mesh) (v : Vertex) (f i : Int) :
    Always (fun r => sameFrame m r.1) (m.splitTriangle v f i) := by
  unfold Mesh.splitTriangle
  refine always_bind (fun dying _ => ?_)
  dsimp only
  refine always_bind (fun vertices1 hv => ?_)
  apply always_pure
  exact ⟨fixFaceFrom_coords _ _ _ _ _ vertices1 hv, rfl, rfl, rfl⟩

theorem manageNeighborInside_sameFrame (m : Mesh) (news concerned : List Int) :
    Always (fun r => sameFrame m r.1) (m.manageNeighborInside news concerned) := by
  unfold Mesh.manageNeighborInside
  dsimp only
  refine always_bind (fun st _ => ?_)
  exact always_pure ⟨rfl, rfl, rfl, rfl⟩

theorem insertPointIntoTriangle_sameFrame (fuel : Nat) (m : Mesh) (v : Vertex) (f i : Int) :
    Always (fun r => sameFrame m r.1) (m.insertPointIntoTriangle fuel v f i) := by
  unfold Mesh.insertPointIntoTriangle
  refine always_bind ?_
  rintro ⟨m1, v1, news, concerned⟩ h1
  refine always_bind ?_
  rintro ⟨m2, concerned2⟩ h2
  refine always_bind (fun m3 h3 => ?_)
  apply always_pure
  have a1 := splitTriangle_sameFrame m v f i _ h1
  have a2 := manageNeighborInside_sameFrame m1 news concerned _ h2
  have a3 := incrementalDelaunayLoop_sameFrame fuel m2 concerned2 m3 h3
  exact sameFrame_trans (sameFrame_trans a1 a2) a3

theorem insertPointOutside_sameFrame (fuel : Nat) (m : Mesh) (v : Vertex) (i : Int) :
    Always (fun r => sameFrame m r.1) (m.insertPointOutside fuel v i) := by
  unfold Mesh.insertPointOutside
  refine always_bind (fun scan _ => ?_)
  dsimp only
  refine always_bind (fun m3 h3 => ?_)
  refine always_bind (fun concerned _ => ?_)
  refine always_bind (fun m4 h4 => ?_)
  apply always_pure
  have a3 : sameFrame m m3 := by
    unfold Mesh.updateNeighborsOutside at h3
    have := always_bind (P := fun r => sameFrame m r) (fun st _ => always_pure ?_) m3 h3
    · exact this
    · exact ⟨rfl, rfl, rfl, rfl⟩
  exact sameFrame_trans a3 (incrementalDelaunayLoop_sameFrame fuel m3 concerned m4 h4)

/-- An insertion appends the new vertex and keeps the coordinates of the others. -/
theorem insertVertexIntoTriangulation_coords (fuel : Nat) (m : Mesh) (v : Vertex) (i : Int) :
    Always (fun r => coords r.1.vertices = coords m.vertices ++ [v.toP] ∧
        r.1.indexBeforeVoronoi = m.indexBeforeVoronoi)
      (m.insertVertexIntoTriangulation fuel v i) := by
  unfold Mesh.insertVertexIntoTriangulation
  dsimp only
  have hc : coords (m.vertices ++ [v]) = coords m.vertices ++ [v.toP] := by
    simp [coords]
  split
  · exact always_pure ⟨hc, rfl⟩
  · split
    · refine always_bind (fun idx _ => ?_)
      split
      · refine always_mono (insertPointIntoTriangle_sameFrame fuel _ v idx i) ?_
        intro r hr
        exact ⟨hr.1.trans hc, hr.2.1⟩
      · refine always_mono (insertPointOutside_sameFrame fuel _ v i) ?_
        intro r hr
        exact ⟨hr.1.trans hc, hr.2.1⟩
    · exact always_pure ⟨hc, rfl⟩

theorem refineLoop_fuelLe_fuel (fuel : Nat) :
    ∀ (steps : Nat) (m : Mesh) (Qt : List Int) (Qe nE : List Edge),
      FuelLe (refineLoop fuel steps m Qt Qe nE) (refineLoop (fuel + 1) steps m Qt Qe nE) := by
  intro steps
  induction steps with
  | zero =>
    intro m Qt Qe nE
    unfold refineLoop
    cases Qe with
    | cons edge Qrest => exact fuelLe_refl _
    | nil =>
      cases Qt with
      | nil => exact fuelLe_refl _
      | cons front Trest => exact fuelLe_refl _
  | succ n ih =>
    intro m Qt Qe nE
    unfold refineLoop
    cases Qe with
    | cons edge Qrest =>
      dsimp only
      refine fuelLe_bind (fuelLe_refl _) (fun v => ?_)
      exact fuelLe_bind (insertVertexIntoTriangulation_fuelLe fuel m v _) (fun r => ih _ _ _ _)
    | nil =>
      cases Qt with
      | nil => exact fuelLe_refl _
      | cons front Trest =>
        dsimp only
        refine fuelLe_bind (fuelLe_refl _) (fun triangle => ?_)
        refine fuelLe_bind (fuelLe_refl _) (fun p => ?_)
        refine fuelLe_bind (fuelLe_refl _) (fun found => ?_)
        cases found with
        | some es => exact ih _ _ _ _
        | none =>
          dsimp only
          exact fuelLe_bind (insertVertexIntoTriangulation_fuelLe fuel m _ _)
            (fun r => ih _ _ _ _)

theorem refineLoop_fuelLe_steps (fuel : Nat) :
    ∀ (steps : Nat) (m : Mesh) (Qt : List Int) (Qe nE : List Edge),
      FuelLe (refineLoop fuel steps m Qt Qe nE) (refineLoop fuel (steps + 1) m Qt Qe nE) := by
  intro steps
  induction steps with
  | zero =>
    intro m Qt Qe nE
    unfold refineLoop
    cases Qe with
    | cons edge Qrest =>
      intro h
      exact absurd rfl h
    | nil =>
      cases Qt with
      | nil => exact fuelLe_refl _
      | cons front Trest =>
        intro h
        exact absurd rfl h
  | succ n ih =>
    intro m Qt Qe nE
    rw [refineLoop.eq_def fuel (n + 1), refineLoop.eq_def fuel (n + 1 + 1)]
    cases Qe with
    | cons edge Qrest =>
      dsimp only
      refine fuelLe_bind (fuelLe_refl _) (fun v => ?_)
      exact fuelLe_bind (fuelLe_refl _) (fun r => ih _ _ _ _)
    | nil =>
      cases Qt with
      | nil => exact fuelLe_refl _
      | cons front Trest =>
        dsimp only
        refine fuelLe_bind (fuelLe_refl _) (fun triangle => ?_)
        refine fuelLe_bind (fuelLe_refl _) (fun p => ?_)
        refine fuelLe_bind (fuelLe_refl _) (fun found => ?_)
        cases found with
        | some es => exact ih _ _ _ _
        | none =>
          dsimp only
          exact fuelLe_bind (fuelLe_refl _) (fun r => ih _ _ _ _)

/-- A refinement loop that ends within some budgets ends with the same mesh within any
larger ones. -/
theorem refineLoop_mono (fuel steps k j : Nat) (m r : Mesh) (Qt : List Int) (Qe nE : List Edge)
    (h : refineLoop fuel steps m Qt Qe nE = Except.ok r) :
    refineLoop (fuel + k) (steps + j) m Qt Qe nE = Except.ok r := by
  have h1 : ∀ k, refineLoop (fuel + k) steps m Qt Qe nE = Except.ok r := by
    intro k
    induction k with
    | zero => exact h
    | succ k ih =>
      have := refineLoop_fuelLe_fuel (fuel + k) steps m Qt Qe nE (by rw [ih]; intro h; cases h)
      rw [← Nat.add_assoc, this, ih]
  have h2 : ∀ j, refineLoop (fuel + k) (steps + j) m Qt Qe nE = Except.ok r := by
    intro j
    induction j with
    | zero => exact h1 k
    | succ j ih =>
      have := refineLoop_fuelLe_steps (fuel + k) (steps + j) m Qt Qe nE
        (by rw [ih]; intro h; cases h)
      rw [← Nat.add_assoc, this, ih]
  exact h2 j

/-- With a square root that is positive on positive numbers and a positive `M_PI`, the
value of `computeAngle` at a corner where the dot product of the two sides is negative is
negative. -/
theorem computeAngle_neg (sqrt : ℚ → ℚ) (pi : ℚ) (hs : ∀ x, 0 < x → 0 < sqrt x) (hpi : 0 < pi)
    (a b c : Pvertex3D) (hab : 0 < length2 (psub b a)) (hac : 0 < length2 (psub c a))
    (hd : dot (psub b a) (psub c a) < 0) : computeAngle sqrt pi a b c < 0 := by
  unfold computeAngle radian2deg length
  have h1 := hs _ hab
  have h2 := hs _ hac
  have h3 : dot (psub b a) (psub c a) / (sqrt (length2 (psub b a)) * sqrt (length2 (psub c a))) < 0 :=
    div_neg_of_neg_of_pos hd (mul_pos h1 h2)
  exact mul_neg_of_neg_of_pos h3 (div_pos (by norm_num) hpi)

/-- From a fact computed on the run within the budget `n` to the run within any larger
budget. -/
theorem insertSequence_eval {β : Type} (n fuel : Nat) (pts : List Vertex) (f : Mesh → β)
    (y : β) (h : (insertSequence n pts Mesh.init).toOption.map f = some y) :
    ∃ m, insertSequence (n + fuel) pts Mesh.init = Except.ok m ∧ f m = y := by
  cases hrun : insertSequence n pts Mesh.init with
  | error e => simp [hrun, Except.toOption] at h
  | ok m =>
    refine ⟨m, insertSequence_mono n (n + fuel) (Nat.le_add_right n fuel) pts _ m hrun, ?_⟩
    simpa [hrun, Except.toOption] using h

/-! ## Lemmas on the linker and the linking loops -/

theorem toPair_eq_iff (a b c d : Int) :
    Edge.toPair { a := a, b := b } = Edge.toPair { a := c, b := d } ↔
      (a = c ∧ b = d) ∨ (a = d ∧ b = c) := by
  unfold Edge.toPair
  dsimp only
  by_cases h1 : a < b <;> by_cases h2 : c < d <;> simp only [h1, h2, if_true, if_false,
    Prod.mk.injEq] <;> constructor <;> intro h <;> omega

theorem neighborAt_setNeighbor (t : TopoTriangle) (s s2 n : Int)
    (hs : s = 0 ∨ s = 1 ∨ s = 2) (hs2 : s2 = 0 ∨ s2 = 1 ∨ s2 = 2) :
    (t.setNeighbor s n).neighborAt s2 = if s2 = s then n else t.neighborAt s2 := by
  rcases hs with rfl | rfl | rfl <;> rcases hs2 with rfl | rfl | rfl <;>
    simp [TopoTriangle.setNeighbor, TopoTriangle.neighborAt]

/-- In a triangle with distinct vertices, the slot that `computeFaceIndex` gives for two
different vertices is the only one facing that edge. -/
theorem computeFaceIndex_slot (t : TopoTriangle) (a b : Int) (hd : t.distinct)
    (ha : t.hasVertex a) (hb : t.hasVertex b) (hab : a ≠ b) :
    ∃ s, (s = 0 ∨ s = 1 ∨ s = 2) ∧ computeFaceIndex t { a := a, b := b } = Except.ok s ∧
      ∀ s2, (s2 = 0 ∨ s2 = 1 ∨ s2 = 2) →
        (keyOfSlot t.toTriangle s2 = Edge.toPair { a := a, b := b } ↔ s2 = s) := by
  obtain ⟨⟨v0, v1, v2⟩, n0, n1, n2⟩ := t
  obtain ⟨h01, h12, h02⟩ := hd
  simp only [Triangle.hasVertex] at ha hb
  simp only at h01 h12 h02
  have g01 := Ne.symm h01
  have g12 := Ne.symm h12
  have g02 := Ne.symm h02
  rcases ha with rfl | rfl | rfl <;> rcases hb with rfl | rfl | rfl <;>
    first
    | exact absurd rfl hab
    | (refine ⟨2, by decide, ?_, ?_⟩
       · simp [computeFaceIndex, Triangle.findVertexIndex, indexes, h01, h12, h02, g01, g12, g02,
           pure, Except.pure]
       · intro s2 hs2
         rcases hs2 with rfl | rfl | rfl <;>
           simp [keyOfSlot, toPair_eq_iff, h01, h12, h02, g01, g12, g02])
    | (refine ⟨1, by decide, ?_, ?_⟩
       · simp [computeFaceIndex, Triangle.findVertexIndex, indexes, h01, h12, h02, g01, g12, g02,
           pure, Except.pure]
       · intro s2 hs2
         rcases hs2 with rfl | rfl | rfl <;>
           simp [keyOfSlot, toPair_eq_iff, h01, h12, h02, g01, g12, g02])
    | (refine ⟨0, by decide, ?_, ?_⟩
       · simp [computeFaceIndex, Triangle.findVertexIndex, indexes, h01, h12, h02, g01, g12, g02,
           pure, Except.pure]
       · intro s2 hs2
         rcases hs2 with rfl | rfl | rfl <;>
           simp [keyOfSlot, toPair_eq_iff, h01, h12, h02, g01, g12, g02])


theorem occOps_append (ops : List (Edge × Int)) (e : Edge) (i : Int) (k : Int × Int) :
    occOps (ops ++ [(e, i)]) k = occOps ops k ++ (if e.toPair = k then [i] else []) := by
  unfold occOps
  by_cases h : e.toPair = k <;> simp [List.filter_append, h]

theorem mem_occOps (ops : List (Edge × Int)) (k : Int × Int) (f : Int) :
    f ∈ occOps ops k ↔ ∃ e, (e, f) ∈ ops ∧ e.toPair = k := by
  unfold occOps
  simp only [List.mem_map, List.mem_filter, decide_eq_true_eq]
  constructor
  · rintro ⟨⟨e, j⟩, ⟨hmem, hk⟩, rfl⟩
    exact ⟨e, hmem, hk⟩
  · rintro ⟨e, hmem, hk⟩
    exact ⟨(e, f), ⟨hmem, hk⟩, rfl⟩

theorem hasVertex_of_toPair {t : Triangle} {e e2 : Edge} (h : e2.toPair = e.toPair)
    (ha : t.hasVertex e2.a) (hb : t.hasVertex e2.b) : t.hasVertex e.a ∧ t.hasVertex e.b := by
  obtain ⟨a, b⟩ := e
  obtain ⟨c, d⟩ := e2
  rcases (toPair_eq_iff c d a b).mp h with ⟨h1, h2⟩ | ⟨h1, h2⟩
  · subst h1 h2
    exact ⟨ha, hb⟩
  · subst h1 h2
    exact ⟨hb, ha⟩

theorem addNeighbor_of_slot (t : TopoTriangle) (n s : Int) (e : Edge)
    (h : computeFaceIndex t e = Except.ok s) :
    t.addNeighbor n e = Except.ok (t.setNeighbor s n) := by
  simp [TopoTriangle.addNeighbor, h, Except.map]

theorem find_cons (map : MapEdges) (k k2 : Int × Int) (i : Int) :
    MapEdges.find ((k, i) :: map) k2 = if k = k2 then some i else MapEdges.find map k2 := by
  simp [MapEdges.find]

/-- One more call of `neighbor::insert`. -/
theorem neighborInsert_step (F : List TopoTriangle) (ops : List (Edge × Int))
    (st : MapEdges × List TopoTriangle) (e : Edge) (i : Int) (hinv : LinkInv F ops st)
    (hops : ∀ o ∈ ops, OpOk F o) (ho : OpOk F (e, i)) :
    ∃ st2, neighborInsert st.1 e i st.2 = Except.ok st2 ∧ LinkInv F (ops ++ [(e, i)]) st2 := by
  obtain ⟨hsh, hmap, hslots⟩ := hinv
  obtain ⟨t0, ht0, hd0, ha0, hb0, hab⟩ := ho
  dsimp only at ht0 ha0 hb0 hab
  obtain ⟨t, ht, hts⟩ := atE_shapes hsh ht0
  have hd : t.distinct := by
    show Triangle.distinct t.toTriangle
    rw [hts]; exact hd0
  have ha : t.hasVertex e.a := (hasVertex_of_shape hts _).mpr ha0
  have hb : t.hasVertex e.b := (hasVertex_of_shape hts _).mpr hb0
  unfold neighborInsert
  cases hf : MapEdges.find st.1 e.toPair with
  | none =>
    have hocc : occOps ops e.toPair = [] := by
      have := hmap e.toPair
      rw [hf] at this
      cases hq : occOps ops e.toPair with
      | nil => rfl
      | cons x l =>
        rw [hq] at this
        cases this
    refine ⟨((e.toPair, i) :: st.1, st.2), rfl, hsh, ?_, ?_⟩
    · intro k
      dsimp only
      rw [find_cons, occOps_append]
      by_cases hk : e.toPair = k
      · subst hk
        simp [hocc]
      · simp only [hk, if_false, List.append_nil]
        exact hmap k
    · intro i2 t02 t2 h02 h2 s hs
      dsimp only at h2
      rw [hslots i2 t02 t2 h02 h2 s hs, occOps_append]
      by_cases hk : e.toPair = keyOfSlot t02.toTriangle s
      · rw [← hk, hocc]
        by_cases hi : i2 = i <;> simp [expectedSlot, hi]
      · simp only [hk, if_false, List.append_nil]
  | some f =>
    obtain ⟨later, hocc⟩ : ∃ later, occOps ops e.toPair = f :: later := by
      have := hmap e.toPair
      rw [hf] at this
      cases hq : occOps ops e.toPair with
      | nil =>
        rw [hq] at this
        cases this
      | cons x l =>
        rw [hq] at this
        simp only [List.head?_cons, Option.some.injEq] at this
        exact ⟨l, by rw [this]⟩
    obtain ⟨e2, hmem, hk2⟩ := (mem_occOps ops e.toPair f).mp (by rw [hocc]; exact List.mem_cons_self _ _)
    obtain ⟨u0, hu0, hdu0, hau0, hbu0, _⟩ := hops _ hmem
    dsimp only at hu0 hau0 hbu0
    obtain ⟨hau0e, hbu0e⟩ := hasVertex_of_toPair hk2 hau0 hbu0
    -- first write
    obtain ⟨si, hsi, hci, huni⟩ := computeFaceIndex_slot t e.a e.b hd ha hb hab
    have hadd1 : t.addNeighbor f e = Except.ok (t.setNeighbor si f) := addNeighbor_of_slot t f si e hci
    have hsh1 : shapes (setAt st.2 i (t.setNeighbor si f)) = shapes F :=
      (shapes_setAt st.2 i t _ ht (setNeighbor_toTriangle t si f)).trans hsh
    obtain ⟨u1, hu1, hu1s⟩ := atE_shapes hsh1 hu0
    have hdu1 : u1.distinct := by
      show Triangle.distinct u1.toTriangle
      rw [hu1s]; exact hdu0
    have hau1 : u1.hasVertex e.a := (hasVertex_of_shape hu1s _).mpr hau0e
    have hbu1 : u1.hasVertex e.b := (hasVertex_of_shape hu1s _).mpr hbu0e
    obtain ⟨sf, hsf, hcf, hunf⟩ := computeFaceIndex_slot u1 e.a e.b hdu1 hau1 hbu1 hab
    have hadd2 : u1.addNeighbor i e = Except.ok (u1.setNeighbor sf i) := addNeighbor_of_slot u1 i sf e hcf
    have hsh2 : shapes (setAt (setAt st.2 i (t.setNeighbor si f)) f (u1.setNeighbor sf i)) = shapes F :=
      (shapes_setAt _ f u1 _ hu1 (setNeighbor_toTriangle u1 sf i)).trans hsh1
    refine ⟨(st.1, setAt (setAt st.2 i (t.setNeighbor si f)) f (u1.setNeighbor sf i)), ?_, hsh2, ?_, ?_⟩
    · simp only [ht, hadd1, hu1, hadd2, bind, Except.bind, pure, Except.pure]
    · intro k
      dsimp only
      rw [occOps_append, hmap k]
      by_cases hk : e.toPair = k
      · subst hk
        simp [hocc]
      · simp [hk]
    · intro i2 t02 t2 h02 h2 s hs
      dsimp only at h2
      have hi0 := (lt_of_atE ht).1
      have hf0 := (lt_of_atE hu1).1
      rw [occOps_append]
      by_cases hi2f : i2 = f
      · -- the triangle found in the map
        rw [hi2f] at h2 h02 ⊢
        have ht2 : t2 = u1.setNeighbor sf i := by
          rw [atE_setAt_self hu1] at h2
          cases h2; rfl
        have ht02 : t02 = u0 := by
          rw [hu0] at h02
          cases h02; rfl
        rw [ht02, ht2, neighborAt_setNeighbor u1 sf s i hsf hs]
        have hkey : keyOfSlot u0.toTriangle s = e.toPair ↔ s = sf := by
          rw [← hu1s]; exact hunf s hs
        by_cases hs2 : s = sf
        · have hk := hkey.mpr hs2
          rw [hk, hocc]
          simp [hs2, expectedSlot]
        · have hk : ¬ e.toPair = keyOfSlot u0.toTriangle s := fun h => hs2 (hkey.mp h.symm)
          simp only [hs2, if_false, hk, List.append_nil]
          by_cases hif : f = i
          · have hu1t : u1 = t.setNeighbor si f := by
              rw [hif] at hu1
              rw [atE_setAt_self ht] at hu1
              cases hu1; rw [hif]
            have hsisf : si = sf := by
              have := (hunf si hsi).mp (by
                rw [hu1t, setNeighbor_toTriangle]
                exact (huni si hsi).mpr rfl)
              exact this
            rw [hu1t, neighborAt_setNeighbor t si s f hsi hs]
            have hne : ¬ s = si := by rw [hsisf]; exact hs2
            simp only [hne, if_false]
            have htf : atE st.2 f = Except.ok t := by rw [hif]; exact ht
            exact hslots f u0 t hu0 htf s hs
          · have hu1st : atE st.2 f = Except.ok u1 := by
              rw [atE_setAt_ne st.2 _ hi0 hif] at hu1
              exact hu1
            exact hslots f u0 u1 hu0 hu1st s hs
      · by_cases hi2i : i2 = i
        · rw [hi2i] at h2 h02 ⊢
          have hne : i ≠ f := fun h => hi2f (hi2i.trans h)
          have ht2 : t2 = t.setNeighbor si f := by
            rw [atE_setAt_ne _ _ hf0 hne, atE_setAt_self ht] at h2
            cases h2; rfl
          have ht02 : t02 = t0 := by
            rw [ht0] at h02
            cases h02; rfl
          rw [ht02, ht2, neighborAt_setNeighbor t si s f hsi hs]
          have hkey : keyOfSlot t0.toTriangle s = e.toPair ↔ s = si := by
            rw [← hts]; exact huni s hs
          by_cases hs2 : s = si
          · have hk := hkey.mpr hs2
            rw [hk, hocc]
            simp [hs2, expectedSlot, hne]
          · have hk : ¬ e.toPair = keyOfSlot t0.toTriangle s := fun h => hs2 (hkey.mp h.symm)
            simp only [hs2, if_false, hk, List.append_nil]
            exact hslots i t0 t ht0 ht s hs
        · have h2st : atE st.2 i2 = Except.ok t2 := by
            rw [atE_setAt_ne _ _ hf0 hi2f, atE_setAt_ne _ _ hi0 hi2i] at h2
            exact h2
          rw [hslots i2 t02 t2 h02 h2st s hs]
          by_cases hk : e.toPair = keyOfSlot t02.toTriangle s
          · rw [← hk, hocc]
            simp [expectedSlot, hi2f, hi2i]
          · simp only [hk, if_false, List.append_nil]


theorem bind_congr_ok {α β : Type} (x : Except Err α) (f g : α → Except Err β)
    (h : ∀ a, x = Except.ok a → f a = g a) : (x >>= f) = (x >>= g) := by
  cases hx : x with
  | error e => rfl
  | ok a => exact h a hx

theorem linkOps_append (a b : List (Edge × Int)) :
    ∀ st, linkOps (a ++ b) st = linkOps a st >>= linkOps b := by
  induction a with
  | nil =>
    intro st
    rfl
  | cons op rest ih =>
    intro st
    simp only [List.cons_append, linkOps]
    cases h : neighborInsert st.1 op.1 op.2 st.2 with
    | error e => rfl
    | ok st1 => exact ih st1

/-- The calls well formed in `F`, made from the empty map, all return, and the slots are as
`expectedSlot` says. -/
theorem linkOps_inv (F : List TopoTriangle) (ops : List (Edge × Int))
    (hops : ∀ o ∈ ops, OpOk F o) :
    ∃ st, linkOps ops ([], F) = Except.ok st ∧ LinkInv F ops st := by
  induction ops using List.reverseRecOn with
  | nil =>
    refine ⟨([], F), rfl, rfl, ?_, ?_⟩
    · intro k
      rfl
    · intro i t0 t h0 h s _
      rw [h0] at h
      cases h
      rfl
  | append_singleton ops op ih =>
    obtain ⟨st, hst, hinv⟩ := ih (fun o ho => hops o (List.mem_append_left _ ho))
    obtain ⟨e, i⟩ := op
    obtain ⟨st2, hst2, hinv2⟩ := neighborInsert_step F ops st e i hinv
      (fun o ho => hops o (List.mem_append_left _ ho))
      (hops (e, i) (List.mem_append_right _ (List.mem_singleton_self _)))
    refine ⟨st2, ?_, hinv2⟩
    rw [linkOps_append, hst]
    show linkOps [(e, i)] st = Except.ok st2
    simp only [linkOps, hst2, bind, Except.bind, pure, Except.pure]

theorem neighborInsert_shapes (map : MapEdges) (key : Edge) (index : Int)
    (faces : List TopoTriangle) :
    Always (fun st2 => shapes st2.2 = shapes faces) (neighborInsert map key index faces) := by
  unfold neighborInsert
  cases MapEdges.find map key.toPair with
  | none => exact always_pure rfl
  | some second =>
    dsimp only
    refine always_bind (fun t ht => ?_)
    refine always_bind (fun t2 ht2 => ?_)
    refine always_bind (fun u hu => ?_)
    refine always_bind (fun u2 hu2 => ?_)
    apply always_pure
    have e1 : t2.toTriangle = t.toTriangle := by
      unfold TopoTriangle.addNeighbor at ht2
      cases hc : computeFaceIndex t key with
      | error e => rw [hc] at ht2; cases ht2
      | ok s =>
        rw [hc] at ht2
        cases ht2
        exact setNeighbor_toTriangle t s second
    have e2 : u2.toTriangle = u.toTriangle := by
      unfold TopoTriangle.addNeighbor at hu2
      cases hc : computeFaceIndex u key with
      | error e => rw [hc] at hu2; cases hu2
      | ok s =>
        rw [hc] at hu2
        cases hu2
        exact setNeighbor_toTriangle u s index
    exact (shapes_setAt _ second u u2 hu e2).trans (shapes_setAt faces index t t2 ht e1)

theorem linkOps_shapes (ops : List (Edge × Int)) :
    ∀ st, Always (fun st2 => shapes st2.2 = shapes st.2) (linkOps ops st) := by
  induction ops with
  | nil =>
    intro st
    exact always_pure rfl
  | cons op rest ih =>
    intro st
    unfold linkOps
    refine always_bind (fun st1 h1 => ?_)
    exact always_mono (ih st1) (fun r hr => hr.trans (neighborInsert_shapes _ _ _ _ st1 h1))

theorem linkEdgesOf_eq (i : Int) (st : MapEdges × List TopoTriangle) (t : TopoTriangle)
    (ht : atE st.2 i = Except.ok t) :
    linkEdgesOf i st = linkOps ((edgesOf t.toTriangle).map (fun e => (e, i))) st := by
  unfold linkEdgesOf
  simp only [ht, edgesOf, List.map_cons, List.map_nil, linkOps, bind, Except.bind]
  cases neighborInsert st.1 { a := t.v0, b := t.v1 } i st.2 with
  | error e => rfl
  | ok st1 =>
    dsimp only
    cases neighborInsert st1.1 { a := t.v1, b := t.v2 } i st1.2 with
    | error e => rfl
    | ok st2 =>
      dsimp only
      cases neighborInsert st2.1 { a := t.v2, b := t.v0 } i st2.2 with
      | error e => rfl
      | ok st3 => rfl

theorem opsOf_cons_valid (F : List TopoTriangle) (i : Int) (rest : List Int) (t : TopoTriangle)
    (hi : i ≠ -1) (ht : atE F i = Except.ok t) :
    opsOf F (i :: rest) = (edgesOf t.toTriangle).map (fun e => (e, i)) ++ opsOf F rest := by
  simp [opsOf, hi, ht]

theorem opsOf_cons_none (F : List TopoTriangle) (rest : List Int) :
    opsOf F (-1 :: rest) = opsOf F rest := by
  simp [opsOf]

/-- The loop of `manageNeighborInside` is the sequence of calls `opsOf`. -/
theorem manageNeighborInsideFrom_eq (F : List TopoTriangle) (L : List Int) :
    ∀ st : MapEdges × List TopoTriangle, shapes st.2 = shapes F →
      (∀ i ∈ L, i ≠ -1 → ∃ t, atE F i = Except.ok t) →
      manageNeighborInsideFrom L st = linkOps (opsOf F L) st := by
  induction L with
  | nil =>
    intro st _ _
    rfl
  | cons i rest ih =>
    intro st hsh hv
    unfold manageNeighborInsideFrom
    by_cases hi : i = -1
    · simp only [hi, if_true]
      rw [opsOf_cons_none]
      exact ih st hsh (fun j hj => hv j (List.mem_cons_of_mem _ hj))
    · simp only [hi, if_false]
      obtain ⟨t0, ht0⟩ := hv i (List.mem_cons_self _ _) hi
      obtain ⟨t, ht, hts⟩ := atE_shapes hsh ht0
      rw [opsOf_cons_valid F i rest t0 hi ht0, linkOps_append, linkEdgesOf_eq i st t ht, hts]
      apply bind_congr_ok
      intro st1 h1
      exact ih st1 ((linkOps_shapes _ st st1 h1).trans hsh)
        (fun j hj => hv j (List.mem_cons_of_mem _ hj))

/-- The loop of `flip` is the sequence of calls `opsOf`. -/
theorem flipLinkFrom_eq (F : List TopoTriangle) (L : List Int) :
    ∀ st : MapEdges × List TopoTriangle, shapes st.2 = shapes F →
      (∀ i ∈ L, ∃ t, atE F i = Except.ok t) →
      flipLinkFrom L st = linkOps (opsOf F L) st := by
  induction L with
  | nil =>
    intro st _ _
    rfl
  | cons i rest ih =>
    intro st hsh hv
    unfold flipLinkFrom
    obtain ⟨t0, ht0⟩ := hv i (List.mem_cons_self _ _)
    have hi : i ≠ -1 := by
      have := (lt_of_atE ht0).1
      omega
    obtain ⟨t, ht, hts⟩ := atE_shapes hsh ht0
    rw [opsOf_cons_valid F i rest t0 hi ht0, linkOps_append, linkEdgesOf_eq i st t ht, hts]
    apply bind_congr_ok
    intro st1 h1
    exact ih st1 ((linkOps_shapes _ st st1 h1).trans hsh)
      (fun j hj => hv j (List.mem_cons_of_mem _ hj))


theorem keyOfSlot_zero (t : Triangle) :
    keyOfSlot t 0 = Edge.toPair { a := t.v1, b := t.v2 } := rfl

theorem keyOfSlot_one (t : Triangle) :
    keyOfSlot t 1 = Edge.toPair { a := t.v2, b := t.v0 } := rfl

theorem keyOfSlot_two (t : Triangle) :
    keyOfSlot t 2 = Edge.toPair { a := t.v0, b := t.v1 } := rfl

theorem hasKey_iff (t : Triangle) (a b : Int) (hab : a ≠ b) :
    hasKey t (Edge.toPair { a := a, b := b }) ↔ t.hasVertex a ∧ t.hasVertex b := by
  obtain ⟨v0, v1, v2⟩ := t
  rw [hasKey, keyOfSlot_zero, keyOfSlot_one, keyOfSlot_two, toPair_eq_iff, toPair_eq_iff,
    toPair_eq_iff]
  simp only [Triangle.hasVertex]
  constructor
  · intro h
    rcases h with (⟨h1, h2⟩ | ⟨h1, h2⟩) | (⟨h1, h2⟩ | ⟨h1, h2⟩) | (⟨h1, h2⟩ | ⟨h1, h2⟩) <;>
      subst h1 <;> subst h2 <;> simp
  · rintro ⟨ha, hb⟩
    rcases ha with rfl | rfl | rfl <;> rcases hb with rfl | rfl | rfl <;>
      first
      | exact absurd rfl hab
      | simp

theorem occOps_edgesOf (t : Triangle) (i : Int) (k : Int × Int) (hd : t.distinct) :
    occOps ((edgesOf t).map (fun e => (e, i))) k = if hasKey t k then [i] else [] := by
  obtain ⟨v0, v1, v2⟩ := t
  obtain ⟨h01, h12, h02⟩ := hd
  simp only at h01 h12 h02
  have g01 := Ne.symm h01
  have g12 := Ne.symm h12
  have g02 := Ne.symm h02
  have d1 : Edge.toPair { a := v0, b := v1 } ≠ Edge.toPair { a := v1, b := v2 } := by
    rw [Ne, toPair_eq_iff]; simp [h01, h12, h02, g01, g12, g02]
  have d2 : Edge.toPair { a := v0, b := v1 } ≠ Edge.toPair { a := v2, b := v0 } := by
    rw [Ne, toPair_eq_iff]; simp [h01, h12, h02, g01, g12, g02]
  have d3 : Edge.toPair { a := v1, b := v2 } ≠ Edge.toPair { a := v2, b := v0 } := by
    rw [Ne, toPair_eq_iff]; simp [h01, h12, h02, g01, g12, g02]
  simp only [occOps, edgesOf, List.map_cons, List.map_nil, hasKey, keyOfSlot,
    show (1 : Int) ≠ 0 by decide, show (2 : Int) ≠ 0 by decide, show (2 : Int) ≠ 1 by decide,
    if_true, if_false, List.filter_cons, List.filter_nil, decide_eq_true_eq]
  by_cases k1 : Edge.toPair { a := v0, b := v1 } = k
  · have k2 : ¬ Edge.toPair { a := v1, b := v2 } = k := fun h => d1 (k1.trans h.symm)
    have k3 : ¬ Edge.toPair { a := v2, b := v0 } = k := fun h => d2 (k1.trans h.symm)
    simp [k1, k2, k3]
  · by_cases k2 : Edge.toPair { a := v1, b := v2 } = k
    · have k3 : ¬ Edge.toPair { a := v2, b := v0 } = k := fun h => d3 (k2.trans h.symm)
      simp [k1, k2, k3]
    · by_cases k3 : Edge.toPair { a := v2, b := v0 } = k
      · simp [k1, k2, k3]
      · simp [k1, k2, k3]

theorem occOps_append_list (a b : List (Edge × Int)) (k : Int × Int) :
    occOps (a ++ b) k = occOps a k ++ occOps b k := by
  simp [occOps, List.filter_append]

theorem occOps_opsOf (F : List TopoTriangle) (k : Int × Int) (L : List Int)
    (hv : ∀ i ∈ L, i ≠ -1 → ∃ t, atE F i = Except.ok t ∧ t.distinct) :
    occOps (opsOf F L) k = givenWith F L k := by
  induction L with
  | nil => rfl
  | cons i rest ih =>
    have ih2 := ih (fun j hj => hv j (List.mem_cons_of_mem _ hj))
    by_cases hi : i = -1
    · subst hi
      rw [opsOf_cons_none, ih2]
      simp [givenWith, givenPred]
    · obtain ⟨t, ht, hd⟩ := hv i (List.mem_cons_self _ _) hi
      rw [opsOf_cons_valid F i rest t hi ht, occOps_append_list, ih2, occOps_edgesOf _ _ _ hd]
      by_cases hk : hasKey t.toTriangle k <;> simp [givenWith, givenPred, hi, ht, hk]

theorem opOk_of_opsOf (F : List TopoTriangle) (L : List Int)
    (hv : ∀ i ∈ L, i ≠ -1 → ∃ t, atE F i = Except.ok t ∧ t.distinct) :
    ∀ o ∈ opsOf F L, OpOk F o := by
  intro o ho
  simp only [opsOf, List.mem_flatMap] at ho
  obtain ⟨i, hi, ho⟩ := ho
  by_cases h1 : i = -1
  · simp [h1] at ho
  · obtain ⟨t, ht, hd⟩ := hv i hi h1
    simp only [h1, if_false, ht, edgesOf, List.map_cons, List.map_nil, List.mem_cons,
      List.mem_singleton, List.not_mem_nil, or_false] at ho
    obtain ⟨h01, h12, h02⟩ := hd
    rcases ho with rfl | rfl | rfl
    · exact ⟨t, ht, ⟨h01, h12, h02⟩, Or.inl rfl, Or.inr (Or.inl rfl), h01⟩
    · exact ⟨t, ht, ⟨h01, h12, h02⟩, Or.inr (Or.inl rfl), Or.inr (Or.inr rfl), h12⟩
    · exact ⟨t, ht, ⟨h01, h12, h02⟩, Or.inr (Or.inr rfl), Or.inl rfl, Ne.symm h02⟩

/-- In a triangle with distinct vertices the neighbor opposite `w` sits in the slot that
faces the edge of the two other vertices. -/
theorem opposite_as_slot (t : TopoTriangle) (a b w : Int) (hd : t.distinct)
    (ha : t.hasVertex a) (hb : t.hasVertex b) (hw : t.hasVertex w) (hab : a ≠ b)
    (hwa : w ≠ a) (hwb : w ≠ b) :
    ∃ s, (s = 0 ∨ s = 1 ∨ s = 2) ∧
      keyOfSlot t.toTriangle s = Edge.toPair { a := a, b := b } ∧
      ∀ t2 : TopoTriangle, t2.toTriangle = t.toTriangle →
        t2.getOppositeNeighborOf w = t2.neighborAt s := by
  obtain ⟨⟨v0, v1, v2⟩, n0, n1, n2⟩ := t
  obtain ⟨h01, h12, h02⟩ := hd
  simp only [Triangle.hasVertex] at ha hb hw
  simp only at h01 h12 h02
  have g01 := Ne.symm h01
  have g12 := Ne.symm h12
  have g02 := Ne.symm h02
  rcases ha with rfl | rfl | rfl <;> rcases hb with rfl | rfl | rfl <;>
    rcases hw with rfl | rfl | rfl <;>
    first
    | exact absurd rfl hab
    | exact absurd rfl hwa
    | exact absurd rfl hwb
    | (refine ⟨0, by decide, ?_, ?_⟩
       · simp [keyOfSlot, toPair_eq_iff]
       · rintro ⟨⟨x0, x1, x2⟩, m0, m1, m2⟩ h
         simp only [Triangle.mk.injEq] at h
         obtain ⟨rfl, rfl, rfl⟩ := h
         simp [TopoTriangle.getOppositeNeighborOf, Triangle.findVertexIndex,
           TopoTriangle.neighborAt, h01, h12, h02, g01, g12, g02])
    | (refine ⟨1, by decide, ?_, ?_⟩
       · simp [keyOfSlot, toPair_eq_iff]
       · rintro ⟨⟨x0, x1, x2⟩, m0, m1, m2⟩ h
         simp only [Triangle.mk.injEq] at h
         obtain ⟨rfl, rfl, rfl⟩ := h
         simp [TopoTriangle.getOppositeNeighborOf, Triangle.findVertexIndex,
           TopoTriangle.neighborAt, h01, h12, h02, g01, g12, g02])
    | (refine ⟨2, by decide, ?_, ?_⟩
       · simp [keyOfSlot, toPair_eq_iff]
       · rintro ⟨⟨x0, x1, x2⟩, m0, m1, m2⟩ h
         simp only [Triangle.mk.injEq] at h
         obtain ⟨rfl, rfl, rfl⟩ := h
         simp [TopoTriangle.getOppositeNeighborOf, Triangle.findVertexIndex,
           TopoTriangle.neighborAt, h01, h12, h02, g01, g12, g02])

/-- The linking loop of `manageNeighborInside` over `L`, entered with the empty map: when
every entry of `L` other than `-1` names a triangle with distinct vertices, the loop returns,
the vertex triples are kept, and the neighbor of triangle `i` opposite its vertex `w` is
given by `expectedSlot` on the entries of `L` that have the edge of the two other vertices. -/
theorem manageNeighborInsideFrom_pass (F : List TopoTriangle) (L : List Int)
    (hv : ∀ i ∈ L, i ≠ -1 → ∃ t, atE F i = Except.ok t ∧ t.distinct) :
    ∃ st, manageNeighborInsideFrom L ([], F) = Except.ok st ∧ shapes st.2 = shapes F ∧
      ∀ (i : Int) (t0 t : TopoTriangle) (a b w : Int),
        atE F i = Except.ok t0 → atE st.2 i = Except.ok t → t0.distinct →
        t0.hasVertex a → t0.hasVertex b → t0.hasVertex w → a ≠ b → w ≠ a → w ≠ b →
        t.getOppositeNeighborOf w
          = expectedSlot (givenWith F L (Edge.toPair { a := a, b := b })) i
              (t0.getOppositeNeighborOf w) := by
  obtain ⟨st, hst, hsh, _, hslots⟩ := linkOps_inv F (opsOf F L) (opOk_of_opsOf F L hv)
  refine ⟨st, ?_, hsh, ?_⟩
  · rw [manageNeighborInsideFrom_eq F L ([], F) rfl
      (fun i hi h1 => (hv i hi h1).imp (fun t ht => ht.1))]
    exact hst
  · intro i t0 t a b w h0 h hd ha hb hw hab hwa hwb
    obtain ⟨s, hs, hkey, hopp⟩ := opposite_as_slot t0 a b w hd ha hb hw hab hwa hwb
    obtain ⟨t1, ht1, hts⟩ := atE_shapes hsh h0
    rw [h] at ht1
    cases ht1
    rw [hopp t hts, hopp t0 rfl, hslots i t0 t h0 h s hs, hkey, occOps_opsOf F _ L hv]

theorem atE_append_left {α : Type} {l : List α} (l2 : List α) {i : Int} {x : α}
    (h : atE l i = Except.ok x) : atE (l ++ l2) i = Except.ok x := by
  rw [atE_eq_ok] at h ⊢
  refine ⟨h.1, ?_⟩
  have hlt : i.toNat < l.length := by
    by_contra hc
    have := List.getElem?_eq_none (Nat.le_of_not_lt hc)
    rw [this] at h
    cases h.2
  rw [List.getElem?_append_left hlt]
  exact h.2

theorem atE_append_length {α : Type} (l l2 : List α) (x : α) :
    atE (l ++ x :: l2) (l.length : Int) = Except.ok x := by
  rw [atE_eq_ok]
  refine ⟨Int.natCast_nonneg _, ?_⟩
  rw [Int.toNat_ofNat, List.getElem?_append_right (le_refl _)]
  simp

theorem fixFaceFrom_ok (f last : Int) (tmp : TopoTriangle) :
    ∀ (l : List Int) (vs : List Vertex), (∀ pt ∈ l, ∃ x, atE vs pt = Except.ok x) →
      ∃ r, fixFaceFrom f last tmp l vs = Except.ok r := by
  intro l
  induction l with
  | nil =>
    intro vs _
    exact ⟨vs, rfl⟩
  | cons pt rest ih =>
    intro vs hv
    obtain ⟨x, hx⟩ := hv pt (List.mem_cons_self _ _)
    unfold fixFaceFrom
    simp only [hx, bind, Except.bind]
    split
    · exact ⟨_, rfl⟩
    · exact ih vs (fun p hp => hv p (List.mem_cons_of_mem _ hp))

theorem givenPred_iff (F : List TopoTriangle) (a b i : Int) (hab : a ≠ b) :
    givenPred F (Edge.toPair { a := a, b := b }) i = true ↔
      ∃ t, atE F i = Except.ok t ∧ t.hasVertex a ∧ t.hasVertex b := by
  unfold givenPred
  cases h : atE F i with
  | error e => simp
  | ok t =>
    have hi : i ≠ -1 := by
      have := (lt_of_atE h).1
      omega
    simp only [hi, ne_eq, not_false_eq_true, decide_True, Bool.true_and, decide_eq_true_eq,
      Except.ok.injEq, exists_eq_left']
    exact hasKey_iff t.toTriangle a b hab

theorem givenPred_false (F : List TopoTriangle) (a b i : Int) (hab : a ≠ b)
    (h : ∀ t, atE F i = Except.ok t → ¬ (t.hasVertex a ∧ t.hasVertex b)) :
    givenPred F (Edge.toPair { a := a, b := b }) i = false := by
  cases hp : givenPred F (Edge.toPair { a := a, b := b }) i with
  | false => rfl
  | true =>
    obtain ⟨t, ht, hab2⟩ := (givenPred_iff F a b i hab).mp hp
    exact absurd hab2 (h t ht)

theorem givenPred_true (F : List TopoTriangle) (a b i : Int) (hab : a ≠ b) (t : TopoTriangle)
    (ht : atE F i = Except.ok t) (ha : t.hasVertex a) (hb : t.hasVertex b) :
    givenPred F (Edge.toPair { a := a, b := b }) i = true :=
  (givenPred_iff F a b i hab).mpr ⟨t, ht, ha, hb⟩

theorem mem_of_atE {α : Type} {l : List α} {i : Int} {x : α} (h : atE l i = Except.ok x) :
    x ∈ l :=
  List.getElem?_mem (atE_eq_ok.mp h).2

/-- Reading the arena after the split at a former neighbor slot. -/
theorem former_read (ts : List TopoTriangle) (f slot x y z : Int) (dying tmp : TopoTriangle)
    (extra : List TopoTriangle)
    (hf : atE ts f = Except.ok dying) (hz : dying.hasVertex z)
    (h : formerNeighbor ts slot x y z) :
    (slot ≠ -1 → ∃ N, atE ts slot = Except.ok N ∧ N.distinct ∧ N.hasVertex x ∧ N.hasVertex y ∧
      ¬ N.hasVertex z ∧ slot ≠ f ∧ atE (setAt (ts ++ extra) f tmp) slot = Except.ok N) ∧
    (∀ t, atE (setAt (ts ++ extra) f tmp) slot = Except.ok t →
      atE ts slot = Except.ok t ∧ slot ≠ f ∧ slot ≠ -1) := by
  have hf0 := (lt_of_atE hf).1
  rcases h with h | ⟨N, hN, hd, hx, hy, hnz⟩
  · subst h
    refine ⟨fun h => absurd rfl h, ?_⟩
    intro t ht
    have := (lt_of_atE ht).1
    omega
  · have hne : slot ≠ f := by
      intro e
      rw [e, hf] at hN
      cases hN
      exact hnz hz
    have hread : atE (setAt (ts ++ extra) f tmp) slot = Except.ok N := by
      rw [atE_setAt_ne _ _ hf0 hne]
      exact atE_append_left extra hN
    have hs : slot ≠ -1 := by
      have := (lt_of_atE hN).1
      omega
    refine ⟨fun _ => ⟨N, hN, hd, hx, hy, hnz, hne, hread⟩, ?_⟩
    intro t ht
    rw [hread] at ht
    cases ht
    exact ⟨hN, hne, hs⟩


theorem givenPred_new (F : List TopoTriangle) (i x y z p q : Int) (hpq : p ≠ q)
    (h : atE F i = Except.ok (TopoTriangle.new x y z)) :
    givenPred F (Edge.toPair { a := p, b := q }) i
      = decide ((x = p ∨ y = p ∨ z = p) ∧ (x = q ∨ y = q ∨ z = q)) := by
  by_cases hc : (x = p ∨ y = p ∨ z = p) ∧ (x = q ∨ y = q ∨ z = q)
  · rw [decide_eq_true hc]
    exact givenPred_true F p q i hpq _ h hc.1 hc.2
  · rw [decide_eq_false hc]
    apply givenPred_false F p q i hpq
    intro t ht
    rw [h] at ht
    cases ht
    exact hc

/-- The entry of a former neighbor in the linking list. -/
theorem givenPred_former (ts F : List TopoTriangle) (slot x y z vi : Int)
    (hfresh : ∀ t ∈ ts, ¬ t.hasVertex vi)
    (h1 : slot ≠ -1 → ∃ N, atE F slot = Except.ok N ∧ N.hasVertex x ∧ N.hasVertex y ∧
      ¬ N.hasVertex z)
    (h2 : ∀ t, atE F slot = Except.ok t → atE ts slot = Except.ok t ∧ slot ≠ -1)
    (p q : Int) (hpq : p ≠ q) :
    ((p = z ∨ q = z ∨ p = vi ∨ q = vi) →
      givenPred F (Edge.toPair { a := p, b := q }) slot = false) ∧
    (p = x → q = y → givenPred F (Edge.toPair { a := p, b := q }) slot = decide (slot ≠ -1)) := by
  constructor
  · intro h
    apply givenPred_false F p q slot hpq
    intro t ht ⟨hp, hq⟩
    obtain ⟨hts, hs⟩ := h2 t ht
    obtain ⟨N, hN, _, _, hnz⟩ := h1 hs
    rw [hN] at ht
    cases ht
    have hv := hfresh _ (mem_of_atE hts)
    rcases h with rfl | rfl | rfl | rfl
    · exact hnz hp
    · exact hnz hq
    · exact hv hp
    · exact hv hq
  · intro hp hq
    subst hp hq
    by_cases hs : slot = -1
    · rw [decide_eq_false (by simpa using hs)]
      apply givenPred_false F p q slot hpq
      intro t ht
      exact absurd hs (h2 t ht).2
    · rw [decide_eq_true hs]
      obtain ⟨N, hN, hx, hy, _⟩ := h1 hs
      exact givenPred_true F p q slot hpq N hN hx hy


theorem givenWith_cons (F : List TopoTriangle) (x : Int) (L : List Int) (k : Int × Int) :
    givenWith F (x :: L) k
      = if givenPred F k x = true then x :: givenWith F L k else givenWith F L k := by
  simp only [givenWith, List.filter_cons]

theorem givenWith_nil (F : List TopoTriangle) (k : Int × Int) : givenWith F [] k = [] := rfl

/-! ## Lemmas on the circumcenter -/

/-! ## Lemmas on one call of the linker -/

theorem ok_of_toOption {α : Type} (x : Except Err α) (y : α) (h : x.toOption = some y) :
    x = Except.ok y := by
  cases x with
  | error e => simp [Except.toOption] at h
  | ok a =>
    simp only [Except.toOption, Option.some.injEq] at h
    rw [h]

/-- C22 (evaluation at a failing input): the mesh is the one that `loadConstraints` builds
for the vertices (0,0), (1,0), (2,8) and the constraint 0 1 listed three times, and the
threshold is 22.  For every square root routine that is positive on positive numbers and
every positive `M_PI`, `refineDelaunay` returns (one turn of the main loop and one popped
candidate are enough) with the triangles (1,2,3) and (3,0,1), vertex 3 being the inserted
circumcenter (1/2,33/8).  The triangle (1,0), (2,8), (1/2,33/8) of the final arena is
counter-clockwise, `isPoorQuality` is true for it, and its angle at (2,8) has a positive
cosine whose square is above 93/100, so the angle is below 22 degrees.  Its circumcenter
(9,49/16) is outside the diametral circle of the constraint, for `isInCircleOfDiametral` and
for the circle of center (1/2,0) and squared radius 1/4 alike. -/
theorem refineDelaunay_leaves_poor_triangle (sqrt : ℚ → ℚ) (pi : ℚ)
    (hs : ∀ x, 0 < x → 0 < sqrt x) (hpi : 0 < pi) (fuel steps : Nat) :
    (insertSequence fuel [Vertex.new 0 0 0, Vertex.new 1 0 0, Vertex.new 2 8 0] Mesh.init).map
        (fun m => { m with
          constraints := [{ a := 0, b := 1 }, { a := 0, b := 1 }, { a := 0, b := 1 }] })
      = Except.ok obtuseTriangleMesh ∧
    obtuseTriangleMesh.refineDelaunay sqrt pi (1 + fuel) (1 + steps) 22
      = Except.ok refinedObtuse ∧
    refinedObtuse.constraints = [{ a := 0, b := 1 }, { a := 0, b := 1 }, { a := 0, b := 1 }] ∧
    refinedObtuse.buildPtriangle3D { v0 := 1, v1 := 2, v2 := 3, n0 := -1, n1 := 1, n2 := -1 }
      = Except.ok ⟨⟨1, 0, 0⟩, ⟨2, 8, 0⟩, ⟨1 / 2, 33 / 8, 0⟩⟩ ∧
    isPoorQuality sqrt pi ⟨⟨1, 0, 0⟩, ⟨2, 8, 0⟩, ⟨1 / 2, 33 / 8, 0⟩⟩ 22 = true ∧
    centerSurroundingCircle2D ⟨⟨1, 0, 0⟩, ⟨2, 8, 0⟩, ⟨1 / 2, 33 / 8, 0⟩⟩ = ⟨9, 49 / 16, 0⟩ ∧
    isInCircleOfDiametral ⟨0, 0, 0⟩ ⟨1, 0, 0⟩ ⟨9, 49 / 16, 0⟩ = false ∧
    (1 / 4 : ℚ) < dist2xy ⟨1 / 2, 0, 0⟩ ⟨9, 49 / 16, 0⟩ ∧
    0 < signedArea ⟨1, 0, 0⟩ ⟨2, 8, 0⟩ ⟨1 / 2, 33 / 8, 0⟩ ∧
    0 < dot (psub ⟨1, 0, 0⟩ ⟨2, 8, 0⟩) (psub ⟨1 / 2, 33 / 8, 0⟩ ⟨2, 8, 0⟩) ∧
    93 * (length2 (psub ⟨1, 0, 0⟩ ⟨2, 8, 0⟩) * length2 (psub ⟨1 / 2, 33 / 8, 0⟩ ⟨2, 8, 0⟩))
      < 100 * (dot (psub ⟨1, 0, 0⟩ ⟨2, 8, 0⟩) (psub ⟨1 / 2, 33 / 8, 0⟩ ⟨2, 8, 0⟩)) ^ 2 := by
  have hpoor0 : isPoorQuality sqrt pi ⟨⟨0, 0, 0⟩, ⟨1, 0, 0⟩, ⟨2, 8, 0⟩⟩ 22 = true := by
    have h := computeAngle_neg sqrt pi hs hpi ⟨1, 0, 0⟩ ⟨0, 0, 0⟩ ⟨2, 8, 0⟩
      (by decide!) (by decide!) (by decide!)
    have h2 : computeAngle sqrt pi ⟨1, 0, 0⟩ ⟨0, 0, 0⟩ ⟨2, 8, 0⟩ < 22 := by linarith
    simp only [isPoorQuality, decide_eq_true h2, Bool.or_true, Bool.true_or]
  have hpoor1 : isPoorQuality sqrt pi ⟨⟨1, 0, 0⟩, ⟨2, 8, 0⟩, ⟨1 / 2, 33 / 8, 0⟩⟩ 22 = true := by
    have h := computeAngle_neg sqrt pi hs hpi ⟨1 / 2, 33 / 8, 0⟩ ⟨1, 0, 0⟩ ⟨2, 8, 0⟩
      (by decide!) (by decide!) (by decide!)
    have h2 : computeAngle sqrt pi ⟨1 / 2, 33 / 8, 0⟩ ⟨1, 0, 0⟩ ⟨2, 8, 0⟩ < 22 := by linarith
    simp only [isPoorQuality, decide_eq_true h2, Bool.or_true]
  have hq : obtuseTriangleMesh.collectPoorQualityTriangles sqrt pi 22 = Except.ok [0] := by
    have hb : obtuseTriangleMesh.buildPtriangle3D
        { v0 := 0, v1 := 1, v2 := 2, n0 := -1, n1 := -1, n2 := -1 }
        = Except.ok ⟨⟨0, 0, 0⟩, ⟨1, 0, 0⟩, ⟨2, 8, 0⟩⟩ := rfl
    show collectPoorFrom sqrt pi obtuseTriangleMesh 22
      [{ v0 := 0, v1 := 1, v2 := 2, n0 := -1, n1 := -1, n2 := -1 }] 0 = Except.ok [0]
    simp only [collectPoorFrom, hb, hpoor0, bind, Except.bind, pure, Except.pure, if_true]
  have hce : obtuseTriangleMesh.collectEncroacheds []
      = ([], [{ a := 0, b := 1 }, { a := 0, b := 1 }, { a := 0, b := 1 }]) := by
    decide
  have hloop : refineLoop 1 1 obtuseTriangleMesh [0] []
      [{ a := 0, b := 1 }, { a := 0, b := 1 }, { a := 0, b := 1 }]
      = Except.ok refinedObtuse := by
    have h : (refineLoop 1 1 obtuseTriangleMesh [0] []
        [{ a := 0, b := 1 }, { a := 0, b := 1 }, { a := 0, b := 1 }]).toOption
        = some refinedObtuse := by
      decide!
    cases hr : refineLoop 1 1 obtuseTriangleMesh [0] []
        [{ a := 0, b := 1 }, { a := 0, b := 1 }, { a := 0, b := 1 }] with
    | error e =>
      rw [hr] at h
      cases h
    | ok r =>
      rw [hr] at h
      simp only [Except.toOption, Option.some.injEq] at h
      rw [h]
  refine ⟨rfl, ?_, rfl, rfl, hpoor1, by decide!, by decide!, by decide!, by decide!,
    by decide!, by decide!⟩
  unfold Mesh.refineDelaunay
  rw [hq, hce]
  exact refineLoop_mono 1 1 fuel steps obtuseTriangleMesh refinedObtuse [0] [] _ hloop

/-- Witness of C22 with the identity as square root routine and 3 as `M_PI`. -/
theorem refineDelaunay_leaves_poor_triangle_witness :
    obtuseTriangleMesh.refineDelaunay (fun x => x) 3 1 1 22 = Except.ok refinedObtuse ∧
    isPoorQuality (fun x => x) 3 ⟨⟨1, 0, 0⟩, ⟨2, 8, 0⟩, ⟨1 / 2, 33 / 8, 0⟩⟩ 22 = true :=
  ⟨(refineDelaunay_leaves_poor_triangle (fun x => x) 3 (fun _ h => h) (by norm_num) 0 0).2.1,
    (refineDelaunay_leaves_poor_triangle (fun x => x) 3 (fun _ h => h) (by norm_num)
      0 0).2.2.2.2.1⟩

/-! ## Emptying the mesh (C23) -/

/-- C23 (evaluation at a failing input): `empty` leaves the curve as it is; on a mesh with
the vertices (0,0), (4,0), (2,3) and the curve edge {7,8} the curve still holds that edge
after the call, while every other container is empty and `indexBeforeVoronoi` is 0. -/
theorem empty_keeps_curve :
    (∀ m : Mesh, m.empty.curve = m.curve) ∧
    acuteTriangleMesh.empty.curve = [{ a := 7, b := 8 }] ∧
    acuteTriangleMesh.empty.vertices = [] ∧ acuteTriangleMesh.empty.triangles = [] ∧
    acuteTriangleMesh.empty.borders = [] ∧ acuteTriangleMesh.empty.constraints = [] ∧
    acuteTriangleMesh.empty.indexBeforeVoronoi = 0 :=
  ⟨fun _ => rfl, rfl, rfl, rfl, rfl, rfl, rfl⟩

/-! ## Insertion order (C24) -/

/-- C24 (evaluation at a failing input): the four points (0,0), (0,2), (2,0), (1,2),
no three of them on a line and not on a common circle, are inserted from the empty mesh in
two orders.  In the order (0,0), (0,2), (2,0), (1,2), whose first three points are clockwise,
the arena ends with three triangles, one of them on (0,0), (0,2), (2,0); in the order (0,0),
(2,0), (0,2), (1,2) it ends with two triangles and none of them has these three corners. -/
theorem insertion_order_changes_triangles (fuel : Nat) :
    List.Perm [Vertex.new 0 0 0, Vertex.new 0 2 0, Vertex.new 2 0 0, Vertex.new 1 2 0]
      [Vertex.new 0 0 0, Vertex.new 2 0 0, Vertex.new 0 2 0, Vertex.new 1 2 0] ∧
    signedArea ⟨0, 0, 0⟩ ⟨0, 2, 0⟩ ⟨2, 0, 0⟩ ≠ 0 ∧ signedArea ⟨0, 0, 0⟩ ⟨0, 2, 0⟩ ⟨1, 2, 0⟩ ≠ 0 ∧
    signedArea ⟨0, 0, 0⟩ ⟨2, 0, 0⟩ ⟨1, 2, 0⟩ ≠ 0 ∧ signedArea ⟨0, 2, 0⟩ ⟨2, 0, 0⟩ ⟨1, 2, 0⟩ ≠ 0 ∧
    inCircleDet ⟨0, 0, 0⟩ ⟨0, 2, 0⟩ ⟨2, 0, 0⟩ ⟨1, 2, 0⟩ ≠ 0 ∧
    ∃ mA mB,
      insertSequence (10 + fuel)
        [Vertex.new 0 0 0, Vertex.new 0 2 0, Vertex.new 2 0 0, Vertex.new 1 2 0]
        Mesh.init = Except.ok mA ∧
      insertSequence (10 + fuel)
        [Vertex.new 0 0 0, Vertex.new 2 0 0, Vertex.new 0 2 0, Vertex.new 1 2 0]
        Mesh.init = Except.ok mB ∧
      mA.cornerTriples
        = [ [⟨0, 0, 0⟩, ⟨0, 2, 0⟩, ⟨2, 0, 0⟩], [⟨0, 2, 0⟩, ⟨0, 0, 0⟩, ⟨1, 2, 0⟩],
            [⟨0, 0, 0⟩, ⟨2, 0, 0⟩, ⟨1, 2, 0⟩] ] ∧
      mB.cornerTriples
        = [ [⟨0, 0, 0⟩, ⟨2, 0, 0⟩, ⟨1, 2, 0⟩], [⟨1, 2, 0⟩, ⟨0, 2, 0⟩, ⟨0, 0, 0⟩] ] ∧
      (∃ c ∈ mA.cornerTriples, c.Perm [⟨0, 0, 0⟩, ⟨0, 2, 0⟩, ⟨2, 0, 0⟩]) ∧
      ¬ (∃ c ∈ mB.cornerTriples, c.Perm [⟨0, 0, 0⟩, ⟨0, 2, 0⟩, ⟨2, 0, 0⟩]) := by
  obtain ⟨mA, hA, hcA⟩ := insertSequence_eval 10 fuel
    [Vertex.new 0 0 0, Vertex.new 0 2 0, Vertex.new 2 0 0, Vertex.new 1 2 0]
    Mesh.cornerTriples _ (by decide! :
      (insertSequence 10
        [Vertex.new 0 0 0, Vertex.new 0 2 0, Vertex.new 2 0 0, Vertex.new 1 2 0]
        Mesh.init).toOption.map Mesh.cornerTriples
      = some [ [⟨0, 0, 0⟩, ⟨0, 2, 0⟩, ⟨2, 0, 0⟩], [⟨0, 2, 0⟩, ⟨0, 0, 0⟩, ⟨1, 2, 0⟩],
            [⟨0, 0, 0⟩, ⟨2, 0, 0⟩, ⟨1, 2, 0⟩] ])
  obtain ⟨mB, hB, hcB⟩ := insertSequence_eval 10 fuel
    [Vertex.new 0 0 0, Vertex.new 2 0 0, Vertex.new 0 2 0, Vertex.new 1 2 0]
    Mesh.cornerTriples _ (by decide! :
      (insertSequence 10
        [Vertex.new 0 0 0, Vertex.new 2 0 0, Vertex.new 0 2 0, Vertex.new 1 2 0]
        Mesh.init).toOption.map Mesh.cornerTriples
      = some [ [⟨0, 0, 0⟩, ⟨2, 0, 0⟩, ⟨1, 2, 0⟩], [⟨1, 2, 0⟩, ⟨0, 2, 0⟩, ⟨0, 0, 0⟩] ])
  refine ⟨by decide!, by decide!, by decide!, by decide!, by decide!, by decide!,
    mA, mB, hA, hB, hcA, hcB, ?_, ?_⟩
  · rw [hcA]
    decide!
  · rw [hcB]
    decide!

/-! ## Iterators and circulators (C25 to C27) -/

/-- C25: an iterator at position `p` over an arena of `n` elements gives element `p` when
`0 <= p < n` and throws the range error otherwise, in particular at the end position; the
default iterator and an iterator that was moved from (by construction or by assignment) throw
the range error; the begin iterator incremented `n` times is equal to the end iterator, for
the triangles and for the vertices of every mesh. -/
theorem meshIterator_deref_and_end {Content : Type} [DecidableEq Content]
    (arena : List Content) (p : Int) :
    (0 ≤ p ∧ p < (arena.length : Int) →
      ∃ x, arena[p.toNat]? = some x ∧
        (MeshIterator.new (some arena) p).deref = Except.ok x) ∧
    (p < 0 ∨ (arena.length : Int) ≤ p →
      (MeshIterator.new (some arena) p).deref = Except.error Err.rangeError) ∧
    (MeshIterator.new (some arena) arena.length).deref = Except.error Err.rangeError ∧
    (MeshIterator.invalid : MeshIterator Content).deref = Except.error Err.rangeError ∧
    (∀ other : MeshIterator Content, other.move.2.deref = Except.error Err.rangeError) ∧
    (∀ self other : MeshIterator Content,
      (self.moveAssign other).2.deref = Except.error Err.rangeError) ∧
    (MeshIterator.preIncrement^[arena.length] (MeshIterator.new (some arena) 0)).same
      (MeshIterator.new (some arena) arena.length) = true ∧
    (∀ m : Mesh,
      m.endT.deref = Except.error Err.rangeError ∧
      m.endV.deref = Except.error Err.rangeError ∧
      (MeshIterator.preIncrement^[m.triangles.length] m.beginT).same m.endT = true ∧
      (MeshIterator.preIncrement^[m.vertices.length] m.beginV).same m.endV = true) := by
  have hend : ∀ {C : Type} (l : List C),
      (MeshIterator.new (some l) l.length).deref = Except.error Err.rangeError :=
    fun l => deref_out_of_range l _ (Or.inr (le_refl _))
  have hiter : ∀ {C : Type} [DecidableEq C] (l : List C),
      (MeshIterator.preIncrement^[l.length] (MeshIterator.new (some l) 0)).same
        (MeshIterator.new (some l) l.length) = true := by
    intro C _ l
    rw [preIncrement_iterate]
    simp [MeshIterator.same, MeshIterator.new]
  refine ⟨fun h => deref_in_range arena p h.1 h.2, deref_out_of_range arena p, hend arena,
    rfl, fun _ => rfl, fun _ _ => rfl, hiter arena, fun m => ⟨hend _, hend _, hiter _, hiter _⟩⟩

/-- Witness of C25 on an arena of three elements: position 1 gives the element, position 3
throws. -/
theorem meshIterator_deref_and_end_witness :
    (∃ x, [10, 20, 30][(1 : Int).toNat]? = some x ∧
      (MeshIterator.new (some [10, 20, 30]) 1).deref = Except.ok x) ∧
    (MeshIterator.new (some [10, 20, 30]) 3).deref = Except.error Err.rangeError :=
  ⟨(meshIterator_deref_and_end [10, 20, 30] 1).1 ⟨by decide, by decide⟩,
    (meshIterator_deref_and_end [10, 20, 30] 3).2.1 (Or.inr (by decide))⟩
/-- C26: let the current triangle `T` of a circulator anchored at `c` have three distinct
vertices, `c` among them.  `getAdjTriangleTrigo c` is the slot opposite `getAdjVertexTrigo c`,
the vertex of `T` that is neither `c` nor `getAdjVertexClock c`, that is, the neighbor across
the edge from `c` to `getAdjVertexClock c`.  The increment returns exactly when that slot
names a triangle of the arena, and then that triangle is the current one, the anchor and the
arenas being as before.  Under symmetric adjacency the new current triangle has `c` among its
vertices. -/
theorem circulator_step (c : MeshCirculator) (ts : List TopoTriangle) (cur : Int)
    (T : TopoTriangle) (hts : c.triangles = some ts) (hcur : c.current = some cur)
    (hT : atE ts cur = Except.ok T) (hd : T.distinct) (hc : T.hasVertex c.center) :
    (T.getAdjTriangleTrigo c.center
        = Except.ok (T.getOppositeNeighborOf (T.getAdjVertexTrigo c.center)) ∧
      T.hasVertex (T.getAdjVertexTrigo c.center) ∧
      T.getAdjVertexTrigo c.center ≠ c.center ∧
      T.getAdjVertexTrigo c.center ≠ T.getAdjVertexClock c.center) ∧
    c.preIncrement
      = (atE ts (T.getOppositeNeighborOf (T.getAdjVertexTrigo c.center))).map
          (fun _ => { c with
            current := some (T.getOppositeNeighborOf (T.getAdjVertexTrigo c.center)) }) ∧
    (symmetricAround ts cur T →
      ∀ c2, c.preIncrement = Except.ok c2 →
        ∃ i N, c2.current = some i ∧ atE ts i = Except.ok N ∧ N.hasVertex c.center ∧
          c2.center = c.center) := by
  obtain ⟨h1, h2, h3, h4, h5, h6⟩ := adjTriangleTrigo_eq T c.center hd hc
  have hstep : c.preIncrement
      = (atE ts (T.getOppositeNeighborOf (T.getAdjVertexTrigo c.center))).map
          (fun _ => { c with
            current := some (T.getOppositeNeighborOf (T.getAdjVertexTrigo c.center)) }) := by
    unfold MeshCirculator.preIncrement
    rw [hcur, hts]
    simp only [hT, h1, bind, Except.bind]
    cases atE ts (T.getOppositeNeighborOf (T.getAdjVertexTrigo c.center)) <;> rfl
  refine ⟨⟨h1, h2, h4, h6⟩, hstep, ?_⟩
  intro hsym c2 hc2
  rw [hstep] at hc2
  cases hN : atE ts (T.getOppositeNeighborOf (T.getAdjVertexTrigo c.center)) with
  | error e =>
    rw [hN] at hc2
    cases hc2
  | ok N =>
    rw [hN] at hc2
    simp only [Except.map, Except.ok.injEq] at hc2
    subst hc2
    exact ⟨_, N, rfl, hN, (hsym _ h2 N hN).1 c.center hc (Ne.symm h4), rfl⟩

/-- Witness of C26: on `fanMesh`, anchored at 0, the increment goes from triangle 0 to
triangle 1. -/
theorem circulator_step_witness :
    fanStart.preIncrement = Except.ok { fanStart with current := some 1 } :=
  (circulator_step fanStart fanMesh.triangles 0
    { v0 := 0, v1 := 1, v2 := 2, n0 := -1, n1 := 1, n2 := 3 } rfl rfl rfl
    (by decide) (by decide)).2.1

/-- C27 (evaluation at a failing input): on `fanMesh`, the circulator anchored at 0 starts
on triangle 0 and one increment puts it on triangle 1.  A copy of that circulator is back on
triangle 0, the triangle named by the back-reference of the anchor, and is not equal to the
original; the post-increment returns a circulator on triangle 0, not on triangle 1, while
the receiver goes on to triangle 2.  The copy assignment does keep the current triangle. -/
theorem circulator_copy_resets :
    fanMesh.beginRT 0 = Except.ok fanStart ∧
    fanStart.preIncrement = Except.ok { fanStart with current := some 1 } ∧
    MeshCirculator.copy { fanStart with current := some 1 } = Except.ok fanStart ∧
    MeshCirculator.same { fanStart with current := some 1 } fanStart = false ∧
    MeshCirculator.postIncrement { fanStart with current := some 1 }
      = Except.ok (fanStart, { fanStart with current := some 2 }) ∧
    MeshCirculator.assign fanStart { fanStart with current := some 1 }
      = { fanStart with current := some 1 } := by
  refine ⟨rfl, rfl, rfl, ?_, rfl, rfl⟩
  decide!
/-! ## Point location (C28) -/

/-- C28: in a mesh whose triangles name vertices of the arena, `isInOneTriangle v` returns;
the result is `-1` exactly when `isInThisTriangle` is false for every triangle, and otherwise
it is the index of a triangle for which `isInThisTriangle` is true, no triangle of smaller
index having that property. -/
theorem isInOneTriangle_first_match (m : Mesh) (v : Vertex)
    (hv : ∀ t ∈ m.triangles, ∃ p, m.buildPtriangle3D t = Except.ok p) :
    ∃ i : Int, m.isInOneTriangle v = Except.ok i ∧
      (i = -1 ↔ ∀ t ∈ m.triangles, m.contains v t = false) ∧
      (i ≠ -1 →
        ∃ k : Nat, i = k ∧ (∃ t, m.triangles[k]? = some t ∧ m.contains v t = true) ∧
          ∀ j : Nat, j < k → ∀ u, m.triangles[j]? = some u → m.contains v u = false) := by
  rcases isInOneTriangleFrom_spec m v m.triangles 0 hv with ⟨h1, h2⟩ | ⟨k, h1, h2, h3⟩
  · exact ⟨-1, h1, ⟨fun _ => h2, fun _ => rfl⟩, fun h => absurd rfl h⟩
  · refine ⟨(k : Int), by simpa [Mesh.isInOneTriangle] using h1, ⟨?_, ?_⟩, ?_⟩
    · intro h
      omega
    · intro h
      obtain ⟨t, ht, hc⟩ := h2
      rw [h t (List.getElem?_mem ht)] at hc
      cases hc
    · intro _
      exact ⟨k, rfl, h2, h3⟩

/-- Witness of C28: in the unit square the point (1/4,1/4) is located, with the
characterisation of the index found. -/
theorem isInOneTriangle_first_match_witness :
    ∃ i : Int, unitSquareMesh.isInOneTriangle (Vertex.new (1 / 4) (1 / 4) 0) = Except.ok i ∧
      (i = -1 ↔
        ∀ t ∈ unitSquareMesh.triangles,
          unitSquareMesh.contains (Vertex.new (1 / 4) (1 / 4) 0) t = false) ∧
      (i ≠ -1 →
        ∃ k : Nat, i = k ∧
          (∃ t, unitSquareMesh.triangles[k]? = some t ∧
            unitSquareMesh.contains (Vertex.new (1 / 4) (1 / 4) 0) t = true) ∧
          ∀ j : Nat, j < k → ∀ u, unitSquareMesh.triangles[j]? = some u →
            unitSquareMesh.contains (Vertex.new (1 / 4) (1 / 4) 0) u = false) :=
  isInOneTriangle_first_match unitSquareMesh (Vertex.new (1 / 4) (1 / 4) 0) (by
    intro t ht
    simp only [unitSquareMesh, List.mem_cons, List.mem_singleton, List.not_mem_nil,
      or_false] at ht
    rcases ht with rfl | rfl
    · exact ⟨_, rfl⟩
    · exact ⟨_, rfl⟩)

/-! ## Split of a triangle (C29) -/

/-- C29: let `f` be the triangle `(d0, d1, d2)` of an arena of `n` triangles, with distinct
vertices that are vertices of the mesh, let no triangle have the new vertex `vi`, and let
every neighbor slot of `f` be empty or name a triangle with distinct vertices that has the
two ends of the facing edge and not the third vertex of `f`.  Then the split and the linking
of `insertPointIntoTriangle` return, and the mesh handed to the Delaunay restoration has
`n + 2` triangles: `f` is `(vi, d1, d2)`, `n` is `(vi, d2, d0)`, `n + 1` is `(vi, d0, d1)`,
the other vertex triples are as before; `n` and `n + 1` hold each other across `{vi, d0}`,
`n + 1` and `f` across `{vi, d1}`, `f` and `n` across `{vi, d2}`; the slot opposite `vi`
of each new triangle holds the former neighbor of `f` across that edge (or none), and that
former neighbor holds the new triangle in the slot facing the edge. -/
theorem split_wires_fan (m : Mesh) (v : Vertex) (f vi d0 d1 d2 a b c : Int)
    (hf : atE m.triangles f
      = Except.ok { v0 := d0, v1 := d1, v2 := d2, n0 := a, n1 := b, n2 := c })
    (hd : Triangle.distinct ⟨d0, d1, d2⟩)
    (hfresh : ∀ t ∈ m.triangles, ¬ t.hasVertex vi)
    (hverts : ∀ w, w = d0 ∨ w = d1 ∨ w = d2 → ∃ x, atE m.vertices w = Except.ok x)
    (hA : formerNeighbor m.triangles a d1 d2 d0)
    (hB : formerNeighbor m.triangles b d2 d0 d1)
    (hC : formerNeighbor m.triangles c d0 d1 d2) :
    ∃ m1 v1 m2,
      m.splitTriangle v f vi
        = Except.ok (m1, v1, [(m.triangles.length : Int), (m.triangles.length : Int) + 1, f],
            [a, b, c]) ∧
      m1.manageNeighborInside [(m.triangles.length : Int), (m.triangles.length : Int) + 1, f]
          [a, b, c]
        = Except.ok (m2, [a, b, c, (m.triangles.length : Int),
            (m.triangles.length : Int) + 1, f]) ∧
      (∀ fuel, m.insertPointIntoTriangle fuel v f vi
        = (m2.incrementalDelaunay fuel [a, b, c, (m.triangles.length : Int),
            (m.triangles.length : Int) + 1, f]).map (fun m3 => (m3, v1))) ∧
      m2.triangles.length = m.triangles.length + 2 ∧
      (∃ tf tn tn1,
        atE m2.triangles f = Except.ok tf ∧
        atE m2.triangles (m.triangles.length : Int) = Except.ok tn ∧
        atE m2.triangles ((m.triangles.length : Int) + 1) = Except.ok tn1 ∧
        tf.toTriangle = ⟨vi, d1, d2⟩ ∧ tn.toTriangle = ⟨vi, d2, d0⟩ ∧
        tn1.toTriangle = ⟨vi, d0, d1⟩ ∧
        tn.getOppositeNeighborOf d2 = (m.triangles.length : Int) + 1 ∧
        tn1.getOppositeNeighborOf d1 = (m.triangles.length : Int) ∧
        tn1.getOppositeNeighborOf d0 = f ∧
        tf.getOppositeNeighborOf d2 = (m.triangles.length : Int) + 1 ∧
        tf.getOppositeNeighborOf d1 = (m.triangles.length : Int) ∧
        tn.getOppositeNeighborOf d0 = f ∧
        tf.getOppositeNeighborOf vi = a ∧ tn.getOppositeNeighborOf vi = b ∧
        tn1.getOppositeNeighborOf vi = c) ∧
      (∀ j t, j ≠ f → atE m.triangles j = Except.ok t →
        ∃ t2, atE m2.triangles j = Except.ok t2 ∧ t2.toTriangle = t.toTriangle) ∧
      (∀ N2, atE m2.triangles a = Except.ok N2 → ∀ w, N2.hasVertex w → w ≠ d1 → w ≠ d2 →
        N2.getOppositeNeighborOf w = f) ∧
      (∀ N2, atE m2.triangles b = Except.ok N2 → ∀ w, N2.hasVertex w → w ≠ d2 → w ≠ d0 →
        N2.getOppositeNeighborOf w = (m.triangles.length : Int)) ∧
      (∀ N2, atE m2.triangles c = Except.ok N2 → ∀ w, N2.hasVertex w → w ≠ d0 → w ≠ d1 →
        N2.getOppositeNeighborOf w = (m.triangles.length : Int) + 1) := by
  obtain ⟨h01, h12, h02⟩ := hd
  simp only at h01 h12 h02
  have g01 := Ne.symm h01
  have g12 := Ne.symm h12
  have g02 := Ne.symm h02
  have hf0 := (lt_of_atE hf).1
  have hflt := (lt_of_atE hf).2
  -- the new vertex is not a vertex of the dying triangle
  have hvd := hfresh _ (mem_of_atE hf)
  simp only [Triangle.hasVertex, not_or] at hvd
  obtain ⟨hv0, hv1, hv2⟩ := hvd
  have kv0 : vi ≠ d0 := fun e => hv0 e.symm
  have kv1 : vi ≠ d1 := fun e => hv1 e.symm
  have kv2 : vi ≠ d2 := fun e => hv2 e.symm
  -- the split
  obtain ⟨vertices1, hfix⟩ := fixFaceFrom_ok f
    (((m.triangles ++ [TopoTriangle.new vi d2 d0] ++ [TopoTriangle.new vi d0 d1]).length : Int) - 1)
    (TopoTriangle.new vi d1 d2) [d0, d1, d2] m.vertices (by
      intro pt hpt
      apply hverts
      simpa using hpt)
  have hsplit : ∃ m1 : Mesh, m.splitTriangle v f vi
      = Except.ok (m1, { v with face := f },
          [(m.triangles.length : Int), (m.triangles.length : Int) + 1, f], [a, b, c]) ∧
      m1.triangles = setAt (m.triangles ++ [TopoTriangle.new vi d2 d0]
              ++ [TopoTriangle.new vi d0 d1]) f (TopoTriangle.new vi d1 d2) := by
    unfold Mesh.splitTriangle
    simp only [hf, bind, Except.bind, pure, Except.pure]
    have c0 : Triangle.getAdjVertexClock ⟨d0, d1, d2⟩ d0 = d2 := by
      simp [Triangle.getAdjVertexClock, Triangle.findVertexIndex, Triangle.vertexAt]
    have c1 : Triangle.getAdjVertexClock ⟨d0, d1, d2⟩ d1 = d0 := by
      simp [Triangle.getAdjVertexClock, Triangle.findVertexIndex, Triangle.vertexAt, h01]
    have c2 : Triangle.getAdjVertexClock ⟨d0, d1, d2⟩ d2 = d1 := by
      simp [Triangle.getAdjVertexClock, Triangle.findVertexIndex, Triangle.vertexAt, h02, h12]
    simp only [c0, c1, c2, hfix]
    refine ⟨Mesh.mk vertices1 (setAt (m.triangles ++ [TopoTriangle.new vi d2 d0]
      ++ [TopoTriangle.new vi d0 d1]) f (TopoTriangle.new vi d1 d2)) m.borders m.curve
      m.constraints m.indexBeforeVoronoi, ?_, rfl⟩
    simp
  obtain ⟨m1, hsplit, hm1⟩ := hsplit
  rw [List.append_assoc] at hm1
  -- reading the arena after the split
  have hnf : (m.triangles.length : Int) ≠ f := by omega
  have hn1f : (m.triangles.length : Int) + 1 ≠ f := by omega
  have hnn1 : (m.triangles.length : Int) ≠ (m.triangles.length : Int) + 1 := by omega
  have rf : atE m1.triangles f = Except.ok (TopoTriangle.new vi d1 d2) := by
    rw [hm1]
    exact atE_setAt_self (atE_append_left _ hf)
  have rn : atE m1.triangles (m.triangles.length : Int)
      = Except.ok (TopoTriangle.new vi d2 d0) := by
    rw [hm1, atE_setAt_ne _ _ hf0 hnf]
    exact atE_append_length _ _ _
  have rn1 : atE m1.triangles ((m.triangles.length : Int) + 1)
      = Except.ok (TopoTriangle.new vi d0 d1) := by
    rw [hm1, atE_setAt_ne _ _ hf0 hn1f, ← List.append_assoc]
    have e : (m.triangles.length : Int) + 1
        = ((m.triangles ++ [TopoTriangle.new vi d2 d0]).length : Int) := by simp
    rw [e]
    exact atE_append_length _ _ _
  have rold : ∀ j t, j ≠ f → atE m.triangles j = Except.ok t →
      atE m1.triangles j = Except.ok t := by
    intro j t hj ht
    rw [hm1, atE_setAt_ne _ _ hf0 hj]
    exact atE_append_left _ ht
  -- the former neighbors
  have hz0 : Triangle.hasVertex ⟨d0, d1, d2⟩ d0 := Or.inl rfl
  have hz1 : Triangle.hasVertex ⟨d0, d1, d2⟩ d1 := Or.inr (Or.inl rfl)
  have hz2 : Triangle.hasVertex ⟨d0, d1, d2⟩ d2 := Or.inr (Or.inr rfl)
  have fa := former_read m.triangles f a d1 d2 d0 _ (TopoTriangle.new vi d1 d2)
    ([TopoTriangle.new vi d2 d0] ++ [TopoTriangle.new vi d0 d1]) hf hz0 hA
  have fb := former_read m.triangles f b d2 d0 d1 _ (TopoTriangle.new vi d1 d2)
    ([TopoTriangle.new vi d2 d0] ++ [TopoTriangle.new vi d0 d1]) hf hz1 hB
  have fc := former_read m.triangles f c d0 d1 d2 _ (TopoTriangle.new vi d1 d2)
    ([TopoTriangle.new vi d2 d0] ++ [TopoTriangle.new vi d0 d1]) hf hz2 hC
  rw [← hm1] at fa fb fc
  have pa := givenPred_former m.triangles m1.triangles a d1 d2 d0 vi hfresh
    (fun h => by
      obtain ⟨N, _, _, hx, hy, hnz, _, hr⟩ := fa.1 h
      exact ⟨N, hr, hx, hy, hnz⟩)
    (fun t ht => ⟨(fa.2 t ht).1, (fa.2 t ht).2.2⟩)
  have pb := givenPred_former m.triangles m1.triangles b d2 d0 d1 vi hfresh
    (fun h => by
      obtain ⟨N, _, _, hx, hy, hnz, _, hr⟩ := fb.1 h
      exact ⟨N, hr, hx, hy, hnz⟩)
    (fun t ht => ⟨(fb.2 t ht).1, (fb.2 t ht).2.2⟩)
  have pc := givenPred_former m.triangles m1.triangles c d0 d1 d2 vi hfresh
    (fun h => by
      obtain ⟨N, _, _, hx, hy, hnz, _, hr⟩ := fc.1 h
      exact ⟨N, hr, hx, hy, hnz⟩)
    (fun t ht => ⟨(fc.2 t ht).1, (fc.2 t ht).2.2⟩)
  -- the linking pass
  have hnew : ∀ x y z : Int, x ≠ y → y ≠ z → x ≠ z → (TopoTriangle.new x y z).distinct :=
    fun x y z h1 h2 h3 => ⟨h1, h2, h3⟩
  have hvL : ∀ i ∈ [a, b, c, (m.triangles.length : Int), (m.triangles.length : Int) + 1, f],
      i ≠ -1 → ∃ t, atE m1.triangles i = Except.ok t ∧ t.distinct := by
    intro i hi h1
    simp only [List.mem_cons, List.mem_singleton, List.not_mem_nil, or_false] at hi
    rcases hi with rfl | rfl | rfl | rfl | rfl | rfl
    · obtain ⟨N, _, hd, _, _, _, _, hr⟩ := fa.1 h1
      exact ⟨N, hr, hd⟩
    · obtain ⟨N, _, hd, _, _, _, _, hr⟩ := fb.1 h1
      exact ⟨N, hr, hd⟩
    · obtain ⟨N, _, hd, _, _, _, _, hr⟩ := fc.1 h1
      exact ⟨N, hr, hd⟩
    · exact ⟨_, rn, hnew _ _ _ kv2 g02 kv0⟩
    · exact ⟨_, rn1, hnew _ _ _ kv0 h01 kv1⟩
    · exact ⟨_, rf, hnew _ _ _ kv1 h12 kv2⟩
  obtain ⟨st, hst, hsh, hs⟩ := manageNeighborInsideFrom_pass m1.triangles _ hvL
  obtain ⟨tf, htf, htfs⟩ := atE_shapes hsh rf
  obtain ⟨tn, htn, htns⟩ := atE_shapes hsh rn
  obtain ⟨tn1, htn1, htn1s⟩ := atE_shapes hsh rn1
  have hmanage : m1.manageNeighborInside
      [(m.triangles.length : Int), (m.triangles.length : Int) + 1, f] [a, b, c]
      = Except.ok (Mesh.mk m1.vertices st.2 m1.borders m1.curve m1.constraints
          m1.indexBeforeVoronoi,
        [a, b, c, (m.triangles.length : Int), (m.triangles.length : Int) + 1, f]) := by
    unfold Mesh.manageNeighborInside
    simp only [List.cons_append, List.nil_append, hst, bind, Except.bind, pure, Except.pure]
  -- the entries of the linking list, edge by edge
  have K0 : givenWith m1.triangles
      [a, b, c, (m.triangles.length : Int), (m.triangles.length : Int) + 1, f]
      (Edge.toPair { a := vi, b := d0 })
      = [(m.triangles.length : Int), (m.triangles.length : Int) + 1] := by
    simp only [givenWith_cons, givenWith_nil, (pa vi d0 kv0).1 (by simp),
      (pb vi d0 kv0).1 (by simp), (pc vi d0 kv0).1 (by simp),
      givenPred_new _ _ _ _ _ _ _ kv0 rn, givenPred_new _ _ _ _ _ _ _ kv0 rn1,
      givenPred_new _ _ _ _ _ _ _ kv0 rf]
    simp [g01, g02, kv0, kv1, kv2]
  have K1 : givenWith m1.triangles
      [a, b, c, (m.triangles.length : Int), (m.triangles.length : Int) + 1, f]
      (Edge.toPair { a := vi, b := d1 })
      = [(m.triangles.length : Int) + 1, f] := by
    simp only [givenWith_cons, givenWith_nil, (pa vi d1 kv1).1 (by simp),
      (pb vi d1 kv1).1 (by simp), (pc vi d1 kv1).1 (by simp),
      givenPred_new _ _ _ _ _ _ _ kv1 rn, givenPred_new _ _ _ _ _ _ _ kv1 rn1,
      givenPred_new _ _ _ _ _ _ _ kv1 rf]
    simp [h01, g12, kv0, kv1, kv2]
  have K2 : givenWith m1.triangles
      [a, b, c, (m.triangles.length : Int), (m.triangles.length : Int) + 1, f]
      (Edge.toPair { a := vi, b := d2 })
      = [(m.triangles.length : Int), f] := by
    simp only [givenWith_cons, givenWith_nil, (pa vi d2 kv2).1 (by simp),
      (pb vi d2 kv2).1 (by simp), (pc vi d2 kv2).1 (by simp),
      givenPred_new _ _ _ _ _ _ _ kv2 rn, givenPred_new _ _ _ _ _ _ _ kv2 rn1,
      givenPred_new _ _ _ _ _ _ _ kv2 rf]
    simp [h02, h12, kv0, kv1, kv2]
  have KA : givenWith m1.triangles
      [a, b, c, (m.triangles.length : Int), (m.triangles.length : Int) + 1, f]
      (Edge.toPair { a := d1, b := d2 })
      = if a ≠ -1 then [a, f] else [f] := by
    simp only [givenWith_cons, givenWith_nil, (pa d1 d2 h12).2 rfl rfl,
      (pb d1 d2 h12).1 (by simp), (pc d1 d2 h12).1 (by simp),
      givenPred_new _ _ _ _ _ _ _ h12 rn, givenPred_new _ _ _ _ _ _ _ h12 rn1,
      givenPred_new _ _ _ _ _ _ _ h12 rf]
    by_cases ha : a = -1 <;> simp [ha, h01, h02, h12, g01, g02, g12, kv0, kv1, kv2]
  have KB : givenWith m1.triangles
      [a, b, c, (m.triangles.length : Int), (m.triangles.length : Int) + 1, f]
      (Edge.toPair { a := d2, b := d0 })
      = if b ≠ -1 then [b, (m.triangles.length : Int)] else [(m.triangles.length : Int)] := by
    simp only [givenWith_cons, givenWith_nil, (pa d2 d0 g02).1 (by simp),
      (pb d2 d0 g02).2 rfl rfl, (pc d2 d0 g02).1 (by simp),
      givenPred_new _ _ _ _ _ _ _ g02 rn, givenPred_new _ _ _ _ _ _ _ g02 rn1,
      givenPred_new _ _ _ _ _ _ _ g02 rf]
    by_cases hb : b = -1 <;> simp [hb, h01, h02, h12, g01, g02, g12, kv0, kv1, kv2]
  have KC : givenWith m1.triangles
      [a, b, c, (m.triangles.length : Int), (m.triangles.length : Int) + 1, f]
      (Edge.toPair { a := d0, b := d1 })
      = if c ≠ -1 then [c, (m.triangles.length : Int) + 1]
        else [(m.triangles.length : Int) + 1] := by
    simp only [givenWith_cons, givenWith_nil, (pa d0 d1 h01).1 (by simp),
      (pb d0 d1 h01).1 (by simp), (pc d0 d1 h01).2 rfl rfl,
      givenPred_new _ _ _ _ _ _ _ h01 rn, givenPred_new _ _ _ _ _ _ _ h01 rn1,
      givenPred_new _ _ _ _ _ _ _ h01 rf]
    by_cases hc : c = -1 <;> simp [hc, h01, h02, h12, g01, g02, g12, kv0, kv1, kv2]
  have vn0 : Triangle.hasVertex (TopoTriangle.new vi d2 d0).toTriangle vi := Or.inl rfl
  have vn1 : Triangle.hasVertex (TopoTriangle.new vi d2 d0).toTriangle d2 := Or.inr (Or.inl rfl)
  have vn2 : Triangle.hasVertex (TopoTriangle.new vi d2 d0).toTriangle d0 := Or.inr (Or.inr rfl)
  have wn0 : Triangle.hasVertex (TopoTriangle.new vi d0 d1).toTriangle vi := Or.inl rfl
  have wn1 : Triangle.hasVertex (TopoTriangle.new vi d0 d1).toTriangle d0 := Or.inr (Or.inl rfl)
  have wn2 : Triangle.hasVertex (TopoTriangle.new vi d0 d1).toTriangle d1 := Or.inr (Or.inr rfl)
  have xn0 : Triangle.hasVertex (TopoTriangle.new vi d1 d2).toTriangle vi := Or.inl rfl
  have xn1 : Triangle.hasVertex (TopoTriangle.new vi d1 d2).toTriangle d1 := Or.inr (Or.inl rfl)
  have xn2 : Triangle.hasVertex (TopoTriangle.new vi d1 d2).toTriangle d2 := Or.inr (Or.inr rfl)
  have dn := hnew vi d2 d0 kv2 g02 kv0
  have dn1 := hnew vi d0 d1 kv0 h01 kv1
  have df := hnew vi d1 d2 kv1 h12 kv2
  have onew : ∀ x y z w : Int, (TopoTriangle.new x y z).getOppositeNeighborOf w = -1 := by
    intro x y z w
    simp only [TopoTriangle.getOppositeNeighborOf, TopoTriangle.new, Triangle.findVertexIndex,
      TopoTriangle.neighborAt]
    split_ifs <;> rfl
  refine ⟨m1, _, _, hsplit, hmanage, ?_, ?_,
    ⟨tf, tn, tn1, htf, htn, htn1, htfs, htns, htn1s, ?_⟩, ?_, ?_, ?_, ?_⟩
  · intro fuel
    unfold Mesh.insertPointIntoTriangle
    simp only [hsplit, hmanage, bind, Except.bind, pure, Except.pure]
    cases Mesh.incrementalDelaunay fuel _ _ <;> rfl
  · show st.2.length = m.triangles.length + 2
    rw [length_of_shapes hsh, hm1, length_setAt]
    simp
  · refine ⟨?_, ?_, ?_, ?_, ?_, ?_, ?_, ?_, ?_⟩
    · rw [hs _ _ tn vi d0 d2 rn htn dn vn0 vn2 vn1 kv0 (Ne.symm kv2) g02, K0]
      simp [expectedSlot]
    · rw [hs _ _ tn1 vi d0 d1 rn1 htn1 dn1 wn0 wn1 wn2 kv0 (Ne.symm kv1) g01, K0]
      simp [expectedSlot]
    · rw [hs _ _ tn1 vi d1 d0 rn1 htn1 dn1 wn0 wn2 wn1 kv1 (Ne.symm kv0) h01, K1]
      simp [expectedSlot]
    · rw [hs _ _ tf vi d1 d2 rf htf df xn0 xn1 xn2 kv1 (Ne.symm kv2) g12, K1]
      simp [expectedSlot, Ne.symm hn1f]
    · rw [hs _ _ tf vi d2 d1 rf htf df xn0 xn2 xn1 kv2 (Ne.symm kv1) h12, K2]
      simp [expectedSlot, Ne.symm hnf]
    · rw [hs _ _ tn vi d2 d0 rn htn dn vn0 vn1 vn2 kv2 (Ne.symm kv0) h02, K2]
      simp [expectedSlot]
    · rw [hs _ _ tf d1 d2 vi rf htf df xn1 xn2 xn0 h12 kv1 kv2, KA, onew]
      by_cases ha : a = -1
      · simp [ha, expectedSlot]
      · have haf : f ≠ a := fun e => (fa.2 _ (e ▸ rf)).2.1 e.symm
        simp [ha, expectedSlot, haf]
    · rw [hs _ _ tn d2 d0 vi rn htn dn vn1 vn2 vn0 g02 kv2 kv0, KB, onew]
      by_cases hb : b = -1
      · simp [hb, expectedSlot]
      · obtain ⟨N, hN, _⟩ := fb.1 hb
        have hbn : (m.triangles.length : Int) ≠ b := by
          have := (lt_of_atE hN).2
          omega
        simp [hb, expectedSlot, hbn]
    · rw [hs _ _ tn1 d0 d1 vi rn1 htn1 dn1 wn1 wn2 wn0 h01 kv0 kv1, KC, onew]
      by_cases hc : c = -1
      · simp [hc, expectedSlot]
      · obtain ⟨N, hN, _⟩ := fc.1 hc
        have hcn : (m.triangles.length : Int) + 1 ≠ c := by
          have := (lt_of_atE hN).2
          omega
        simp [hc, expectedSlot, hcn]
  · intro j t hj ht
    exact atE_shapes hsh (rold j t hj ht)
  · intro N2 hN2 w hw hw1 hw2
    have ha : a ≠ -1 := by
      have := (lt_of_atE hN2).1
      omega
    obtain ⟨N, _, hd, hx, hy, _, _, hr⟩ := fa.1 ha
    obtain ⟨N3, hN3, hNs⟩ := atE_shapes hsh hr
    rw [hN2] at hN3
    cases hN3
    rw [hs a N N2 d1 d2 w hr hN2 hd hx hy ((hasVertex_of_shape hNs w).mp hw) h12 hw1 hw2, KA]
    simp [ha, expectedSlot]
  · intro N2 hN2 w hw hw1 hw2
    have hb : b ≠ -1 := by
      have := (lt_of_atE hN2).1
      omega
    obtain ⟨N, _, hd, hx, hy, _, _, hr⟩ := fb.1 hb
    obtain ⟨N3, hN3, hNs⟩ := atE_shapes hsh hr
    rw [hN2] at hN3
    cases hN3
    rw [hs b N N2 d2 d0 w hr hN2 hd hx hy ((hasVertex_of_shape hNs w).mp hw) g02 hw1 hw2, KB]
    simp [hb, expectedSlot]
  · intro N2 hN2 w hw hw1 hw2
    have hc : c ≠ -1 := by
      have := (lt_of_atE hN2).1
      omega
    obtain ⟨N, _, hd, hx, hy, _, _, hr⟩ := fc.1 hc
    obtain ⟨N3, hN3, hNs⟩ := atE_shapes hsh hr
    rw [hN2] at hN3
    cases hN3
    rw [hs c N N2 d0 d1 w hr hN2 hd hx hy ((hasVertex_of_shape hNs w).mp hw) h01 hw1 hw2, KC]
    simp [hc, expectedSlot]

/-- Witness of C29: the vertex 4 is inserted into triangle 0 = (1,2,3) of the unit square,
whose only neighbor is triangle 1 across the edge from 3 to 1. -/
theorem split_wires_fan_witness :
    ∃ m1 v1 m2,
      unitSquareMesh.splitTriangle (Vertex.new (3 / 4) (3 / 4) 0) 0 4
        = Except.ok (m1, v1, [(unitSquareMesh.triangles.length : Int),
            (unitSquareMesh.triangles.length : Int) + 1, 0], [-1, 1, -1]) ∧
      m1.manageNeighborInside [(unitSquareMesh.triangles.length : Int),
          (unitSquareMesh.triangles.length : Int) + 1, 0] [-1, 1, -1]
        = Except.ok (m2, [-1, 1, -1, (unitSquareMesh.triangles.length : Int),
            (unitSquareMesh.triangles.length : Int) + 1, 0]) ∧
      m2.triangles.length = unitSquareMesh.triangles.length + 2 := by
  obtain ⟨m1, v1, m2, h1, h2, _, h3, _⟩ :=
    split_wires_fan unitSquareMesh (Vertex.new (3 / 4) (3 / 4) 0) 0 4 1 2 3 (-1) 1 (-1) rfl
      (by decide)
      (by
        intro t ht
        simp only [unitSquareMesh, List.mem_cons, List.mem_singleton, List.not_mem_nil,
          or_false] at ht
        rcases ht with rfl | rfl <;> decide)
      (by
        intro w hw
        rcases hw with rfl | rfl | rfl <;> exact ⟨_, rfl⟩)
      (Or.inl rfl)
      (Or.inr ⟨_, rfl, by decide, by decide, by decide, by decide⟩)
      (Or.inl rfl)
  exact ⟨m1, v1, m2, h1, h2, h3⟩

/-! ## Border rebuild (C30) -/

/-- C30: for a usage vector as long as the border `B`, `updateBorder id usages first` makes
the border equal to the scan of the positions `0 .. n-1` that keeps `B[i]` when
`usages[i] < 2` and emits `id` right after the position `first`.  When `B` does not hold
`id`, the new border without `id` is the list of the entries of `B` used less than twice, in
their order, and `id` occurs exactly once as soon as `0 <= first < n`.  Vertices and
triangles are untouched. -/
theorem updateBorder_scan (m : Mesh) (id first : Int) (usages : List Nat)
    (hlen : usages.length = m.borders.length) :
    (m.updateBorder id usages first).borders = borderScan id first m.borders usages ∧
    (id ∉ m.borders →
      (m.updateBorder id usages first).borders.filter (fun x => decide (x ≠ id))
        = keptBorder m.borders usages) ∧
    (id ∉ m.borders → 0 ≤ first → first < (m.borders.length : Int) →
      (m.updateBorder id usages first).borders.count id = 1) ∧
    (m.updateBorder id usages first).vertices = m.vertices ∧
    (m.updateBorder id usages first).triangles = m.triangles := by
  refine ⟨?_, ?_, ?_, rfl, rfl⟩
  · simp only [Mesh.updateBorder, borderScan]
    rw [updateBorderFrom_eq id first m.borders usages 0 hlen]
    simp
  · intro hid
    exact updateBorderFrom_filter id first m.borders usages 0 hlen hid
  · intro hid h0 h1
    simp only [Mesh.updateBorder]
    rw [updateBorderFrom_count id first m.borders usages 0 hlen hid]
    have c0 : (0 ≤ first ∧ first < 0 + (m.borders.length : Int)) := by omega
    rw [if_pos c0]

/-- Witness of C30: on the border 2, 1, 0, 3 with the usages 0, 1, 2, 1 and `first = 1` the
vertex 0 is dropped and the new vertex 4 comes right after position 1. -/
theorem updateBorder_scan_witness :
    (unitSquareMesh.updateBorder 4 [0, 1, 2, 1] 1).borders = [2, 1, 4, 3] ∧
    (unitSquareMesh.updateBorder 4 [0, 1, 2, 1] 1).borders.count 4 = 1 := by
  have h := updateBorder_scan unitSquareMesh 4 1 [0, 1, 2, 1] rfl
  exact ⟨h.1.trans (by decide), h.2.2.1 (by decide) (by decide) (by decide)⟩

/-- In a triangle with distinct vertices `a`, `b`, `w`, the slot that `computeFaceIndex`
gives for the edge of `a` and `b` is the one read by `getOppositeNeighborOf w`, and the two
other vertices read other slots. -/
theorem setNeighbor_at_faceIndex (t : TopoTriangle) (a b w n : Int) (hd : t.distinct)
    (ha : t.hasVertex a) (hb : t.hasVertex b) (hw : t.hasVertex w) (hab : a ≠ b)
    (hwa : w ≠ a) (hwb : w ≠ b) :
    ∃ s, computeFaceIndex t { a := a, b := b } = Except.ok s ∧
      computeFaceIndex t { a := b, b := a } = Except.ok s ∧
      (t.setNeighbor s n).toTriangle = t.toTriangle ∧
      (t.setNeighbor s n).getOppositeNeighborOf w = n ∧
      ∀ v, t.hasVertex v → v ≠ w →
        (t.setNeighbor s n).getOppositeNeighborOf v = t.getOppositeNeighborOf v := by
  obtain ⟨⟨v0, v1, v2⟩, n0, n1, n2⟩ := t
  obtain ⟨h01, h12, h02⟩ := hd
  simp only [Triangle.hasVertex] at ha hb hw
  simp only at h01 h12 h02
  have g01 := Ne.symm h01
  have g12 := Ne.symm h12
  have g02 := Ne.symm h02
  rcases ha with rfl | rfl | rfl <;> rcases hb with rfl | rfl | rfl <;>
    rcases hw with rfl | rfl | rfl <;>
    first
    | exact absurd rfl hab
    | exact absurd rfl hwa
    | exact absurd rfl hwb
    | (refine ⟨0, ?_, ?_, rfl, ?_, ?_⟩
       · simp [computeFaceIndex, Triangle.findVertexIndex, indexes, h01, h12, h02, g01, g12, g02,
           pure, Except.pure]
       · simp [computeFaceIndex, Triangle.findVertexIndex, indexes, h01, h12, h02, g01, g12, g02,
           pure, Except.pure]
       · simp [TopoTriangle.getOppositeNeighborOf, Triangle.findVertexIndex,
           TopoTriangle.neighborAt, TopoTriangle.setNeighbor, h01, h12, h02, g01, g12, g02]
       · intro v hv hvw
         simp only [Triangle.hasVertex] at hv
         rcases hv with rfl | rfl | rfl <;>
         first
         | exact absurd rfl hvw
         | simp [TopoTriangle.getOppositeNeighborOf, Triangle.findVertexIndex,
           TopoTriangle.neighborAt, TopoTriangle.setNeighbor, h01, h12, h02, g01, g12, g02])
    | (refine ⟨1, ?_, ?_, rfl, ?_, ?_⟩
       · simp [computeFaceIndex, Triangle.findVertexIndex, indexes, h01, h12, h02, g01, g12, g02,
           pure, Except.pure]
       · simp [computeFaceIndex, Triangle.findVertexIndex, indexes, h01, h12, h02, g01, g12, g02,
           pure, Except.pure]
       · simp [TopoTriangle.getOppositeNeighborOf, Triangle.findVertexIndex,
           TopoTriangle.neighborAt, TopoTriangle.setNeighbor, h01, h12, h02, g01, g12, g02]
       · intro v hv hvw
         simp only [Triangle.hasVertex] at hv
         rcases hv with rfl | rfl | rfl <;>
         first
         | exact absurd rfl hvw
         | simp [TopoTriangle.getOppositeNeighborOf, Triangle.findVertexIndex,
           TopoTriangle.neighborAt, TopoTriangle.setNeighbor, h01, h12, h02, g01, g12, g02])
    | (refine ⟨2, ?_, ?_, rfl, ?_, ?_⟩
       · simp [computeFaceIndex, Triangle.findVertexIndex, indexes, h01, h12, h02, g01, g12, g02,
           pure, Except.pure]
       · simp [computeFaceIndex, Triangle.findVertexIndex, indexes, h01, h12, h02, g01, g12, g02,
           pure, Except.pure]
       · simp [TopoTriangle.getOppositeNeighborOf, Triangle.findVertexIndex,
           TopoTriangle.neighborAt, TopoTriangle.setNeighbor, h01, h12, h02, g01, g12, g02]
       · intro v hv hvw
         simp only [Triangle.hasVertex] at hv
         rcases hv with rfl | rfl | rfl <;>
         first
         | exact absurd rfl hvw
         | simp [TopoTriangle.getOppositeNeighborOf, Triangle.findVertexIndex,
           TopoTriangle.neighborAt, TopoTriangle.setNeighbor, h01, h12, h02, g01, g12, g02])

/-- A call of `neighbor::insert` with an edge that the map already records. -/
theorem neighborInsert_recorded (map : MapEdges) (key : Edge) (index second : Int)
    (faces : List TopoTriangle) (h : MapEdges.find map key.toPair = some second) :
    neighborInsert map key index faces = (do
      let t ← atE faces index
      let t2 ← t.addNeighbor second key
      let u ← atE (setAt faces index t2) second
      let u2 ← u.addNeighbor index key
      pure (map, setAt (setAt faces index t2) second u2)) := by
  simp only [neighborInsert, h]

/-! ## Neighbor linker (C31, C32) -/

/-- C31: in an arena where the triangles `i ≠ j`, both with distinct vertices, have the two
ends `a ≠ b` of an edge, `w` being the third vertex of `i` and `x` the third vertex of `j`:
from the empty map, `neighbor::insert` with the edge and `i` changes no triangle and records
the edge for `i`; a following call with the edge, its ends in either order, and `j` returns,
stores `j` in the slot of `i` opposite `w` and `i` in the slot of `j` opposite `x`, and
changes no other slot, no vertex triple and no other triangle. -/
theorem linker_wires_pair (F : List TopoTriangle) (i j a b w x : Int) (ti tj : TopoTriangle)
    (e2 : Edge) (hij : i ≠ j)
    (hi : atE F i = Except.ok ti) (hj : atE F j = Except.ok tj)
    (hdi : ti.distinct) (hdj : tj.distinct) (hab : a ≠ b)
    (hia : ti.hasVertex a) (hib : ti.hasVertex b) (hja : tj.hasVertex a) (hjb : tj.hasVertex b)
    (hw : ti.hasVertex w) (hwa : w ≠ a) (hwb : w ≠ b)
    (hx : tj.hasVertex x) (hxa : x ≠ a) (hxb : x ≠ b)
    (he2 : e2 = { a := a, b := b } ∨ e2 = { a := b, b := a }) :
    ∃ map1, neighborInsert [] { a := a, b := b } i F = Except.ok (map1, F) ∧
      MapEdges.find map1 (Edge.toPair { a := a, b := b }) = some i ∧
      ∃ map2 F2 ti2 tj2, neighborInsert map1 e2 j F = Except.ok (map2, F2) ∧
        atE F2 i = Except.ok ti2 ∧ atE F2 j = Except.ok tj2 ∧
        ti2.toTriangle = ti.toTriangle ∧ tj2.toTriangle = tj.toTriangle ∧
        ti2.getOppositeNeighborOf w = j ∧ tj2.getOppositeNeighborOf x = i ∧
        (∀ v, ti.hasVertex v → v ≠ w →
          ti2.getOppositeNeighborOf v = ti.getOppositeNeighborOf v) ∧
        (∀ v, tj.hasVertex v → v ≠ x →
          tj2.getOppositeNeighborOf v = tj.getOppositeNeighborOf v) ∧
        F2.length = F.length ∧ ∀ k, k ≠ i → k ≠ j → atE F2 k = atE F k := by
  obtain ⟨hi0, _⟩ := lt_of_atE hi
  obtain ⟨hj0, _⟩ := lt_of_atE hj
  obtain ⟨si, ci1, ci2, -, oi, ri⟩ :=
    setNeighbor_at_faceIndex ti a b w j hdi hia hib hw hab hwa hwb
  obtain ⟨sj, cj1, cj2, -, oj, rj⟩ :=
    setNeighbor_at_faceIndex tj a b x i hdj hja hjb hx hab hxa hxb
  have hkey : e2.toPair = Edge.toPair { a := a, b := b } := by
    rcases he2 with rfl | rfl
    · rfl
    · exact (toPair_eq_iff b a a b).mpr (Or.inr ⟨rfl, rfl⟩)
  have hci : computeFaceIndex ti e2 = Except.ok si := by
    rcases he2 with rfl | rfl
    · exact ci1
    · exact ci2
  have hcj : computeFaceIndex tj e2 = Except.ok sj := by
    rcases he2 with rfl | rfl
    · exact cj1
    · exact cj2
  refine ⟨[(Edge.toPair { a := a, b := b }, i)], rfl, by simp [MapEdges.find], ?_⟩
  have hfind : MapEdges.find [(Edge.toPair { a := a, b := b }, i)] e2.toPair = some i := by
    simp [MapEdges.find, hkey]
  have hread : atE (setAt F j (tj.setNeighbor sj i)) i = Except.ok ti := by
    rw [atE_setAt_ne F _ hj0 hij]
    exact hi
  refine ⟨[(Edge.toPair { a := a, b := b }, i)],
    setAt (setAt F j (tj.setNeighbor sj i)) i (ti.setNeighbor si j),
    ti.setNeighbor si j, tj.setNeighbor sj i, ?_, ?_, ?_, setNeighbor_toTriangle ti si j,
    setNeighbor_toTriangle tj sj i, oi, oj, ri, rj, ?_, ?_⟩
  · rw [neighborInsert_recorded _ _ _ _ _ hfind]
    simp only [hj, addNeighbor_of_slot tj i sj e2 hcj, hread, addNeighbor_of_slot ti j si e2 hci,
      bind, Except.bind, pure, Except.pure]
  · exact atE_setAt_self hread
  · rw [atE_setAt_ne _ _ hi0 (Ne.symm hij)]
    exact atE_setAt_self hj
  · rw [length_setAt, length_setAt]
  · intro k hki hkj
    rw [atE_setAt_ne _ _ hi0 hki, atE_setAt_ne _ _ hj0 hkj]

/-- Witness of C31 on the two triangles (0,1,2) and (0,2,3) of a fan, which share the edge
{0,2}, the second call giving the ends in the other order. -/
theorem linker_wires_pair_witness :
    ∃ map1, neighborInsert [] { a := 0, b := 2 } 0
        [TopoTriangle.new 0 1 2, TopoTriangle.new 0 2 3]
        = Except.ok (map1, [TopoTriangle.new 0 1 2, TopoTriangle.new 0 2 3]) ∧
      MapEdges.find map1 (Edge.toPair { a := 0, b := 2 }) = some 0 ∧
      ∃ map2 F2 ti2 tj2, neighborInsert map1 { a := 2, b := 0 } 1
          [TopoTriangle.new 0 1 2, TopoTriangle.new 0 2 3] = Except.ok (map2, F2) ∧
        atE F2 0 = Except.ok ti2 ∧ atE F2 1 = Except.ok tj2 ∧
        ti2.toTriangle = (TopoTriangle.new 0 1 2).toTriangle ∧
        tj2.toTriangle = (TopoTriangle.new 0 2 3).toTriangle ∧
        ti2.getOppositeNeighborOf 1 = 1 ∧ tj2.getOppositeNeighborOf 3 = 0 ∧
        (∀ v, (TopoTriangle.new 0 1 2).hasVertex v → v ≠ 1 →
          ti2.getOppositeNeighborOf v = (TopoTriangle.new 0 1 2).getOppositeNeighborOf v) ∧
        (∀ v, (TopoTriangle.new 0 2 3).hasVertex v → v ≠ 3 →
          tj2.getOppositeNeighborOf v = (TopoTriangle.new 0 2 3).getOppositeNeighborOf v) ∧
        F2.length = [TopoTriangle.new 0 1 2, TopoTriangle.new 0 2 3].length ∧
        ∀ k, k ≠ 0 → k ≠ 1 →
          atE F2 k = atE [TopoTriangle.new 0 1 2, TopoTriangle.new 0 2 3] k :=
  linker_wires_pair [TopoTriangle.new 0 1 2, TopoTriangle.new 0 2 3] 0 1 0 2 1 3
    (TopoTriangle.new 0 1 2) (TopoTriangle.new 0 2 3) { a := 2, b := 0 }
    (by decide) rfl rfl (by decide) (by decide) (by decide) (by decide) (by decide) (by decide)
    (by decide) (by decide) (by decide) (by decide) (by decide) (by decide) (by decide)
    (Or.inr rfl)

/-- C32, counterexample: on three triangles that have the edge {0,2}, after the edge was
given with triangle 0 and then with triangle 1, the map still records the edge for triangle
0, and a third call with triangle 2 is not treated as unseen: it wires the triangles 2 and 0
and leaves the map as it is. -/
theorem linker_entry_remains :
    neighborInsert [] { a := 0, b := 2 } 0 bookArena = Except.ok ([((0, 2), 0)], bookArena) ∧
    neighborInsert [((0, 2), 0)] { a := 0, b := 2 } 1 bookArena
      = Except.ok ([((0, 2), 0)],
          [ { v0 := 0, v1 := 1, v2 := 2, n0 := -1, n1 := 1, n2 := -1 },
            { v0 := 0, v1 := 2, v2 := 3, n0 := -1, n1 := -1, n2 := 0 },
            TopoTriangle.new 2 0 4 ]) ∧
    MapEdges.find [((0, 2), 0)] (Edge.toPair { a := 0, b := 2 }) = some 0 ∧
    neighborInsert [((0, 2), 0)] { a := 0, b := 2 } 2
        [ { v0 := 0, v1 := 1, v2 := 2, n0 := -1, n1 := 1, n2 := -1 },
          { v0 := 0, v1 := 2, v2 := 3, n0 := -1, n1 := -1, n2 := 0 },
          TopoTriangle.new 2 0 4 ]
      = Except.ok ([((0, 2), 0)],
          [ { v0 := 0, v1 := 1, v2 := 2, n0 := -1, n1 := 2, n2 := -1 },
            { v0 := 0, v1 := 2, v2 := 3, n0 := -1, n1 := -1, n2 := 0 },
            { v0 := 2, v1 := 0, v2 := 4, n0 := -1, n1 := -1, n2 := 0 } ]) := by
  refine ⟨rfl, rfl, rfl, rfl⟩

/-- C32, as amended: a call of `neighbor::insert` with an edge that the map records, the
triangle given and the triangle recorded both having the two ends of the edge, returns and
leaves the map as it was; the edge is still recorded for the same triangle, and no later
call with this edge extends the map. -/
theorem linker_keeps_map (map : MapEdges) (key : Edge) (index second : Int)
    (faces : List TopoTriangle) (t u : TopoTriangle)
    (h : MapEdges.find map key.toPair = some second)
    (ht : atE faces index = Except.ok t) (hu : atE faces second = Except.ok u)
    (hta : t.hasVertex key.a) (htb : t.hasVertex key.b)
    (hua : u.hasVertex key.a) (hub : u.hasVertex key.b) :
    ∃ st, neighborInsert map key index faces = Except.ok st ∧ st.1 = map ∧
      MapEdges.find st.1 key.toPair = some second ∧
      ∀ index2 faces2 st2, neighborInsert st.1 key index2 faces2 = Except.ok st2 →
        st2.1 = map := by
  obtain ⟨t2, ht2, hts⟩ := addNeighbor_ok t second key hta htb
  obtain ⟨hi0, _⟩ := lt_of_atE ht
  have hread : ∃ u1, atE (setAt faces index t2) second = Except.ok u1 ∧
      u1.hasVertex key.a ∧ u1.hasVertex key.b := by
    by_cases hsi : second = index
    · refine ⟨t2, ?_, (hasVertex_of_shape hts _).mpr hta, (hasVertex_of_shape hts _).mpr htb⟩
      rw [hsi]
      exact atE_setAt_self ht
    · refine ⟨u, ?_, hua, hub⟩
      rw [atE_setAt_ne _ _ hi0 hsi]
      exact hu
  obtain ⟨u1, hu1, hu1a, hu1b⟩ := hread
  obtain ⟨u2, hu2, -⟩ := addNeighbor_ok u1 index key hu1a hu1b
  refine ⟨(map, setAt (setAt faces index t2) second u2), ?_, rfl, h, ?_⟩
  · rw [neighborInsert_recorded _ _ _ _ _ h]
    simp only [ht, ht2, hu1, hu2, bind, Except.bind, pure, Except.pure]
  · intro index2 faces2 st2 hst2
    rw [neighborInsert_recorded _ _ _ _ _ h] at hst2
    cases h1 : atE faces2 index2 with
    | error e => rw [h1] at hst2; cases hst2
    | ok a1 =>
      cases h2 : a1.addNeighbor second key with
      | error e => rw [h1] at hst2; simp only [bind, Except.bind, h2] at hst2; cases hst2
      | ok a2 =>
        cases h3 : atE (setAt faces2 index2 a2) second with
        | error e =>
          rw [h1] at hst2; simp only [bind, Except.bind, h2, h3] at hst2; cases hst2
        | ok a3 =>
          cases h4 : a3.addNeighbor index2 key with
          | error e =>
            rw [h1] at hst2; simp only [bind, Except.bind, h2, h3, h4] at hst2; cases hst2
          | ok a4 =>
            rw [h1] at hst2
            simp only [bind, Except.bind, h2, h3, h4, pure, Except.pure] at hst2
            cases hst2
            rfl

/-- Witness of the amended C32 on `bookArena`: the second call with the edge {0,2}. -/
theorem linker_keeps_map_witness :
    ∃ st, neighborInsert [((0, 2), 0)] { a := 0, b := 2 } 1 bookArena = Except.ok st ∧
      st.1 = [((0, 2), 0)] ∧
      MapEdges.find st.1 (Edge.toPair { a := 0, b := 2 }) = some 0 ∧
      ∀ index2 faces2 st2,
        neighborInsert st.1 { a := 0, b := 2 } index2 faces2 = Except.ok st2 →
          st2.1 = [((0, 2), 0)] :=
  linker_keeps_map [((0, 2), 0)] { a := 0, b := 2 } 1 0 bookArena
    (TopoTriangle.new 0 2 3) (TopoTriangle.new 0 1 2) rfl rfl rfl
    (by decide) (by decide) (by decide) (by decide)

/-! ## Lemmas on the flip and its linking loop -/

theorem findVertexIndex_slots (t : Triangle) (hd : t.distinct) :
    t.findVertexIndex t.v0 = 0 ∧ t.findVertexIndex t.v1 = 1 ∧ t.findVertexIndex t.v2 = 2 := by
  obtain ⟨h01, h12, h02⟩ := hd
  simp [Triangle.findVertexIndex, h01, h12, h02]

theorem opposite_slots (T : TopoTriangle) (hd : T.distinct) :
    T.getOppositeNeighborOf T.v0 = T.n0 ∧ T.getOppositeNeighborOf T.v1 = T.n1 ∧
      T.getOppositeNeighborOf T.v2 = T.n2 := by
  obtain ⟨f0, f1, f2⟩ := findVertexIndex_slots T.toTriangle hd
  simp [TopoTriangle.getOppositeNeighborOf, f0, f1, f2, TopoTriangle.neighborAt]

theorem rotation_has (t : Triangle) (a b c : Int) (hd : t.distinct) (hr : t.isRotationOf a b c) :
    t.hasVertex a ∧ t.hasVertex b ∧ t.hasVertex c ∧ a ≠ b ∧ b ≠ c ∧ a ≠ c := by
  obtain ⟨h01, h12, h02⟩ := hd
  unfold Triangle.hasVertex
  rcases hr with ⟨r0, r1, r2⟩ | ⟨r0, r1, r2⟩ | ⟨r0, r1, r2⟩ <;> subst r0 <;> subst r1 <;> subst r2
  · exact ⟨Or.inl rfl, Or.inr (Or.inl rfl), Or.inr (Or.inr rfl), h01, h12, h02⟩
  · exact ⟨Or.inr (Or.inr rfl), Or.inl rfl, Or.inr (Or.inl rfl), Ne.symm h02, h01, Ne.symm h12⟩
  · exact ⟨Or.inr (Or.inl rfl), Or.inr (Or.inr rfl), Or.inl rfl, h12, Ne.symm h02, Ne.symm h01⟩

theorem rotation_mem (t : Triangle) (x y z v : Int) (hr : t.isRotationOf x y z) :
    t.hasVertex v ↔ v = x ∨ v = y ∨ v = z := by
  unfold Triangle.hasVertex
  rcases hr with ⟨r0, r1, r2⟩ | ⟨r0, r1, r2⟩ | ⟨r0, r1, r2⟩ <;> subst r0 <;> subst r1 <;> subst r2
  · constructor
    · rintro (h | h | h) <;> simp [h]
    · rintro (h | h | h) <;> simp [h]
  · constructor
    · rintro (h | h | h) <;> simp [h]
    · rintro (h | h | h) <;> simp [h]
  · constructor
    · rintro (h | h | h) <;> simp [h]
    · rintro (h | h | h) <;> simp [h]

theorem perm_slots (t : TopoTriangle) (x y z : Int) (hd : t.distinct)
    (hr : t.isRotationOf x y z) :
    List.Perm [t.n0, t.n1, t.n2]
      [t.getOppositeNeighborOf x, t.getOppositeNeighborOf y, t.getOppositeNeighborOf z] := by
  obtain ⟨o0, o1, o2⟩ := opposite_slots t hd
  rcases hr with ⟨r0, r1, r2⟩ | ⟨r0, r1, r2⟩ | ⟨r0, r1, r2⟩
  · rw [← r0, ← r1, ← r2, o0, o1, o2]
  · rw [← r0, ← r1, ← r2, o0, o1, o2]
    exact List.rotate_perm [t.n2, t.n0, t.n1] 1
  · rw [← r0, ← r1, ← r2, o0, o1, o2]
    exact List.rotate_perm [t.n1, t.n2, t.n0] 2

theorem givenWith_presentNeighbors (F : List TopoTriangle) (t : TopoTriangle) (k : Int × Int) :
    givenWith F (presentNeighbors t) k = givenWith F [t.n0, t.n1, t.n2] k := by
  unfold givenWith presentNeighbors
  rw [List.filter_filter]
  apply List.filter_congr
  intro x _
  unfold givenPred
  by_cases hx : x = -1 <;> simp [hx]

theorem givenWith_append (F : List TopoTriangle) (l l2 : List Int) (k : Int × Int) :
    givenWith F (l ++ l2) k = givenWith F l k ++ givenWith F l2 k := by
  simp [givenWith]

theorem givenWith_perm (F : List TopoTriangle) {l l2 : List Int} (k : Int × Int)
    (h : List.Perm l l2) : List.Perm (givenWith F l k) (givenWith F l2 k) :=
  List.Perm.filter _ h

/-- The entries of `concerned` in `flip` that have a given edge, up to their order. -/
theorem givenWith_concerned (F : List TopoTriangle) (t1 t2 : TopoTriangle)
    (x1 y1 z1 x2 y2 z2 : Int) (k : Int × Int)
    (hd1 : t1.distinct) (hd2 : t2.distinct)
    (hr1 : t1.isRotationOf x1 y1 z1) (hr2 : t2.isRotationOf x2 y2 z2) :
    List.Perm (givenWith F (collectNeighbors t1 t2) k)
      (givenWith F [t1.getOppositeNeighborOf x1, t1.getOppositeNeighborOf y1,
        t1.getOppositeNeighborOf z1, t2.getOppositeNeighborOf x2,
        t2.getOppositeNeighborOf y2, t2.getOppositeNeighborOf z2] k) := by
  unfold collectNeighbors
  rw [givenWith_append, givenWith_presentNeighbors, givenWith_presentNeighbors]
  have e : [t1.getOppositeNeighborOf x1, t1.getOppositeNeighborOf y1,
        t1.getOppositeNeighborOf z1, t2.getOppositeNeighborOf x2,
        t2.getOppositeNeighborOf y2, t2.getOppositeNeighborOf z2]
      = [t1.getOppositeNeighborOf x1, t1.getOppositeNeighborOf y1,
        t1.getOppositeNeighborOf z1] ++ [t2.getOppositeNeighborOf x2,
        t2.getOppositeNeighborOf y2, t2.getOppositeNeighborOf z2] := rfl
  rw [e, givenWith_append]
  exact List.Perm.append (givenWith_perm F k (perm_slots t1 x1 y1 z1 hd1 hr1))
    (givenWith_perm F k (perm_slots t2 x2 y2 z2 hd2 hr2))

theorem expectedSlot_single (l : List Int) (x n0 : Int) (h : List.Perm l [x]) :
    ∀ i, expectedSlot l i n0 = n0 := by
  have hl : l = [x] := List.perm_singleton.mp h
  intro i
  rw [hl]
  simp [expectedSlot]

theorem expectedSlot_pair (l : List Int) (x y n0 : Int) (h : List.Perm l [x, y]) (hxy : x ≠ y) :
    expectedSlot l x n0 = y ∧ expectedSlot l y n0 = x ∧
      ∀ i, i ≠ x → i ≠ y → expectedSlot l i n0 = n0 := by
  have hl : l = [x, y] ∨ l = [y, x] := by
    have hlen := h.length_eq
    match l, hlen with
    | [p, q], _ =>
      have hp : p ∈ [x, y] := h.subset (List.mem_cons_self _ _)
      have hq : q ∈ [x, y] := h.subset (List.mem_cons_of_mem _ (List.mem_cons_self _ _))
      have hx : x ∈ [p, q] := h.symm.subset (List.mem_cons_self _ _)
      have hy : y ∈ [p, q] := h.symm.subset (List.mem_cons_of_mem _ (List.mem_cons_self _ _))
      simp only [List.mem_cons, List.mem_singleton, List.mem_nil_iff, or_false] at hp hq hx hy
      rcases hp with rfl | rfl <;> rcases hq with rfl | rfl
      · rcases hy with h1 | h1 <;> exact absurd h1.symm hxy
      · exact Or.inl rfl
      · exact Or.inr rfl
      · rcases hx with h1 | h1 <;> exact absurd h1 hxy
  rcases hl with rfl | rfl
  · refine ⟨by simp [expectedSlot], by simp [expectedSlot, Ne.symm hxy], ?_⟩
    intro i hx hy
    simp [expectedSlot, hx, hy]
  · refine ⟨by simp [expectedSlot, hxy], by simp [expectedSlot], ?_⟩
    intro i hx hy
    simp [expectedSlot, hx, hy]

theorem expectedSlot_nil (i n0 : Int) : expectedSlot [] i n0 = n0 := rfl

/-- The linking loop of `flip` over `L`, entered with the empty map: when every entry of `L`
names a triangle with distinct vertices, the loop returns, the vertex triples are kept, and
the neighbor of triangle `i` opposite its vertex `w` is given by `expectedSlot` on the
entries of `L` that have the edge of the two other vertices. -/
theorem flipLinkFrom_pass (F : List TopoTriangle) (L : List Int)
    (hv : ∀ i ∈ L, ∃ t, atE F i = Except.ok t ∧ t.distinct) :
    ∃ st, flipLinkFrom L ([], F) = Except.ok st ∧ shapes st.2 = shapes F ∧
      ∀ (i : Int) (t0 t : TopoTriangle) (a b w : Int),
        atE F i = Except.ok t0 → atE st.2 i = Except.ok t → t0.distinct →
        t0.hasVertex a → t0.hasVertex b → t0.hasVertex w → a ≠ b → w ≠ a → w ≠ b →
        t.getOppositeNeighborOf w
          = expectedSlot (givenWith F L (Edge.toPair { a := a, b := b })) i
              (t0.getOppositeNeighborOf w) := by
  have hv2 : ∀ i ∈ L, i ≠ -1 → ∃ t, atE F i = Except.ok t ∧ t.distinct :=
    fun i hi _ => hv i hi
  obtain ⟨st, hst, hsh, _, hslots⟩ := linkOps_inv F (opsOf F L) (opOk_of_opsOf F L hv2)
  refine ⟨st, ?_, hsh, ?_⟩
  · rw [flipLinkFrom_eq F L ([], F) rfl (fun i hi => (hv i hi).imp (fun t ht => ht.1))]
    exact hst
  · intro i t0 t a b w h0 h hd ha hb hw hab hwa hwb
    obtain ⟨s, hs, hkey, hopp⟩ := opposite_as_slot t0 a b w hd ha hb hw hab hwa hwb
    obtain ⟨t1, ht1, hts⟩ := atE_shapes hsh h0
    rw [h] at ht1
    cases ht1
    rw [hopp t hts, hopp t0 rfl, hslots i t0 t h0 h s hs, hkey, occOps_opsOf F _ L hv2]

theorem outer_ne (F : List TopoTriangle) (n x y z1 z2 : Int)
    (h : outerNeighbor F n x y z1 z2) (f : Int) (T : TopoTriangle)
    (hT : atE F f = Except.ok T) (hz : T.hasVertex z1 ∨ T.hasVertex z2) : n ≠ f := by
  intro hnf
  rcases h with h | ⟨N, hN, -, -, -, h1, h2⟩
  · have := (lt_of_atE hT).1
    omega
  · rw [hnf, hT] at hN
    cases hN
    rcases hz with hz | hz
    · exact h1 hz
    · exact h2 hz

/-- What `flip` computes when the two triangles are as `flipReady` says: the two triangles
are written over and the linking loop runs over their former neighbors. -/
theorem flip_unfold (m : Mesh) (f1 f2 u1 u2 a b : Int) (t1 t2 : TopoTriangle) (va vb : Vertex)
    (hf : f1 ≠ f2)
    (h1 : atE m.triangles f1 = Except.ok t1) (h2 : atE m.triangles f2 = Except.ok t2)
    (hu1 : t1.getOppositeVertexOf f2 = u1) (hu2 : t2.getOppositeVertexOf f1 = u2)
    (ha : t1.getAdjVertexTrigo u1 = a) (hb : t2.getAdjVertexTrigo u2 = b)
    (hva : atE m.vertices a = Except.ok va) (hvb : atE m.vertices b = Except.ok vb) :
    ∃ V2, coords V2 = coords m.vertices ∧
      m.flip f1 f2 = (flipLinkFrom (collectNeighbors t1 t2)
        ([], setAt (setAt m.triangles f1 (TopoTriangle.new u1 a u2)) f2
          (TopoTriangle.new u2 b u1)) >>= fun st =>
        pure (Mesh.mk V2 st.2 m.borders m.curve m.constraints m.indexBeforeVoronoi)) := by
  obtain ⟨hf1pos, _⟩ := lt_of_atE h1
  have hc1 : coords (if vb.face = f1 then setAt m.vertices b { vb with face := f2 }
      else m.vertices) = coords m.vertices := by
    split
    · exact coords_setAt _ _ _ _ hvb rfl
    · rfl
  have hlen1 : (if vb.face = f1 then setAt m.vertices b { vb with face := f2 }
      else m.vertices).length = m.vertices.length := by
    have := congrArg List.length hc1
    simpa [coords] using this
  obtain ⟨ha0, ha1⟩ := lt_of_atE hva
  obtain ⟨va1, hva1⟩ := atE_of_lt (if vb.face = f1 then setAt m.vertices b { vb with face := f2 }
      else m.vertices) a ha0 (by rw [hlen1]; exact ha1)
  have hc2 : coords (if va1.face = f2 then
      setAt (if vb.face = f1 then setAt m.vertices b { vb with face := f2 } else m.vertices) a
        { va1 with face := f1 }
      else (if vb.face = f1 then setAt m.vertices b { vb with face := f2 } else m.vertices))
      = coords m.vertices := by
    split
    · exact (coords_setAt _ _ va1 { va1 with face := f1 } hva1 rfl).trans hc1
    · exact hc1
  have hread : atE (setAt m.triangles f1 (TopoTriangle.new u1 a u2)) f2 = Except.ok t2 := by
    rw [atE_setAt_ne _ _ hf1pos (Ne.symm hf)]
    exact h2
  refine ⟨_, hc2, ?_⟩
  unfold Mesh.flip
  simp only [h1, h2, hu1, hu2, ha, hb, hvb, hva1, hread, bind, Except.bind, pure, Except.pure]

/-- The entry of an outer neighbor in the linking list of `flip`, `F2` being an arena that
has the triangle of `F` at this entry. -/
theorem givenPred_outer (F F2 : List TopoTriangle) (n x y z1 z2 : Int)
    (h : outerNeighbor F n x y z1 z2) (hF2 : atE F2 n = atE F n) (p q : Int) (hpq : p ≠ q) :
    ((p = z1 ∨ q = z1 ∨ p = z2 ∨ q = z2) →
      givenPred F2 (Edge.toPair { a := p, b := q }) n = false) ∧
    ((p = x ∧ q = y) ∨ (p = y ∧ q = x) →
      givenPred F2 (Edge.toPair { a := p, b := q }) n = decide (n ≠ -1)) := by
  constructor
  · intro hz
    apply givenPred_false F2 p q n hpq
    intro t ht ⟨hp, hq⟩
    rw [hF2] at ht
    rcases h with h | ⟨N, hN, -, -, -, h1, h2⟩
    · rw [h] at ht
      simp [atE] at ht
    · rw [hN] at ht
      cases ht
      rcases hz with rfl | rfl | rfl | rfl
      · exact h1 hp
      · exact h1 hq
      · exact h2 hp
      · exact h2 hq
  · intro hxy
    rcases h with h | ⟨N, hN, -, hx, hy, -, -⟩
    · rw [decide_eq_false (by simpa using h)]
      apply givenPred_false F2 p q n hpq
      intro t ht
      rw [hF2, h] at ht
      simp [atE] at ht
    · have hn : n ≠ -1 := by
        have := (lt_of_atE hN).1
        omega
      rw [decide_eq_true hn]
      rw [← hF2] at hN
      rcases hxy with ⟨rfl, rfl⟩ | ⟨rfl, rfl⟩
      · exact givenPred_true F2 _ _ n hpq N hN hx hy
      · exact givenPred_true F2 _ _ n hpq N hN hy hx

theorem givenWith_six (F : List TopoTriangle) (k : Int × Int) (x1 x2 x3 x4 x5 x6 : Int)
    (b1 b2 b3 b4 b5 b6 : Bool)
    (h1 : givenPred F k x1 = b1) (h2 : givenPred F k x2 = b2) (h3 : givenPred F k x3 = b3)
    (h4 : givenPred F k x4 = b4) (h5 : givenPred F k x5 = b5) (h6 : givenPred F k x6 = b6) :
    givenWith F [x1, x2, x3, x4, x5, x6] k
      = (if b1 = true then [x1] else []) ++ (if b2 = true then [x2] else []) ++
        (if b3 = true then [x3] else []) ++ (if b4 = true then [x4] else []) ++
        (if b5 = true then [x5] else []) ++ (if b6 = true then [x6] else []) := by
  simp only [givenWith_cons, givenWith_nil, h1, h2, h3, h4, h5, h6]
  cases b1 <;> cases b2 <;> cases b3 <;> cases b4 <;> cases b5 <;> cases b6 <;> rfl

theorem outerNeighbor_shapes (F F2 : List TopoTriangle) (n x y z1 z2 : Int)
    (hsh : ∀ t, atE F n = Except.ok t → ∃ s, atE F2 n = Except.ok s ∧
      s.toTriangle = t.toTriangle)
    (h : outerNeighbor F n x y z1 z2) : outerNeighbor F2 n x y z2 z1 := by
  rcases h with h | ⟨N, hN, hd, hx, hy, h1, h2⟩
  · exact Or.inl h
  · obtain ⟨s, hs, hss⟩ := hsh N hN
    refine Or.inr ⟨s, hs, ?_, (hasVertex_of_shape hss x).mpr hx, (hasVertex_of_shape hss y).mpr hy,
      fun hc => h2 ((hasVertex_of_shape hss z2).mp hc),
      fun hc => h1 ((hasVertex_of_shape hss z1).mp hc)⟩
    show Triangle.distinct s.toTriangle
    rw [hss]
    exact hd

/-- The wiring that the linking loop of `flip` makes across one edge: `f` is the triangle of
the pair that has the edge of `x` and `y` after the flip, `w` its third vertex, and `n` the
outer neighbor across this edge. -/
theorem wiring_across (F2 : List TopoTriangle) (L : List Int) (st : MapEdges × List TopoTriangle)
    (hsh : shapes st.2 = shapes F2)
    (hslots : ∀ (i : Int) (t0 t : TopoTriangle) (a b w : Int),
        atE F2 i = Except.ok t0 → atE st.2 i = Except.ok t → t0.distinct →
        t0.hasVertex a → t0.hasVertex b → t0.hasVertex w → a ≠ b → w ≠ a → w ≠ b →
        t.getOppositeNeighborOf w
          = expectedSlot (givenWith F2 L (Edge.toPair { a := a, b := b })) i
              (t0.getOppositeNeighborOf w))
    (f n x y w : Int) (T s : TopoTriangle)
    (hT : atE F2 f = Except.ok T) (hs : atE st.2 f = Except.ok s) (hTd : T.distinct)
    (hTx : T.hasVertex x) (hTy : T.hasVertex y) (hTw : T.hasVertex w)
    (hxy : x ≠ y) (hwx : w ≠ x) (hwy : w ≠ y) (hT0 : T.getOppositeNeighborOf w = -1)
    (hnf : n ≠ f)
    (hN : n = -1 ∨ ∃ N, atE F2 n = Except.ok N ∧ N.distinct ∧ N.hasVertex x ∧ N.hasVertex y)
    (hgw : List.Perm (givenWith F2 L (Edge.toPair { a := x, b := y }))
      ((if decide (n ≠ -1) = true then [n] else []) ++ [f])) :
    s.getOppositeNeighborOf w = n ∧ holdsAcross st.2 n x y f := by
  have hform := hslots f T s x y w hT hs hTd hTx hTy hTw hxy hwx hwy
  rw [hT0] at hform
  rcases hN with hn | ⟨N, hNat, hNd, hNx, hNy⟩
  · have hgw1 : List.Perm (givenWith F2 L (Edge.toPair { a := x, b := y })) [f] := by
      simpa [hn] using hgw
    refine ⟨?_, ?_⟩
    · rw [hform, expectedSlot_single _ f _ hgw1, hn]
    · intro N hNat
      rw [hn] at hNat
      obtain ⟨N0, hN0, -⟩ := @atE_shapes st.2 F2 hsh.symm _ _ hNat
      simp [atE] at hN0
  · have hn : n ≠ -1 := by
      have := (lt_of_atE hNat).1
      omega
    have hgw2 : List.Perm (givenWith F2 L (Edge.toPair { a := x, b := y })) [n, f] := by
      simpa [hn] using hgw
    obtain ⟨e1, e2, -⟩ := expectedSlot_pair _ n f (-1) hgw2 hnf
    refine ⟨by rw [hform, e2], ?_⟩
    intro N2 hN2 w2 hw2 hw2x hw2y
    obtain ⟨N3, hN3, hsh3⟩ := atE_shapes hsh hNat
    rw [hN2] at hN3
    cases hN3
    have hform2 := hslots n N N2 x y w2 hNat hN2 hNd hNx hNy
      ((hasVertex_of_shape hsh3 w2).mp hw2) hxy hw2x hw2y
    rw [hform2]
    exact (expectedSlot_pair _ n f _ hgw2 hnf).1

theorem new_opposite (x y z w : Int) : (TopoTriangle.new x y z).getOppositeNeighborOf w = -1 := by
  unfold TopoTriangle.getOppositeNeighborOf TopoTriangle.new TopoTriangle.neighborAt
  dsimp only
  split
  · rfl
  · split
    · rfl
    · split <;> rfl

theorem mem_collectNeighbors (t1 t2 : TopoTriangle) (x1 y1 z1 x2 y2 z2 i : Int)
    (hd1 : t1.distinct) (hd2 : t2.distinct)
    (hr1 : t1.isRotationOf x1 y1 z1) (hr2 : t2.isRotationOf x2 y2 z2)
    (h : i ∈ collectNeighbors t1 t2) :
    i ≠ -1 ∧ (i = t1.getOppositeNeighborOf x1 ∨ i = t1.getOppositeNeighborOf y1 ∨
      i = t1.getOppositeNeighborOf z1 ∨ i = t2.getOppositeNeighborOf x2 ∨
      i = t2.getOppositeNeighborOf y2 ∨ i = t2.getOppositeNeighborOf z2) := by
  unfold collectNeighbors presentNeighbors at h
  rcases List.mem_append.mp h with h | h
  · obtain ⟨hm, hne⟩ := List.mem_filter.mp h
    have := (perm_slots t1 x1 y1 z1 hd1 hr1).subset hm
    simp only [List.mem_cons, List.mem_singleton, List.mem_nil_iff, or_false] at this
    refine ⟨by simpa using hne, ?_⟩
    rcases this with h | h | h
    · exact Or.inl h
    · exact Or.inr (Or.inl h)
    · exact Or.inr (Or.inr (Or.inl h))
  · obtain ⟨hm, hne⟩ := List.mem_filter.mp h
    have := (perm_slots t2 x2 y2 z2 hd2 hr2).subset hm
    simp only [List.mem_cons, List.mem_singleton, List.mem_nil_iff, or_false] at this
    refine ⟨by simpa using hne, ?_⟩
    rcases this with h | h | h
    · exact Or.inr (Or.inr (Or.inr (Or.inl h)))
    · exact Or.inr (Or.inr (Or.inr (Or.inr (Or.inl h))))
    · exact Or.inr (Or.inr (Or.inr (Or.inr (Or.inr h))))

theorem outer_valid (F F2 : List TopoTriangle) (n x y z1 z2 : Int)
    (h : outerNeighbor F n x y z1 z2) (hF2 : atE F2 n = atE F n) (hn : n ≠ -1) :
    ∃ N, atE F2 n = Except.ok N ∧ N.distinct ∧ N.hasVertex x ∧ N.hasVertex y := by
  rcases h with h | ⟨N, hN, hd, hx, hy, -, -⟩
  · exact absurd h hn
  · exact ⟨N, by rw [hF2]; exact hN, hd, hx, hy⟩

theorem outer_or (F F2 : List TopoTriangle) (n x y z1 z2 : Int)
    (h : outerNeighbor F n x y z1 z2) (hF2 : atE F2 n = atE F n) :
    n = -1 ∨ ∃ N, atE F2 n = Except.ok N ∧ N.distinct ∧ N.hasVertex x ∧ N.hasVertex y := by
  by_cases hn : n = -1
  · exact Or.inl hn
  · exact Or.inr (outer_valid F F2 n x y z1 z2 h hF2 hn)

theorem expectedSlot_not_mem (occ : List Int) (i n0 : Int) (h : i ∉ occ) :
    expectedSlot occ i n0 = n0 := by
  cases occ with
  | nil => rfl
  | cons f later =>
    have h1 : i ≠ f := fun e => h (e ▸ List.mem_cons_self _ _)
    have h2 : i ∉ later := fun e => h (List.mem_cons_of_mem _ e)
    simp [expectedSlot, h1, h2]

/-- The linking loop of `flip` leaves the triangles that are not in its list as they
were. -/
theorem flipLinkFrom_untouched (F : List TopoTriangle) (L : List Int)
    (hv : ∀ i ∈ L, ∃ t, atE F i = Except.ok t ∧ t.distinct)
    (st : MapEdges × List TopoTriangle) (hst : flipLinkFrom L ([], F) = Except.ok st)
    (i : Int) (t0 t : TopoTriangle) (h0 : atE F i = Except.ok t0)
    (ht : atE st.2 i = Except.ok t) (hi : i ∉ L) : t = t0 := by
  have hv2 : ∀ i ∈ L, i ≠ -1 → ∃ t, atE F i = Except.ok t ∧ t.distinct :=
    fun i hi _ => hv i hi
  obtain ⟨st2, hst2, hsh, -, hslots⟩ := linkOps_inv F (opsOf F L) (opOk_of_opsOf F L hv2)
  rw [flipLinkFrom_eq F L ([], F) rfl (fun i hi => (hv i hi).imp (fun t ht => ht.1)), hst2] at hst
  cases hst
  obtain ⟨t1, ht1, hts⟩ := atE_shapes hsh h0
  rw [ht] at ht1
  cases ht1
  have hs : ∀ s, (s = 0 ∨ s = 1 ∨ s = 2) → t.neighborAt s = t0.neighborAt s := by
    intro s hs
    rw [hslots i t0 t h0 ht s hs, occOps_opsOf F _ L hv2]
    apply expectedSlot_not_mem
    intro hmem
    exact hi (List.mem_of_mem_filter hmem)
  have e0 := hs 0 (Or.inl rfl)
  have e1 := hs 1 (Or.inr (Or.inl rfl))
  have e2 := hs 2 (Or.inr (Or.inr rfl))
  obtain ⟨⟨v0, v1, v2⟩, n0, n1, n2⟩ := t
  obtain ⟨⟨w0, w1, w2⟩, k0, k1, k2⟩ := t0
  simp only [TopoTriangle.neighborAt] at e0 e1 e2
  simp only [Triangle.mk.injEq] at hts
  simp at e0 e1 e2
  obtain ⟨a0, a1, a2⟩ := hts
  subst a0 a1 a2 e0 e1 e2
  rfl

/-- A triangle with distinct vertices has a vertex that is neither `x` nor `y`. -/
theorem third_vertex (N : TopoTriangle) (x y : Int) (hd : N.distinct) :
    ∃ v, N.hasVertex v ∧ v ≠ x ∧ v ≠ y := by
  obtain ⟨h01, h12, h02⟩ := hd
  by_cases c0 : N.v0 ≠ x ∧ N.v0 ≠ y
  · exact ⟨N.v0, Or.inl rfl, c0.1, c0.2⟩
  by_cases c1 : N.v1 ≠ x ∧ N.v1 ≠ y
  · exact ⟨N.v1, Or.inr (Or.inl rfl), c1.1, c1.2⟩
  refine ⟨N.v2, Or.inr (Or.inr rfl), ?_, ?_⟩ <;> omega

/-- A neighbor slot of an outer neighbor `n` that faces an edge `p v` off the pair: the
linking loop of `flip` finds this edge on `n` and at most on the outer neighbor `n2`; when
`n` held `n2` there, it still does, and otherwise the slot is as it was. -/
theorem keep_slot (F2 : List TopoTriangle) (L : List Int) (st : MapEdges × List TopoTriangle)
    (hslots : ∀ (i : Int) (t0 t : TopoTriangle) (a b w : Int),
        atE F2 i = Except.ok t0 → atE st.2 i = Except.ok t → t0.distinct →
        t0.hasVertex a → t0.hasVertex b → t0.hasVertex w → a ≠ b → w ≠ a → w ≠ b →
        t.getOppositeNeighborOf w
          = expectedSlot (givenWith F2 L (Edge.toPair { a := a, b := b })) i
              (t0.getOppositeNeighborOf w))
    (n n2 p v w : Int) (N s : TopoTriangle)
    (hN : atE F2 n = Except.ok N) (hs : atE st.2 n = Except.ok s) (hd : N.distinct)
    (hp : N.hasVertex p) (hv : N.hasVertex v) (hw : N.hasVertex w)
    (hpv : p ≠ v) (hwp : w ≠ p) (hwv : w ≠ v)
    (hgw : List.Perm (givenWith F2 L (Edge.toPair { a := p, b := v }))
      ([n] ++ (if givenPred F2 (Edge.toPair { a := p, b := v }) n2 = true then [n2] else [])))
    (hpart : givenPred F2 (Edge.toPair { a := p, b := v }) n2 = true →
      n ≠ n2 ∧ N.getOppositeNeighborOf w = n2) :
    s.getOppositeNeighborOf w = N.getOppositeNeighborOf w := by
  rw [hslots n N s p v w hN hs hd hp hv hw hpv hwp hwv]
  by_cases hb : givenPred F2 (Edge.toPair { a := p, b := v }) n2 = true
  · rw [if_pos hb] at hgw
    obtain ⟨hne, hopp⟩ := hpart hb
    rw [(expectedSlot_pair _ n n2 _ hgw hne).1, hopp]
  · rw [if_neg hb] at hgw
    exact expectedSlot_single _ n _ hgw n

/-- One flip from a configuration `flipReady`: the flip returns, the two triangles are
`(u1, a, u2)` and `(u2, b, u1)`, the other vertex triples are kept, and the configuration
after the flip is `flipReady` again, around the edge of `u2` and `u1`, with symmetric
wiring.  The triangles that are neither of the pair nor outer neighbors are as they were;
when the outer neighbors that share an edge hold each other across it, the slots of the
outer neighbors that do not face the pair are as they were. -/
theorem flip_step (m : Mesh) (f1 f2 u1 u2 a b nA nB nC nD : Int)
    (h : flipReady m f1 f2 u1 u2 a b nA nB nC nD) :
    ∃ m2, m.flip f1 f2 = Except.ok m2 ∧
      coords m2.vertices = coords m.vertices ∧
      (∃ s1 s2, atE m2.triangles f1 = Except.ok s1 ∧ atE m2.triangles f2 = Except.ok s2 ∧
        s1.toTriangle = { v0 := u1, v1 := a, v2 := u2 } ∧
        s2.toTriangle = { v0 := u2, v1 := b, v2 := u1 }) ∧
      (∀ i t, i ≠ f1 → i ≠ f2 → atE m.triangles i = Except.ok t →
        ∃ s, atE m2.triangles i = Except.ok s ∧ s.toTriangle = t.toTriangle) ∧
      flipReady m2 f1 f2 a b u2 u1 nB nC nD nA ∧
      flipWired m2 f1 f2 a b u2 u1 nB nC nD nA ∧
      (∀ i t, i ≠ f1 → i ≠ f2 → i ≠ nA → i ≠ nB → i ≠ nC → i ≠ nD →
        atE m.triangles i = Except.ok t → atE m2.triangles i = Except.ok t) ∧
      (outerWired m u1 u2 a b nA nB nC nD →
        keepsSides m.triangles m2.triangles nA u1 a ∧
        keepsSides m.triangles m2.triangles nB a u2 ∧
        keepsSides m.triangles m2.triangles nC u2 b ∧
        keepsSides m.triangles m2.triangles nD b u1) := by
  obtain ⟨hu, hverts, t1, t2, h1, h2, hd1, hd2, hr1, hr2, o1u, o1a, o1b, o2u, o2b, o2a,
    hA, hB, hC, hD⟩ := h
  obtain ⟨m1u, m1a, m1b, hu1a, hab, hu1b⟩ := rotation_has t1.toTriangle u1 a b hd1 hr1
  obtain ⟨m2u, m2b, m2a, hu2b, -, hu2a⟩ := rotation_has t2.toTriangle u2 b a hd2 hr2
  have hba := Ne.symm hab
  have hau1 := Ne.symm hu1a
  have hbu1 := Ne.symm hu1b
  have hau2 := Ne.symm hu2a
  have hbu2 := Ne.symm hu2b
  have hu21 := Ne.symm hu
  -- the indices are pairwise different
  have hf : f1 ≠ f2 := by
    intro hff
    have ht : t2 = t1 := by
      rw [hff, h2] at h1
      exact Except.ok.inj h1
    rw [← ht] at m1u
    rcases (rotation_mem t2.toTriangle u2 b a u1 hr2).mp m1u with h | h | h
    · exact hu h
    · exact hu1b h
    · exact hu1a h
  have hAf1 := outer_ne _ nA u1 a b u2 hA f1 t1 h1 (Or.inl m1b)
  have hAf2 := outer_ne _ nA u1 a b u2 hA f2 t2 h2 (Or.inl m2b)
  have hBf1 := outer_ne _ nB a u2 b u1 hB f1 t1 h1 (Or.inl m1b)
  have hBf2 := outer_ne _ nB a u2 b u1 hB f2 t2 h2 (Or.inl m2b)
  have hCf1 := outer_ne _ nC u2 b a u1 hC f1 t1 h1 (Or.inl m1a)
  have hCf2 := outer_ne _ nC u2 b a u1 hC f2 t2 h2 (Or.inl m2a)
  have hDf1 := outer_ne _ nD b u1 a u2 hD f1 t1 h1 (Or.inl m1a)
  have hDf2 := outer_ne _ nD b u1 a u2 hD f2 t2 h2 (Or.inl m2a)
  -- what `flip` reads
  have hn1 : t1.recordsOnlyOpposite u1 f2 := by
    refine ⟨o1u, ?_⟩
    intro v hv hvu
    rcases (rotation_mem t1.toTriangle u1 a b v hr1).mp hv with h | h | h
    · exact absurd h hvu
    · rw [h, o1a]; exact hDf2
    · rw [h, o1b]; exact hAf2
  have hn2 : t2.recordsOnlyOpposite u2 f1 := by
    refine ⟨o2u, ?_⟩
    intro v hv hvu
    rcases (rotation_mem t2.toTriangle u2 b a v hr2).mp hv with h | h | h
    · exact absurd h hvu
    · rw [h, o2b]; exact hBf1
    · rw [h, o2a]; exact hCf1
  obtain ⟨hq1, hq2, -, -, -⟩ := rotation_facts t1 u1 a b f2 hd1 hr1 hn1
  obtain ⟨hq3, hq4, -, -, -⟩ := rotation_facts t2 u2 b a f1 hd2 hr2 hn2
  obtain ⟨va, hva⟩ := hverts a (Or.inr (Or.inr (Or.inl rfl)))
  obtain ⟨vb, hvb⟩ := hverts b (Or.inr (Or.inr (Or.inr rfl)))
  obtain ⟨V2, hV2, hflip⟩ := flip_unfold m f1 f2 u1 u2 a b t1 t2 va vb hf h1 h2 hq1 hq3 hq2 hq4
    hva hvb
  obtain ⟨hf1pos, -⟩ := lt_of_atE h1
  obtain ⟨hf2pos, -⟩ := lt_of_atE h2
  -- the arena handed to the linking loop
  have hF2f1 : atE (setAt (setAt m.triangles f1 (TopoTriangle.new u1 a u2)) f2
      (TopoTriangle.new u2 b u1)) f1 = Except.ok (TopoTriangle.new u1 a u2) := by
    rw [atE_setAt_ne _ _ hf2pos hf]
    exact atE_setAt_self h1
  have hF2f2 : atE (setAt (setAt m.triangles f1 (TopoTriangle.new u1 a u2)) f2
      (TopoTriangle.new u2 b u1)) f2 = Except.ok (TopoTriangle.new u2 b u1) := by
    apply atE_setAt_self (y := t2)
    rw [atE_setAt_ne _ _ hf1pos (Ne.symm hf)]
    exact h2
  have hkeep : ∀ i, i ≠ f1 → i ≠ f2 →
      atE (setAt (setAt m.triangles f1 (TopoTriangle.new u1 a u2)) f2
        (TopoTriangle.new u2 b u1)) i = atE m.triangles i := by
    intro i hi1 hi2
    rw [atE_setAt_ne _ _ hf2pos hi2, atE_setAt_ne _ _ hf1pos hi1]
  generalize setAt (setAt m.triangles f1 (TopoTriangle.new u1 a u2)) f2
    (TopoTriangle.new u2 b u1) = F2 at hflip hF2f1 hF2f2 hkeep
  have hdn1 : (TopoTriangle.new u1 a u2).distinct := ⟨hu1a, hau2, hu⟩
  have hdn2 : (TopoTriangle.new u2 b u1).distinct := ⟨hu2b, hbu1, hu21⟩
  have hvalid : ∀ i ∈ collectNeighbors t1 t2,
      ∃ t, atE F2 i = Except.ok t ∧ t.distinct := by
    intro i hi
    obtain ⟨hne, hcases⟩ := mem_collectNeighbors t1 t2 u1 a b u2 b a i hd1 hd2 hr1 hr2 hi
    rw [o1u, o1a, o1b, o2u, o2b, o2a] at hcases
    rcases hcases with h | h | h | h | h | h <;> subst h
    · exact ⟨_, hF2f2, hdn2⟩
    · obtain ⟨N, hN, hd, -, -⟩ := outer_valid _ _ _ b u1 a u2 hD (hkeep _ hDf1 hDf2) hne
      exact ⟨N, hN, hd⟩
    · obtain ⟨N, hN, hd, -, -⟩ := outer_valid _ _ _ u1 a b u2 hA (hkeep _ hAf1 hAf2) hne
      exact ⟨N, hN, hd⟩
    · exact ⟨_, hF2f1, hdn1⟩
    · obtain ⟨N, hN, hd, -, -⟩ := outer_valid _ _ _ a u2 b u1 hB (hkeep _ hBf1 hBf2) hne
      exact ⟨N, hN, hd⟩
    · obtain ⟨N, hN, hd, -, -⟩ := outer_valid _ _ _ u2 b a u1 hC (hkeep _ hCf1 hCf2) hne
      exact ⟨N, hN, hd⟩
  obtain ⟨st, hst, hsh, hslots⟩ := flipLinkFrom_pass F2 _ hvalid
  -- the entries of the linking list that have each edge
  have hperm := fun k => givenWith_concerned F2 t1 t2 u1 a b u2 b a k hd1 hd2 hr1 hr2
  rw [o1u, o1a, o1b, o2u, o2b, o2a] at hperm
  have eF1 := fun p q (hpq : p ≠ q) => givenPred_new F2 f1 u1 a u2 p q hpq hF2f1
  have eF2 := fun p q (hpq : p ≠ q) => givenPred_new F2 f2 u2 b u1 p q hpq hF2f2
  have eA := givenPred_outer m.triangles F2 nA u1 a b u2 hA (hkeep _ hAf1 hAf2)
  have eB := givenPred_outer m.triangles F2 nB a u2 b u1 hB (hkeep _ hBf1 hBf2)
  have eC := givenPred_outer m.triangles F2 nC u2 b a u1 hC (hkeep _ hCf1 hCf2)
  have eD := givenPred_outer m.triangles F2 nD b u1 a u2 hD (hkeep _ hDf1 hDf2)
  have gU : List.Perm (givenWith F2 (collectNeighbors t1 t2) (Edge.toPair { a := u1, b := u2 }))
      [f2, f1] := by
    refine (hperm _).trans ?_
    rw [givenWith_six F2 _ f2 nD nA f1 nB nC true false false true false false
      (by rw [eF2 u1 u2 hu]; simp)
      ((eD u1 u2 hu).1 (Or.inr (Or.inr (Or.inr rfl))))
      ((eA u1 u2 hu).1 (Or.inr (Or.inr (Or.inr rfl))))
      (by rw [eF1 u1 u2 hu]; simp)
      ((eB u1 u2 hu).1 (Or.inr (Or.inr (Or.inl rfl))))
      ((eC u1 u2 hu).1 (Or.inr (Or.inr (Or.inl rfl))))]
    simp
  have gA : List.Perm (givenWith F2 (collectNeighbors t1 t2) (Edge.toPair { a := u1, b := a }))
      ((if decide (nA ≠ -1) = true then [nA] else []) ++ [f1]) := by
    refine (hperm _).trans ?_
    rw [givenWith_six F2 _ f2 nD nA f1 nB nC false false (decide (nA ≠ -1)) true false false
      (by rw [eF2 u1 a hu1a]; simp [hbu1, hau1, hau2, hba, hab, hu2a, hu1a])
      ((eD u1 a hu1a).1 (Or.inr (Or.inl rfl)))
      ((eA u1 a hu1a).2 (Or.inl ⟨rfl, rfl⟩))
      (by rw [eF1 u1 a hu1a]; simp)
      ((eB u1 a hu1a).1 (Or.inr (Or.inr (Or.inl rfl))))
      ((eC u1 a hu1a).1 (Or.inr (Or.inl rfl)))]
    simp
  have gB : List.Perm (givenWith F2 (collectNeighbors t1 t2) (Edge.toPair { a := a, b := u2 }))
      ((if decide (nB ≠ -1) = true then [nB] else []) ++ [f1]) := by
    refine (hperm _).trans ?_
    rw [givenWith_six F2 _ f2 nD nA f1 nB nC false false false true (decide (nB ≠ -1)) false
      (by rw [eF2 a u2 hau2]; simp [hbu1, hau1, hau2, hba, hab, hu2a, hu1a])
      ((eD a u2 hau2).1 (Or.inl rfl))
      ((eA a u2 hau2).1 (Or.inr (Or.inr (Or.inr rfl))))
      (by rw [eF1 a u2 hau2]; simp)
      ((eB a u2 hau2).2 (Or.inl ⟨rfl, rfl⟩))
      ((eC a u2 hau2).1 (Or.inl rfl))]
    simp only [if_true, Bool.false_eq_true, if_false, List.append_nil, List.nil_append]
    exact List.perm_append_comm
  have gC : List.Perm (givenWith F2 (collectNeighbors t1 t2) (Edge.toPair { a := u2, b := b }))
      ((if decide (nC ≠ -1) = true then [nC] else []) ++ [f2]) := by
    refine (hperm _).trans ?_
    rw [givenWith_six F2 _ f2 nD nA f1 nB nC true false false false false (decide (nC ≠ -1))
      (by rw [eF2 u2 b hu2b]; simp)
      ((eD u2 b hu2b).1 (Or.inr (Or.inr (Or.inl rfl))))
      ((eA u2 b hu2b).1 (Or.inr (Or.inl rfl)))
      (by rw [eF1 u2 b hu2b]; simp [hbu1, hau1, hau2, hba, hab, hu2a, hu1a, hu1b, hbu2, hu2b])
      ((eB u2 b hu2b).1 (Or.inr (Or.inl rfl)))
      ((eC u2 b hu2b).2 (Or.inl ⟨rfl, rfl⟩))]
    simp only [if_true, Bool.false_eq_true, if_false, List.append_nil, List.nil_append]
    exact List.perm_append_comm
  have gD : List.Perm (givenWith F2 (collectNeighbors t1 t2) (Edge.toPair { a := b, b := u1 }))
      ((if decide (nD ≠ -1) = true then [nD] else []) ++ [f2]) := by
    refine (hperm _).trans ?_
    rw [givenWith_six F2 _ f2 nD nA f1 nB nC true (decide (nD ≠ -1)) false false false false
      (by rw [eF2 b u1 hbu1]; simp)
      ((eD b u1 hbu1).2 (Or.inl ⟨rfl, rfl⟩))
      ((eA b u1 hbu1).1 (Or.inl rfl))
      (by rw [eF1 b u1 hbu1]; simp [hbu1, hau1, hau2, hba, hab, hu2a, hu1a, hu1b, hbu2, hu2b])
      ((eB b u1 hbu1).1 (Or.inl rfl))
      ((eC b u1 hbu1).1 (Or.inr (Or.inr (Or.inr rfl))))]
    simp only [if_true, Bool.false_eq_true, if_false, List.append_nil, List.nil_append]
    exact List.perm_append_comm
  -- the arena after the flip
  obtain ⟨s1, hs1, hss1⟩ := atE_shapes hsh hF2f1
  obtain ⟨s2, hs2, hss2⟩ := atE_shapes hsh hF2f2
  have hother : ∀ i t, i ≠ f1 → i ≠ f2 → atE m.triangles i = Except.ok t →
      ∃ s, atE st.2 i = Except.ok s ∧ s.toTriangle = t.toTriangle := by
    intro i t hi1 hi2 hit
    rw [← hkeep i hi1 hi2] at hit
    exact atE_shapes hsh hit
  obtain ⟨wA1, wA2⟩ := wiring_across F2 _ st hsh hslots f1 nA u1 a u2 _ s1 hF2f1 hs1 hdn1
    (Or.inl rfl) (Or.inr (Or.inl rfl)) (Or.inr (Or.inr rfl)) hu1a hu21 hu2a
    (new_opposite _ _ _ _) hAf1 (outer_or _ _ _ u1 a b u2 hA (hkeep _ hAf1 hAf2)) gA
  obtain ⟨wB1, wB2⟩ := wiring_across F2 _ st hsh hslots f1 nB a u2 u1 _ s1 hF2f1 hs1 hdn1
    (Or.inr (Or.inl rfl)) (Or.inr (Or.inr rfl)) (Or.inl rfl) hau2 hu1a hu
    (new_opposite _ _ _ _) hBf1 (outer_or _ _ _ a u2 b u1 hB (hkeep _ hBf1 hBf2)) gB
  obtain ⟨wC1, wC2⟩ := wiring_across F2 _ st hsh hslots f2 nC u2 b u1 _ s2 hF2f2 hs2 hdn2
    (Or.inl rfl) (Or.inr (Or.inl rfl)) (Or.inr (Or.inr rfl)) hu2b hu hu1b
    (new_opposite _ _ _ _) hCf2 (outer_or _ _ _ u2 b a u1 hC (hkeep _ hCf1 hCf2)) gC
  obtain ⟨wD1, wD2⟩ := wiring_across F2 _ st hsh hslots f2 nD b u1 u2 _ s2 hF2f2 hs2 hdn2
    (Or.inr (Or.inl rfl)) (Or.inr (Or.inr rfl)) (Or.inl rfl) hbu1 hu2b hu21
    (new_opposite _ _ _ _) hDf2 (outer_or _ _ _ b u1 a u2 hD (hkeep _ hDf1 hDf2)) gD
  obtain ⟨eU1, eU2, -⟩ := expectedSlot_pair _ f2 f1 (-1) gU (Ne.symm hf)
  have w12 : s1.getOppositeNeighborOf a = f2 := by
    rw [hslots f1 _ s1 u1 u2 a hF2f1 hs1 hdn1 (Or.inl rfl) (Or.inr (Or.inr rfl))
      (Or.inr (Or.inl rfl)) hu hau1 hau2, new_opposite]
    exact eU2
  have w21 : s2.getOppositeNeighborOf b = f1 := by
    rw [hslots f2 _ s2 u1 u2 b hF2f2 hs2 hdn2 (Or.inr (Or.inr rfl)) (Or.inl rfl)
      (Or.inr (Or.inl rfl)) hu hbu1 hbu2, new_opposite]
    exact eU1
  have hlen : V2.length = m.vertices.length := by
    have := congrArg List.length hV2
    simpa [coords] using this
  refine ⟨Mesh.mk V2 st.2 m.borders m.curve m.constraints m.indexBeforeVoronoi, ?_, hV2,
    ⟨s1, s2, hs1, hs2, hss1, hss2⟩, hother, ?_, ⟨wB2, wC2, wD2, wA2⟩, ?_, ?_⟩
  · rw [hflip, hst]
    rfl
  · refine ⟨hab, ?_, s1, s2, hs1, hs2, ?_, ?_, ?_, ?_, w12, wA1, wB1, w21, wC1, wD1, ?_, ?_, ?_, ?_⟩
    · intro w hw
      have hw2 : w = u1 ∨ w = u2 ∨ w = a ∨ w = b := by
        rcases hw with h | h | h | h
        · exact Or.inr (Or.inr (Or.inl h))
        · exact Or.inr (Or.inr (Or.inr h))
        · exact Or.inr (Or.inl h)
        · exact Or.inl h
      obtain ⟨x, hx⟩ := hverts w hw2
      obtain ⟨hw0, hw1⟩ := lt_of_atE hx
      exact atE_of_lt V2 w hw0 (by rw [hlen]; exact hw1)
    · show Triangle.distinct s1.toTriangle
      rw [hss1]
      exact hdn1
    · show Triangle.distinct s2.toTriangle
      rw [hss2]
      exact hdn2
    · show Triangle.isRotationOf s1.toTriangle a u2 u1
      rw [hss1]
      exact Or.inr (Or.inr ⟨rfl, rfl, rfl⟩)
    · show Triangle.isRotationOf s2.toTriangle b u1 u2
      rw [hss2]
      exact Or.inr (Or.inr ⟨rfl, rfl, rfl⟩)
    · exact outerNeighbor_shapes _ _ nB a u2 b u1 (fun t ht => hother nB t hBf1 hBf2 ht) hB
    · exact outerNeighbor_shapes _ _ nC u2 b a u1 (fun t ht => hother nC t hCf1 hCf2 ht) hC
    · exact outerNeighbor_shapes _ _ nD b u1 a u2 (fun t ht => hother nD t hDf1 hDf2 ht) hD
    · exact outerNeighbor_shapes _ _ nA u1 a b u2 (fun t ht => hother nA t hAf1 hAf2 ht) hA
  · intro i t hi1 hi2 hiA hiB hiC hiD hit
    have hF : atE F2 i = Except.ok t := by
      rw [hkeep i hi1 hi2]
      exact hit
    obtain ⟨s, hs, -⟩ := atE_shapes hsh hF
    have hnot : i ∉ collectNeighbors t1 t2 := by
      intro hmem
      obtain ⟨-, hcases⟩ := mem_collectNeighbors t1 t2 u1 a b u2 b a i hd1 hd2 hr1 hr2 hmem
      rw [o1u, o1a, o1b, o2u, o2b, o2a] at hcases
      rcases hcases with h | h | h | h | h | h
      · exact hi2 h
      · exact hiD h
      · exact hiA h
      · exact hi1 h
      · exact hiB h
      · exact hiC h
    have hst2 := flipLinkFrom_untouched F2 _ hvalid st hst i t s hF hs hnot
    show atE st.2 i = Except.ok t
    rw [hs, hst2]
  · rintro ⟨wAB, wBC, wCD, wDA⟩
    have lacksA : ∀ P, atE m.triangles nA = Except.ok P →
        ¬ P.hasVertex b ∧ ¬ P.hasVertex u2 := by
      intro P hP
      rcases hA with hneg | ⟨N0, hN0, -, -, -, h1, h2⟩
      · rw [hneg] at hP
        simp [atE] at hP
      · rw [hP] at hN0
        cases hN0
        exact ⟨h1, h2⟩
    have lacksB : ∀ P, atE m.triangles nB = Except.ok P →
        ¬ P.hasVertex b ∧ ¬ P.hasVertex u1 := by
      intro P hP
      rcases hB with hneg | ⟨N0, hN0, -, -, -, h1, h2⟩
      · rw [hneg] at hP
        simp [atE] at hP
      · rw [hP] at hN0
        cases hN0
        exact ⟨h1, h2⟩
    have lacksC : ∀ P, atE m.triangles nC = Except.ok P →
        ¬ P.hasVertex a ∧ ¬ P.hasVertex u1 := by
      intro P hP
      rcases hC with hneg | ⟨N0, hN0, -, -, -, h1, h2⟩
      · rw [hneg] at hP
        simp [atE] at hP
      · rw [hP] at hN0
        cases hN0
        exact ⟨h1, h2⟩
    have lacksD : ∀ P, atE m.triangles nD = Except.ok P →
        ¬ P.hasVertex a ∧ ¬ P.hasVertex u2 := by
      intro P hP
      rcases hD with hneg | ⟨N0, hN0, -, -, -, h1, h2⟩
      · rw [hneg] at hP
        simp [atE] at hP
      · rw [hP] at hN0
        cases hN0
        exact ⟨h1, h2⟩
    refine ⟨?_, ?_, ?_, ?_⟩
    · intro N s hN hs
      have hNF : atE F2 nA = Except.ok N := by
        rw [hkeep nA hAf1 hAf2]
        exact hN
      rcases hA with hneg | ⟨N0, hN0, hd, hNu1, hNa, hNz1, hNz2⟩
      · rw [hneg] at hN
        simp [atE] at hN
      rw [hN] at hN0
      cases hN0
      obtain ⟨v, hNv, hvneu1, hvnea⟩ := third_vertex N u1 a hd
      have hvneb : v ≠ b := fun e => hNz1 (e ▸ hNv)
      have hvneu2 : v ≠ u2 := fun e => hNz2 (e ▸ hNv)
      have hu1v : u1 ≠ v := Ne.symm hvneu1
      have hu2v : u2 ≠ v := Ne.symm hvneu2
      have hav : a ≠ v := Ne.symm hvnea
      have hbv : b ≠ v := Ne.symm hvneb
      have gu1 : s.getOppositeNeighborOf u1 = N.getOppositeNeighborOf u1 := by
        refine keep_slot F2 _ st hslots nA nB a v u1 N s hNF hs hd hNa hNv hNu1
          hav hu1a hu1v ?_ ?_
        · refine (hperm _).trans ?_
          rw [givenWith_six F2 _ f2 nD nA f1 nB nC false false true
            false (givenPred F2 (Edge.toPair { a := a, b := v }) nB) false
            (by rw [eF2 a v hav]; simp [hu2v, hbv, hu1v])
            ((eD a v hav).1 (Or.inl rfl))
            (givenPred_true F2 a v nA hav N hNF hNa hNv)
            (by rw [eF1 a v hav]; simp [hu1v, hav, hu2v])
            rfl
            ((eC a v hav).1 (Or.inl rfl))]
          simp only [if_true, Bool.false_eq_true, if_false, List.append_nil, List.nil_append]
          exact List.Perm.refl _
        · intro hb
          obtain ⟨P, hPF, -, hPv⟩ := (givenPred_iff F2 a v nB hav).mp hb
          have hPm : atE m.triangles nB = Except.ok P := by
            rw [← hkeep nB hBf1 hBf2]
            exact hPF
          have hlack := lacksB P hPm
          refine ⟨?_, (wAB N P v hN hPm hNv hPv hvnea).1⟩
          intro hnp
          rw [← hnp, hN] at hPm
          cases hPm
          exact hlack.2 hNu1
      have ga : s.getOppositeNeighborOf a = N.getOppositeNeighborOf a := by
        refine keep_slot F2 _ st hslots nA nD u1 v a N s hNF hs hd hNu1 hNv hNa
          hu1v hau1 hav ?_ ?_
        · refine (hperm _).trans ?_
          rw [givenWith_six F2 _ f2 nD nA f1 nB nC false
            (givenPred F2 (Edge.toPair { a := u1, b := v }) nD) true
            false false false
            (by rw [eF2 u1 v hu1v]; simp [hu2v, hbv, hu1v])
            rfl
            (givenPred_true F2 u1 v nA hu1v N hNF hNu1 hNv)
            (by rw [eF1 u1 v hu1v]; simp [hu1v, hav, hu2v])
            ((eB u1 v hu1v).1 (Or.inr (Or.inr (Or.inl rfl))))
            ((eC u1 v hu1v).1 (Or.inr (Or.inr (Or.inl rfl))))]
          simp only [if_true, Bool.false_eq_true, if_false, List.append_nil, List.nil_append]
          exact List.perm_append_comm
        · intro hb
          obtain ⟨P, hPF, -, hPv⟩ := (givenPred_iff F2 u1 v nD hu1v).mp hb
          have hPm : atE m.triangles nD = Except.ok P := by
            rw [← hkeep nD hDf1 hDf2]
            exact hPF
          have hlack := lacksD P hPm
          refine ⟨?_, (wDA P N v hPm hN hPv hNv hvneu1).2⟩
          intro hnp
          rw [← hnp, hN] at hPm
          cases hPm
          exact hlack.1 hNa
      exact ⟨gu1, ga⟩
    · intro N s hN hs
      have hNF : atE F2 nB = Except.ok N := by
        rw [hkeep nB hBf1 hBf2]
        exact hN
      rcases hB with hneg | ⟨N0, hN0, hd, hNa, hNu2, hNz1, hNz2⟩
      · rw [hneg] at hN
        simp [atE] at hN
      rw [hN] at hN0
      cases hN0
      obtain ⟨v, hNv, hvnea, hvneu2⟩ := third_vertex N a u2 hd
      have hvneb : v ≠ b := fun e => hNz1 (e ▸ hNv)
      have hvneu1 : v ≠ u1 := fun e => hNz2 (e ▸ hNv)
      have hu1v : u1 ≠ v := Ne.symm hvneu1
      have hu2v : u2 ≠ v := Ne.symm hvneu2
      have hav : a ≠ v := Ne.symm hvnea
      have hbv : b ≠ v := Ne.symm hvneb
      have ga : s.getOppositeNeighborOf a = N.getOppositeNeighborOf a := by
        refine keep_slot F2 _ st hslots nB nC u2 v a N s hNF hs hd hNu2 hNv hNa
          hu2v hau2 hav ?_ ?_
        · refine (hperm _).trans ?_
          rw [givenWith_six F2 _ f2 nD nA f1 nB nC false false false
            false true (givenPred F2 (Edge.toPair { a := u2, b := v }) nC)
            (by rw [eF2 u2 v hu2v]; simp [hu2v, hbv, hu1v])
            ((eD u2 v hu2v).1 (Or.inr (Or.inr (Or.inl rfl))))
            ((eA u2 v hu2v).1 (Or.inr (Or.inr (Or.inl rfl))))
            (by rw [eF1 u2 v hu2v]; simp [hu1v, hav, hu2v])
            (givenPred_true F2 u2 v nB hu2v N hNF hNu2 hNv)
            rfl]
          simp only [if_true, Bool.false_eq_true, if_false, List.append_nil, List.nil_append]
          exact List.Perm.refl _
        · intro hb
          obtain ⟨P, hPF, -, hPv⟩ := (givenPred_iff F2 u2 v nC hu2v).mp hb
          have hPm : atE m.triangles nC = Except.ok P := by
            rw [← hkeep nC hCf1 hCf2]
            exact hPF
          have hlack := lacksC P hPm
          refine ⟨?_, (wBC N P v hN hPm hNv hPv hvneu2).1⟩
          intro hnp
          rw [← hnp, hN] at hPm
          cases hPm
          exact hlack.1 hNa
      have gu2 : s.getOppositeNeighborOf u2 = N.getOppositeNeighborOf u2 := by
        refine keep_slot F2 _ st hslots nB nA a v u2 N s hNF hs hd hNa hNv hNu2
          hav hu2a hu2v ?_ ?_
        · refine (hperm _).trans ?_
          rw [givenWith_six F2 _ f2 nD nA f1 nB nC false false
            (givenPred F2 (Edge.toPair { a := a, b := v }) nA)
            false true false
            (by rw [eF2 a v hav]; simp [hu2v, hbv, hu1v])
            ((eD a v hav).1 (Or.inl rfl))
            rfl
            (by rw [eF1 a v hav]; simp [hu1v, hav, hu2v])
            (givenPred_true F2 a v nB hav N hNF hNa hNv)
            ((eC a v hav).1 (Or.inl rfl))]
          simp only [if_true, Bool.false_eq_true, if_false, List.append_nil, List.nil_append]
          exact List.perm_append_comm
        · intro hb
          obtain ⟨P, hPF, -, hPv⟩ := (givenPred_iff F2 a v nA hav).mp hb
          have hPm : atE m.triangles nA = Except.ok P := by
            rw [← hkeep nA hAf1 hAf2]
            exact hPF
          have hlack := lacksA P hPm
          refine ⟨?_, (wAB P N v hPm hN hPv hNv hvnea).2⟩
          intro hnp
          rw [← hnp, hN] at hPm
          cases hPm
          exact hlack.2 hNu2
      exact ⟨ga, gu2⟩
    · intro N s hN hs
      have hNF : atE F2 nC = Except.ok N := by
        rw [hkeep nC hCf1 hCf2]
        exact hN
      rcases hC with hneg | ⟨N0, hN0, hd, hNu2, hNb, hNz1, hNz2⟩
      · rw [hneg] at hN
        simp [atE] at hN
      rw [hN] at hN0
      cases hN0
      obtain ⟨v, hNv, hvneu2, hvneb⟩ := third_vertex N u2 b hd
      have hvnea : v ≠ a := fun e => hNz1 (e ▸ hNv)
      have hvneu1 : v ≠ u1 := fun e => hNz2 (e ▸ hNv)
      have hu1v : u1 ≠ v := Ne.symm hvneu1
      have hu2v : u2 ≠ v := Ne.symm hvneu2
      have hav : a ≠ v := Ne.symm hvnea
      have hbv : b ≠ v := Ne.symm hvneb
      have gu2 : s.getOppositeNeighborOf u2 = N.getOppositeNeighborOf u2 := by
        refine keep_slot F2 _ st hslots nC nD b v u2 N s hNF hs hd hNb hNv hNu2
          hbv hu2b hu2v ?_ ?_
        · refine (hperm _).trans ?_
          rw [givenWith_six F2 _ f2 nD nA f1 nB nC false
            (givenPred F2 (Edge.toPair { a := b, b := v }) nD) false
            false false true
            (by rw [eF2 b v hbv]; simp [hu2v, hbv, hu1v])
            rfl
            ((eA b v hbv).1 (Or.inl rfl))
            (by rw [eF1 b v hbv]; simp [hu1v, hav, hu2v])
            ((eB b v hbv).1 (Or.inl rfl))
            (givenPred_true F2 b v nC hbv N hNF hNb hNv)]
          simp only [if_true, Bool.false_eq_true, if_false, List.append_nil, List.nil_append]
          exact List.perm_append_comm
        · intro hb
          obtain ⟨P, hPF, -, hPv⟩ := (givenPred_iff F2 b v nD hbv).mp hb
          have hPm : atE m.triangles nD = Except.ok P := by
            rw [← hkeep nD hDf1 hDf2]
            exact hPF
          have hlack := lacksD P hPm
          refine ⟨?_, (wCD N P v hN hPm hNv hPv hvneb).1⟩
          intro hnp
          rw [← hnp, hN] at hPm
          cases hPm
          exact hlack.2 hNu2
      have gb : s.getOppositeNeighborOf b = N.getOppositeNeighborOf b := by
        refine keep_slot F2 _ st hslots nC nB u2 v b N s hNF hs hd hNu2 hNv hNb
          hu2v hbu2 hbv ?_ ?_
        · refine (hperm _).trans ?_
          rw [givenWith_six F2 _ f2 nD nA f1 nB nC false false false
            false (givenPred F2 (Edge.toPair { a := u2, b := v }) nB) true
            (by rw [eF2 u2 v hu2v]; simp [hu2v, hbv, hu1v])
            ((eD u2 v hu2v).1 (Or.inr (Or.inr (Or.inl rfl))))
            ((eA u2 v hu2v).1 (Or.inr (Or.inr (Or.inl rfl))))
            (by rw [eF1 u2 v hu2v]; simp [hu1v, hav, hu2v])
            rfl
            (givenPred_true F2 u2 v nC hu2v N hNF hNu2 hNv)]
          simp only [if_true, Bool.false_eq_true, if_false, List.append_nil, List.nil_append]
          exact List.perm_append_comm
        · intro hb
          obtain ⟨P, hPF, -, hPv⟩ := (givenPred_iff F2 u2 v nB hu2v).mp hb
          have hPm : atE m.triangles nB = Except.ok P := by
            rw [← hkeep nB hBf1 hBf2]
            exact hPF
          have hlack := lacksB P hPm
          refine ⟨?_, (wBC P N v hPm hN hPv hNv hvneu2).2⟩
          intro hnp
          rw [← hnp, hN] at hPm
          cases hPm
          exact hlack.1 hNb
      exact ⟨gu2, gb⟩
    · intro N s hN hs
      have hNF : atE F2 nD = Except.ok N := by
        rw [hkeep nD hDf1 hDf2]
        exact hN
      rcases hD with hneg | ⟨N0, hN0, hd, hNb, hNu1, hNz1, hNz2⟩
      · rw [hneg] at hN
        simp [atE] at hN
      rw [hN] at hN0
      cases hN0
      obtain ⟨v, hNv, hvneb, hvneu1⟩ := third_vertex N b u1 hd
      have hvnea : v ≠ a := fun e => hNz1 (e ▸ hNv)
      have hvneu2 : v ≠ u2 := fun e => hNz2 (e ▸ hNv)
      have hu1v : u1 ≠ v := Ne.symm hvneu1
      have hu2v : u2 ≠ v := Ne.symm hvneu2
      have hav : a ≠ v := Ne.symm hvnea
      have hbv : b ≠ v := Ne.symm hvneb
      have gb : s.getOppositeNeighborOf b = N.getOppositeNeighborOf b := by
        refine keep_slot F2 _ st hslots nD nA u1 v b N s hNF hs hd hNu1 hNv hNb
          hu1v hbu1 hbv ?_ ?_
        · refine (hperm _).trans ?_
          rw [givenWith_six F2 _ f2 nD nA f1 nB nC false true
            (givenPred F2 (Edge.toPair { a := u1, b := v }) nA)
            false false false
            (by rw [eF2 u1 v hu1v]; simp [hu2v, hbv, hu1v])
            (givenPred_true F2 u1 v nD hu1v N hNF hNu1 hNv)
            rfl
            (by rw [eF1 u1 v hu1v]; simp [hu1v, hav, hu2v])
            ((eB u1 v hu1v).1 (Or.inr (Or.inr (Or.inl rfl))))
            ((eC u1 v hu1v).1 (Or.inr (Or.inr (Or.inl rfl))))]
          simp only [if_true, Bool.false_eq_true, if_false, List.append_nil, List.nil_append]
          exact List.Perm.refl _
        · intro hb
          obtain ⟨P, hPF, -, hPv⟩ := (givenPred_iff F2 u1 v nA hu1v).mp hb
          have hPm : atE m.triangles nA = Except.ok P := by
            rw [← hkeep nA hAf1 hAf2]
            exact hPF
          have hlack := lacksA P hPm
          refine ⟨?_, (wDA N P v hN hPm hNv hPv hvneu1).1⟩
          intro hnp
          rw [← hnp, hN] at hPm
          cases hPm
          exact hlack.1 hNb
      have gu1 : s.getOppositeNeighborOf u1 = N.getOppositeNeighborOf u1 := by
        refine keep_slot F2 _ st hslots nD nC b v u1 N s hNF hs hd hNb hNv hNu1
          hbv hu1b hu1v ?_ ?_
        · refine (hperm _).trans ?_
          rw [givenWith_six F2 _ f2 nD nA f1 nB nC false true false
            false false (givenPred F2 (Edge.toPair { a := b, b := v }) nC)
            (by rw [eF2 b v hbv]; simp [hu2v, hbv, hu1v])
            (givenPred_true F2 b v nD hbv N hNF hNb hNv)
            ((eA b v hbv).1 (Or.inl rfl))
            (by rw [eF1 b v hbv]; simp [hu1v, hav, hu2v])
            ((eB b v hbv).1 (Or.inl rfl))
            rfl]
          simp only [if_true, Bool.false_eq_true, if_false, List.append_nil, List.nil_append]
          exact List.Perm.refl _
        · intro hb
          obtain ⟨P, hPF, -, hPv⟩ := (givenPred_iff F2 b v nC hbv).mp hb
          have hPm : atE m.triangles nC = Except.ok P := by
            rw [← hkeep nC hCf1 hCf2]
            exact hPF
          have hlack := lacksC P hPm
          refine ⟨?_, (wCD P N v hPm hN hPv hNv hvneb).2⟩
          intro hnp
          rw [← hnp, hN] at hPm
          cases hPm
          exact hlack.2 hNu1
      exact ⟨gb, gu1⟩

theorem fiveCallsBuilt_eq : insertCalls 5 fiveCalls Mesh.init = Except.ok fiveCallsBuilt :=
  ok_of_toOption _ _ (by decide!)

/-- The hypotheses `flipClaimed` and `outerApart` give the configuration `flipReady`. -/
theorem flipReady_of_claimed (m : Mesh) (f1 f2 u1 u2 a b nA nB nC nD : Int)
    (h : flipClaimed m f1 f2 u1 u2 a b nA nB nC nD)
    (ha : outerApart m u1 u2 a b nA nB nC nD) :
    flipReady m f1 f2 u1 u2 a b nA nB nC nD ∧ flipWired m f1 f2 u1 u2 a b nA nB nC nD := by
  obtain ⟨hu, hv, ⟨t1, t2, h1, h2, hd1, hd2, hr1, hr2, e1, e2, e3, e4, e5, e6⟩, -, -,
    wA, wB, wC, wD⟩ := h
  obtain ⟨aA, aB, aC, aD⟩ := ha
  have outer : ∀ slot x y f z1 z2, wiredTo m.triangles slot x y f → lacks m.triangles slot z1 z2 →
      outerNeighbor m.triangles slot x y z1 z2 ∧ holdsAcross m.triangles slot x y f := by
    intro slot x y f z1 z2 hw hl
    rcases hw with hw | ⟨N, hN, hd, hx, hy, hopp⟩
    · refine ⟨Or.inl hw, ?_⟩
      intro N hN
      rw [hw] at hN
      simp [atE] at hN
    · refine ⟨Or.inr ⟨N, hN, hd, hx, hy, (hl N hN).1, (hl N hN).2⟩, ?_⟩
      intro N2 hN2
      rw [hN] at hN2
      cases hN2
      exact hopp
  obtain ⟨oA, kA⟩ := outer nA u1 a f1 b u2 wA aA
  obtain ⟨oB, kB⟩ := outer nB a u2 f2 b u1 wB aB
  obtain ⟨oC, kC⟩ := outer nC u2 b f2 a u1 wC aC
  obtain ⟨oD, kD⟩ := outer nD b u1 f1 a u2 wD aD
  exact ⟨⟨hu, hv, t1, t2, h1, h2, hd1, hd2, hr1, hr2, e1, e2, e3, e4, e5, e6, oA, oB, oC, oD⟩,
    kA, kB, kC, kD⟩

theorem lacks_none (ts : List TopoTriangle) (z1 z2 : Int) : lacks ts (-1) z1 z2 := by
  intro N hN
  simp [atE] at hN

theorem lacks_at (ts : List TopoTriangle) (n z1 z2 : Int) (N : TopoTriangle)
    (hN : atE ts n = Except.ok N) (h1 : ¬ N.hasVertex z1) (h2 : ¬ N.hasVertex z2) :
    lacks ts n z1 z2 := by
  intro N2 hN2
  rw [hN] at hN2
  cases hN2
  exact ⟨h1, h2⟩

theorem fiveCallsBuilt_claimed : flipClaimed fiveCallsBuilt 0 3 1 2 4 3 (-1) (-1) 1 2 := by
  refine ⟨by decide, ?_, ⟨{ v0 := 3, v1 := 1, v2 := 4, n0 := -1, n1 := 3, n2 := 2 },
    { v0 := 4, v1 := 2, v2 := 3, n0 := 1, n1 := 0, n2 := -1 }, rfl, rfl, by decide, by decide,
    by decide, by decide, by decide, by decide, by decide, by decide, by decide, by decide⟩,
    by decide, ?_, Or.inl rfl, Or.inl rfl, ?_, ?_⟩
  · intro w hw
    rcases hw with rfl | rfl | rfl | rfl <;> exact ⟨_, rfl⟩
  · intro n hn
    rcases hn with rfl | rfl | rfl | rfl <;> decide
  · refine Or.inr ⟨{ v0 := 3, v1 := 2, v2 := 0, n0 := -1, n1 := 2, n2 := 3 }, rfl, by decide,
      by decide, by decide, ?_⟩
    intro w hw h1 h2
    rcases hw with hw | hw | hw <;> subst hw
    · exact absurd rfl h2
    · exact absurd rfl h1
    · decide
  · refine Or.inr ⟨{ v0 := 3, v1 := 0, v2 := 1, n0 := -1, n1 := 0, n2 := 1 }, rfl, by decide,
      by decide, by decide, ?_⟩
    intro w hw h1 h2
    rcases hw with hw | hw | hw <;> subst hw
    · exact absurd rfl h1
    · decide
    · exact absurd rfl h2

theorem fiveCallsBuilt_apart : outerApart fiveCallsBuilt 1 2 4 3 (-1) (-1) 1 2 :=
  ⟨lacks_none _ _ _, lacks_none _ _ _,
    lacks_at _ 1 4 1 { v0 := 3, v1 := 2, v2 := 0, n0 := -1, n1 := 2, n2 := 3 } rfl
      (by decide) (by decide),
    lacks_at _ 2 4 2 { v0 := 3, v1 := 0, v2 := 1, n0 := -1, n1 := 0, n2 := 1 } rfl
      (by decide) (by decide)⟩

theorem overlapMesh_built (fuel : Nat) :
    insertSequence (5 + fuel) overlapPoints Mesh.init = Except.ok overlapMesh := by
  obtain ⟨m, hrun, hm⟩ := insertSequence_eval 5 fuel overlapPoints id overlapMesh (by decide!)
  rw [hrun]
  exact congrArg Except.ok hm

theorem overlapMesh_claimed : flipClaimed overlapMesh 1 2 2 4 0 3 3 0 (-1) (-1) := by
  refine ⟨by decide, ?_, ⟨{ v0 := 3, v1 := 2, v2 := 0, n0 := 3, n1 := 2, n2 := -1 },
    { v0 := 4, v1 := 3, v2 := 0, n0 := 1, n1 := 0, n2 := -1 }, rfl, rfl, by decide, by decide,
    by decide, by decide, by decide, by decide, by decide, by decide, by decide, by decide⟩,
    by decide, ?_, ?_, ?_, Or.inl rfl, Or.inl rfl⟩
  · intro w hw
    rcases hw with rfl | rfl | rfl | rfl <;> exact ⟨_, rfl⟩
  · intro n hn
    rcases hn with rfl | rfl | rfl | rfl <;> decide
  · refine Or.inr ⟨{ v0 := 0, v1 := 2, v2 := 4, n0 := -1, n1 := -1, n2 := 1 }, rfl, by decide,
      by decide, by decide, ?_⟩
    intro w hw h1 h2
    rcases hw with hw | hw | hw <;> subst hw
    · exact absurd rfl h2
    · exact absurd rfl h1
    · decide
  · refine Or.inr ⟨{ v0 := 0, v1 := 1, v2 := 4, n0 := -1, n1 := 2, n2 := -1 }, rfl, by decide,
      by decide, by decide, ?_⟩
    intro w hw h1 h2
    rcases hw with hw | hw | hw <;> subst hw
    · exact absurd rfl h1
    · decide
    · exact absurd rfl h2

/-! ## Flip and adjacency (C33) -/

/-- C33 (counterexample): the insertion of (4,3), (6,6), (5,2), (3,3), (4,5) from the empty
mesh builds `overlapMesh`.  Its triangles 1 = (3,2,0) and 2 = (4,3,0) are mutual neighbors
across the edge of 0 and 3; their outer neighbors, the triangles 3 = (0,2,4) across the edge
of 2 and 0 and 0 = (0,1,4) across the edge of 0 and 4, are distinct, distinct from 1 and 2,
and symmetrically wired.  After `flip 1 2` the triangle 1 is (2,0,4) and the triangle 2 is
(4,3,2), and neither holds the other: the three slots of triangle 1 hold 3, and triangle 2
holds 3 and none.  (The outer neighbor 3 has the vertex 4, the one of triangle 2 off the
shared edge.) -/
theorem flip_miswires_overlap :
    (∀ fuel, insertSequence (5 + fuel) overlapPoints Mesh.init = Except.ok overlapMesh) ∧
    flipClaimed overlapMesh 1 2 2 4 0 3 3 0 (-1) (-1) ∧
    ∃ m2 s1 s2, overlapMesh.flip 1 2 = Except.ok m2 ∧
      atE m2.triangles 1 = Except.ok s1 ∧ atE m2.triangles 2 = Except.ok s2 ∧
      s1 = { v0 := 2, v1 := 0, v2 := 4, n0 := 3, n1 := 3, n2 := 3 } ∧
      s2 = { v0 := 4, v1 := 3, v2 := 2, n0 := -1, n1 := 3, n2 := -1 } ∧
      ¬ s1.holds 2 ∧ ¬ s2.holds 1 ∧
      ¬ lacks overlapMesh.triangles 3 3 4 := by
  refine ⟨overlapMesh_built, overlapMesh_claimed, ?_⟩
  have hflip : overlapMesh.flip 1 2 = Except.ok
      { overlapMesh with triangles :=
        [ { v0 := 0, v1 := 1, v2 := 4, n0 := -1, n1 := 3, n2 := -1 },
          { v0 := 2, v1 := 0, v2 := 4, n0 := 3, n1 := 3, n2 := 3 },
          { v0 := 4, v1 := 3, v2 := 2, n0 := -1, n1 := 3, n2 := -1 },
          { v0 := 0, v1 := 2, v2 := 4, n0 := 1, n1 := 0, n2 := 1 } ] } :=
    ok_of_toOption _ _ (by decide!)
  refine ⟨_, _, _, hflip, rfl, rfl, rfl, rfl, by decide, by decide, ?_⟩
  intro hl
  exact (hl _ rfl).2 (by decide)

/-- C33 (amended): let the triangles `f1`, a rotation of `(u1, a, b)`, and `f2`, a rotation
of `(u2, b, a)`, be mutual neighbors across the edge of `a` and `b`, with outer neighbors
`nA` (across `u1 a`), `nB` (across `a u2`), `nC` (across `u2 b`) and `nD` (across `b u1`)
that are pairwise distinct, distinct from `f1` and `f2` and symmetrically wired
(`flipClaimed`), and let no outer neighbor have a third of the four vertices
(`outerApart`).  Then `flip f1 f2` returns; `f1` is `(u1, a, u2)` and `f2` is
`(u2, b, u1)`; they hold each other across the edge of `u1` and `u2`; `f1` holds `nA` and
`nB` across `u1 a` and `a u2`, `f2` holds `nC` and `nD` across `u2 b` and `b u1` (none
where the edge is on the border); and each outer neighbor holds, across its edge, the
triangle that now has this edge. -/
theorem flip_rewires (m : Mesh) (f1 f2 u1 u2 a b nA nB nC nD : Int)
    (hc : flipClaimed m f1 f2 u1 u2 a b nA nB nC nD)
    (ha : outerApart m u1 u2 a b nA nB nC nD) :
    ∃ m2 s1 s2, m.flip f1 f2 = Except.ok m2 ∧
      atE m2.triangles f1 = Except.ok s1 ∧ atE m2.triangles f2 = Except.ok s2 ∧
      s1.toTriangle = { v0 := u1, v1 := a, v2 := u2 } ∧
      s2.toTriangle = { v0 := u2, v1 := b, v2 := u1 } ∧
      s1.getOppositeNeighborOf a = f2 ∧ s2.getOppositeNeighborOf b = f1 ∧
      s1.getOppositeNeighborOf u2 = nA ∧ s1.getOppositeNeighborOf u1 = nB ∧
      s2.getOppositeNeighborOf u1 = nC ∧ s2.getOppositeNeighborOf u2 = nD ∧
      holdsAcross m2.triangles nA u1 a f1 ∧ holdsAcross m2.triangles nB a u2 f1 ∧
      holdsAcross m2.triangles nC u2 b f2 ∧ holdsAcross m2.triangles nD b u1 f2 := by
  obtain ⟨h, -⟩ := flipReady_of_claimed m f1 f2 u1 u2 a b nA nB nC nD hc ha
  obtain ⟨m2, hflip, -, ⟨s1, s2, hs1, hs2, hss1, hss2⟩, -, hready, hwired, -, -⟩ :=
    flip_step m f1 f2 u1 u2 a b nA nB nC nD h
  obtain ⟨-, -, t1, t2, ht1, ht2, -, -, -, -, e1, e2, e3, e4, e5, e6, -, -, -, -⟩ := hready
  rw [hs1] at ht1
  rw [hs2] at ht2
  cases ht1
  cases ht2
  obtain ⟨w1, w2, w3, w4⟩ := hwired
  exact ⟨m2, s1, s2, hflip, hs1, hs2, hss1, hss2, e1, e4, e2, e3, e5, e6, w4, w1, w2, w3⟩

/-- Witness of C33 (amended) on the triangles 0 = (3,1,4) and 3 = (4,2,3) of
`fiveCallsBuilt`, which share the edge {3,4}; the outer neighbors are the triangles 1 and 2,
and two edges are on the border. -/
theorem flip_rewires_witness :
    flipClaimed fiveCallsBuilt 0 3 1 2 4 3 (-1) (-1) 1 2 ∧
    outerApart fiveCallsBuilt 1 2 4 3 (-1) (-1) 1 2 ∧
    ∃ m2 s1 s2, fiveCallsBuilt.flip 0 3 = Except.ok m2 ∧
      atE m2.triangles 0 = Except.ok s1 ∧ atE m2.triangles 3 = Except.ok s2 ∧
      s1.toTriangle = { v0 := 1, v1 := 4, v2 := 2 } ∧
      s2.toTriangle = { v0 := 2, v1 := 3, v2 := 1 } ∧
      s1.getOppositeNeighborOf 4 = 3 ∧ s2.getOppositeNeighborOf 3 = 0 ∧
      s1.getOppositeNeighborOf 2 = -1 ∧ s1.getOppositeNeighborOf 1 = -1 ∧
      s2.getOppositeNeighborOf 1 = 1 ∧ s2.getOppositeNeighborOf 2 = 2 ∧
      holdsAcross m2.triangles (-1) 1 4 0 ∧ holdsAcross m2.triangles (-1) 4 2 0 ∧
      holdsAcross m2.triangles 1 2 3 3 ∧ holdsAcross m2.triangles 2 3 1 3 :=
  ⟨fiveCallsBuilt_claimed, fiveCallsBuilt_apart,
    flip_rewires fiveCallsBuilt 0 3 1 2 4 3 (-1) (-1) 1 2 fiveCallsBuilt_claimed
      fiveCallsBuilt_apart⟩

/-! ## Center of an edge and back-references of the OFF loader (C34, C35) -/

/-- C34: `centerOfEdge` returns half of the difference of the two ends.  On the unit
square, triangulated with the diagonal {1,3}, the constraint from vertex 2 = (1,1) to vertex
0 = (0,0) is in no triangle, so that `refineDelaunay` asks for its center: the answer is
(-1/2,-1/2,0), while the midpoint is (1/2,1/2,0); the answer is at squared distance 9/2 from
one end and 1/2 from the other. -/
theorem centerOfEdge_half_difference :
    insertSequence 1 unitSquarePoints Mesh.init = Except.ok unitSquareMesh ∧
    (constrainedSquareMesh.collectEncroacheds []).1 = [{ a := 2, b := 0 }] ∧
    constrainedSquareMesh.centerOfEdge { a := 2, b := 0 }
      = Except.ok (Vertex.new (-1 / 2) (-1 / 2) 0) ∧
    midpoint (Vertex.new 1 1 0) (Vertex.new 0 0 0) = ⟨1 / 2, 1 / 2, 0⟩ ∧
    (Vertex.new (-1 / 2) (-1 / 2) 0).toP ≠ midpoint (Vertex.new 1 1 0) (Vertex.new 0 0 0) ∧
    dist2xy (Vertex.new 1 1 0).toP (Vertex.new (-1 / 2) (-1 / 2) 0).toP = 9 / 2 ∧
    dist2xy (Vertex.new 0 0 0).toP (Vertex.new (-1 / 2) (-1 / 2) 0).toP = 1 / 2 := by
  refine ⟨ok_of_toOption _ _ (by decide!), by decide!, ok_of_toOption _ _ (by decide!),
    by decide!, by decide!, by decide!, by decide!⟩

/-- C35: on an OFF file with four vertices and the single face 1 2 3, `readOffTriangles`
gives the back-reference 0 to the vertices 0, 1 and 2 (the positions in the face line, not
the indices read there): vertex 0 refers to triangle 0, which does not have it, and vertex 3,
used by the face, has no back-reference. -/
theorem readOffTriangles_marks_positions :
    readOffTriangles offVertices [] [⟨1, 2, 3⟩]
      = Except.ok
          ([ { x := 0, y := 0, z := 0, face := 0 }, { x := 1, y := 0, z := 0, face := 0 },
             { x := 1, y := 1, z := 0, face := 0 }, Vertex.new 0 1 0 ],
           [TopoTriangle.new 1 2 3]) ∧
    ¬ (TopoTriangle.new 1 2 3).hasVertex 0 ∧ (TopoTriangle.new 1 2 3).hasVertex 3 ∧
    (Vertex.new 0 1 0).face = -1 := by
  refine ⟨ok_of_toOption _ _ (by decide!), by decide, by decide, rfl⟩

/-! ## Lemmas on the back-references in incremental runs -/

theorem getNextAvailableIndex_ne (queue : List Int) (c : Int) (q : List Int)
    (h : getNextAvailableIndex queue = some (c, q)) : c ≠ -1 := by
  induction queue with
  | nil => simp [getNextAvailableIndex] at h
  | cons x rest ih =>
    unfold getNextAvailableIndex at h
    split at h
    · exact ih h
    · rename_i hx
      simp only [Option.some.injEq, Prod.mk.injEq] at h
      rw [← h.1]
      exact hx

theorem flip_vertices (m : Mesh) (f1 f2 : Int) (hm : noBackReference m.vertices)
    (h1 : f1 ≠ -1) (h2 : f2 ≠ -1) :
    Always (fun r => r.vertices = m.vertices) (m.flip f1 f2) := by
  unfold Mesh.flip
  refine always_bind (fun old_f1 _ => ?_)
  refine always_bind (fun old_f2 _ => ?_)
  dsimp only
  refine always_bind (fun changed_f2 hc2 => ?_)
  have e2 : changed_f2.face ≠ f1 := by
    rw [hm _ (mem_of_atE hc2)]
    exact Ne.symm h1
  rw [if_neg e2]
  refine always_bind (fun changed_f1 hc1 => ?_)
  have e1 : changed_f1.face ≠ f2 := by
    rw [hm _ (mem_of_atE hc1)]
    exact Ne.symm h2
  rw [if_neg e1]
  refine always_bind (fun ref_f2 _ => ?_)
  refine always_bind (fun st _ => ?_)
  exact always_pure rfl

theorem incrementalDelaunayLoop_vertices (fuel : Nat) :
    ∀ (m : Mesh) (queue : List Int), noBackReference m.vertices →
      Always (fun r => r.vertices = m.vertices) (incrementalDelaunayLoop fuel m queue) := by
  induction fuel with
  | zero =>
    intro m queue _
    unfold incrementalDelaunayLoop
    cases hq : getNextAvailableIndex queue with
    | none => exact always_pure rfl
    | some cq =>
      obtain ⟨current, queue1⟩ := cq
      exact always_error _
  | succ n ih =>
    intro m queue hm
    unfold incrementalDelaunayLoop
    cases hq : getNextAvailableIndex queue with
    | none => exact always_pure rfl
    | some cq =>
      obtain ⟨current, queue1⟩ := cq
      have hcur := getNextAvailableIndex_ne queue current queue1 hq
      simp only
      refine always_bind (fun toFlipWith _ => ?_)
      split
      · exact ih _ _ hm
      · rename_i hflip
        refine always_bind (fun tCurrent _ => ?_)
        refine always_bind (fun tFlip _ => ?_)
        refine always_bind (fun m1 hm1 => ?_)
        have hv := flip_vertices m current toFlipWith hm hcur hflip m1 hm1
        dsimp only at hv
        refine always_mono (ih m1 _ (by rw [hv]; exact hm)) (fun r hr => hr.trans hv)

theorem fixFaceFrom_vertices (f last : Int) (tmp : TopoTriangle) (hf : f ≠ -1) :
    ∀ (l : List Int) (vs : List Vertex), noBackReference vs →
      Always (fun r => r = vs) (fixFaceFrom f last tmp l vs) := by
  intro l
  induction l with
  | nil =>
    intro vs _
    exact always_pure rfl
  | cons pt rest ih =>
    intro vs hvs
    unfold fixFaceFrom
    refine always_bind (fun vertex hv => ?_)
    have e : ¬ (vertex.face = f ∧
        (tmp.v0 = vertex.face ∨ tmp.v1 = vertex.face ∨ tmp.v2 = vertex.face)) := by
      rintro ⟨h, -⟩
      rw [hvs _ (mem_of_atE hv)] at h
      exact hf h.symm
    rw [if_neg e]
    exact ih vs hvs

theorem insertPointIntoTriangle_vertices (fuel : Nat) (m : Mesh) (v : Vertex) (f i : Int)
    (hm : noBackReference m.vertices) (hf : f ≠ -1) :
    Always (fun r => r.1.vertices = m.vertices) (m.insertPointIntoTriangle fuel v f i) := by
  unfold Mesh.insertPointIntoTriangle
  refine always_bind ?_
  rintro ⟨m1, v1, news, concerned⟩ h1
  refine always_bind ?_
  rintro ⟨m2, concerned2⟩ h2
  refine always_bind (fun m3 h3 => ?_)
  apply always_pure
  have a1 : m1.vertices = m.vertices := by
    unfold Mesh.splitTriangle at h1
    have := always_bind (P := fun r : Mesh × Vertex × List Int × List Int =>
      r.1.vertices = m.vertices) (fun dying _ => ?_) _ h1
    · exact this
    · dsimp only
      refine always_bind (fun vertices1 hv => ?_)
      apply always_pure
      exact fixFaceFrom_vertices _ _ _ hf _ _ hm vertices1 hv
  have a2 : m2.vertices = m1.vertices := by
    unfold Mesh.manageNeighborInside at h2
    have := always_bind (P := fun r : Mesh × List Int => r.1.vertices = m1.vertices)
      (fun st _ => always_pure ?_) _ h2
    · exact this
    · rfl
  have a3 := incrementalDelaunayLoop_vertices fuel m2 concerned2
    (by rw [a2, a1]; exact hm) m3 h3
  exact a3.trans (a2.trans a1)

theorem insertPointOutside_vertices (fuel : Nat) (m : Mesh) (v : Vertex) (i : Int)
    (hm : noBackReference m.vertices) :
    Always (fun r => r.1.vertices = m.vertices) (m.insertPointOutside fuel v i) := by
  unfold Mesh.insertPointOutside
  refine always_bind (fun scan _ => ?_)
  dsimp only
  refine always_bind (fun m3 h3 => ?_)
  refine always_bind (fun concerned _ => ?_)
  refine always_bind (fun m4 h4 => ?_)
  apply always_pure
  have a3 : m3.vertices = m.vertices := by
    unfold Mesh.updateNeighborsOutside at h3
    have := always_bind (P := fun r : Mesh => r.vertices = m.vertices)
      (fun st _ => always_pure ?_) m3 h3
    · exact this
    · rfl
  exact (incrementalDelaunayLoop_vertices fuel m3 concerned (by rw [a3]; exact hm) m4 h4).trans a3

theorem noBackReference_append (vs : List Vertex) (v : Vertex) (h : noBackReference vs)
    (hv : v.face = -1) : noBackReference (vs ++ [v]) := by
  intro w hw
  rcases List.mem_append.mp hw with h1 | h1
  · exact h w h1
  · rw [List.mem_singleton.mp h1]
    exact hv

/-- An insertion into a mesh without back-references, of a vertex without back-reference,
appends the vertex and writes to no vertex of the arena. -/
theorem insertVertexIntoTriangulation_vertices (fuel : Nat) (m : Mesh) (v : Vertex) (i : Int)
    (hm : noBackReference m.vertices) (hv : v.face = -1) :
    Always (fun r => r.1.vertices = m.vertices ++ [v])
      (m.insertVertexIntoTriangulation fuel v i) := by
  unfold Mesh.insertVertexIntoTriangulation
  dsimp only
  have hm1 := noBackReference_append m.vertices v hm hv
  split
  · exact always_pure rfl
  · split
    · refine always_bind (fun idx _ => ?_)
      split
      · rename_i hidx
        exact insertPointIntoTriangle_vertices fuel _ v idx i hm1 hidx
      · exact insertPointOutside_vertices fuel _ v i hm1
    · exact always_pure rfl

/-! ## Back-references in incremental runs (C36) -/

/-- C36: from a mesh in which no vertex of the arena has a face back-reference (the empty
mesh is one), after any sequence of calls of `insertVertexIntoTriangulation` whose argument
vertices have none, the arena is the former arena followed by the argument vertices as they
were given: no vertex of the arena has a back-reference.  (The back-reference that an
insertion sets is written to the vertex of the caller only.) -/
theorem faces_stay_none (fuel : Nat) (calls : List (Vertex × Int)) (m r : Mesh)
    (hm : noBackReference m.vertices) (hc : ∀ c ∈ calls, c.1.face = -1)
    (h : insertCalls fuel calls m = Except.ok r) :
    r.vertices = m.vertices ++ calls.map Prod.fst ∧ noBackReference r.vertices := by
  induction calls generalizing m with
  | nil =>
    simp only [insertCalls, pure, Except.pure] at h
    cases h
    exact ⟨by simp, hm⟩
  | cons c rest ih =>
    unfold insertCalls at h
    cases h1 : m.insertVertexIntoTriangulation fuel c.1 c.2 with
    | error e =>
      rw [h1] at h
      cases h
    | ok r1 =>
      rw [h1] at h
      have hv := insertVertexIntoTriangulation_vertices fuel m c.1 c.2 hm
        (hc c (List.mem_cons_self _ _)) r1 h1
      dsimp only at hv
      have hm1 : noBackReference r1.1.vertices := by
        rw [hv]
        exact noBackReference_append _ _ hm (hc c (List.mem_cons_self _ _))
      obtain ⟨e1, e2⟩ := ih r1.1 hm1 (fun c2 hc2 => hc c2 (List.mem_cons_of_mem _ hc2)) h
      refine ⟨?_, e2⟩
      rw [e1, hv]
      simp

/-- Witness of C36 on the calls `fiveCalls` from the empty mesh: the arena is the list of
the five vertices as they were given, none with a back-reference, although the fourth call
came back with the back-reference 0 on the vertex of the caller. -/
theorem faces_stay_none_witness :
    fiveCallsBuilt.vertices = Mesh.init.vertices ++ fiveCalls.map Prod.fst ∧
    noBackReference fiveCallsBuilt.vertices ∧
    ((insertCalls 5 (fiveCalls.take 3) Mesh.init >>= fun m =>
        m.insertVertexIntoTriangulation 5 (Vertex.new (1 / 4) (1 / 4) 0) 3).toOption.map
      (fun r => r.2.face)) = some 0 :=
  ⟨(faces_stay_none 5 fiveCalls Mesh.init fiveCallsBuilt (by decide) (by decide)
      fiveCallsBuilt_eq).1,
    (faces_stay_none 5 fiveCalls Mesh.init fiveCallsBuilt (by decide) (by decide)
      fiveCallsBuilt_eq).2, by decide!⟩

/-! ## Lemmas on the turns of the refinement loop -/

theorem encroachSegmentFrom_length (m : Mesh) (v : Vertex) :
    ∀ (l seen : List Edge) (e : Edge) (segs : List Edge),
      encroachSegmentFrom m v l seen = Except.ok (some (e, segs)) →
        segs.length + 1 = seen.length + l.length := by
  intro l
  induction l with
  | nil =>
    intro seen e segs h
    simp [encroachSegmentFrom, pure, Except.pure] at h
  | cons it rest ih =>
    intro seen e segs h
    unfold encroachSegmentFrom at h
    cases ha : atE m.vertices it.a with
    | error x => rw [ha] at h; cases h
    | ok a =>
      cases hb : atE m.vertices it.b with
      | error x => rw [ha, hb] at h; cases h
      | ok b =>
        rw [ha, hb] at h
        simp only [bind, Except.bind] at h
        split at h
        · simp only [pure, Except.pure, Except.ok.injEq, Option.some.injEq, Prod.mk.injEq] at h
          rw [← h.2]
          simp
          omega
        · have := ih _ _ _ h
          simp at this ⊢
          omega

theorem collectEncroacheds_length (m : Mesh) (nE : List Edge) :
    (m.collectEncroacheds nE).1.length + (m.collectEncroacheds nE).2.length
      = m.constraints.length + nE.length := by
  unfold Mesh.collectEncroacheds
  have key : ∀ (l : List Edge) (acc : List Edge × List Edge),
      (l.foldl (fun acc segment =>
          if m.findThisFace segment.a segment.b = -1 then (acc.1 ++ [segment], acc.2)
          else (acc.1, acc.2 ++ [segment])) acc).1.length +
        (l.foldl (fun acc segment =>
          if m.findThisFace segment.a segment.b = -1 then (acc.1 ++ [segment], acc.2)
          else (acc.1, acc.2 ++ [segment])) acc).2.length
        = l.length + (acc.1.length + acc.2.length) := by
    intro l
    induction l with
    | nil => intro acc; simp
    | cons x rest ih =>
      intro acc
      rw [List.foldl_cons, ih]
      split <;> simp <;> omega
  rw [key]
  simp

theorem refineStep_none (fuel : Nat) (s : RefineState) :
    refineStep fuel s = Except.ok none ↔ s.finished = true := by
  obtain ⟨m, Qt, Qe, nE⟩ := s
  cases Qe with
  | cons edge Qrest =>
    simp only [refineStep, RefineState.finished, List.isEmpty_cons, Bool.false_and,
      Bool.false_eq_true, iff_false]
    intro h
    cases h1 : m.centerOfEdge edge with
    | error e => rw [h1] at h; cases h
    | ok v =>
      cases h2 : m.insertVertexIntoTriangulation fuel v m.vertices.length with
      | error e => rw [h1] at h; simp only [bind, Except.bind, h2] at h; cases h
      | ok r => rw [h1] at h; simp only [bind, Except.bind, h2, pure, Except.pure] at h; cases h
  | nil =>
    cases Qt with
    | nil => simp [refineStep, RefineState.finished, pure, Except.pure]
    | cons front Trest =>
      simp only [refineStep, RefineState.finished, List.isEmpty_cons, Bool.and_false,
        Bool.false_eq_true, iff_false]
      intro h
      cases h1 : atE m.triangles front with
      | error e => rw [h1] at h; cases h
      | ok triangle =>
        cases h2 : m.buildPtriangle3D triangle with
        | error e => rw [h1] at h; simp only [bind, Except.bind, h2] at h; cases h
        | ok p =>
          rw [h1] at h
          simp only [bind, Except.bind, h2] at h
          split at h
          · cases h
          · rename_i found hfound
            split at h
            · simp only [pure, Except.pure] at h; cases h
            · split at h
              · cases h
              · simp only [pure, Except.pure] at h; cases h

theorem refineStep_some (fuel : Nat) (s s1 : RefineState) (k : RefineKind)
    (h : refineStep fuel s = Except.ok (some (k, s1))) :
    s1.measure + 1 = s.measure ∧
    (if k = RefineKind.segmentCenter then 1 else 0) + s1.Qencroach.length
        + s1.notEncroached.length = s.Qencroach.length + s.notEncroached.length ∧
    (if k = RefineKind.circumcenter then 1 else 0) + s1.Qtriangles.length
        = s.Qtriangles.length := by
  obtain ⟨m, Qt, Qe, nE⟩ := s
  cases Qe with
  | cons edge Qrest =>
    simp only [refineStep] at h
    cases h1 : m.centerOfEdge edge with
    | error e => rw [h1] at h; cases h
    | ok v =>
      cases h2 : m.insertVertexIntoTriangulation fuel v m.vertices.length with
      | error e => rw [h1] at h; simp only [bind, Except.bind, h2] at h; cases h
      | ok r =>
        rw [h1] at h
        simp only [bind, Except.bind, h2, pure, Except.pure, Except.ok.injEq,
          Option.some.injEq, Prod.mk.injEq] at h
        obtain ⟨rfl, rfl⟩ := h
        simp [RefineState.measure]
        omega
  | nil =>
    cases Qt with
    | nil => simp [refineStep, pure, Except.pure] at h
    | cons front Trest =>
      simp only [refineStep] at h
      cases h1 : atE m.triangles front with
      | error e => rw [h1] at h; cases h
      | ok triangle =>
        cases h2 : m.buildPtriangle3D triangle with
        | error e => rw [h1] at h; simp only [bind, Except.bind, h2] at h; cases h
        | ok p =>
          rw [h1] at h
          simp only [bind, Except.bind, h2] at h
          split at h
          · cases h
          · rename_i found hfound
            split at h
            · rename_i edge segments
              simp only [pure, Except.pure, Except.ok.injEq, Option.some.injEq,
                Prod.mk.injEq] at h
              obtain ⟨rfl, rfl⟩ := h
              have hl := encroachSegmentFrom_length m _ nE [] edge segments hfound
              simp [RefineState.measure] at hl ⊢
              omega
            · split at h
              · cases h
              · simp only [pure, Except.pure, Except.ok.injEq, Option.some.injEq,
                  Prod.mk.injEq] at h
                obtain ⟨rfl, rfl⟩ := h
                simp [RefineState.measure]
                omega

theorem refineRun_succ (fuel n : Nat) (s : RefineState) :
    refineRun fuel (n + 1) s = (refineStep fuel s >>= fun x =>
      match x with
      | none => pure ([], s)
      | some (k, s1) => refineRun fuel n s1 >>= fun r => pure (k :: r.1, r.2)) := rfl

theorem refineRun_count (fuel : Nat) :
    ∀ (n : Nat) (s s1 : RefineState) (ks : List RefineKind),
      refineRun fuel n s = Except.ok (ks, s1) →
        ks.length + s1.measure = s.measure ∧
        ks.count RefineKind.segmentCenter + s1.Qencroach.length + s1.notEncroached.length
          = s.Qencroach.length + s.notEncroached.length ∧
        ks.count RefineKind.circumcenter + s1.Qtriangles.length = s.Qtriangles.length ∧
        ks.length ≤ n ∧ (ks.length < n → s1.finished = true) := by
  intro n
  induction n with
  | zero =>
    intro s s1 ks h
    simp only [refineRun, pure, Except.pure, Except.ok.injEq, Prod.mk.injEq] at h
    obtain ⟨rfl, rfl⟩ := h
    simp
  | succ n ih =>
    intro s s1 ks h
    rw [refineRun_succ] at h
    cases hx : refineStep fuel s with
    | error e => rw [hx] at h; cases h
    | ok x =>
      rw [hx] at h
      cases x with
      | none =>
        simp only [bind, Except.bind, pure, Except.pure, Except.ok.injEq, Prod.mk.injEq] at h
        obtain ⟨rfl, rfl⟩ := h
        have := (refineStep_none fuel s).mp hx
        simp [this]
      | some ks1 =>
        obtain ⟨k, s2⟩ := ks1
        simp only [bind, Except.bind] at h
        cases hr : refineRun fuel n s2 with
        | error e => rw [hr] at h; cases h
        | ok r =>
          obtain ⟨ks2, s3⟩ := r
          rw [hr] at h
          simp only [pure, Except.pure, Except.ok.injEq, Prod.mk.injEq] at h
          obtain ⟨rfl, rfl⟩ := h
          obtain ⟨a1, a2, a3, a4, a5⟩ := ih s2 s3 ks2 hr
          obtain ⟨b1, b2, b3⟩ := refineStep_some fuel s s2 k hx
          refine ⟨?_, ?_, ?_, ?_, ?_⟩
          · simp only [List.length_cons]
            omega
          · rw [List.count_cons]
            simp only [beq_iff_eq]
            have : (if RefineKind.segmentCenter = k then 1 else 0)
                = (if k = RefineKind.segmentCenter then 1 else 0) := by
              by_cases hk : k = RefineKind.segmentCenter
              · simp [hk]
              · simp [hk, Ne.symm hk]
            omega
          · rw [List.count_cons]
            simp only [beq_iff_eq]
            have : (if RefineKind.circumcenter = k then 1 else 0)
                = (if k = RefineKind.circumcenter then 1 else 0) := by
              by_cases hk : k = RefineKind.circumcenter
              · simp [hk]
              · simp [hk, Ne.symm hk]
            omega
          · simp only [List.length_cons]
            omega
          · intro hlt
            simp only [List.length_cons] at hlt
            exact a5 (by omega)

theorem finished_of_measure (s : RefineState) (h : s.measure = 0) : s.finished = true := by
  obtain ⟨m, Qt, Qe, nE⟩ := s
  simp only [RefineState.measure] at h
  have h1 : Qe.length = 0 := by omega
  have h2 : Qt.length = 0 := by omega
  simp [RefineState.finished, List.length_eq_zero.mp h1, List.length_eq_zero.mp h2]

/-- The loop `refineLoop` within `n` turns is the run of at most `n` turns, followed by the
test of the loop condition. -/
theorem refineLoop_eq_run (fuel : Nat) :
    ∀ (n : Nat) (s : RefineState),
      refineLoop fuel n s.mesh s.Qtriangles s.Qencroach s.notEncroached
        = (refineRun fuel n s >>= fun r =>
            if r.2.finished = true then pure r.2.mesh else throw Err.fuel) := by
  intro n
  induction n with
  | zero =>
    intro s
    obtain ⟨m, Qt, Qe, nE⟩ := s
    cases Qe with
    | cons edge Qrest => rfl
    | nil =>
      cases Qt with
      | nil => rfl
      | cons front Trest => rfl
  | succ n ih =>
    intro s
    obtain ⟨m, Qt, Qe, nE⟩ := s
    rw [refineRun_succ]
    cases Qe with
    | cons edge Qrest =>
      simp only [refineLoop, refineStep]
      cases h1 : m.centerOfEdge edge with
      | error e => rfl
      | ok v =>
        cases h2 : m.insertVertexIntoTriangulation fuel v m.vertices.length with
        | error e => simp only [bind, Except.bind, h2]
        | ok r =>
          simp only [bind, Except.bind, h2, pure, Except.pure]
          have := ih (RefineState.mk r.1 Qt Qrest nE)
          simp only [bind, Except.bind] at this
          rw [this]
          cases refineRun fuel n (RefineState.mk r.1 Qt Qrest nE) with
          | error e => rfl
          | ok r2 => rfl
    | nil =>
      cases Qt with
      | nil => rfl
      | cons front Trest =>
        simp only [refineLoop, refineStep]
        cases h1 : atE m.triangles front with
        | error e => rfl
        | ok triangle =>
          cases h2 : m.buildPtriangle3D triangle with
          | error e => simp only [bind, Except.bind, h2]
          | ok p =>
            simp only [bind, Except.bind, h2]
            cases h3 : m.encroachSegment
              (Vertex.new (centerSurroundingCircle2D p).x (centerSurroundingCircle2D p).y
                (centerSurroundingCircle2D p).z) nE with
            | error e => rfl
            | ok found =>
              cases found with
              | some es =>
                obtain ⟨edge, segments⟩ := es
                simp only [pure, Except.pure]
                have := ih (RefineState.mk m (front :: Trest) [edge] segments)
                simp only [bind, Except.bind] at this
                rw [this]
                cases refineRun fuel n (RefineState.mk m (front :: Trest) [edge] segments) with
                | error e => rfl
                | ok r2 => rfl
              | none =>
                simp only
                cases h4 : m.insertVertexIntoTriangulation fuel
                  (Vertex.new (centerSurroundingCircle2D p).x (centerSurroundingCircle2D p).y
                    (centerSurroundingCircle2D p).z) m.vertices.length with
                | error e => rfl
                | ok r =>
                  simp only [pure, Except.pure]
                  have := ih (RefineState.mk r.1 Trest [] nE)
                  simp only [bind, Except.bind] at this
                  rw [this]
                  cases refineRun fuel n (RefineState.mk r.1 Trest [] nE) with
                  | error e => rfl
                  | ok r2 => rfl

/-- A run that fails fails in a turn: it never fails for want of turns. -/
theorem refineRun_error (fuel : Nat) :
    ∀ (n : Nat) (s : RefineState) (e : Err), refineRun fuel n s = Except.error e →
      ∃ (k : Nat) (ks : List RefineKind) (s1 : RefineState),
        refineRun fuel k s = Except.ok (ks, s1) ∧ refineStep fuel s1 = Except.error e := by
  intro n
  induction n with
  | zero =>
    intro s e h
    cases h
  | succ n ih =>
    intro s e h
    rw [refineRun_succ] at h
    cases hx : refineStep fuel s with
    | error e2 =>
      rw [hx] at h
      cases h
      exact ⟨0, [], s, rfl, hx⟩
    | ok x =>
      rw [hx] at h
      cases x with
      | none => cases h
      | some ks1 =>
        obtain ⟨k, s2⟩ := ks1
        simp only [bind, Except.bind] at h
        cases hr : refineRun fuel n s2 with
        | ok r => rw [hr] at h; cases h
        | error e2 =>
          rw [hr] at h
          cases h
          obtain ⟨k2, ks, s1, hk, hs⟩ := ih s2 e hr
          refine ⟨k2 + 1, k :: ks, s1, ?_, hs⟩
          rw [refineRun_succ, hx]
          simp only [bind, Except.bind, hk, pure, Except.pure]

theorem refineStart_lengths (m : Mesh) (Qt : List Int) :
    (refineStart m Qt).Qencroach.length + (refineStart m Qt).notEncroached.length
      = m.constraints.length ∧ (refineStart m Qt).Qtriangles = Qt ∧
    (refineStart m Qt).measure ≤ 2 * m.constraints.length + Qt.length := by
  have h := collectEncroacheds_length m []
  simp only [List.length_nil, Nat.add_zero] at h
  refine ⟨h, rfl, ?_⟩
  simp only [RefineState.measure, refineStart]
  omega

/-! ## Bound on the refinement loop (C37) -/

/-- C37: let `Qt` be the poor quality triangles that `refineDelaunay` collects on a mesh with
`C` constraints, and `P` their number.  The loop enters with
`|Qencroach| + 2 |notEncroached| + |Qtriangles|` at most `2 C + P`; every turn takes one off
this quantity; so a run of the loop makes at most `2 C + P` turns, of which at most `C`
insert the center of a segment and at most `P` insert a circumcenter (exactly `P` when the
loop ends), the other turns inserting nothing.  With `2 C + P` turns allowed or more,
`refineDelaunay` is this run: it ends, unless a turn fails. -/
theorem refine_loop_bounded (sqrt : ℚ → ℚ) (pi : ℚ) (fuel : Nat) (m : Mesh) (threshold : ℚ)
    (Qt : List Int) (hQ : m.collectPoorQualityTriangles sqrt pi threshold = Except.ok Qt) :
    (refineStart m Qt).measure ≤ 2 * m.constraints.length + Qt.length ∧
    (∀ s k s1, refineStep fuel s = Except.ok (some (k, s1)) → s1.measure + 1 = s.measure) ∧
    (∀ n ks s1, refineRun fuel n (refineStart m Qt) = Except.ok (ks, s1) →
      ks.length ≤ 2 * m.constraints.length + Qt.length ∧
      ks.count RefineKind.segmentCenter ≤ m.constraints.length ∧
      ks.count RefineKind.circumcenter ≤ Qt.length ∧
      ks.count RefineKind.segmentCenter + ks.count RefineKind.circumcenter
        ≤ m.constraints.length + Qt.length ∧
      (s1.finished = true → ks.count RefineKind.circumcenter = Qt.length)) ∧
    (∀ steps, 2 * m.constraints.length + Qt.length ≤ steps →
      m.refineDelaunay sqrt pi fuel steps threshold
        = (refineRun fuel steps (refineStart m Qt)).map (fun r => r.2.mesh)) ∧
    (∀ n e, refineRun fuel n (refineStart m Qt) = Except.error e →
      ∃ (k : Nat) (ks : List RefineKind) (s1 : RefineState),
        refineRun fuel k (refineStart m Qt) = Except.ok (ks, s1) ∧
          refineStep fuel s1 = Except.error e) := by
  obtain ⟨hC, hP, hM⟩ := refineStart_lengths m Qt
  refine ⟨hM, fun s k s1 h => (refineStep_some fuel s s1 k h).1, ?_, ?_,
    fun n e h => refineRun_error fuel n _ e h⟩
  · intro n ks s1 h
    obtain ⟨a1, a2, a3, -, -⟩ := refineRun_count fuel n _ s1 ks h
    rw [hP] at a3
    refine ⟨by omega, by omega, by omega, by omega, ?_⟩
    intro hfin
    have : s1.Qtriangles.length = 0 := by
      simp only [RefineState.finished, Bool.and_eq_true, List.isEmpty_iff] at hfin
      rw [hfin.2]
      rfl
    omega
  · intro steps hsteps
    have hloop : m.refineDelaunay sqrt pi fuel steps threshold
        = refineLoop fuel steps (refineStart m Qt).mesh (refineStart m Qt).Qtriangles
            (refineStart m Qt).Qencroach (refineStart m Qt).notEncroached := by
      simp only [Mesh.refineDelaunay, hQ, bind, Except.bind]
      rfl
    rw [hloop, refineLoop_eq_run]
    cases hr : refineRun fuel steps (refineStart m Qt) with
    | error e => rfl
    | ok r =>
      obtain ⟨ks, s1⟩ := r
      obtain ⟨a1, -, -, a4, a5⟩ := refineRun_count fuel steps _ s1 ks hr
      have hfin : s1.finished = true := by
        by_cases hlt : ks.length < steps
        · exact a5 hlt
        · exact finished_of_measure s1 (by omega)
      simp only [bind, Except.bind, hfin, if_true, Except.map, pure, Except.pure]

/-- Witness of C37 on the unit square with the constraints 2 0, 0 1, 1 2, 2 3: two
triangles are collected, the run makes three turns (the center of the segment {2,0}, then
two circumcenters), within the bound 2 * 4 + 2. -/
theorem refine_loop_bounded_witness :
    constrainedSquareMesh.collectPoorQualityTriangles sqrtStub 3 22 = Except.ok [0, 1] ∧
    (∃ s1, refineRun 10 10 (refineStart constrainedSquareMesh [0, 1])
        = Except.ok ([RefineKind.segmentCenter, RefineKind.circumcenter,
            RefineKind.circumcenter], s1) ∧ s1.finished = true) ∧
    constrainedSquareMesh.refineDelaunay sqrtStub 3 10 10 22
      = (refineRun 10 10 (refineStart constrainedSquareMesh [0, 1])).map (fun r => r.2.mesh) := by
  have hQ : constrainedSquareMesh.collectPoorQualityTriangles sqrtStub 3 22
      = Except.ok [0, 1] := ok_of_toOption _ _ (by decide!)
  have h := refine_loop_bounded sqrtStub 3 10 constrainedSquareMesh 22 [0, 1] hQ
  refine ⟨hQ, ?_, h.2.2.2.1 10 (by decide)⟩
  have hrun : ((refineRun 10 10 (refineStart constrainedSquareMesh [0, 1])).toOption.map
      (fun r => (r.1, r.2.finished)))
      = some ([RefineKind.segmentCenter, RefineKind.circumcenter,
          RefineKind.circumcenter], true) := by decide!
  cases hr : refineRun 10 10 (refineStart constrainedSquareMesh [0, 1]) with
  | error e => simp [hr, Except.toOption] at hrun
  | ok r =>
    simp only [hr, Except.toOption, Option.map_some', Option.some.injEq, Prod.mk.injEq] at hrun
    exact ⟨r.2, by rw [← hrun.1], hrun.2⟩

/-! ## Lemmas on the counts of triangles and border entries -/

theorem neighborInsert_length (map : MapEdges) (key : Edge) (index : Int)
    (faces : List TopoTriangle) :
    Always (fun st2 => st2.2.length = faces.length) (neighborInsert map key index faces) :=
  always_mono (neighborInsert_shapes map key index faces) (fun _ h => length_of_shapes h)

theorem linkEdgesOf_length (index : Int) (st : MapEdges × List TopoTriangle) :
    Always (fun st2 => st2.2.length = st.2.length) (linkEdgesOf index st) := by
  unfold linkEdgesOf
  refine always_bind (fun current _ => ?_)
  refine always_bind (fun st1 h1 => ?_)
  refine always_bind (fun st2 h2 => ?_)
  have e1 := neighborInsert_length _ _ _ _ st1 h1
  have e2 := neighborInsert_length _ _ _ _ st2 h2
  refine always_mono (neighborInsert_length _ _ _ _) (fun r hr => ?_)
  dsimp only at e1 e2 hr
  rw [hr, e2, e1]

theorem flipLinkFrom_length (L : List Int) :
    ∀ st : MapEdges × List TopoTriangle,
      Always (fun st2 => st2.2.length = st.2.length) (flipLinkFrom L st) := by
  induction L with
  | nil =>
    intro st
    exact always_pure rfl
  | cons i rest ih =>
    intro st
    unfold flipLinkFrom
    refine always_bind (fun st1 h1 => ?_)
    have e1 := linkEdgesOf_length i st st1 h1
    exact always_mono (ih st1) (fun r hr => hr.trans e1)

theorem manageNeighborInsideFrom_length (L : List Int) :
    ∀ st : MapEdges × List TopoTriangle,
      Always (fun st2 => st2.2.length = st.2.length) (manageNeighborInsideFrom L st) := by
  induction L with
  | nil =>
    intro st
    exact always_pure rfl
  | cons i rest ih =>
    intro st
    unfold manageNeighborInsideFrom
    split
    · exact ih st
    · refine always_bind (fun st1 h1 => ?_)
      have e1 := linkEdgesOf_length i st st1 h1
      exact always_mono (ih st1) (fun r hr => hr.trans e1)

theorem updateNeighborsOutsideFrom_length (c : Int) (L : List Int) :
    ∀ st : MapEdges × List TopoTriangle,
      Always (fun st2 => st2.2.length = st.2.length) (updateNeighborsOutsideFrom c L st) := by
  induction L with
  | nil =>
    intro st
    exact always_pure rfl
  | cons i rest ih =>
    intro st
    unfold updateNeighborsOutsideFrom
    refine always_bind (fun current _ => ?_)
    refine always_bind (fun st1 h1 => ?_)
    refine always_bind (fun st2 h2 => ?_)
    have e1 := neighborInsert_length _ _ _ _ st1 h1
    have e2 := neighborInsert_length _ _ _ _ st2 h2
    dsimp only at e1 e2
    exact always_mono (ih st2) (fun r hr => hr.trans (e2.trans e1))

/-- A flip keeps the number of triangles and the border. -/
theorem flip_counts (m : Mesh) (f1 f2 : Int) :
    Always (fun r => r.triangles.length = m.triangles.length ∧ r.borders = m.borders)
      (m.flip f1 f2) := by
  unfold Mesh.flip
  refine always_bind (fun old_f1 _ => ?_)
  refine always_bind (fun old_f2 _ => ?_)
  dsimp only
  refine always_bind (fun changed_f2 _ => ?_)
  refine always_bind (fun changed_f1 _ => ?_)
  refine always_bind (fun ref_f2 _ => ?_)
  refine always_bind (fun st hst => ?_)
  apply always_pure
  have e := flipLinkFrom_length _ _ st hst
  dsimp only at e
  refine ⟨?_, rfl⟩
  rw [e, length_setAt, length_setAt]

theorem incrementalDelaunayLoop_counts (fuel : Nat) :
    ∀ (m : Mesh) (queue : List Int),
      Always (fun r => r.triangles.length = m.triangles.length ∧ r.borders = m.borders)
        (incrementalDelaunayLoop fuel m queue) := by
  induction fuel with
  | zero =>
    intro m queue
    unfold incrementalDelaunayLoop
    cases hq : getNextAvailableIndex queue with
    | none => exact always_pure ⟨rfl, rfl⟩
    | some cq =>
      obtain ⟨current, queue1⟩ := cq
      exact always_error _
  | succ n ih =>
    intro m queue
    unfold incrementalDelaunayLoop
    cases hq : getNextAvailableIndex queue with
    | none => exact always_pure ⟨rfl, rfl⟩
    | some cq =>
      obtain ⟨current, queue1⟩ := cq
      simp only
      refine always_bind (fun toFlipWith _ => ?_)
      split
      · exact ih _ _
      · refine always_bind (fun tCurrent _ => ?_)
        refine always_bind (fun tFlip _ => ?_)
        refine always_bind (fun m1 hm1 => ?_)
        have e := flip_counts m _ _ m1 hm1
        exact always_mono (ih m1 _) (fun r hr => ⟨hr.1.trans e.1, hr.2.trans e.2⟩)

/-- An insertion inside a triangle adds two triangles and keeps the border. -/
theorem insertPointIntoTriangle_counts (fuel : Nat) (m : Mesh) (v : Vertex) (f i : Int) :
    Always (fun r => r.1.triangles.length = m.triangles.length + 2 ∧ r.1.borders = m.borders)
      (m.insertPointIntoTriangle fuel v f i) := by
  unfold Mesh.insertPointIntoTriangle
  refine always_bind ?_
  rintro ⟨m1, v1, news, concerned⟩ h1
  refine always_bind ?_
  rintro ⟨m2, concerned2⟩ h2
  refine always_bind (fun m3 h3 => ?_)
  apply always_pure
  have a1 : m1.triangles.length = m.triangles.length + 2 ∧ m1.borders = m.borders := by
    unfold Mesh.splitTriangle at h1
    have := always_bind (P := fun r : Mesh × Vertex × List Int × List Int =>
      r.1.triangles.length = m.triangles.length + 2 ∧ r.1.borders = m.borders)
      (fun dying _ => ?_) _ h1
    · exact this
    · dsimp only
      refine always_bind (fun vertices1 _ => ?_)
      apply always_pure
      refine ⟨?_, rfl⟩
      simp [length_setAt]
  have a2 : m2.triangles.length = m1.triangles.length ∧ m2.borders = m1.borders := by
    unfold Mesh.manageNeighborInside at h2
    have := always_bind (P := fun r : Mesh × List Int =>
      r.1.triangles.length = m1.triangles.length ∧ r.1.borders = m1.borders)
      (fun st hst => always_pure ?_) _ h2
    · exact this
    · exact ⟨manageNeighborInsideFrom_length _ _ st hst, rfl⟩
  have a3 := incrementalDelaunayLoop_counts fuel m2 concerned2 m3 h3
  exact ⟨a3.1.trans (a2.1.trans a1.1), a3.2.trans (a2.2.trans a1.2)⟩

theorem visCount_eq (vis : Nat → Bool) :
    ∀ (len i : Nat), visCount vis i len
      = ((List.range len).filter (fun j => vis (i + j))).length := by
  intro len
  induction len with
  | zero => intro i; rfl
  | succ len ih =>
    intro i
    rw [visCount, ih (i + 1), List.range_succ_eq_map, List.filter_cons, List.filter_map]
    have e : ((fun j => vis (i + j)) ∘ Nat.succ) = (fun j => vis (i + 1 + j)) := by
      funext j
      simp only [Function.comp, Nat.succ_eq_add_one]
      congr 1
      omega
    rw [e]
    by_cases h : vis i = true
    · simp [h]
      omega
    · simp [h]

theorem filter_length_getD (U : List Nat) (p : Nat → Bool) :
    (U.filter p).length = ((List.range U.length).filter (fun j => p (U.getD j 0))).length := by
  induction U with
  | nil => rfl
  | cons u U ih =>
    rw [List.length_cons, List.range_succ_eq_map, List.filter_cons, List.filter_cons,
      List.filter_map]
    have e : ((fun j => p ((u :: U).getD j 0)) ∘ Nat.succ) = (fun j => p (U.getD j 0)) := by
      funext j
      simp [Function.comp]
    rw [e]
    by_cases h : p u = true
    · simp [h, ih]
    · simp [h, ih]

/-- The number of positions `j < n` such that `j` or `j + n` is in the window from `lo` to
`hi`, a window not longer than `n`. -/
theorem window_count (n lo hi : Nat) (h1 : lo ≤ hi) (h2 : hi ≤ lo + n) (h3 : lo ≤ n) :
    ((List.range n).filter
      (fun j => decide ((lo ≤ j ∧ j < hi) ∨ (lo ≤ j + n ∧ j + n < hi)))).length = hi - lo := by
  have key : ∀ m, ((List.range m).filter
      (fun j => decide ((lo ≤ j ∧ j < hi) ∨ (lo ≤ j + n ∧ j + n < hi)))).length
        = (min m hi - min m lo) + min m (hi - n) := by
    intro m
    induction m with
    | zero => simp
    | succ m ih =>
      rw [List.range_succ, List.filter_append, List.length_append, ih]
      by_cases hP : (lo ≤ m ∧ m < hi) ∨ (lo ≤ m + n ∧ m + n < hi)
      · simp only [List.filter_cons, hP, decide_True, if_true, List.filter_nil,
          List.length_singleton]
        omega
      · simp only [List.filter_cons, hP, decide_False, Bool.false_eq_true, if_false,
          List.filter_nil, List.length_nil]
        omega
  rw [key n]
  omega

theorem updateBorderFrom_length (id first : Int) :
    ∀ (B : List Int) (U : List Nat) (i : Int), U.length = B.length →
      (updateBorderFrom id first B U i).length
        = (U.filter (fun u => decide (u < 2))).length
          + (if i ≤ first ∧ first < i + (B.length : Int) then 1 else 0) := by
  intro B
  induction B with
  | nil =>
    intro U i h
    cases U with
    | nil =>
      have c0 : ¬ (i ≤ first ∧ first < i + ((([] : List Int).length : Nat) : Int)) := by
        simp only [List.length_nil, Nat.cast_zero]
        omega
      rw [if_neg c0]
      rfl
    | cons u U => cases h
  | cons b B ih =>
    intro U i h
    cases U with
    | nil => cases h
    | cons u U =>
      have hl : U.length = B.length := by simpa using h
      rw [updateBorderFrom, List.length_append, List.length_append, ih U (i + 1) hl,
        List.filter_cons]
      simp only [List.length_cons, Nat.cast_succ]
      have hkeep : ((if u < 2 then [b] else []) : List Int).length
          = (if decide (u < 2) = true then 1 else 0) := by
        by_cases hu : u < 2 <;> simp [hu]
      have hkeep2 : (if decide (u < 2) = true then
          u :: List.filter (fun u => decide (u < 2)) U
          else List.filter (fun u => decide (u < 2)) U).length
          = (if decide (u < 2) = true then 1 else 0)
            + (List.filter (fun u => decide (u < 2)) U).length := by
        by_cases hu : u < 2 <;> simp [hu]
        omega
      rw [hkeep, hkeep2]
      by_cases hi : i = first
      · subst hi
        have c1 : ¬ (i + 1 ≤ i ∧ i < i + 1 + (B.length : Int)) := by omega
        have c2 : (i ≤ i ∧ i < i + ((B.length : Int) + 1)) := by omega
        rw [if_neg c1, if_pos c2]
        simp only [if_true, List.length_singleton]
        omega
      · by_cases c1 : (i + 1 ≤ first ∧ first < i + 1 + (B.length : Int))
        · have c2 : (i ≤ first ∧ first < i + ((B.length : Int) + 1)) := by omega
          rw [if_pos c1, if_pos c2, if_neg hi]
          simp only [List.length_nil]
          omega
        · have c2 : ¬ (i ≤ first ∧ first < i + ((B.length : Int) + 1)) := by omega
          rw [if_neg c1, if_neg c2, if_neg hi]
          simp only [List.length_nil]
          omega

/-- The border scan of `insertPointOutside` at one position. -/
theorem scan_cons (vs : List Vertex) (head index it : Int) (rest : List Int) (i : Nat)
    (st : OutsideScan) :
    insertPointOutsideFrom vs head index (it :: rest) i st = (do
    let current ← atE vs it
    let next_id := nextOnBorder head rest
    let next ← atE vs next_id
    if isWellOriented current.toP next.toP st.ins.toP then do
      let iFirst := if st.iFirst = -1 then (i : Int) else st.iFirst
      let usages1 ← bumpUsage st.usages i
      let usages2 ← bumpUsage usages1 ((i + 1) % usages1.length)
      let newFace := TopoTriangle.new it next_id index
      let voisin := findThisFaceFrom it next_id st.triangles 0
      let here : Int := st.triangles.length
      let linked ←
        if voisin ≠ -1 then do
          let edge : Edge := { a := next_id, b := it }
          let newFace1 ← newFace.addNeighbor voisin edge
          let old ← atE st.triangles voisin
          let old1 ← old.addNeighbor here edge
          pure (newFace1, setAt st.triangles voisin old1)
        else pure (newFace, st.triangles)
      insertPointOutsideFrom vs head index rest (i + 1)
        { iFirst := iFirst, usages := usages2, newTriangles := st.newTriangles ++ [here],
          triangles := linked.2 ++ [linked.1], ins := { st.ins with face := here } }
    else insertPointOutsideFrom vs head index rest (i + 1) st) := by
  rfl

/-- One turn of the border scan of `insertPointOutside`. -/
theorem scan_step (vs : List Vertex) (head index it : Int) (rest : List Int) (i : Nat)
    (st st2 : OutsideScan)
    (h : insertPointOutsideFrom vs head index (it :: rest) i st = Except.ok st2) :
    ∃ current next, atE vs it = Except.ok current ∧
      atE vs (nextOnBorder head rest) = Except.ok next ∧
      ((isWellOriented current.toP next.toP st.ins.toP = false ∧
          insertPointOutsideFrom vs head index rest (i + 1) st = Except.ok st2) ∨
        (isWellOriented current.toP next.toP st.ins.toP = true ∧
          ∃ usages1 usages2 st1, bumpUsage st.usages i = Except.ok usages1 ∧
            bumpUsage usages1 ((i + 1) % usages1.length) = Except.ok usages2 ∧
            st1.iFirst = (if st.iFirst = -1 then (i : Int) else st.iFirst) ∧
            st1.usages = usages2 ∧ st1.triangles.length = st.triangles.length + 1 ∧
            st1.ins.toP = st.ins.toP ∧
            insertPointOutsideFrom vs head index rest (i + 1) st1 = Except.ok st2)) := by
  rw [scan_cons] at h
  dsimp only at h
  generalize nextOnBorder head rest = nx at h ⊢
  cases h1 : atE vs it with
  | error e => rw [h1] at h; cases h
  | ok current =>
    cases h2 : atE vs nx with
    | error e => rw [h1] at h; simp only [bind, Except.bind, h2] at h; cases h
    | ok next =>
      refine ⟨current, next, rfl, rfl, ?_⟩
      rw [h1] at h
      simp only [bind, Except.bind, h2] at h
      cases hw : isWellOriented current.toP next.toP st.ins.toP with
      | false =>
        rw [hw] at h
        exact Or.inl ⟨rfl, h⟩
      | true =>
        rw [hw] at h
        simp only [if_true] at h
        refine Or.inr ⟨rfl, ?_⟩
        cases h3 : bumpUsage st.usages i with
        | error e => rw [h3] at h; cases h
        | ok usages1 =>
          rw [h3] at h
          simp only at h
          cases h4 : bumpUsage usages1 ((i + 1) % usages1.length) with
          | error e => rw [h4] at h; cases h
          | ok usages2 =>
            rw [h4] at h
            simp only at h
            by_cases hv : findThisFaceFrom it nx st.triangles 0 = -1
            · simp only [hv, ne_eq, not_true_eq_false, if_false, pure, Except.pure] at h
              exact ⟨usages1, usages2,
                OutsideScan.mk (if st.iFirst = -1 then (i : Int) else st.iFirst) usages2
                  (st.newTriangles ++ [(st.triangles.length : Int)])
                  (st.triangles ++ [TopoTriangle.new it nx index])
                  { st.ins with face := (st.triangles.length : Int) },
                rfl, h4, rfl, rfl, by simp, rfl, h⟩
            · simp only [hv, ne_eq, not_false_eq_true, if_true] at h
              cases ha : (TopoTriangle.new it nx index).addNeighbor
                  (findThisFaceFrom it nx st.triangles 0) { a := nx, b := it } with
              | error e => rw [ha] at h; cases h
              | ok nf =>
                rw [ha] at h
                simp only at h
                cases hb : atE st.triangles (findThisFaceFrom it nx st.triangles 0) with
                | error e => rw [hb] at h; cases h
                | ok old =>
                  rw [hb] at h
                  simp only at h
                  cases hc : old.addNeighbor (st.triangles.length : Int)
                      { a := nx, b := it } with
                  | error e => rw [hc] at h; cases h
                  | ok old1 =>
                    rw [hc] at h
                    simp only [pure, Except.pure] at h
                    exact ⟨usages1, usages2,
                      OutsideScan.mk (if st.iFirst = -1 then (i : Int) else st.iFirst) usages2
                        (st.newTriangles ++ [(st.triangles.length : Int)])
                        (setAt st.triangles (findThisFaceFrom it nx st.triangles 0) old1 ++ [nf])
                        { st.ins with face := (st.triangles.length : Int) },
                      rfl, h4, rfl, rfl, by simp [length_setAt], rfl, h⟩

theorem bumpUsage_spec (U U1 : List Nat) (i : Nat) (h : bumpUsage U i = Except.ok U1) :
    i < U.length ∧ U1.length = U.length ∧
      ∀ j, U1.getD j 0 = U.getD j 0 + (if j = i then 1 else 0) := by
  unfold bumpUsage at h
  cases hu : U[i]? with
  | none => rw [hu] at h; cases h
  | some u =>
    rw [hu] at h
    simp only [pure, Except.pure, Except.ok.injEq] at h
    have hi : i < U.length := by
      by_contra hc
      rw [List.getElem?_eq_none (by omega)] at hu
      cases hu
    refine ⟨hi, by rw [← h]; simp, ?_⟩
    intro j
    rw [← h]
    by_cases hj : j = i
    · subst hj
      simp [List.getD_eq_getElem?_getD, hu, hi]
    · simp [List.getD_eq_getElem?_getD, hj, List.getElem?_set_ne (Ne.symm hj)]

theorem succ_pred (n i j : Nat) (hi : i < n) (hj : j < n) :
    j = (i + 1) % n ↔ predIdx n j = i := by
  unfold predIdx
  by_cases h : i + 1 < n
  · rw [Nat.mod_eq_of_lt h]
    split <;> omega
  · have e : i + 1 = n := by omega
    rw [e, Nat.mod_self]
    split <;> omega

theorem indicator_step (vis : Nat → Bool) (i j : Nat) :
    (if i ≤ j ∧ vis j = true then 1 else 0)
      = (if j = i ∧ vis i = true then 1 else 0) + (if i + 1 ≤ j ∧ vis j = true then 1 else 0) := by
  by_cases hji : j = i
  · subst hji
    have c : ¬ (j + 1 ≤ j ∧ vis j = true) := by omega
    by_cases hv : vis j = true
    · simp [hv]
    · simp [hv]
  · by_cases hv : vis j = true
    · by_cases c : i ≤ j
      · have c2 : i + 1 ≤ j := by omega
        simp [hji, hv, c, c2]
      · have c2 : ¬ (i + 1 ≤ j) := by omega
        simp [hji, hv, c, c2]
    · simp [hji, hv]

theorem getD_split (pre rest : List Int) (it : Int) :
    (pre ++ it :: rest).getD pre.length 0 = it := by
  rw [List.getD_eq_getElem?_getD, List.getElem?_append_right (le_refl _)]
  simp

theorem next_split (pre rest : List Int) (it : Int) :
    nextOnBorder ((pre ++ it :: rest).headD 0) rest
      = (pre ++ it :: rest).getD ((pre.length + 1) % (pre ++ it :: rest).length) 0 := by
  unfold nextOnBorder
  cases rest with
  | nil =>
    simp only [List.length_append, List.length_cons, List.length_nil, Nat.mod_self]
    cases pre with
    | nil => rfl
    | cons p pre => rfl
  | cons x rest =>
    have hlt : pre.length + 1 < (pre ++ it :: x :: rest).length := by
      simp
    rw [Nat.mod_eq_of_lt hlt]
    have e : pre ++ it :: x :: rest = (pre ++ [it]) ++ x :: rest := by simp
    have e2 : pre.length + 1 = (pre ++ [it]).length := by simp
    rw [e, e2, getD_split]

/-- What the border scan of `insertPointOutside` has done when it returns: one triangle per
edge seen, one use counted at both ends of every edge seen, and a valid first position as
soon as an edge is seen. -/
theorem scan_spec (vs : List Vertex) (B : List Int) (index : Int) (ins : Vertex) :
    ∀ (rest pre : List Int) (st st2 : OutsideScan), B = pre ++ rest →
      st.usages.length = B.length → st.ins.toP = ins.toP →
      (st.iFirst = -1 ∨ (0 ≤ st.iFirst ∧ st.iFirst < (B.length : Int))) →
      insertPointOutsideFrom vs (B.headD 0) index rest pre.length st = Except.ok st2 →
      st2.usages.length = B.length ∧
      st2.triangles.length
        = st.triangles.length + visCount (visibleEdge vs B ins) pre.length rest.length ∧
      (∀ j, j < B.length → st2.usages.getD j 0 = st.usages.getD j 0
        + (if pre.length ≤ j ∧ visibleEdge vs B ins j = true then 1 else 0)
        + (if pre.length ≤ predIdx B.length j ∧
            visibleEdge vs B ins (predIdx B.length j) = true then 1 else 0)) ∧
      (st2.iFirst = -1 ∨ (0 ≤ st2.iFirst ∧ st2.iFirst < (B.length : Int))) ∧
      (((0 ≤ st.iFirst ∧ st.iFirst < (B.length : Int)) ∨
          0 < visCount (visibleEdge vs B ins) pre.length rest.length) →
        0 ≤ st2.iFirst ∧ st2.iFirst < (B.length : Int)) := by
  intro rest
  induction rest with
  | nil =>
    intro pre st st2 hB hU _ hF h
    simp only [insertPointOutsideFrom, pure, Except.pure, Except.ok.injEq] at h
    subst h
    have hpre : B.length = pre.length := by rw [hB]; simp
    refine ⟨hU, by simp [visCount], ?_, hF, ?_⟩
    · intro j hj
      have c1 : ¬ (pre.length ≤ j ∧ visibleEdge vs B ins j = true) := by omega
      have hp : predIdx B.length j < B.length := by
        unfold predIdx
        split <;> omega
      have c2 : ¬ (pre.length ≤ predIdx B.length j ∧
          visibleEdge vs B ins (predIdx B.length j) = true) := by omega
      rw [if_neg c1, if_neg c2]
      simp
    · intro hc
      rcases hc with hc | hc
      · exact hc
      · simp [visCount] at hc
  | cons it rest ih =>
    intro pre st st2 hB hU hI hF h
    have hlen : B.length = pre.length + (rest.length + 1) := by rw [hB]; simp
    have hi : pre.length < B.length := by omega
    have hB2 : B = (pre ++ [it]) ++ rest := by rw [hB]; simp
    have hpl : (pre ++ [it]).length = pre.length + 1 := by simp
    obtain ⟨current, next, hcur, hnext, hcases⟩ := scan_step vs _ index it rest _ st st2 h
    have hvis : visibleEdge vs B ins pre.length
        = isWellOriented current.toP next.toP st.ins.toP := by
      unfold visibleEdge
      have e1 : B.getD pre.length 0 = it := by rw [hB]; exact getD_split pre rest it
      have e2 := next_split pre rest it
      rw [← hB] at e2
      rw [e1, ← e2, hcur, hnext, hI]
    rcases hcases with ⟨hw, hrec⟩ | ⟨hw, usages1, usages2, st1, hb1, hb2, hF1, hU1, hT1, hI1, hrec⟩
    · rw [hw] at hvis
      rw [← hpl] at hrec
      obtain ⟨a1, a2, a3, a4, a5⟩ := ih (pre ++ [it]) st st2 hB2 hU hI hF hrec
      rw [hpl] at a2 a3 a5
      refine ⟨a1, ?_, ?_, a4, ?_⟩
      · rw [a2, List.length_cons, visCount, hvis]
        simp
      · intro j hj
        have hp : predIdx B.length j < B.length := by
          unfold predIdx
          split <;> omega
        rw [a3 j hj, indicator_step (visibleEdge vs B ins) pre.length j,
          indicator_step (visibleEdge vs B ins) pre.length (predIdx B.length j), hvis]
        simp
      · intro hc
        apply a5
        rcases hc with hc | hc
        · exact Or.inl hc
        · rw [List.length_cons, visCount, hvis] at hc
          simp only [Bool.false_eq_true, if_false, Nat.zero_add] at hc
          exact Or.inr hc
    · rw [hw] at hvis
      obtain ⟨hi1, hl1, hg1⟩ := bumpUsage_spec _ _ _ hb1
      obtain ⟨hi2, hl2, hg2⟩ := bumpUsage_spec _ _ _ hb2
      have hU1' : st1.usages.length = B.length := by
        rw [hU1, hl2, hl1, hU]
      have hF1' : 0 ≤ st1.iFirst ∧ st1.iFirst < (B.length : Int) := by
        rw [hF1]
        rcases hF with hF | hF
        · rw [if_pos hF]
          omega
        · have : st.iFirst ≠ -1 := by omega
          rw [if_neg this]
          exact hF
      rw [← hpl] at hrec
      obtain ⟨a1, a2, a3, a4, a5⟩ := ih (pre ++ [it]) st1 st2 hB2 hU1' (hI1.trans hI)
        (Or.inr hF1') hrec
      rw [hpl] at a2 a3
      refine ⟨a1, ?_, ?_, a4, fun _ => a5 (Or.inl hF1')⟩
      · rw [a2, hT1, List.length_cons, visCount, hvis]
        simp
        omega
      · intro j hj
        have hp : predIdx B.length j < B.length := by
          unfold predIdx
          split <;> omega
        have hmod : (j = (pre.length + 1) % usages1.length) ↔ predIdx B.length j = pre.length := by
          rw [hl1, hU]
          exact succ_pred B.length pre.length j hi hj
        rw [a3 j hj, hU1, hg2 j, hg1 j,
          indicator_step (visibleEdge vs B ins) pre.length j,
          indicator_step (visibleEdge vs B ins) pre.length (predIdx B.length j), hvis]
        simp only [hmod, and_true]
        omega

theorem run_counts (vis : Nat → Bool) (n s k : Nat) (hk1 : 1 ≤ k) (hkn : k < n) (hs : s < n)
    (hvis : ∀ j, j < n → (vis j = true ↔ ((s ≤ j ∧ j < s + k) ∨ j + n < s + k))) :
    visCount vis 0 n = k ∧
    ((List.range n).filter (fun j => decide
      ((if vis j = true then 1 else 0) + (if vis (predIdx n j) = true then 1 else 0) < 2))).length
      + k = n + 1 := by
  constructor
  · rw [visCount_eq]
    have e : (List.range n).filter (fun j => vis (0 + j))
        = (List.range n).filter
          (fun j => decide ((s ≤ j ∧ j < s + k) ∨ (s ≤ j + n ∧ j + n < s + k))) := by
      apply List.filter_congr
      intro j hj
      have hjn : j < n := List.mem_range.mp hj
      rw [Nat.zero_add]
      by_cases hv : vis j = true
      · have := (hvis j hjn).mp hv
        rw [hv]
        symm
        rw [decide_eq_true_eq]
        omega
      · have hn : ¬ ((s ≤ j ∧ j < s + k) ∨ j + n < s + k) := fun hc => hv ((hvis j hjn).mpr hc)
        have hv2 : vis j = false := by simpa using hv
        rw [hv2]
        symm
        rw [decide_eq_false_iff_not]
        omega
    rw [e, window_count n s (s + k) (by omega) (by omega) (by omega)]
    omega
  · have hcomp := List.length_eq_length_filter_add (l := List.range n) (fun j => decide
      ((if vis j = true then 1 else 0) + (if vis (predIdx n j) = true then 1 else 0) < 2))
    have e : (List.range n).filter (fun j => !(decide
        ((if vis j = true then 1 else 0) + (if vis (predIdx n j) = true then 1 else 0) < 2)))
        = (List.range n).filter
          (fun j => decide ((s + 1 ≤ j ∧ j < s + k) ∨ (s + 1 ≤ j + n ∧ j + n < s + k))) := by
      apply List.filter_congr
      intro j hj
      have hjn : j < n := List.mem_range.mp hj
      have hp : predIdx n j < n := by
        unfold predIdx
        split <;> omega
      have h1 := hvis j hjn
      have h2 := hvis (predIdx n j) hp
      have hpd : (j = 0 ∧ predIdx n j = n - 1) ∨ (j ≠ 0 ∧ predIdx n j = j - 1) := by
        unfold predIdx
        split <;> omega
      by_cases hv1 : vis j = true <;> by_cases hv2 : vis (predIdx n j) = true
      · have a1 := h1.mp hv1
        have a2 := h2.mp hv2
        have hl : (!decide ((if vis j = true then 1 else 0)
            + (if vis (predIdx n j) = true then 1 else 0) < 2)) = true := by
          simp [hv1, hv2]
        rw [hl]
        symm
        rw [decide_eq_true_eq]
        omega
      · have a1 := h1.mp hv1
        have a2 : ¬ ((s ≤ predIdx n j ∧ predIdx n j < s + k) ∨ predIdx n j + n < s + k) :=
          fun hc => hv2 (h2.mpr hc)
        have hl : (!decide ((if vis j = true then 1 else 0)
            + (if vis (predIdx n j) = true then 1 else 0) < 2)) = false := by
          simp [hv1, hv2]
        rw [hl]
        symm
        rw [decide_eq_false_iff_not]
        omega
      · have a1 : ¬ ((s ≤ j ∧ j < s + k) ∨ j + n < s + k) := fun hc => hv1 (h1.mpr hc)
        have hl : (!decide ((if vis j = true then 1 else 0)
            + (if vis (predIdx n j) = true then 1 else 0) < 2)) = false := by
          simp [hv1, hv2]
        rw [hl]
        symm
        rw [decide_eq_false_iff_not]
        omega
      · have a1 : ¬ ((s ≤ j ∧ j < s + k) ∨ j + n < s + k) := fun hc => hv1 (h1.mpr hc)
        have hl : (!decide ((if vis j = true then 1 else 0)
            + (if vis (predIdx n j) = true then 1 else 0) < 2)) = false := by
          simp [hv1, hv2]
        rw [hl]
        symm
        rw [decide_eq_false_iff_not]
        omega
    rw [e, window_count n (s + 1) (s + k) (by omega) (by omega) (by omega)] at hcomp
    simp only [List.length_range] at hcomp
    omega

/-- An insertion outside all triangles that sees a run of `k` border edges adds `k`
triangles and changes the length of the border by `2 - k`. -/
theorem insertPointOutside_counts (fuel : Nat) (m : Mesh) (ins : Vertex) (index : Int)
    (r : Mesh × Vertex) (h : m.insertPointOutside fuel ins index = Except.ok r) (s k : Nat)
    (hrun : seesRun m.vertices m.borders ins s k) :
    r.1.triangles.length = m.triangles.length + k ∧
      r.1.borders.length + k = m.borders.length + 2 := by
  obtain ⟨hk1, hkn, hs, hvis⟩ := hrun
  obtain ⟨hc1, hc2⟩ := run_counts (visibleEdge m.vertices m.borders ins) m.borders.length s k
    hk1 hkn hs hvis
  unfold Mesh.insertPointOutside at h
  cases hscan : insertPointOutsideFrom m.vertices (m.borders.headD 0) index m.borders 0
      { iFirst := -1, usages := List.replicate m.borders.length 0, newTriangles := [],
        triangles := m.triangles, ins := ins } with
  | error e => rw [hscan] at h; cases h
  | ok scan =>
    rw [hscan] at h
    simp only [bind, Except.bind] at h
    obtain ⟨a1, a2, a3, -, a5⟩ := scan_spec m.vertices m.borders index ins m.borders [] _ scan
      rfl (by simp) rfl (Or.inl rfl) hscan
    simp only [List.length_nil] at a2 a3 a5
    rw [hc1] at a2 a5
    have hfirst := a5 (Or.inr (by omega))
    have hkept : (scan.usages.filter (fun u => decide (u < 2))).length + k
        = m.borders.length + 1 := by
      rw [filter_length_getD, a1, ← hc2]
      congr 2
      apply List.filter_congr
      intro j hj
      have hjn : j < m.borders.length := List.mem_range.mp hj
      rw [a3 j hjn]
      have e0 : (List.replicate m.borders.length 0).getD j 0 = 0 := by
        simp [List.getD_eq_getElem?_getD, List.getElem?_replicate, hjn]
      rw [e0]
      simp only [Nat.zero_le, true_and, Nat.zero_add]
    cases h3 : Mesh.updateNeighborsOutside
        (Mesh.updateBorder (Mesh.mk m.vertices scan.triangles m.borders m.curve m.constraints
          m.indexBeforeVoronoi) index scan.usages scan.iFirst) scan.newTriangles index with
    | error e => rw [h3] at h; cases h
    | ok m3 =>
      rw [h3] at h
      simp only at h
      cases h4 : concernedOutside m3.triangles index scan.newTriangles with
      | error e => rw [h4] at h; cases h
      | ok concerned =>
        rw [h4] at h
        simp only at h
        cases h5 : Mesh.incrementalDelaunay fuel m3 concerned with
        | error e => rw [h5] at h; cases h
        | ok m4 =>
          rw [h5] at h
          simp only [pure, Except.pure, Except.ok.injEq] at h
          rw [← h]
          have b5 := incrementalDelaunayLoop_counts fuel m3 concerned m4 h5
          have b3 : m3.triangles.length = scan.triangles.length ∧
              m3.borders = updateBorderFrom index scan.iFirst m.borders scan.usages 0 := by
            unfold Mesh.updateNeighborsOutside at h3
            have := always_bind (P := fun x : Mesh =>
              x.triangles.length = scan.triangles.length ∧
              x.borders = updateBorderFrom index scan.iFirst m.borders scan.usages 0)
              (fun st hst => always_pure ?_) m3 h3
            · exact this
            · exact ⟨updateNeighborsOutsideFrom_length _ _ _ st hst, rfl⟩
          dsimp only
          refine ⟨by rw [b5.1, b3.1, a2], ?_⟩
          rw [b5.2, b3.2, updateBorderFrom_length index scan.iFirst m.borders scan.usages 0 a1]
          have c0 : ((0 : Int) ≤ scan.iFirst ∧ scan.iFirst < 0 + (m.borders.length : Int)) := by
            omega
          rw [if_pos c0]
          omega

/-- One call of `insertVertexIntoTriangulation`, case by case: what it adds to the
vertices, the triangles and the border. -/
theorem insertVertexIntoTriangulation_counts (fuel : Nat) (m : Mesh) (v : Vertex) (index : Int)
    (r : Mesh × Vertex) (h : m.insertVertexIntoTriangulation fuel v index = Except.ok r) :
    r.1.vertices.length = m.vertices.length + 1 ∧
    (m.vertices.length + 1 < 3 → r.1.triangles = m.triangles ∧ r.1.borders = m.borders) ∧
    (m.vertices.length + 1 = 3 → r.1.triangles.length = m.triangles.length + 1 ∧
      r.1.borders.length = m.borders.length + 3) ∧
    (3 ≤ m.vertices.length → ((m.withVertex v).isInOneTriangle v).toOption ≠ some (-1) →
      r.1.triangles.length = m.triangles.length + 2 ∧ r.1.borders = m.borders) ∧
    (3 ≤ m.vertices.length → ((m.withVertex v).isInOneTriangle v).toOption = some (-1) →
      ∀ s k, seesRun (m.withVertex v).vertices m.borders v s k →
        r.1.triangles.length = m.triangles.length + k ∧
        r.1.borders.length + k = m.borders.length + 2) := by
  have hlen : r.1.vertices.length = m.vertices.length + 1 := by
    have := congrArg List.length (insertVertexIntoTriangulation_coords fuel m v index r h).1
    simpa [coords] using this
  refine ⟨hlen, ?_⟩
  unfold Mesh.insertVertexIntoTriangulation at h
  dsimp only at h
  unfold enoughPointsForFirstTriangle at h
  simp only [List.length_append, List.length_singleton, decide_eq_true_eq] at h
  by_cases h3 : m.vertices.length + 1 = 3
  · rw [if_pos h3] at h
    simp only [pure, Except.pure, Except.ok.injEq] at h
    rw [← h]
    refine ⟨fun hlt => by omega, fun _ => ?_, fun hge => by omega, fun hge => by omega⟩
    simp [Mesh.createInitialTriangle]
  · rw [if_neg h3] at h
    by_cases h4 : m.vertices.length + 1 > 3
    · rw [if_pos h4] at h
      have hfold : (Mesh.mk (m.vertices ++ [v]) m.triangles m.borders m.curve m.constraints
          m.indexBeforeVoronoi) = m.withVertex v := rfl
      rw [hfold] at h
      cases hidx : (m.withVertex v).isInOneTriangle v with
      | error e => rw [hidx] at h; cases h
      | ok idx =>
        rw [hidx] at h
        simp only [bind, Except.bind] at h
        by_cases hi : idx ≠ -1
        · rw [if_pos hi] at h
          have b := insertPointIntoTriangle_counts fuel (m.withVertex v) v idx index r h
          refine ⟨fun hlt => by omega, fun he => by omega, fun _ _ => b, fun _ hopt => ?_⟩
          simp only [Except.toOption, Option.some.injEq] at hopt
          exact absurd hopt hi
        · rw [if_neg hi] at h
          refine ⟨fun hlt => by omega, fun he => by omega, fun _ hopt => ?_,
            fun _ _ s k hrun => ?_⟩
          · simp only [Except.toOption, ne_eq, Option.some.injEq] at hopt
            exact absurd hopt hi
          · exact insertPointOutside_counts fuel (m.withVertex v) v index r h s k hrun
    · rw [if_neg h4] at h
      simp only [pure, Except.pure, Except.ok.injEq] at h
      rw [← h]
      exact ⟨fun _ => ⟨rfl, rfl⟩, fun he => absurd he h3, fun hge => by omega,
        fun hge => by omega⟩

/-- One call keeps the counting relation, when the inserted vertex, if outside all
triangles, saw a run of border edges. -/
theorem insertVertexIntoTriangulation_countsHold (fuel : Nat) (m : Mesh) (v : Vertex)
    (index : Int) (r : Mesh × Vertex) (hm : countsHold m) (hrun : sawRun m v)
    (h : m.insertVertexIntoTriangulation fuel v index = Except.ok r) : countsHold r.1 := by
  obtain ⟨c0, c1, c2, c3, c4⟩ := insertVertexIntoTriangulation_counts fuel m v index r h
  unfold countsHold eulerCount at hm ⊢
  by_cases hlt : m.vertices.length + 1 < 3
  · obtain ⟨e1, e2⟩ := c1 hlt
    rcases hm with ⟨_, t0, b0⟩ | ⟨hge, _⟩
    · left
      rw [e1, e2]
      exact ⟨by omega, t0, b0⟩
    · omega
  · right
    refine ⟨by omega, ?_⟩
    by_cases h3 : m.vertices.length + 1 = 3
    · obtain ⟨e1, e2⟩ := c2 h3
      rcases hm with ⟨_, t0, b0⟩ | ⟨hge, _⟩
      · omega
      · omega
    · have hge : 3 ≤ m.vertices.length := by omega
      rcases hm with ⟨hl, _, _⟩ | ⟨_, he⟩
      · omega
      · by_cases hopt : ((m.withVertex v).isInOneTriangle v).toOption = some (-1)
        · obtain ⟨s, -, k, -, hsk⟩ := hrun hge hopt
          obtain ⟨e1, e2⟩ := c4 hge hopt s k hsk
          omega
        · obtain ⟨e1, e2⟩ := c3 hge hopt
          rw [e2]
          omega

/-- A sequence of calls keeps the counting relation, when every vertex inserted outside
all triangles saw a run of border edges. -/
theorem insertCalls_countsHold (fuel : Nat) (calls : List (Vertex × Int)) :
    ∀ (m r : Mesh), countsHold m → runsSeen fuel calls m = true →
      insertCalls fuel calls m = Except.ok r → countsHold r := by
  induction calls with
  | nil =>
    intro m r hm _ h
    simp only [insertCalls, pure, Except.pure, Except.ok.injEq] at h
    rw [← h]
    exact hm
  | cons c rest ih =>
    intro m r hm hr h
    unfold insertCalls at h
    unfold runsSeen at hr
    cases h1 : m.insertVertexIntoTriangulation fuel c.1 c.2 with
    | error e => rw [h1] at h; cases h
    | ok r1 =>
      rw [h1] at h hr
      simp only [bind, Except.bind] at h
      simp only [Bool.and_eq_true, decide_eq_true_eq] at hr
      exact ih r1.1 r (insertVertexIntoTriangulation_countsHold fuel m c.1 c.2 r1 hm hr.1 h1)
        hr.2 h

/-- The runs seen along a sequence of calls are seen along each of its prefixes. -/
theorem runsSeen_take (fuel : Nat) (calls : List (Vertex × Int)) :
    ∀ (n : Nat) (m : Mesh), runsSeen fuel calls m = true →
      runsSeen fuel (calls.take n) m = true := by
  induction calls with
  | nil =>
    intro n m _
    simp [runsSeen]
  | cons c rest ih =>
    intro n m hr
    cases n with
    | zero => simp [runsSeen]
    | succ n =>
      rw [List.take_succ_cons]
      unfold runsSeen at hr ⊢
      simp only [Bool.and_eq_true, decide_eq_true_eq] at hr ⊢
      refine ⟨hr.1, ?_⟩
      cases h1 : m.insertVertexIntoTriangulation fuel c.1 c.2 with
      | error e => rfl
      | ok r1 =>
        rw [h1] at hr
        exact ih n r1.1 hr.2

/-! ## Counting invariant (C38) -/

/-- C38: in a mesh built from the empty mesh by calls of `insertVertexIntoTriangulation`,
in which every vertex inserted outside all triangles saw a run of `k` consecutive border
edges (`1 ≤ k`, not the whole border), after every call that leaves three vertices or more
the number of triangles is twice the number of vertices, minus two, minus the number of
border entries.  Call by call: the third vertex makes one triangle and three border entries;
an insertion inside a triangle adds two triangles and leaves the border; an insertion
outside that sees a run of `k` border edges adds `k` triangles and changes the length of
the border by `2 - k`; a flip changes neither the number of triangles nor the border. -/
theorem euler_count (fuel : Nat) (calls : List (Vertex × Int))
    (hruns : runsSeen fuel calls Mesh.init = true) :
    (∀ n r, insertCalls fuel (calls.take n) Mesh.init = Except.ok r →
      3 ≤ r.vertices.length →
      (r.triangles.length : Int) = 2 * (r.vertices.length : Int) - 2 - (r.borders.length : Int)) ∧
    (∀ (m : Mesh) v index r, m.insertVertexIntoTriangulation fuel v index = Except.ok r →
      r.1.vertices.length = m.vertices.length + 1 ∧
      (m.vertices.length + 1 = 3 → r.1.triangles.length = m.triangles.length + 1 ∧
        r.1.borders.length = m.borders.length + 3) ∧
      (3 ≤ m.vertices.length → ((m.withVertex v).isInOneTriangle v).toOption ≠ some (-1) →
        r.1.triangles.length = m.triangles.length + 2 ∧ r.1.borders = m.borders) ∧
      (3 ≤ m.vertices.length → ((m.withVertex v).isInOneTriangle v).toOption = some (-1) →
        ∀ s k, seesRun (m.withVertex v).vertices m.borders v s k →
          r.1.triangles.length = m.triangles.length + k ∧
          r.1.borders.length + k = m.borders.length + 2)) ∧
    (∀ (m : Mesh) f1 f2 r, m.flip f1 f2 = Except.ok r →
      r.triangles.length = m.triangles.length ∧ r.borders = m.borders) := by
  refine ⟨fun n r h h3 => ?_, fun m v index r h => ?_, fun m f1 f2 r h => ?_⟩
  · have hc := insertCalls_countsHold fuel (calls.take n) Mesh.init r
      (Or.inl ⟨by decide, rfl, rfl⟩) (runsSeen_take fuel calls n Mesh.init hruns) h
    rcases hc with ⟨hl, _, _⟩ | ⟨_, he⟩
    · omega
    · exact he
  · obtain ⟨c0, _, c2, c3, c4⟩ := insertVertexIntoTriangulation_counts fuel m v index r h
    exact ⟨c0, c2, c3, c4⟩
  · exact flip_counts m f1 f2 r h

theorem euler_count_witness :
    runsSeen 5 fiveCalls Mesh.init = true ∧
    (fiveCallsBuilt.triangles.length : Int)
      = 2 * (fiveCallsBuilt.vertices.length : Int) - 2 - (fiveCallsBuilt.borders.length : Int) ∧
    fiveCallsBuilt.triangles.length = 4 ∧ fiveCallsBuilt.vertices.length = 5 ∧
    fiveCallsBuilt.borders.length = 4 :=
  ⟨by decide!, (euler_count 5 fiveCalls (by decide!)).1 5 fiveCallsBuilt fiveCallsBuilt_eq
    (by decide), by decide, by decide, by decide⟩

/-! ## Lemmas on repeated flips -/

theorem sameOffPair_turn (m m2 : Mesh) (f1 f2 u1 u2 a b nA nB nC nD : Int)
    (h : sameOffPair m m2 f1 f2 a b u2 u1 nB nC nD nA) :
    sameOffPair m m2 f1 f2 u1 u2 a b nA nB nC nD := by
  intro i t hi1 hi2 hit
  obtain ⟨s, hs, hss, hN, hB, hC, hD, hA⟩ := h i t hi1 hi2 hit
  exact ⟨s, hs, hss, fun h1 h2 h3 h4 => hN h2 h3 h4 h1, hA, hB, hC, hD⟩

theorem sameOffPair_trans (m m2 m3 : Mesh) (f1 f2 u1 u2 a b nA nB nC nD : Int)
    (h1 : sameOffPair m m2 f1 f2 u1 u2 a b nA nB nC nD)
    (h2 : sameOffPair m2 m3 f1 f2 u1 u2 a b nA nB nC nD) :
    sameOffPair m m3 f1 f2 u1 u2 a b nA nB nC nD := by
  intro i t hi1 hi2 hit
  obtain ⟨s, hs, hss, hN, hA, hB, hC, hD⟩ := h1 i t hi1 hi2 hit
  obtain ⟨r, hr, hrs, gN, gA, gB, gC, gD⟩ := h2 i s hi1 hi2 hs
  refine ⟨r, hr, hrs.trans hss, ?_, ?_, ?_, ?_, ?_⟩
  · intro c1 c2 c3 c4
    rw [gN c1 c2 c3 c4, hN c1 c2 c3 c4]
  · intro c
    exact ⟨(gA c).1.trans (hA c).1, (gA c).2.trans (hA c).2⟩
  · intro c
    exact ⟨(gB c).1.trans (hB c).1, (gB c).2.trans (hB c).2⟩
  · intro c
    exact ⟨(gC c).1.trans (hC c).1, (gC c).2.trans (hC c).2⟩
  · intro c
    exact ⟨(gD c).1.trans (hD c).1, (gD c).2.trans (hD c).2⟩

/-- The wiring of two outer neighbors around a vertex goes from an arena to another one in
which they have the same vertices and the same slots off the pair. -/
theorem wiredAround_step (ts ts2 : List TopoTriangle) (n n2 x p y : Int)
    (hb1 : ∀ s, atE ts2 n = Except.ok s →
      ∃ N, atE ts n = Except.ok N ∧ s.toTriangle = N.toTriangle ∧
        s.getOppositeNeighborOf x = N.getOppositeNeighborOf x)
    (hb2 : ∀ s, atE ts2 n2 = Except.ok s →
      ∃ N, atE ts n2 = Except.ok N ∧ s.toTriangle = N.toTriangle ∧
        s.getOppositeNeighborOf y = N.getOppositeNeighborOf y)
    (hw : wiredAround ts n n2 x p y) : wiredAround ts2 n n2 x p y := by
  intro s s2 v hs hs2 hv hv2 hvp
  obtain ⟨N, hN, hsh, e1⟩ := hb1 s hs
  obtain ⟨N2, hN2, hsh2, e2⟩ := hb2 s2 hs2
  obtain ⟨w1, w2⟩ := hw N N2 v hN hN2 ((hasVertex_of_shape hsh v).mp hv)
    ((hasVertex_of_shape hsh2 v).mp hv2) hvp
  exact ⟨e1.trans w1, e2.trans w2⟩

/-- Reading an outer neighbor after the flip. -/
theorem outer_back (m m2 : Mesh) (f1 f2 n x y z1 z2 : Int)
    (ho : outerNeighbor m.triangles n x y z1 z2) (hn1 : n ≠ f1) (hn2 : n ≠ f2)
    (hother : ∀ i t, i ≠ f1 → i ≠ f2 → atE m.triangles i = Except.ok t →
      ∃ s, atE m2.triangles i = Except.ok s ∧ s.toTriangle = t.toTriangle)
    (hk : keepsSides m.triangles m2.triangles n x y) :
    ∀ s, atE m2.triangles n = Except.ok s →
      ∃ N, atE m.triangles n = Except.ok N ∧ s.toTriangle = N.toTriangle ∧
        s.getOppositeNeighborOf x = N.getOppositeNeighborOf x ∧
        s.getOppositeNeighborOf y = N.getOppositeNeighborOf y := by
  intro s hs
  rcases ho with hneg | ⟨N, hN, -, -, -, -, -⟩
  · rw [hneg] at hs
    simp [atE] at hs
  · obtain ⟨s2, hs2, hsh⟩ := hother n N hn1 hn2 hN
    rw [hs] at hs2
    cases hs2
    exact ⟨N, hN, hsh, (hk N s hN hs).1, (hk N s hN hs).2⟩

/-- One flip from a configuration `flipReady` in which the outer neighbors that share an
edge hold each other across it: what `flip_step` says, the same wiring of the outer
neighbors after the flip, and what the flip keeps off the pair. -/
theorem flip_turn (m : Mesh) (f1 f2 u1 u2 a b nA nB nC nD : Int)
    (h : flipReady m f1 f2 u1 u2 a b nA nB nC nD)
    (hw : outerWired m u1 u2 a b nA nB nC nD) :
    ∃ m2, m.flip f1 f2 = Except.ok m2 ∧
      coords m2.vertices = coords m.vertices ∧
      (∃ s1 s2, atE m2.triangles f1 = Except.ok s1 ∧ atE m2.triangles f2 = Except.ok s2 ∧
        s1.toTriangle = { v0 := u1, v1 := a, v2 := u2 } ∧
        s2.toTriangle = { v0 := u2, v1 := b, v2 := u1 }) ∧
      flipReady m2 f1 f2 a b u2 u1 nB nC nD nA ∧
      flipWired m2 f1 f2 a b u2 u1 nB nC nD nA ∧
      outerWired m2 a b u2 u1 nB nC nD nA ∧
      sameOffPair m m2 f1 f2 u1 u2 a b nA nB nC nD := by
  obtain ⟨m2, hflip, hc, htri, hother, hready, hwired, hrest, hkeep⟩ :=
    flip_step m f1 f2 u1 u2 a b nA nB nC nD h
  obtain ⟨kA, kB, kC, kD⟩ := hkeep hw
  obtain ⟨wAB, wBC, wCD, wDA⟩ := hw
  obtain ⟨-, -, t1, t2, h1, h2, hd1, hd2, hr1, hr2, -, -, -, -, -, -, hA, hB, hC, hD⟩ := h
  obtain ⟨-, m1a, m1b, -, -, -⟩ := rotation_has t1.toTriangle u1 a b hd1 hr1
  obtain ⟨-, m2b, m2a, -, -, -⟩ := rotation_has t2.toTriangle u2 b a hd2 hr2
  have hAf1 := outer_ne _ nA u1 a b u2 hA f1 t1 h1 (Or.inl m1b)
  have hAf2 := outer_ne _ nA u1 a b u2 hA f2 t2 h2 (Or.inl m2b)
  have hBf1 := outer_ne _ nB a u2 b u1 hB f1 t1 h1 (Or.inl m1b)
  have hBf2 := outer_ne _ nB a u2 b u1 hB f2 t2 h2 (Or.inl m2b)
  have hCf1 := outer_ne _ nC u2 b a u1 hC f1 t1 h1 (Or.inl m1a)
  have hCf2 := outer_ne _ nC u2 b a u1 hC f2 t2 h2 (Or.inl m2a)
  have hDf1 := outer_ne _ nD b u1 a u2 hD f1 t1 h1 (Or.inl m1a)
  have hDf2 := outer_ne _ nD b u1 a u2 hD f2 t2 h2 (Or.inl m2a)
  have bA := outer_back m m2 f1 f2 nA u1 a b u2 hA hAf1 hAf2 hother kA
  have bB := outer_back m m2 f1 f2 nB a u2 b u1 hB hBf1 hBf2 hother kB
  have bC := outer_back m m2 f1 f2 nC u2 b a u1 hC hCf1 hCf2 hother kC
  have bD := outer_back m m2 f1 f2 nD b u1 a u2 hD hDf1 hDf2 hother kD
  refine ⟨m2, hflip, hc, htri, hready, hwired, ⟨?_, ?_, ?_, ?_⟩, ?_⟩
  · exact wiredAround_step _ _ nB nC a u2 b
      (fun s hs => (bB s hs).imp (fun N hN => ⟨hN.1, hN.2.1, hN.2.2.1⟩))
      (fun s hs => (bC s hs).imp (fun N hN => ⟨hN.1, hN.2.1, hN.2.2.2⟩)) wBC
  · exact wiredAround_step _ _ nC nD u2 b u1
      (fun s hs => (bC s hs).imp (fun N hN => ⟨hN.1, hN.2.1, hN.2.2.1⟩))
      (fun s hs => (bD s hs).imp (fun N hN => ⟨hN.1, hN.2.1, hN.2.2.2⟩)) wCD
  · exact wiredAround_step _ _ nD nA b u1 a
      (fun s hs => (bD s hs).imp (fun N hN => ⟨hN.1, hN.2.1, hN.2.2.1⟩))
      (fun s hs => (bA s hs).imp (fun N hN => ⟨hN.1, hN.2.1, hN.2.2.2⟩)) wDA
  · exact wiredAround_step _ _ nA nB u1 a u2
      (fun s hs => (bA s hs).imp (fun N hN => ⟨hN.1, hN.2.1, hN.2.2.1⟩))
      (fun s hs => (bB s hs).imp (fun N hN => ⟨hN.1, hN.2.1, hN.2.2.2⟩)) wAB
  · intro i t hi1 hi2 hit
    obtain ⟨s, hs, hsh⟩ := hother i t hi1 hi2 hit
    refine ⟨s, hs, hsh, ?_, ?_, ?_, ?_, ?_⟩
    · intro c1 c2 c3 c4
      have := hrest i t hi1 hi2 c1 c2 c3 c4 hit
      rw [hs] at this
      exact Except.ok.inj this
    · intro c
      subst c
      exact kA t s hit hs
    · intro c
      subst c
      exact kB t s hit hs
    · intro c
      subst c
      exact kC t s hit hs
    · intro c
      subst c
      exact kD t s hit hs

theorem vertices_among (t : Triangle) (x y v : Int) (hx : t.hasVertex x)
    (hy : t.hasVertex y) (hv : t.hasVertex v) (hxy : x ≠ y) (hvx : v ≠ x) (hvy : v ≠ y) :
    ∀ w, t.hasVertex w → w = x ∨ w = y ∨ w = v := by
  intro w hw
  unfold Triangle.hasVertex at hx hy hv hw
  omega

/-- Two triangles with the same vertices, stored in the same slots, and the same neighbor
opposite each vertex are the same. -/
theorem eq_of_opposites (t s : TopoTriangle) (hd : t.distinct)
    (hsh : s.toTriangle = t.toTriangle)
    (h : ∀ w, t.hasVertex w → s.getOppositeNeighborOf w = t.getOppositeNeighborOf w) :
    s = t := by
  have hds : s.distinct := by
    show Triangle.distinct s.toTriangle
    rw [hsh]
    exact hd
  obtain ⟨a0, a1, a2⟩ := opposite_slots t hd
  obtain ⟨b0, b1, b2⟩ := opposite_slots s hds
  have e0 := h t.v0 (Or.inl rfl)
  have e1 := h t.v1 (Or.inr (Or.inl rfl))
  have e2 := h t.v2 (Or.inr (Or.inr rfl))
  obtain ⟨⟨v0, v1, v2⟩, n0, n1, n2⟩ := t
  obtain ⟨⟨w0, w1, w2⟩, k0, k1, k2⟩ := s
  simp only [Triangle.mk.injEq] at hsh
  obtain ⟨c0, c1, c2⟩ := hsh
  subst c0 c1 c2
  simp only at a0 a1 a2 b0 b1 b2 e0 e1 e2
  rw [a0, b0] at e0
  rw [a1, b1] at e1
  rw [a2, b2] at e2
  subst e0 e1 e2
  rfl

/-- Two rotations of the same triple with the same neighbor opposite each of the three
vertices: one is a rotation of the other, with the same neighbor opposite every vertex. -/
theorem rotation_same (t s : TopoTriangle) (x y z : Int) (hd : t.distinct)
    (ht : t.isRotationOf x y z) (hs : s.isRotationOf x y z)
    (ex : s.getOppositeNeighborOf x = t.getOppositeNeighborOf x)
    (ey : s.getOppositeNeighborOf y = t.getOppositeNeighborOf y)
    (ez : s.getOppositeNeighborOf z = t.getOppositeNeighborOf z) :
    s.isRotationOf t.v0 t.v1 t.v2 ∧
      ∀ w, s.getOppositeNeighborOf w = t.getOppositeNeighborOf w := by
  obtain ⟨tx, ty, tz, hxy, hyz, hxz⟩ := rotation_has t.toTriangle x y z hd ht
  constructor
  · rcases ht with ⟨r0, r1, r2⟩ | ⟨r0, r1, r2⟩ | ⟨r0, r1, r2⟩ <;>
      rcases hs with ⟨q0, q1, q2⟩ | ⟨q0, q1, q2⟩ | ⟨q0, q1, q2⟩ <;>
      simp only [Triangle.isRotationOf, r0, r1, r2, q0, q1, q2, and_self, true_or, or_true]
  · intro w
    by_cases hw : t.hasVertex w
    · rcases vertices_among t.toTriangle x y z tx ty tz hxy (Ne.symm hxz) (Ne.symm hyz) w hw
        with h | h | h <;> subst h <;> assumption
    · have hw2 : ¬ s.hasVertex w := by
        intro hsw
        apply hw
        apply (rotation_mem t.toTriangle x y z w ht).mpr
        exact (rotation_mem s.toTriangle x y z w hs).mp hsw
      have f1 := (findVertexIndex_eq_neg_one t.toTriangle w).mpr hw
      have f2 := (findVertexIndex_eq_neg_one s.toTriangle w).mpr hw2
      simp only [TopoTriangle.getOppositeNeighborOf]
      rw [show s.findVertexIndex w = -1 from f2, show t.findVertexIndex w = -1 from f1]
      rfl

/-- After flips that keep the slots of the outer neighbors off the pair, from symmetric
wiring to symmetric wiring, every triangle off the pair is as it was. -/
theorem restored_off_pair (m m4 : Mesh) (f1 f2 u1 u2 a b nA nB nC nD : Int)
    (h : flipReady m f1 f2 u1 u2 a b nA nB nC nD)
    (hw : flipWired m f1 f2 u1 u2 a b nA nB nC nD)
    (hw4 : flipWired m4 f1 f2 u1 u2 a b nA nB nC nD)
    (hs : sameOffPair m m4 f1 f2 u1 u2 a b nA nB nC nD) :
    ∀ i t, i ≠ f1 → i ≠ f2 → atE m.triangles i = Except.ok t →
      atE m4.triangles i = Except.ok t := by
  obtain ⟨-, -, t1, t2, h1, h2, hd1, hd2, hr1, hr2, -, -, -, -, -, -, hA, hB, hC, hD⟩ := h
  obtain ⟨-, -, -, hu1a, hab, hu1b⟩ := rotation_has t1.toTriangle u1 a b hd1 hr1
  obtain ⟨-, -, -, hu2b, -, hu2a⟩ := rotation_has t2.toTriangle u2 b a hd2 hr2
  obtain ⟨wA, wB, wC, wD⟩ := hw
  obtain ⟨vA, vB, vC, vD⟩ := hw4
  have outer : ∀ n x y z1 z2 f (t s : TopoTriangle), x ≠ y →
      outerNeighbor m.triangles n x y z1 z2 →
      holdsAcross m.triangles n x y f → holdsAcross m4.triangles n x y f →
      atE m.triangles n = Except.ok t → atE m4.triangles n = Except.ok s →
      s.toTriangle = t.toTriangle →
      s.getOppositeNeighborOf x = t.getOppositeNeighborOf x →
      s.getOppositeNeighborOf y = t.getOppositeNeighborOf y → s = t := by
    intro n x y z1 z2 f t s hxy ho hh hh4 ht hs4 hsh ex ey
    rcases ho with hneg | ⟨N, hN, hd, hx, hy, -, -⟩
    · rw [hneg] at ht
      simp [atE] at ht
    rw [ht] at hN
    cases hN
    obtain ⟨v, hv, hvx, hvy⟩ := third_vertex t x y hd
    apply eq_of_opposites t s hd hsh
    intro w hw
    rcases vertices_among t.toTriangle x y v hx hy hv hxy hvx hvy w hw with e | e | e <;> subst e
    · exact ex
    · exact ey
    · rw [hh t ht w hv hvx hvy, hh4 s hs4 w ((hasVertex_of_shape hsh w).mpr hv) hvx hvy]
  intro i t hi1 hi2 hit
  obtain ⟨s, hs4, hsh, hN, kA, kB, kC, kD⟩ := hs i t hi1 hi2 hit
  rw [hs4]
  congr 1
  by_cases cA : i = nA
  · subst cA
    exact outer _ u1 a b u2 f1 t s hu1a hA wA vA hit hs4 hsh (kA rfl).1 (kA rfl).2
  by_cases cB : i = nB
  · subst cB
    exact outer _ a u2 b u1 f2 t s (Ne.symm hu2a) hB wB vB hit hs4 hsh (kB rfl).1 (kB rfl).2
  by_cases cC : i = nC
  · subst cC
    exact outer _ u2 b a u1 f2 t s hu2b hC wC vC hit hs4 hsh (kC rfl).1 (kC rfl).2
  by_cases cD : i = nD
  · subst cD
    exact outer _ b u1 a u2 f1 t s (Ne.symm hu1b) hD wD vD hit hs4 hsh (kD rfl).1 (kD rfl).2
  exact hN cA cB cC cD

theorem wiredAround_none_left (ts : List TopoTriangle) (n2 x p y : Int) :
    wiredAround ts (-1) n2 x p y := by
  intro N N2 v hN
  simp [atE] at hN

theorem wiredAround_none_right (ts : List TopoTriangle) (n x p y : Int) :
    wiredAround ts n (-1) x p y := by
  intro N N2 v _ hN2
  simp [atE] at hN2

theorem wiredAround_at (ts : List TopoTriangle) (n n2 x p y : Int) (N N2 : TopoTriangle)
    (hN : atE ts n = Except.ok N) (hN2 : atE ts n2 = Except.ok N2)
    (h : N.getOppositeNeighborOf x = n2 ∧ N2.getOppositeNeighborOf y = n) :
    wiredAround ts n n2 x p y := by
  intro M M2 v hM hM2 _ _ _
  rw [hN] at hM
  rw [hN2] at hM2
  cases hM
  cases hM2
  exact h

theorem fiveCallsBuilt_outerWired : outerWired fiveCallsBuilt 1 2 4 3 (-1) (-1) 1 2 :=
  ⟨wiredAround_none_left _ _ _ _ _, wiredAround_none_left _ _ _ _ _,
    wiredAround_at _ 1 2 2 3 1 { v0 := 3, v1 := 2, v2 := 0, n0 := -1, n1 := 2, n2 := 3 }
      { v0 := 3, v1 := 0, v2 := 1, n0 := -1, n1 := 0, n2 := 1 } rfl rfl
      ⟨by decide, by decide⟩,
    wiredAround_none_right _ _ _ _ _⟩

theorem overlapMesh6_built (fuel : Nat) :
    insertSequence (5 + fuel) (overlapPoints ++ [Vertex.new 1 2 0]) Mesh.init
      = Except.ok overlapMesh6 := by
  obtain ⟨m, hrun, hm⟩ := insertSequence_eval 5 fuel (overlapPoints ++ [Vertex.new 1 2 0])
    id overlapMesh6 (by decide!)
  rw [hrun]
  exact congrArg Except.ok hm

theorem overlapMesh6_claimed : flipClaimed overlapMesh6 1 4 0 5 3 2 2 5 (-1) 3 := by
  refine ⟨by decide, ?_, ⟨{ v0 := 3, v1 := 2, v2 := 0, n0 := 3, n1 := 2, n2 := 4 },
    { v0 := 2, v1 := 3, v2 := 5, n0 := 5, n1 := -1, n2 := 1 }, rfl, rfl, by decide, by decide,
    by decide, by decide, by decide, by decide, by decide, by decide, by decide, by decide⟩,
    by decide, ?_, ?_, ?_, Or.inl rfl, ?_⟩
  · intro w hw
    rcases hw with rfl | rfl | rfl | rfl <;> exact ⟨_, rfl⟩
  · intro n hn
    rcases hn with rfl | rfl | rfl | rfl <;> decide
  · refine Or.inr ⟨{ v0 := 4, v1 := 3, v2 := 0, n0 := 1, n1 := 0, n2 := 5 }, rfl, by decide,
      by decide, by decide, ?_⟩
    intro w hw h1 h2
    rcases hw with hw | hw | hw <;> subst hw
    · decide
    · exact absurd rfl h2
    · exact absurd rfl h1
  · refine Or.inr ⟨{ v0 := 3, v1 := 4, v2 := 5, n0 := -1, n1 := 4, n2 := 2 }, rfl, by decide,
      by decide, by decide, ?_⟩
    intro w hw h1 h2
    rcases hw with hw | hw | hw <;> subst hw
    · exact absurd rfl h1
    · decide
    · exact absurd rfl h2
  · refine Or.inr ⟨{ v0 := 0, v1 := 2, v2 := 4, n0 := -1, n1 := -1, n2 := 1 }, rfl, by decide,
      by decide, by decide, ?_⟩
    intro w hw h1 h2
    rcases hw with hw | hw | hw <;> subst hw
    · exact absurd rfl h2
    · exact absurd rfl h1
    · decide

theorem overlapMesh6_apart : outerApart overlapMesh6 0 5 3 2 2 5 (-1) 3 :=
  ⟨lacks_at _ 2 2 5 { v0 := 4, v1 := 3, v2 := 0, n0 := 1, n1 := 0, n2 := 5 } rfl
      (by decide) (by decide),
    lacks_at _ 5 2 0 { v0 := 3, v1 := 4, v2 := 5, n0 := -1, n1 := 4, n2 := 2 } rfl
      (by decide) (by decide),
    lacks_none _ _ _,
    lacks_at _ 3 3 5 { v0 := 0, v1 := 2, v2 := 4, n0 := -1, n1 := -1, n2 := 1 } rfl
      (by decide) (by decide)⟩

/-! ## Repeated flips (C39) -/

/-- C39 (counterexample).  First, on `overlapMesh`, built by the insertion of (4,3), (6,6),
(5,2), (3,3), (4,5): the triangles 1 = (3,2,0) and 2 = (4,3,0) are mutual neighbors with
symmetrically wired, distinct outer neighbors, and after two calls of `flip 1 2` the
triangle 1 is (-1,0,-1), not a triangle on the vertices 0, 3, 4 that triangle 2 had.
Second, on `overlapMesh6`, built by the insertion of the same points followed by (1,2): the
triangles 1 = (3,2,0) and 4 = (2,3,5) are mutual neighbors with symmetrically wired,
distinct outer neighbors 2, 5 and 3, none of which has a third of the vertices 0, 5, 3, 2;
four calls of `flip 1 4` return, and leave the triangle 2 with the triangle 3 in the slot
where it held the triangle 0, and the triangle 3 with the triangle 2 in a slot that was
empty.  (The outer neighbors 3 = (0,2,4) and 2 = (4,3,0) share the edge {0,4} and did not
hold each other across it.) -/
theorem four_flips_change_slots :
    ((∀ fuel, insertSequence (5 + fuel) overlapPoints Mesh.init = Except.ok overlapMesh) ∧
      flipClaimed overlapMesh 1 2 2 4 0 3 3 0 (-1) (-1) ∧
      ∃ m2, (overlapMesh.flip 1 2 >>= fun m1 => m1.flip 1 2) = Except.ok m2 ∧
        atE m2.triangles 1
          = Except.ok { v0 := -1, v1 := 0, v2 := -1, n0 := -1, n1 := -1, n2 := -1 }) ∧
    ((∀ fuel, insertSequence (5 + fuel) (overlapPoints ++ [Vertex.new 1 2 0]) Mesh.init
        = Except.ok overlapMesh6) ∧
      flipClaimed overlapMesh6 1 4 0 5 3 2 2 5 (-1) 3 ∧
      outerApart overlapMesh6 0 5 3 2 2 5 (-1) 3 ∧
      ¬ outerWired overlapMesh6 0 5 3 2 2 5 (-1) 3 ∧
      ∃ m4, (overlapMesh6.flip 1 4 >>= fun m1 => m1.flip 1 4 >>= fun m2 =>
          m2.flip 1 4 >>= fun m3 => m3.flip 1 4) = Except.ok m4 ∧
        atE overlapMesh6.triangles 2
          = Except.ok { v0 := 4, v1 := 3, v2 := 0, n0 := 1, n1 := 0, n2 := 5 } ∧
        atE m4.triangles 2
          = Except.ok { v0 := 4, v1 := 3, v2 := 0, n0 := 1, n1 := 3, n2 := 5 } ∧
        atE overlapMesh6.triangles 3
          = Except.ok { v0 := 0, v1 := 2, v2 := 4, n0 := -1, n1 := -1, n2 := 1 } ∧
        atE m4.triangles 3
          = Except.ok { v0 := 0, v1 := 2, v2 := 4, n0 := -1, n1 := 2, n2 := 1 }) := by
  refine ⟨⟨overlapMesh_built, overlapMesh_claimed, ?_⟩,
    ⟨overlapMesh6_built, overlapMesh6_claimed, overlapMesh6_apart, ?_, ?_⟩⟩
  · have h2 : (overlapMesh.flip 1 2 >>= fun m1 => m1.flip 1 2) = Except.ok
        { overlapMesh with triangles :=
          [ { v0 := 0, v1 := 1, v2 := 4, n0 := -1, n1 := 3, n2 := -1 },
            { v0 := -1, v1 := 0, v2 := -1, n0 := -1, n1 := -1, n2 := -1 },
            { v0 := -1, v1 := 0, v2 := -1, n0 := -1, n1 := -1, n2 := -1 },
            { v0 := 0, v1 := 2, v2 := 4, n0 := 3, n1 := 3, n2 := 3 } ] } :=
      ok_of_toOption _ _ (by decide!)
    exact ⟨_, h2, rfl⟩
  · intro hw
    have := (hw.2.2.2 { v0 := 0, v1 := 2, v2 := 4, n0 := -1, n1 := -1, n2 := 1 }
      { v0 := 4, v1 := 3, v2 := 0, n0 := 1, n1 := 0, n2 := 5 } 4 rfl rfl (by decide)
      (by decide) (by decide)).1
    revert this
    decide
  · have h4 : (overlapMesh6.flip 1 4 >>= fun m1 => m1.flip 1 4 >>= fun m2 =>
          m2.flip 1 4 >>= fun m3 => m3.flip 1 4) = Except.ok
        { overlapMesh6 with triangles :=
          [ { v0 := 0, v1 := 1, v2 := 4, n0 := -1, n1 := 2, n2 := -1 },
            { v0 := 2, v1 := 0, v2 := 3, n0 := 2, n1 := 4, n2 := 3 },
            { v0 := 4, v1 := 3, v2 := 0, n0 := 1, n1 := 3, n2 := 5 },
            { v0 := 0, v1 := 2, v2 := 4, n0 := -1, n1 := 2, n2 := 1 },
            { v0 := 3, v1 := 5, v2 := 2, n0 := -1, n1 := 1, n2 := 5 },
            { v0 := 3, v1 := 4, v2 := 5, n0 := -1, n1 := 4, n2 := 2 } ] } :=
      ok_of_toOption _ _ (by decide!)
    exact ⟨_, h4, rfl, rfl, rfl, rfl⟩

/-- C39 (amended): let the triangles `f1`, a rotation of `(u1, a, b)`, and `f2`, a rotation
of `(u2, b, a)`, be mutual neighbors with symmetrically wired, pairwise distinct outer
neighbors (`flipClaimed`), none of which has a third of the four vertices (`outerApart`),
and let the outer neighbors that share an edge hold each other across it (`outerWired`).
Then `flip f1 f2` can be performed four times.  After two flips `f1` is `(a, u2, b)`, a
rotation of the triple `(u2, b, a)` that `f2` had, and `f2` is `(b, u1, a)`, a rotation of
the triple `(u1, a, b)` that `f1` had.  After four flips `f1` and `f2` are rotations of
their first triples with, opposite every vertex, the neighbor they had at first; every
other triangle is as it was at first, vertices and neighbor slots; the number of triangles,
the border and the coordinates of the vertices are as at first. -/
theorem flip_four_times (m : Mesh) (f1 f2 u1 u2 a b nA nB nC nD : Int)
    (hc : flipClaimed m f1 f2 u1 u2 a b nA nB nC nD)
    (ha : outerApart m u1 u2 a b nA nB nC nD)
    (hw : outerWired m u1 u2 a b nA nB nC nD) :
    ∃ m1 m2 m3 m4, m.flip f1 f2 = Except.ok m1 ∧ m1.flip f1 f2 = Except.ok m2 ∧
      m2.flip f1 f2 = Except.ok m3 ∧ m3.flip f1 f2 = Except.ok m4 ∧
      (∃ s1 s2, atE m2.triangles f1 = Except.ok s1 ∧ atE m2.triangles f2 = Except.ok s2 ∧
        s1.toTriangle = { v0 := a, v1 := u2, v2 := b } ∧
        s2.toTriangle = { v0 := b, v1 := u1, v2 := a } ∧
        s1.isRotationOf u2 b a ∧ s2.isRotationOf u1 a b) ∧
      (∃ s1 s2, atE m4.triangles f1 = Except.ok s1 ∧ atE m4.triangles f2 = Except.ok s2 ∧
        s1.toTriangle = { v0 := b, v1 := u1, v2 := a } ∧
        s2.toTriangle = { v0 := a, v1 := u2, v2 := b } ∧
        s1.isRotationOf u1 a b ∧ s2.isRotationOf u2 b a) ∧
      (∀ t1 t2, atE m.triangles f1 = Except.ok t1 → atE m.triangles f2 = Except.ok t2 →
        ∃ s1 s2, atE m4.triangles f1 = Except.ok s1 ∧ atE m4.triangles f2 = Except.ok s2 ∧
          s1.isRotationOf t1.v0 t1.v1 t1.v2 ∧ s2.isRotationOf t2.v0 t2.v1 t2.v2 ∧
          (∀ w, s1.getOppositeNeighborOf w = t1.getOppositeNeighborOf w) ∧
          (∀ w, s2.getOppositeNeighborOf w = t2.getOppositeNeighborOf w)) ∧
      (∀ i t, i ≠ f1 → i ≠ f2 → atE m.triangles i = Except.ok t →
        atE m4.triangles i = Except.ok t) ∧
      m4.triangles.length = m.triangles.length ∧ m4.borders = m.borders ∧
      flipReady m4 f1 f2 u1 u2 a b nA nB nC nD ∧
      flipWired m4 f1 f2 u1 u2 a b nA nB nC nD ∧
      coords m4.vertices = coords m.vertices := by
  obtain ⟨h, hwd⟩ := flipReady_of_claimed m f1 f2 u1 u2 a b nA nB nC nD hc ha
  obtain ⟨m1, hf1, hc1, -, hr1, -, hw1, hs1⟩ := flip_turn m f1 f2 u1 u2 a b nA nB nC nD h hw
  obtain ⟨m2, hf2, hc2, ⟨p1, p2, hp1, hp2, hps1, hps2⟩, hr2, -, hw2, hs2⟩ :=
    flip_turn m1 f1 f2 a b u2 u1 nB nC nD nA hr1 hw1
  obtain ⟨m3, hf3, hc3, -, hr3, -, hw3, hs3⟩ :=
    flip_turn m2 f1 f2 u2 u1 b a nC nD nA nB hr2 hw2
  obtain ⟨m4, hf4, hc4, ⟨q1, q2, hq1, hq2, hqs1, hqs2⟩, hr4, hw4, -, hs4⟩ :=
    flip_turn m3 f1 f2 b a u1 u2 nD nA nB nC hr3 hw3
  have g2 := sameOffPair_turn m1 m2 f1 f2 u1 u2 a b nA nB nC nD hs2
  have g3 := sameOffPair_turn m2 m3 f1 f2 u1 u2 a b nA nB nC nD
    (sameOffPair_turn m2 m3 f1 f2 a b u2 u1 nB nC nD nA hs3)
  have g4 := sameOffPair_turn m3 m4 f1 f2 u1 u2 a b nA nB nC nD
    (sameOffPair_turn m3 m4 f1 f2 a b u2 u1 nB nC nD nA
      (sameOffPair_turn m3 m4 f1 f2 u2 u1 b a nC nD nA nB hs4))
  have gall := sameOffPair_trans _ _ _ f1 f2 u1 u2 a b nA nB nC nD
    (sameOffPair_trans _ _ _ f1 f2 u1 u2 a b nA nB nC nD
      (sameOffPair_trans _ _ _ f1 f2 u1 u2 a b nA nB nC nD hs1 g2) g3) g4
  have l1 := flip_counts m f1 f2 m1 hf1
  have l2 := flip_counts m1 f1 f2 m2 hf2
  have l3 := flip_counts m2 f1 f2 m3 hf3
  have l4 := flip_counts m3 f1 f2 m4 hf4
  refine ⟨m1, m2, m3, m4, hf1, hf2, hf3, hf4,
    ⟨p1, p2, hp1, hp2, hps1, hps2, ?_, ?_⟩, ⟨q1, q2, hq1, hq2, hqs1, hqs2, ?_, ?_⟩, ?_,
    restored_off_pair m m4 f1 f2 u1 u2 a b nA nB nC nD h hwd hw4 gall,
    by rw [l4.1, l3.1, l2.1, l1.1], by rw [l4.2, l3.2, l2.2, l1.2],
    hr4, hw4, hc4.trans (hc3.trans (hc2.trans hc1))⟩
  · show Triangle.isRotationOf p1.toTriangle u2 b a
    rw [hps1]
    exact Or.inr (Or.inr ⟨rfl, rfl, rfl⟩)
  · show Triangle.isRotationOf p2.toTriangle u1 a b
    rw [hps2]
    exact Or.inr (Or.inr ⟨rfl, rfl, rfl⟩)
  · show Triangle.isRotationOf q1.toTriangle u1 a b
    rw [hqs1]
    exact Or.inr (Or.inr ⟨rfl, rfl, rfl⟩)
  · show Triangle.isRotationOf q2.toTriangle u2 b a
    rw [hqs2]
    exact Or.inr (Or.inr ⟨rfl, rfl, rfl⟩)
  · intro t1 t2 ht1 ht2
    obtain ⟨-, -, x1, x2, hx1, hx2, hd1, hd2, hrot1, hrot2, a1, a2, a3, a4, a5, a6, -, -, -, -⟩ := h
    rw [ht1] at hx1
    rw [ht2] at hx2
    cases hx1
    cases hx2
    obtain ⟨-, -, y1, y2, hy1, hy2, -, -, hrs1, hrs2, b1, b2, b3, b4, b5, b6, -, -, -, -⟩ := hr4
    obtain ⟨r1, r2⟩ := rotation_same t1 y1 u1 a b hd1 hrot1 hrs1 (b1.trans a1.symm)
      (b2.trans a2.symm) (b3.trans a3.symm)
    obtain ⟨r3, r4⟩ := rotation_same t2 y2 u2 b a hd2 hrot2 hrs2 (b4.trans a4.symm)
      (b5.trans a5.symm) (b6.trans a6.symm)
    exact ⟨y1, y2, hy1, hy2, r1, r3, r2, r4⟩

/-- Witness of C39 (amended) on the triangles 0 = (3,1,4) and 3 = (4,2,3) of
`fiveCallsBuilt`, whose outer neighbors 1 = (3,2,0) and 2 = (3,0,1) share the edge {3,0}
and hold each other across it: after two flips the pair is (4,2,3) and (3,1,4), after four
flips (3,1,4) and (4,2,3) again, and the triangles 1 and 2 are as at first. -/
theorem flip_four_times_witness :
    flipClaimed fiveCallsBuilt 0 3 1 2 4 3 (-1) (-1) 1 2 ∧
    outerApart fiveCallsBuilt 1 2 4 3 (-1) (-1) 1 2 ∧
    outerWired fiveCallsBuilt 1 2 4 3 (-1) (-1) 1 2 ∧
    ∃ m1 m2 m3 m4, fiveCallsBuilt.flip 0 3 = Except.ok m1 ∧ m1.flip 0 3 = Except.ok m2 ∧
      m2.flip 0 3 = Except.ok m3 ∧ m3.flip 0 3 = Except.ok m4 ∧
      (∃ s1 s2, atE m2.triangles 0 = Except.ok s1 ∧ atE m2.triangles 3 = Except.ok s2 ∧
        s1.toTriangle = { v0 := 4, v1 := 2, v2 := 3 } ∧
        s2.toTriangle = { v0 := 3, v1 := 1, v2 := 4 } ∧
        s1.isRotationOf 2 3 4 ∧ s2.isRotationOf 1 4 3) ∧
      (∃ s1 s2, atE m4.triangles 0 = Except.ok s1 ∧ atE m4.triangles 3 = Except.ok s2 ∧
        s1.toTriangle = { v0 := 3, v1 := 1, v2 := 4 } ∧
        s2.toTriangle = { v0 := 4, v1 := 2, v2 := 3 } ∧
        s1.isRotationOf 1 4 3 ∧ s2.isRotationOf 2 3 4) ∧
      (∀ t1 t2, atE fiveCallsBuilt.triangles 0 = Except.ok t1 →
        atE fiveCallsBuilt.triangles 3 = Except.ok t2 →
        ∃ s1 s2, atE m4.triangles 0 = Except.ok s1 ∧ atE m4.triangles 3 = Except.ok s2 ∧
          s1.isRotationOf t1.v0 t1.v1 t1.v2 ∧ s2.isRotationOf t2.v0 t2.v1 t2.v2 ∧
          (∀ w, s1.getOppositeNeighborOf w = t1.getOppositeNeighborOf w) ∧
          (∀ w, s2.getOppositeNeighborOf w = t2.getOppositeNeighborOf w)) ∧
      (∀ i t, i ≠ 0 → i ≠ 3 → atE fiveCallsBuilt.triangles i = Except.ok t →
        atE m4.triangles i = Except.ok t) ∧
      m4.triangles.length = fiveCallsBuilt.triangles.length ∧
      m4.borders = fiveCallsBuilt.borders ∧
      flipReady m4 0 3 1 2 4 3 (-1) (-1) 1 2 ∧
      flipWired m4 0 3 1 2 4 3 (-1) (-1) 1 2 ∧
      coords m4.vertices = coords fiveCallsBuilt.vertices :=
  ⟨fiveCallsBuilt_claimed, fiveCallsBuilt_apart, fiveCallsBuilt_outerWired,
    flip_four_times fiveCallsBuilt 0 3 1 2 4 3 (-1) (-1) 1 2 fiveCallsBuilt_claimed
      fiveCallsBuilt_apart fiveCallsBuilt_outerWired⟩

/-! ## Lemmas on the in-circle test across an edge -/

theorem inCircleDet_swap_pairs (a b c d : Pvertex3D) :
    inCircleDet b a d c = inCircleDet a b c d := by
  simp only [inCircleDet, det]
  ring

theorem inCircleDet_rotate (a b c d : Pvertex3D) :
    inCircleDet b c a d = inCircleDet a b c d := by
  simp only [inCircleDet, det]
  ring

theorem isInSurroundingCircle_rotate (a b c d : Pvertex3D) :
    isInSurroundingCircle b c a d = isInSurroundingCircle a b c d := by
  rw [isInSurroundingCircle_eq, isInSurroundingCircle_eq, inCircleDet_rotate]

theorem getVertexOutsideOf_third (N : TopoTriangle) (a b d : Int) (hdN : N.distinct)
    (hNa : N.hasVertex a) (hNb : N.hasVertex b) (hNd : N.hasVertex d)
    (hab : a ≠ b) (hda : d ≠ a) (hdb : d ≠ b) :
    N.getVertexOutsideOf { a := a, b := b } = d := by
  obtain ⟨⟨w0, w1, w2⟩, k0, k1, k2⟩ := N
  simp only [Triangle.distinct, Triangle.hasVertex, TopoTriangle.getVertexOutsideOf] at *
  obtain ⟨h01, h12, h02⟩ := hdN
  rcases hNa with h | h | h <;> rcases hNb with h2 | h2 | h2 <;> rcases hNd with h3 | h3 | h3 <;>
    subst h <;> subst h2 <;> subst h3 <;> simp_all

theorem commonEdge_of_rotation (T : TopoTriangle) (a b c j : Int) (hdT : T.distinct)
    (hrT : T.isRotationOf a b c) (hn : T.recordsOnlyOpposite c j) :
    T.getCommonEdge j = { a := a, b := b } ∧ T.neighborAt (T.findVertexIndex c) = j ∧
      T.findVertexIndex c ≠ -1 := by
  obtain ⟨f0, f1, f2⟩ := findVertexIndex_slots T.toTriangle hdT
  obtain ⟨o0, o1, o2⟩ := opposite_slots T hdT
  obtain ⟨hn1, hn2⟩ := hn
  have h0 := hn2 T.v0 (Or.inl rfl)
  have h1 := hn2 T.v1 (Or.inr (Or.inl rfl))
  have h2 := hn2 T.v2 (Or.inr (Or.inr rfl))
  rw [o0] at h0
  rw [o1] at h1
  rw [o2] at h2
  obtain ⟨h01, h12, h02⟩ := hdT
  rcases hrT with ⟨r0, r1, r2⟩ | ⟨r0, r1, r2⟩ | ⟨r0, r1, r2⟩
  · rw [← r2, o2] at hn1
    rw [← r2] at h0 h1
    have e0 := h0 h02
    have e1 := h1 h12
    refine ⟨?_, ?_, ?_⟩
    · unfold TopoTriangle.getCommonEdge
      rw [o0, o1, o2, if_neg e0, if_neg e1, if_pos hn1, r0, r1]
    · rw [← r2, f2]
      exact hn1
    · rw [← r2, f2]
      decide
  · rw [← r1, o1] at hn1
    rw [← r1] at h0 h2
    have e0 := h0 h01
    have e2 := h2 (Ne.symm h12)
    refine ⟨?_, ?_, ?_⟩
    · unfold TopoTriangle.getCommonEdge
      rw [o0, o1, if_neg e0, if_pos hn1, r0, r2]
    · rw [← r1, f1]
      exact hn1
    · rw [← r1, f1]
      decide
  · rw [← r0, o0] at hn1
    rw [← r0] at h1 h2
    have e1 := h1 (Ne.symm h01)
    have e2 := h2 (Ne.symm h02)
    refine ⟨?_, ?_, ?_⟩
    · unfold TopoTriangle.getCommonEdge
      rw [o0, if_pos hn1, r1, r2]
    · rw [← r0, f0]
      exact hn1
    · rw [← r0, f0]
      decide

/-- The test that `localDelaunay` makes across the neighbor slot facing the vertex `c` of a
triangle `T` listing `a`, `b`, `c` in this cyclic order. -/
theorem localDelaunayFrom_across (m : Mesh) (T N : TopoTriangle) (j a b c d : Int)
    (pa pb pc pd : Vertex)
    (hN : atE m.triangles j = Except.ok N)
    (hdT : T.distinct) (hdN : N.distinct)
    (hrT : T.isRotationOf a b c)
    (hNa : N.hasVertex a) (hNb : N.hasVertex b) (hNd : N.hasVertex d)
    (hda : d ≠ a) (hdb : d ≠ b)
    (hn : T.recordsOnlyOpposite c j)
    (ha : atE m.vertices a = Except.ok pa) (hb : atE m.vertices b = Except.ok pb)
    (hc : atE m.vertices c = Except.ok pc) (hd : atE m.vertices d = Except.ok pd) :
    localDelaunayFrom m T [T.findVertexIndex c]
      = Except.ok (if isInSurroundingCircle pa.toP pb.toP pc.toP pd.toP then j else -1) := by
  have hj : j ≠ -1 := by
    intro h
    rw [h] at hN
    simp [atE] at hN
  have hd0 : d ≠ -1 := by
    intro h
    rw [h] at hd
    simp [atE] at hd
  obtain ⟨he, hs, -⟩ := commonEdge_of_rotation T a b c j hdT hrT hn
  have hab : a ≠ b := by
    obtain ⟨h01, h12, h02⟩ := hdT
    rcases hrT with ⟨r0, r1, r2⟩ | ⟨r0, r1, r2⟩ | ⟨r0, r1, r2⟩
    · rw [← r0, ← r1]; exact h01
    · rw [← r2, ← r0]; exact Ne.symm h02
    · rw [← r1, ← r2]; exact h12
  have ho := getVertexOutsideOf_third N a b d hdN hNa hNb hNd hab hda hdb
  have key : ∃ p q r : Vertex, atE m.vertices T.v0 = Except.ok p ∧
      atE m.vertices T.v1 = Except.ok q ∧ atE m.vertices T.v2 = Except.ok r ∧
      isInSurroundingCircle p.toP q.toP r.toP pd.toP
        = isInSurroundingCircle pa.toP pb.toP pc.toP pd.toP := by
    rcases hrT with ⟨r0, r1, r2⟩ | ⟨r0, r1, r2⟩ | ⟨r0, r1, r2⟩
    · exact ⟨pa, pb, pc, by rw [r0]; exact ha, by rw [r1]; exact hb, by rw [r2]; exact hc, rfl⟩
    · exact ⟨pb, pc, pa, by rw [r0]; exact hb, by rw [r1]; exact hc, by rw [r2]; exact ha,
        isInSurroundingCircle_rotate _ _ _ _⟩
    · exact ⟨pc, pa, pb, by rw [r0]; exact hc, by rw [r1]; exact ha, by rw [r2]; exact hb,
        (isInSurroundingCircle_rotate pc.toP pa.toP pb.toP pd.toP).symm⟩
  obtain ⟨p, q, r, hp, hq, hr, hpqr⟩ := key
  simp only [localDelaunayFrom, hs, if_neg hj, he, hp, hq, hr, hN, ho, if_neg hd0, hd, hpqr,
    bind, Except.bind, pure, Except.pure]
  split <;> rfl

theorem localDelaunayFrom_mem (m : Mesh) (T : TopoTriangle) (j : Int) (hj : j ≠ -1) :
    ∀ L : List Int, localDelaunayFrom m T L = Except.ok j →
      ∃ s ∈ L, T.neighborAt s = j ∧ localDelaunayFrom m T [s] = Except.ok j := by
  intro L
  induction L with
  | nil =>
    intro h
    simp only [localDelaunayFrom, pure, Except.pure] at h
    exact absurd (Except.ok.inj h).symm hj
  | cons s rest ih =>
    intro h
    by_cases hrec : localDelaunayFrom m T (s :: rest) = localDelaunayFrom m T rest
    · rw [hrec] at h
      obtain ⟨s2, hs2, hn, ht⟩ := ih h
      exact ⟨s2, List.mem_cons_of_mem _ hs2, hn, ht⟩
    · refine ⟨s, List.mem_cons_self _ _, ?_⟩
      simp only [localDelaunayFrom] at h hrec ⊢
      split at h
      · rename_i hid
        simp only [if_pos hid, not_true_eq_false] at hrec
      · rename_i hid
        simp only [if_neg hid] at hrec ⊢
        cases hp : atE m.vertices T.v0 with
        | error e => rw [hp] at h; cases h
        | ok p =>
          cases hq : atE m.vertices T.v1 with
          | error e => rw [hp, hq] at h; cases h
          | ok q =>
            cases hr : atE m.vertices T.v2 with
            | error e => rw [hp, hq, hr] at h; cases h
            | ok r =>
              cases ho : atE m.triangles (T.neighborAt s) with
              | error e => rw [hp, hq, hr, ho] at h; cases h
              | ok other =>
                simp only [hp, hq, hr, ho, bind, Except.bind] at h hrec ⊢
                split at h
                · rename_i hopp
                  simp only [if_pos hopp, not_true_eq_false] at hrec
                · rename_i hopp
                  simp only [if_neg hopp] at hrec ⊢
                  cases hs : atE m.vertices (other.getVertexOutsideOf (T.getCommonEdge (T.neighborAt s))) with
                  | error e => rw [hs] at h; cases h
                  | ok sv =>
                    simp only [hs] at h hrec ⊢
                    split at h
                    · rename_i htest
                      simp only [if_pos htest]
                      have := Except.ok.inj h
                      exact ⟨this, by rw [this]; rfl⟩
                    · rename_i htest
                      simp only [if_neg htest, not_true_eq_false] at hrec

theorem slot_of_recordsOnlyOpposite (T : TopoTriangle) (c j s : Int) (hd : T.distinct)
    (hn : T.recordsOnlyOpposite c j) (hs : s ∈ [0, 1, 2])
    (h : T.neighborAt s = j) : s = T.findVertexIndex c := by
  obtain ⟨f0, f1, f2⟩ := findVertexIndex_slots T.toTriangle hd
  obtain ⟨o0, o1, o2⟩ := opposite_slots T hd
  obtain ⟨-, hn2⟩ := hn
  simp only [List.mem_cons, List.mem_singleton, List.mem_nil_iff, or_false] at hs
  rcases hs with rfl | rfl | rfl
  · have : T.v0 = c := by
      by_contra hne
      exact hn2 T.v0 (Or.inl rfl) hne (o0.trans h)
    rw [← this, f0]
  · have : T.v1 = c := by
      by_contra hne
      exact hn2 T.v1 (Or.inr (Or.inl rfl)) hne (o1.trans h)
    rw [← this, f1]
  · have : T.v2 = c := by
      by_contra hne
      exact hn2 T.v2 (Or.inr (Or.inr rfl)) hne (o2.trans h)
    rw [← this, f2]

/-! ## In-circle test from both sides of an edge (C40) -/

/-- C40: in exact arithmetic `isInSurroundingCircle a b c d = isInSurroundingCircle b a d c`
for all points.  So, for two triangles of a mesh with distinct vertices, `T` of index `i`
listing `(a, b, c)` and holding `j` opposite `c` only, `N` of index `j` listing `(b, a, d)`
and holding `i` opposite `d` only, the test that `localDelaunay` makes from `T` across the
shared edge and the one it makes from `N` across it are decided by the same answer of the
predicate: the first flags `j` exactly when the second flags `i`, and a run of
`localDelaunay` on `i` that returns `j` means that the test from `N` flags `i`. -/
theorem inCircle_same_from_both_sides :
    (∀ a b c d : Pvertex3D, isInSurroundingCircle a b c d = isInSurroundingCircle b a d c) ∧
    ∀ (m : Mesh) (i j : Int) (T N : TopoTriangle) (a b c d : Int) (pa pb pc pd : Vertex),
      atE m.triangles i = Except.ok T → atE m.triangles j = Except.ok N →
      T.distinct → N.distinct → T.isRotationOf a b c → N.isRotationOf b a d →
      T.recordsOnlyOpposite c j → N.recordsOnlyOpposite d i →
      atE m.vertices a = Except.ok pa → atE m.vertices b = Except.ok pb →
      atE m.vertices c = Except.ok pc → atE m.vertices d = Except.ok pd →
      localDelaunayFrom m T [T.findVertexIndex c]
        = Except.ok (if isInSurroundingCircle pa.toP pb.toP pc.toP pd.toP then j else -1) ∧
      localDelaunayFrom m N [N.findVertexIndex d]
        = Except.ok (if isInSurroundingCircle pa.toP pb.toP pc.toP pd.toP then i else -1) ∧
      (localDelaunayFrom m T [T.findVertexIndex c] = Except.ok j ↔
        localDelaunayFrom m N [N.findVertexIndex d] = Except.ok i) ∧
      (m.localDelaunay i = Except.ok j →
        localDelaunayFrom m N [N.findVertexIndex d] = Except.ok i) := by
  have hsym : ∀ a b c d : Pvertex3D,
      isInSurroundingCircle a b c d = isInSurroundingCircle b a d c := by
    intro a b c d
    rw [isInSurroundingCircle_eq, isInSurroundingCircle_eq, inCircleDet_swap_pairs]
  refine ⟨hsym, ?_⟩
  intro m i j T N a b c d pa pb pc pd hT hN hdT hdN hrT hrN hnT hnN ha hb hc hd
  obtain ⟨hTa, hTb, hTc, -, hbc, hac⟩ := rotation_has T.toTriangle a b c hdT hrT
  obtain ⟨hNb, hNa, hNd, -, had, hbd⟩ := rotation_has N.toTriangle b a d hdN hrN
  have e1 := localDelaunayFrom_across m T N j a b c d pa pb pc pd hN hdT hdN hrT hNa hNb hNd
    (Ne.symm had) (Ne.symm hbd) hnT ha hb hc hd
  have e2 := localDelaunayFrom_across m N T i b a d c pb pa pd pc hT hdN hdT hrN hTb hTa hTc
    (Ne.symm hbc) (Ne.symm hac) hnN hb ha hd hc
  rw [← hsym] at e2
  have hi : i ≠ -1 := by
    intro h
    rw [h] at hT
    simp [atE] at hT
  have hj : j ≠ -1 := by
    intro h
    rw [h] at hN
    simp [atE] at hN
  have hiff : localDelaunayFrom m T [T.findVertexIndex c] = Except.ok j ↔
      localDelaunayFrom m N [N.findVertexIndex d] = Except.ok i := by
    rw [e1, e2]
    cases isInSurroundingCircle pa.toP pb.toP pc.toP pd.toP
    · simp only [Bool.false_eq_true, if_false]
      constructor
      · intro h
        exact absurd (Except.ok.inj h).symm hj
      · intro h
        exact absurd (Except.ok.inj h).symm hi
    · simp
  refine ⟨e1, e2, hiff, ?_⟩
  intro hrun
  have hrun2 : localDelaunayFrom m T [0, 1, 2] = Except.ok j := by
    simp only [Mesh.localDelaunay, hT, bind, Except.bind] at hrun
    exact hrun
  obtain ⟨s, hs, hsn, hst⟩ := localDelaunayFrom_mem m T j hj _ hrun2
  have := slot_of_recordsOnlyOpposite T c j s hdT hnT hs hsn
  rw [this] at hst
  exact hiff.mp hst

/-- Witness of C40 on the two triangles (1,2,3) and (3,0,1) of the unit square, which share
the edge {1,3}: the four corners are on one circle and each test flags the other triangle. -/
theorem inCircle_same_from_both_sides_witness :
    localDelaunayFrom unitSquareMesh { v0 := 1, v1 := 2, v2 := 3, n0 := -1, n1 := 1, n2 := -1 }
        [1] = Except.ok 1 ∧
    localDelaunayFrom unitSquareMesh { v0 := 3, v1 := 0, v2 := 1, n0 := -1, n1 := 0, n2 := -1 }
        [1] = Except.ok 0 := by
  have h := inCircle_same_from_both_sides.2 unitSquareMesh 0 1
    { v0 := 1, v1 := 2, v2 := 3, n0 := -1, n1 := 1, n2 := -1 }
    { v0 := 3, v1 := 0, v2 := 1, n0 := -1, n1 := 0, n2 := -1 } 3 1 2 0
    (Vertex.new 0 1 0) (Vertex.new 1 0 0) (Vertex.new 1 1 0) (Vertex.new 0 0 0)
    rfl rfl (by decide) (by decide) (by decide) (by decide)
    ⟨by decide, fun v hv hne => by
      rcases hv with h | h | h <;> subst h <;> first | exact absurd rfl hne | decide⟩
    ⟨by decide, fun v hv hne => by
      rcases hv with h | h | h <;> subst h <;> first | exact absurd rfl hne | decide⟩
    rfl rfl rfl rfl
  have ht : isInSurroundingCircle (Vertex.new 0 1 0).toP (Vertex.new 1 0 0).toP
      (Vertex.new 1 1 0).toP (Vertex.new 0 0 0).toP = true := by decide!
  rw [ht] at h
  exact ⟨h.1, h.2.1⟩

end Meshing
